import Mathlib

/-!
# rocSOLVER: validators, entry points, blocked drivers and LU bookkeeping

A shallow embedding of the host-side code of the dense factorization routines
(`geqr2`/`geqrf`, `gebd2`, `getrf`, `org2r`, and the entry points of `geqrf`,
`getf2`, `getri`, `potrf`, `orm2r`) together with the device kernels
`getrf_check_singularity` and `init_ident_col`.

Conventions of the embedding:

* `rocblas_int` is a 32-bit signed integer.  Arguments are carried as `Int`.
  The products `m*n` evaluated by the argument validators are reduced modulo
  `2^32` (`mul32`), because dimensions of `2^16` and more are ordinary inputs
  for which the mathematical product leaves the 32-bit range.  Index
  arithmetic inside the drivers and kernels (`m - j`, `j + jb`,
  `iinfo[id] + j`, ...) is bounded by the matrix dimensions and is carried out
  in `Int`.
* An element offset `shiftA + idx2D(i, j, lda)` is formed by the drivers as
  the exact integer, which names the matrix element.  Its value in
  `rocblas_int` is the 32-bit reduction of that integer (`offset32_eq`);
  `int32Device dev` is the execution context in which every operation
  receives its offsets so reduced, and the statements about the numeric
  offsets handed to the reflector operations are made on it.
* A pointer argument of an entry point is a `DevPtr`; `none` is the null
  pointer.  Inside the drivers a pointer into a buffer is a `Loc`.
* Device operations whose code is not part of the embedded sources
  (reflector builder/applier, panel factorizer, BLAS calls, ...) are values of
  the type `Call`, interpreted by an arbitrary `Device`; `traceDevice` records
  them.  Host-side collaborators (size formulas, absent validators, allocator,
  copy) are the fields of `Host`.
* A kernel is given by the code of one thread; a launch runs the threads of
  its grid one after the other.  The thread coordinates of `init_ident_col`
  and the element index it forms from them are `unsigned int` and are reduced
  modulo `2^32` (`to_u32`).
* Matrix contents are read through `memDevice`: a memory `Mem` of scalars
  addressed by buffer, batch instance and element offset, on which every
  operation overwrites exactly the elements its argument notes name
  (`Call.writes`) with values supplied by `ReflectorOps`.
* Loops whose step is a tuning constant run on fuel and answer `none` when
  the fuel is used up; every result stated below is a `some`.
-/

namespace RocSolver

/-! ## Basic types -/

/-- Status codes returned by the library. -/
inductive rocblas_status where
  | rocblas_status_success
  | rocblas_status_invalid_handle
  | rocblas_status_not_implemented
  | rocblas_status_invalid_pointer
  | rocblas_status_invalid_size
  | rocblas_status_memory_error
  | rocblas_status_internal_error
  | rocblas_status_continue
  deriving DecidableEq, Repr

open rocblas_status

/-- Device or host pointer; `none` is the null pointer. -/
abbrev DevPtr := Option Nat

/-- Opaque library handle; `none` is the null handle. -/
abbrev rocblas_handle := Option Nat

/-- Two's-complement reduction of an integer to the range of `rocblas_int`. -/
def wrap32 (x : Int) : Int := (x + 2147483648) % 4294967296 - 2147483648

/-- Product of two `rocblas_int` values as the 32-bit multiplier delivers it. -/
def mul32 (a b : Int) : Int := wrap32 (a * b)

/-- Largest value of `rocblas_int`. -/
def INT_MAX : Int := 2147483647

/-- Membership in the range of `rocblas_int`. -/
def is_rocblas_int (x : Int) : Prop := -2147483648 ≤ x ∧ x ≤ INT_MAX

instance (x : Int) : Decidable (is_rocblas_int x) := by
  unfold is_rocblas_int; infer_instance

/-! ## Argument validators -/

/-- Validator shared by `geqr2` and `geqrf` (`roclapack_geqr2.hpp`). -/
def rocsolver_geqr2_geqrf_argCheck (m n lda : Int) (A ipiv : DevPtr)
    (batch_count : Int) : rocblas_status :=
  -- 2. invalid size
  if m < 0 ∨ n < 0 ∨ lda < m ∨ batch_count < 0 then
    rocblas_status_invalid_size
  -- 3. invalid pointers
  else if (mul32 m n ≠ 0 ∧ A = none) ∨ (mul32 m n ≠ 0 ∧ ipiv = none) then
    rocblas_status_invalid_pointer
  else
    rocblas_status_continue

/-- Validator shared by `org2r` and `orgqr` (`rocauxiliary_org2r_ung2r.hpp`). -/
def rocsolver_org2r_orgqr_argCheck (m n k lda : Int) (A ipiv : DevPtr) :
    rocblas_status :=
  -- 2. invalid size
  if m < 0 ∨ n < 0 ∨ n > m ∨ k < 0 ∨ k > n ∨ lda < m then
    rocblas_status_invalid_size
  -- 3. invalid pointers
  else if (k ≠ 0 ∧ ipiv = none) ∨ (mul32 m n ≠ 0 ∧ A = none) then
    rocblas_status_invalid_pointer
  else
    rocblas_status_continue

/-! ## Device operations

The drivers issue a strictly ordered sequence of device operations.  The
operations whose code lies outside the embedded sources are described by the
constructors of `Call`, each carrying the integer arguments the driver
passes; pass-through arguments (handle, stream, the matrix pointer and the
scratch pointers) are not repeated. -/

/-- Side selector of the reflector applier. -/
inductive rocblas_side where
  | rocblas_side_left
  | rocblas_side_right
  | rocblas_side_both
  deriving DecidableEq, Repr

/-- Transposition selector. -/
inductive rocblas_operation where
  | rocblas_operation_none
  | rocblas_operation_transpose
  | rocblas_operation_conjugate_transpose
  deriving DecidableEq, Repr

/-- Triangle selector. -/
inductive rocblas_fill where
  | rocblas_fill_upper
  | rocblas_fill_lower
  | rocblas_fill_full
  deriving DecidableEq, Repr

/-- Where scalar arguments of BLAS calls are read from. -/
inductive rocblas_pointer_mode where
  | rocblas_pointer_mode_host
  | rocblas_pointer_mode_device
  deriving DecidableEq, Repr

open rocblas_side rocblas_operation rocblas_pointer_mode

/-- Data buffers named by the drivers. -/
inductive Buf where
  | A | ipiv | tauq | taup | D | E | diag | info | iinfo
  deriving DecidableEq, Repr

/-- Pointer into a data buffer: the buffer and an element offset, so that
`p.add j` stands for the pointer expression `p + j`. -/
structure Loc where
  buf : Buf
  off : Int
  deriving DecidableEq, Repr

/-- Pointer arithmetic `p + j`. -/
def Loc.add (p : Loc) (j : Int) : Loc := { buf := p.buf, off := p.off + j }

/-- Modelled from the spec: the macro `idx2D` is not among the sources; a
matrix is stored by columns with leading dimension `lda` (the row stride
within a matrix), so element `(i, j)` sits at offset `i + j*lda`, which is
also how `init_ident_col` addresses `Ap[i + j*lda]`. -/
def idx2D (i j lda : Int) : Int := j * lda + i

/-- Device operations issued by the drivers. -/
inductive Call where
  /-- Operation `rocsolver_larfg_template(handle, n, A, shiftAlpha, A, shiftX, incx, stridex, tau, strideP, batch_count, diag, work)` -/
  | larfg (n shiftAlpha shiftX incx stridex : Int) (tau : Loc) (strideP batch_count : Int)
  /-- Operation `set_diag<T>` launched on `batch_count` blocks: `(d, j, strideD, A, shiftA, lda, strideA, n, set_one)` -/
  | set_diag (batch_count : Int) (d : Buf) (j strideD shiftA lda strideA n : Int) (set_one : Bool)
  /-- Operation `restore_diag<T>` launched on `batch_count` blocks: `(d, j, strideD, A, shiftA, lda, strideA, n)` -/
  | restore_diag (batch_count : Int) (d : Buf) (j strideD shiftA lda strideA n : Int)
  /-- Operation `rocsolver_lacgv_template(handle, n, x, shift, incx, stride, batch_count)` -/
  | lacgv (n : Int) (x : Loc) (shift incx stride batch_count : Int)
  /-- Operation `rocsolver_larf_template(handle, side, m, n, A, shiftx, incx, stridex, tau, strideP, A, shiftA, lda, strideA, batch_count, ...)` -/
  | larf (side : rocblas_side) (m n shiftx incx stridex : Int) (tau : Loc)
      (strideP shiftA lda strideA batch_count : Int)
  /-- Operation `rocsolver_larft_template(handle, forward, column_wise, n, k, A, shiftV, ldv, strideV, tau, strideT, trfact, ldf, strideF, batch_count, ...)` -/
  | larft (n k shiftV ldv strideV : Int) (tau : Loc) (strideT ldf strideF batch_count : Int)
  /-- Operation `rocsolver_larfb_template(handle, side, trans, forward, column_wise, m, n, k, A, shiftV, ldv, strideV, trfact, shiftF, ldf, strideF, A, shiftA, lda, strideA, batch_count, ...)` -/
  | larfb (side : rocblas_side) (trans : rocblas_operation) (m n k shiftV ldv strideV shiftF ldf
      strideF shiftA lda strideA batch_count : Int)
  /-- Operation `reset_batch_info<T>` launched on `(1, batch_count)` blocks: `(p, stride, n, val)` -/
  | reset_batch_info (batch_count : Int) (p : Loc) (stride n val : Int)
  /-- Operation `reset_info` launched on `blocks` blocks of `threads` threads: `(buf, n, val)` -/
  | reset_info (blocks threads : Int) (buf : Buf) (n val : Int)
  /-- Operation `rocsolver_getf2_template(handle, m, n, A, shiftA, lda, strideA, ipiv, shiftP, strideP, info, batch_count, pivot, ...)` -/
  | getf2 (m n shiftA lda strideA shiftP strideP : Int) (infoBuf : Buf) (batch_count pivot : Int)
  /-- Operation `getrf_check_singularity` launched on `(gridx, gridy)` blocks of `blockx` threads: `(n, j, ipiv, shiftP, strideP, iinfo, info, pivot)` -/
  | getrf_check_singularity (gridx gridy blockx : Int) (n j shiftP strideP pivot : Int)
  /-- Operation `rocsolver_laswp_template(handle, n, A, shiftA, lda, strideA, k1, k2, ipiv, shiftP, strideP, incx, batch_count)` -/
  | laswp (n shiftA lda strideA k1 k2 shiftP strideP incx batch_count : Int)
  /-- Operation `rocblasCall_trsm(handle, left, lower, none, unit, m, n, one, A, shiftA, lda, strideA, A, shiftB, ldb, strideB, batch_count, optim_mem, ...)` -/
  | trsm (m n shiftA lda strideA shiftB ldb strideB batch_count : Int) (optim_mem : Bool)
  /-- Operation `rocblasCall_gemm(handle, none, none, m, n, k, minone, A, shiftA, lda, strideA, A, shiftB, ldb, strideB, one, A, shiftC, ldc, strideC, batch_count, nullptr)` -/
  | gemm (m n k shiftA lda strideA shiftB ldb strideB shiftC ldc strideC batch_count : Int)
  /-- Operation `init_ident_col<T>` launched on `(blocksx, blocksy, batch_count)` blocks of `32 x 32` threads: `(m, n, k, A, shiftA, lda, strideA)` -/
  | init_ident_col (blocksx blocksy batch_count : Int) (m n k shiftA lda strideA : Int)
  /-- Operation `setdiag<T>` launched on `batch_count` blocks: `(j, A, shiftA, lda, strideA, ipiv, strideP)` -/
  | setdiag (batch_count : Int) (j shiftA lda strideA : Int) (ipiv : Loc) (strideP : Int)
  /-- Operation `rocblasCall_scal(handle, n, alpha, stridea, A, shiftx, incx, stridex, batch_count)` -/
  | scal (n : Int) (alpha : Loc) (stridea shiftx incx stridex batch_count : Int)
  /-- Operation `restau<T>` launched on `(blocksx, batch_count)` blocks of `128` threads: `(k, ipiv, strideP)` -/
  | restau (blocksx batch_count : Int) (k : Int) (ipiv : Loc) (strideP : Int)
  /-- Operation `rocsolver_orm2r_template(handle, side, trans, m, n, k, A, shiftA, lda, strideA, ipiv, strideP, C, shiftC, ldc, strideC, batch_count, ...)` -/
  | orm2r (side : rocblas_side) (trans : rocblas_operation) (m n k shiftA lda strideA strideP shiftC
      ldc strideC batch_count : Int)
  /-- Operation `rocsolver_getri_template(handle, n, A, shiftA, lda, strideA, ipiv, shiftP, strideP, info, batch_count, ...)` -/
  | getri (n shiftA lda strideA shiftP strideP batch_count : Int)
  /-- Operation `rocsolver_potrf_template(handle, uplo, n, A, shiftA, lda, strideA, info, batch_count, ...)` -/
  | potrf (uplo : rocblas_fill) (n shiftA lda strideA batch_count : Int)
  /-- Operation `rocblas_set_pointer_mode(handle, mode)` -/
  | set_pointer_mode (mode : rocblas_pointer_mode)
  /-- Operation `hipMemcpy(scalars, sca, size, hipMemcpyHostToDevice)` -/
  | hipMemcpy_scalars (size : Nat)
  deriving DecidableEq, Repr

/-- An execution context: how each device operation transforms the device
state, and the pointer mode currently held by the handle. -/
structure Device (σ : Type) where
  /-- State after the operation. -/
  exec : Call → σ → σ
  /-- Status the operation returns to its caller. -/
  status : Call → σ → rocblas_status
  /-- Pointer mode held by the handle. -/
  get_pointer_mode : σ → rocblas_pointer_mode

/-- The device that only records the operations issued to it. -/
def traceDevice : Device (List Call) where
  exec := fun c tr => tr ++ [c]
  status := fun _ _ => rocblas_status_success
  get_pointer_mode := fun _ => rocblas_pointer_mode_host

/-- Compile-time tuning constants (`ideal_sizes.hpp`, not among the sources). -/
structure IdealSizes where
  GEQRF_GEQR2_SWITCHSIZE : Int
  GEQRF_GEQR2_BLOCKSIZE : Int
  GETRF_GETF2_SWITCHSIZE : Int
  BLOCKSIZE : Int
  deriving DecidableEq, Repr

/-- Pointer to the matrix data. -/
def A_ptr : Loc := { buf := Buf.A, off := 0 }

/-! ## QR: unblocked and blocked drivers (`roclapack_geqr2.hpp`, `roclapack_geqrf.hpp`) -/

/-- Body of the column loop of `rocsolver_geqr2_template`.  The element offsets
are formed as exact integers; `int32Device` hands them to the operations as
their evaluation in `rocblas_int` delivers them
(`geqr2_column_int32_record`). -/
def geqr2_column {σ : Type} (dev : Device σ) (COMPLEX : Bool)
    (m n shiftA lda strideA : Int) (ipiv : Loc) (strideP batch_count : Int)
    (j : Int) (st : σ) : σ :=
  -- generate Householder reflector to work on column j
  let st := dev.exec (Call.larfg (m - j) (shiftA + idx2D j j lda)
              (shiftA + idx2D (min (j + 1) (m - 1)) j lda) 1 strideA
              (ipiv.add j) strideP batch_count) st
  -- insert one in A(j,j) to build/apply the householder matrix
  let st := dev.exec (Call.set_diag batch_count Buf.diag 0 1
              (shiftA + idx2D j j lda) lda strideA 1 true) st
  -- conjugate tau
  let st := if COMPLEX then dev.exec (Call.lacgv 1 ipiv j 1 strideP batch_count) st else st
  -- apply Householder reflector to the rest of matrix from the left
  let st := if j < n - 1 then
              dev.exec (Call.larf rocblas_side_left (m - j) (n - j - 1)
                (shiftA + idx2D j j lda) 1 strideA (ipiv.add j) strideP
                (shiftA + idx2D j (j + 1) lda) lda strideA batch_count) st
            else st
  -- restore original value of A(j,j)
  let st := dev.exec (Call.restore_diag batch_count Buf.diag 0 1
              (shiftA + idx2D j j lda) lda strideA 1) st
  -- restore tau
  if COMPLEX then dev.exec (Call.lacgv 1 ipiv j 1 strideP batch_count) st else st

/-- Unblocked QR factorization `rocsolver_geqr2_template`. -/
def rocsolver_geqr2_template {σ : Type} (dev : Device σ) (COMPLEX : Bool)
    (m n shiftA lda strideA : Int) (ipiv : Loc) (strideP batch_count : Int)
    (st : σ) : rocblas_status × σ :=
  -- quick return
  if m = 0 ∨ n = 0 ∨ batch_count = 0 then
    (rocblas_status_success, st)
  else
    let dim := min m n    -- total number of pivots
    let st := (List.range dim.toNat).foldl
      (fun st j => geqr2_column dev COMPLEX m n shiftA lda strideA ipiv strideP batch_count j st) st
    (rocblas_status_success, st)

/-- Body of the panel loop of `rocsolver_geqrf_template`, for the panel whose
first column is `j`. -/
def geqrf_panel {σ : Type} (dev : Device σ) (cfg : IdealSizes) (COMPLEX : Bool)
    (m n shiftA lda strideA : Int) (ipiv : Loc) (strideP batch_count : Int)
    (dim ldw strideW : Int) (j : Int) (st : σ) : σ :=
  -- factor diagonal and subdiagonal blocks
  let jb := min (dim - j) cfg.GEQRF_GEQR2_BLOCKSIZE    -- number of columns in the block
  let st := (rocsolver_geqr2_template dev COMPLEX (m - j) jb (shiftA + idx2D j j lda) lda
              strideA (ipiv.add j) strideP batch_count st).2
  -- apply transformation to the rest of the matrix
  if j + jb < n then
    -- compute block reflector
    let st := dev.exec (Call.larft (m - j) jb (shiftA + idx2D j j lda) lda strideA
                (ipiv.add j) strideP ldw strideW batch_count) st
    -- apply the block reflector
    dev.exec (Call.larfb rocblas_side_left rocblas_operation_conjugate_transpose
      (m - j) (n - j - jb) jb (shiftA + idx2D j j lda) lda strideA 0 ldw strideW
      (shiftA + idx2D j (j + jb) lda) lda strideA batch_count) st
  else st

/-- Panel loop of `rocsolver_geqrf_template`:
`while (j < dim - GEQRF_GEQR2_SWITCHSIZE) { ...; j += GEQRF_GEQR2_BLOCKSIZE; }`.
Returns the final value of `j` and the state. -/
def geqrf_panels {σ : Type} (dev : Device σ) (cfg : IdealSizes) (COMPLEX : Bool)
    (m n shiftA lda strideA : Int) (ipiv : Loc) (strideP batch_count : Int)
    (dim ldw strideW : Int) : Nat → Int → σ → Option (Int × σ)
  | 0, _, _ => none
  | fuel + 1, j, st =>
    if j < dim - cfg.GEQRF_GEQR2_SWITCHSIZE then
      geqrf_panels dev cfg COMPLEX m n shiftA lda strideA ipiv strideP batch_count dim ldw strideW
        fuel (j + cfg.GEQRF_GEQR2_BLOCKSIZE)
        (geqrf_panel dev cfg COMPLEX m n shiftA lda strideA ipiv strideP batch_count dim ldw
          strideW j st)
    else
      some (j, st)

/-- Blocked QR factorization `rocsolver_geqrf_template`. -/
def rocsolver_geqrf_template {σ : Type} (dev : Device σ) (cfg : IdealSizes) (COMPLEX : Bool)
    (m n shiftA lda strideA : Int) (ipiv : Loc) (strideP batch_count : Int)
    (st : σ) : Option (rocblas_status × σ) :=
  -- quick return
  if m = 0 ∨ n = 0 ∨ batch_count = 0 then
    some (rocblas_status_success, st)
  -- if the matrix is small, use the unblocked variant of the algorithm
  else if m ≤ cfg.GEQRF_GEQR2_SWITCHSIZE ∨ n ≤ cfg.GEQRF_GEQR2_SWITCHSIZE then
    some (rocsolver_geqr2_template dev COMPLEX m n shiftA lda strideA ipiv strideP batch_count st)
  else
    let dim := min m n    -- total number of pivots
    let ldw := cfg.GEQRF_GEQR2_BLOCKSIZE
    let strideW := ldw * ldw
    match geqrf_panels dev cfg COMPLEX m n shiftA lda strideA ipiv strideP batch_count dim ldw
        strideW (dim.toNat + 1) 0 st with
    | none => none
    | some (j, st) =>
      -- factor last block
      let st := if j < dim then
                  (rocsolver_geqr2_template dev COMPLEX (m - j) (n - j) (shiftA + idx2D j j lda)
                    lda strideA (ipiv.add j) strideP batch_count st).2
                else st
      some (rocblas_status_success, st)

/-! ## Bidiagonal reduction (`roclapack_gebd2.hpp`) -/

/-- Body of the loop of `rocsolver_gebd2_template` that generates the upper
bidiagonal form (`m >= n`).  The element offsets are formed as exact integers;
`int32Device` hands them to the operations as their evaluation in
`rocblas_int` delivers them (`gebd2_upper_step_int32_record`). -/
def gebd2_upper_step {σ : Type} (dev : Device σ) (COMPLEX : Bool)
    (m n shiftA lda strideA strideD strideE : Int) (tauq : Loc) (strideQ : Int) (taup : Loc)
    (strideP batch_count : Int) (j : Int) (st : σ) : σ :=
  -- generate Householder reflector H(j)
  let st := dev.exec (Call.larfg (m - j) (shiftA + idx2D j j lda)
              (shiftA + idx2D (min (j + 1) (m - 1)) j lda) 1 strideA
              (tauq.add j) strideQ batch_count) st
  -- copy A(j,j) to D and insert one to build/apply the householder matrix
  let st := dev.exec (Call.set_diag batch_count Buf.D j strideD
              (shiftA + idx2D j j lda) lda strideA 1 true) st
  -- apply Householder reflector H(j)
  let st := if j < n - 1 then
              -- conjugate tauq
              let st := if COMPLEX then dev.exec (Call.lacgv 1 tauq j 1 strideQ batch_count) st
                        else st
              let st := dev.exec (Call.larf rocblas_side_left (m - j) (n - j - 1)
                          (shiftA + idx2D j j lda) 1 strideA (tauq.add j) strideQ
                          (shiftA + idx2D j (j + 1) lda) lda strideA batch_count) st
              -- restore tauq
              if COMPLEX then dev.exec (Call.lacgv 1 tauq j 1 strideQ batch_count) st else st
            else st
  -- restore original value of A(j,j)
  let st := dev.exec (Call.restore_diag batch_count Buf.D j strideD
              (shiftA + idx2D j j lda) lda strideA 1) st
  if j < n - 1 then
    let st := if COMPLEX then
                dev.exec (Call.lacgv (n - j - 1) A_ptr (shiftA + idx2D j (j + 1) lda) lda strideA
                  batch_count) st
              else st
    -- generate Householder reflector G(j)
    let st := dev.exec (Call.larfg (n - j - 1) (shiftA + idx2D j (j + 1) lda)
                (shiftA + idx2D j (min (j + 2) (n - 1)) lda) lda strideA
                (taup.add j) strideP batch_count) st
    -- copy A(j,j+1) to E and insert one to build/apply the householder matrix
    let st := dev.exec (Call.set_diag batch_count Buf.E j strideE
                (shiftA + idx2D j (j + 1) lda) lda strideA 1 true) st
    -- apply Householder reflector G(j)
    let st := dev.exec (Call.larf rocblas_side_right (m - j - 1) (n - j - 1)
                (shiftA + idx2D j (j + 1) lda) lda strideA (taup.add j) strideP
                (shiftA + idx2D (j + 1) (j + 1) lda) lda strideA batch_count) st
    let st := if COMPLEX then
                dev.exec (Call.lacgv (n - j - 1) A_ptr (shiftA + idx2D j (j + 1) lda) lda strideA
                  batch_count) st
              else st
    -- restore original value of A(j,j+1)
    dev.exec (Call.restore_diag batch_count Buf.E j strideE
      (shiftA + idx2D j (j + 1) lda) lda strideA 1) st
  else
    -- zero taup(j)
    dev.exec (Call.reset_batch_info batch_count (taup.add j) strideP 1 0) st

/-- Body of the loop of `rocsolver_gebd2_template` that generates the lower
bidiagonal form (`m < n`).  The element offsets are formed as exact integers;
`int32Device` hands them to the operations as their evaluation in
`rocblas_int` delivers them (`gebd2_lower_step_int32_record`). -/
def gebd2_lower_step {σ : Type} (dev : Device σ) (COMPLEX : Bool)
    (m n shiftA lda strideA strideD strideE : Int) (tauq : Loc) (strideQ : Int) (taup : Loc)
    (strideP batch_count : Int) (j : Int) (st : σ) : σ :=
  let st := if COMPLEX then
              dev.exec (Call.lacgv (n - j) A_ptr (shiftA + idx2D j j lda) lda strideA
                batch_count) st
            else st
  -- generate Householder reflector G(j)
  let st := dev.exec (Call.larfg (n - j) (shiftA + idx2D j j lda)
              (shiftA + idx2D j (min (j + 1) (n - 1)) lda) lda strideA
              (taup.add j) strideP batch_count) st
  -- copy A(j,j) to D and insert one to build/apply the householder matrix
  let st := dev.exec (Call.set_diag batch_count Buf.D j strideD
              (shiftA + idx2D j j lda) lda strideA 1 true) st
  -- apply Householder reflector G(j)
  let st := if j < m - 1 then
              dev.exec (Call.larf rocblas_side_right (m - j - 1) (n - j)
                (shiftA + idx2D j j lda) lda strideA (taup.add j) strideP
                (shiftA + idx2D (j + 1) j lda) lda strideA batch_count) st
            else st
  let st := if COMPLEX then
              dev.exec (Call.lacgv (n - j) A_ptr (shiftA + idx2D j j lda) lda strideA
                batch_count) st
            else st
  -- restore original value of A(j,j)
  let st := dev.exec (Call.restore_diag batch_count Buf.D j strideD
              (shiftA + idx2D j j lda) lda strideA 1) st
  if j < m - 1 then
    -- generate Householder reflector H(j)
    let st := dev.exec (Call.larfg (m - j - 1) (shiftA + idx2D (j + 1) j lda)
                (shiftA + idx2D (min (j + 2) (m - 1)) j lda) 1 strideA
                (tauq.add j) strideQ batch_count) st
    -- copy A(j+1,j) to E and insert one to build/apply the householder matrix
    let st := dev.exec (Call.set_diag batch_count Buf.E j strideE
                (shiftA + idx2D (j + 1) j lda) lda strideA 1 true) st
    -- conjugate tauq
    let st := if COMPLEX then dev.exec (Call.lacgv 1 tauq j 1 strideQ batch_count) st else st
    -- apply Householder reflector H(j)
    let st := dev.exec (Call.larf rocblas_side_left (m - j - 1) (n - j - 1)
                (shiftA + idx2D (j + 1) j lda) 1 strideA (tauq.add j) strideQ
                (shiftA + idx2D (j + 1) (j + 1) lda) lda strideA batch_count) st
    -- restore tauq
    let st := if COMPLEX then dev.exec (Call.lacgv 1 tauq j 1 strideQ batch_count) st else st
    -- restore original value of A(j+1,j)
    dev.exec (Call.restore_diag batch_count Buf.E j strideE
      (shiftA + idx2D (j + 1) j lda) lda strideA 1) st
  else
    -- zero tauq(j)
    dev.exec (Call.reset_batch_info batch_count (tauq.add j) strideQ 1 0) st

/-- Unblocked bidiagonal reduction `rocsolver_gebd2_template`. -/
def rocsolver_gebd2_template {σ : Type} (dev : Device σ) (COMPLEX : Bool)
    (m n shiftA lda strideA strideD strideE : Int) (tauq : Loc) (strideQ : Int) (taup : Loc)
    (strideP batch_count : Int) (st : σ) : rocblas_status × σ :=
  -- quick return
  if m = 0 ∨ n = 0 ∨ batch_count = 0 then
    (rocblas_status_success, st)
  else if m ≥ n then
    -- generate upper bidiagonal form
    let st := (List.range n.toNat).foldl
      (fun st j => gebd2_upper_step dev COMPLEX m n shiftA lda strideA strideD strideE tauq
        strideQ taup strideP batch_count j st) st
    (rocblas_status_success, st)
  else
    -- generate lower bidiagonal form
    let st := (List.range m.toNat).foldl
      (fun st j => gebd2_lower_step dev COMPLEX m n shiftA lda strideA strideD strideE tauq
        strideQ taup strideP batch_count j st) st
    (rocblas_status_success, st)

/-! ## LU: blocked driver and singularity kernel (`roclapack_getrf.hpp`) -/

/-- Body of the panel loop of `rocsolver_getrf_template`, for the panel whose
first column is `j`. -/
def getrf_panel {σ : Type} (dev : Device σ) (cfg : IdealSizes)
    (m n shiftA lda strideA shiftP strideP batch_count pivot : Int) (optim_mem : Bool)
    (dim blocksReset : Int) (j : Int) (st : σ) : σ :=
  -- factor diagonal and subdiagonal blocks
  let jb := min (dim - j) cfg.GETRF_GETF2_SWITCHSIZE    -- number of columns in the block
  let st := dev.exec (Call.reset_info blocksReset cfg.BLOCKSIZE Buf.iinfo batch_count 0) st
  let st := dev.exec (Call.getf2 (m - j) jb (shiftA + idx2D j j lda) lda strideA
              (shiftP + j) strideP Buf.iinfo batch_count pivot) st
  -- adjust pivot indices and check singularity
  let sizePivot := min (m - j) jb    -- number of pivots in the block
  let blocksPivot := Int.tdiv (sizePivot - 1) cfg.BLOCKSIZE + 1
  let st := dev.exec (Call.getrf_check_singularity blocksPivot batch_count cfg.BLOCKSIZE
              sizePivot j (shiftP + j) strideP pivot) st
  -- apply interchanges to columns 1 : j-1
  let st := if pivot ≠ 0 then
              dev.exec (Call.laswp j shiftA lda strideA (j + 1) (j + jb) shiftP strideP 1
                batch_count) st
            else st
  if j + jb < n then
    let st := if pivot ≠ 0 then
                -- apply interchanges to columns j+jb : n
                dev.exec (Call.laswp (n - j - jb) (shiftA + idx2D 0 (j + jb) lda)
                  lda strideA (j + 1) (j + jb) shiftP strideP 1 batch_count) st
              else st
    -- compute block row of U
    let st := dev.exec (Call.trsm jb (n - j - jb) (shiftA + idx2D j j lda) lda
                strideA (shiftA + idx2D j (j + jb) lda) lda strideA batch_count
                optim_mem) st
    -- update trailing submatrix
    if j + jb < m then
      dev.exec (Call.gemm (m - j - jb) (n - j - jb) jb
        (shiftA + idx2D (j + jb) j lda) lda strideA
        (shiftA + idx2D j (j + jb) lda) lda strideA
        (shiftA + idx2D (j + jb) (j + jb) lda) lda strideA batch_count) st
    else st
  else st

/-- Panel loop of `rocsolver_getrf_template`:
`for (j = 0; j < dim; j += GETRF_GETF2_SWITCHSIZE)`. -/
def getrf_panels {σ : Type} (dev : Device σ) (cfg : IdealSizes)
    (m n shiftA lda strideA shiftP strideP batch_count pivot : Int) (optim_mem : Bool)
    (dim blocksReset : Int) : Nat → Int → σ → Option σ
  | 0, _, _ => none
  | fuel + 1, j, st =>
    if j < dim then
      getrf_panels dev cfg m n shiftA lda strideA shiftP strideP batch_count pivot optim_mem
        dim blocksReset fuel (j + cfg.GETRF_GETF2_SWITCHSIZE)
        (getrf_panel dev cfg m n shiftA lda strideA shiftP strideP batch_count pivot optim_mem
          dim blocksReset j st)
    else
      some st

/-- Blocked LU factorization `rocsolver_getrf_template`. -/
def rocsolver_getrf_template {σ : Type} (dev : Device σ) (cfg : IdealSizes)
    (m n shiftA lda strideA shiftP strideP batch_count pivot : Int) (optim_mem : Bool)
    (st : σ) : Option (rocblas_status × σ) :=
  -- quick return
  if m = 0 ∨ n = 0 ∨ batch_count = 0 then
    some (rocblas_status_success, st)
  -- if the matrix is small, use the unblocked variant of the algorithm
  else if m < cfg.GETRF_GETF2_SWITCHSIZE ∨ n < cfg.GETRF_GETF2_SWITCHSIZE then
    let call := Call.getf2 m n shiftA lda strideA shiftP strideP Buf.info batch_count pivot
    some (dev.status call st, dev.exec call st)
  else
    -- everything must be executed with scalars on the host
    let old_mode := dev.get_pointer_mode st
    let st := dev.exec (Call.set_pointer_mode rocblas_pointer_mode_host) st
    let blocksReset := Int.tdiv (batch_count - 1) cfg.BLOCKSIZE + 1
    let dim := min m n    -- total number of pivots
    -- info=0 (starting with a nonsingular matrix)
    let st := dev.exec (Call.reset_info blocksReset cfg.BLOCKSIZE Buf.info batch_count 0) st
    match getrf_panels dev cfg m n shiftA lda strideA shiftP strideP batch_count pivot optim_mem
        dim blocksReset (dim.toNat + 1) 0 st with
    | none => none
    | some st =>
      let st := dev.exec (Call.set_pointer_mode old_mode) st
      some (rocblas_status_success, st)

/-- Device memory of the LU bookkeeping: the pivot buffer `ipivA` (by element
offset), the per-panel status `iinfo` and the per-matrix status `info` (by
matrix index), and the pointer mode of the handle. -/
structure LUState where
  ipiv : Int → Int
  iinfo : Int → Int
  info : Int → Int
  pointer_mode : rocblas_pointer_mode

/-- Coordinates of one thread of a launch with a two-dimensional grid of
one-dimensional blocks. -/
structure ThreadIdx where
  hipBlockIdx_x : Nat
  hipBlockIdx_y : Nat
  hipThreadIdx_x : Nat
  deriving DecidableEq, Repr

/-- Kernel `getrf_check_singularity`, as executed by the thread `t` of a
launch whose blocks have `hipBlockDim_x` threads. -/
def getrf_check_singularity (n j shiftP strideP pivot : Int) (hipBlockDim_x : Nat)
    (t : ThreadIdx) (s : LUState) : LUState :=
  let id : Int := t.hipBlockIdx_y
  let s := if s.info id = 0 ∧ s.iinfo id > 0 then
             { s with info := Function.update s.info id (s.iinfo id + j) }
           else s
  let tid : Int := t.hipBlockIdx_x * hipBlockDim_x + t.hipThreadIdx_x
  if tid < n ∧ pivot ≠ 0 then
    -- ipiv = ipivA + id*strideP + shiftP;  ipiv[tid] += j
    let p := id * strideP + shiftP + tid
    { s with ipiv := Function.update s.ipiv p (s.ipiv p + j) }
  else s

/-- Threads of a `(gridx, gridy)` grid of blocks of `blockx` threads. -/
def grid_threads (gridx gridy blockx : Nat) : List ThreadIdx :=
  (List.range gridy).flatMap fun y =>
    (List.range gridx).flatMap fun x =>
      (List.range blockx).map fun tx =>
        { hipBlockIdx_x := x, hipBlockIdx_y := y, hipThreadIdx_x := tx }

/-- Kernel `getrf_check_singularity` run by the threads `ts`, one after the
other. -/
def run_getrf_check_singularity (n j shiftP strideP pivot : Int) (hipBlockDim_x : Nat)
    (ts : List ThreadIdx) (s : LUState) : LUState :=
  ts.foldl (fun s t => getrf_check_singularity n j shiftP strideP pivot hipBlockDim_x t s) s

/-- Launch of `getrf_check_singularity` on a `(gridx, gridy)` grid of blocks
of `blockx` threads. -/
def hipLaunch_getrf_check_singularity (gridx gridy blockx : Int)
    (n j shiftP strideP pivot : Int) (s : LUState) : LUState :=
  run_getrf_check_singularity n j shiftP strideP pivot blockx.toNat
    (grid_threads gridx.toNat gridy.toNat blockx.toNat) s

/-- Modelled from the spec: the kernel `reset_info` (`common_device.hpp`) is
not among the sources.  Each thread of index `idx < n` stores `val` into
entry `idx` of the status buffer, as the driver's note `info=0 (starting with
a nonsingular matrix)` says; zero is the value of a matrix without recorded
singularity. -/
def reset_info (blocks threads : Int) (buf : Int → Int) (n val : Int) : Int → Int :=
  fun idx => if 0 ≤ idx ∧ idx < blocks.toNat * threads.toNat ∧ idx < n then val else buf idx

/-- Behaviour of the panel factorizer `rocsolver_getf2_template`, whose code
is not among the sources: `iinfoOf j i` is the local status it reports for
matrix `i` when it factors the panel whose first column is `j`, and `pivots`
is what a call does to the pivot buffer. -/
structure PanelFactorizer where
  iinfoOf : Int → Int → Int
  pivots : Call → (Int → Int) → (Int → Int)

/-- The execution context seen by the LU bookkeeping.  `shiftP` is the pivot
shift of the whole factorization, so that the panel whose first column is `j`
is the call with pivot shift `shiftP + j`.  Operations that only touch matrix
data or scratch space leave `LUState` as it is. -/
def luDevice (shiftP : Int) (pf : PanelFactorizer) : Device LUState where
  exec := fun c s =>
    match c with
    | Call.set_pointer_mode mode => { s with pointer_mode := mode }
    | Call.reset_info blocks threads Buf.info n val =>
        { s with info := reset_info blocks threads s.info n val }
    | Call.reset_info blocks threads Buf.iinfo n val =>
        { s with iinfo := reset_info blocks threads s.iinfo n val }
    | Call.getf2 m n shiftA lda strideA sP strideP Buf.info batch_count pivot =>
        { s with
          ipiv := pf.pivots (Call.getf2 m n shiftA lda strideA sP strideP Buf.info batch_count pivot) s.ipiv
          info := fun i => if 0 ≤ i ∧ i < batch_count then pf.iinfoOf (sP - shiftP) i
                           else s.info i }
    | Call.getf2 m n shiftA lda strideA sP strideP Buf.iinfo batch_count pivot =>
        { s with
          ipiv := pf.pivots (Call.getf2 m n shiftA lda strideA sP strideP Buf.iinfo batch_count pivot) s.ipiv
          iinfo := fun i => if 0 ≤ i ∧ i < batch_count then pf.iinfoOf (sP - shiftP) i
                            else s.iinfo i }
    | Call.getrf_check_singularity gridx gridy blockx n j sP strideP pivot =>
        hipLaunch_getrf_check_singularity gridx gridy blockx n j sP strideP pivot s
    | _ => s
  status := fun _ _ => rocblas_status_success
  get_pointer_mode := fun s => s.pointer_mode

/-! ## Generation of Q (`rocauxiliary_org2r_ung2r.hpp`) -/

/-- Body of the loop `for (j = k-1; j >= 0; --j)` of
`rocsolver_org2r_ung2r_template`. -/
def org2r_ung2r_step {σ : Type} (dev : Device σ)
    (m n shiftA lda strideA : Int) (ipiv : Loc) (strideP batch_count : Int)
    (j : Int) (st : σ) : σ :=
  -- apply H(i) to Q(i:m,i:n) from the left
  let st := if j < n - 1 then
              dev.exec (Call.larf rocblas_side_left (m - j) (n - j - 1)
                (shiftA + idx2D j j lda) 1 strideA (ipiv.add j) strideP
                (shiftA + idx2D j (j + 1) lda) lda strideA batch_count) st
            else st
  -- set the diagonal element and negative tau
  let st := dev.exec (Call.setdiag batch_count j shiftA lda strideA ipiv strideP) st
  -- update i-th column -corresponding to H(i)-
  if j < m - 1 then
    dev.exec (Call.scal (m - j - 1) (ipiv.add j) strideP (shiftA + idx2D (j + 1) j lda) 1
      strideA batch_count) st
  else st

/-- Unblocked generation of Q, `rocsolver_org2r_ung2r_template`. -/
def rocsolver_org2r_ung2r_template {σ : Type} (dev : Device σ)
    (m n k shiftA lda strideA : Int) (ipiv : Loc) (strideP batch_count : Int)
    (st : σ) : rocblas_status × σ :=
  -- quick return
  if n = 0 ∨ m = 0 ∨ batch_count = 0 then
    (rocblas_status_success, st)
  else
    -- everything must be executed with scalars on the device
    let old_mode := dev.get_pointer_mode st
    let st := dev.exec (Call.set_pointer_mode rocblas_pointer_mode_device) st
    -- initialize identity matrix (non used columns)
    let blocksx := Int.tdiv (m - 1) 32 + 1
    let blocksy := Int.tdiv (n - 1) 32 + 1
    let st := dev.exec (Call.init_ident_col blocksx blocksy batch_count m n k shiftA lda
                strideA) st
    let st := (List.range k.toNat).reverse.foldl
      (fun st j => org2r_ung2r_step dev m n shiftA lda strideA ipiv strideP batch_count j st) st
    -- restore values of tau
    let st := if k > 0 then
                let blocksx := Int.tdiv (k - 1) 128 + 1
                dev.exec (Call.restau blocksx batch_count k ipiv strideP) st
              else st
    let st := dev.exec (Call.set_pointer_mode old_mode) st
    (rocblas_status_success, st)

/-! ## Host-side collaborators -/

/-- Result of a runtime call. -/
inductive hipError_t where
  | hipSuccess
  | hipError (code : Nat)
  deriving DecidableEq, Repr

/-- Host-side functions called by the entry points whose code is not among
the sources: size formulas of the sub-operations, validators, the allocator
and the host-to-device copy. -/
structure Host where
  /-- Value of `sizeof(T)`. -/
  sizeofT : Nat
  /-- Sizes `(size_1, size_2, size_3)` of `rocsolver_larf_getMemorySize<T,BATCHED>(side, m, n, batch_count, ...)`. -/
  rocsolver_larf_getMemorySize : Bool → rocblas_side → Int → Int → Int → Nat × Nat × Nat
  /-- Sizes `(size_1, size_2)` of `rocsolver_larfg_getMemorySize<T>(n, batch_count, ...)`. -/
  rocsolver_larfg_getMemorySize : Int → Int → Nat × Nat
  /-- Size of `rocsolver_larft_getMemorySize<T>(k, batch_count, ...)`. -/
  rocsolver_larft_getMemorySize : Int → Int → Nat
  /-- Size of `rocsolver_larfb_getMemorySize<T>(side, m, n, k, batch_count, ...)`. -/
  rocsolver_larfb_getMemorySize : rocblas_side → Int → Int → Int → Int → Nat
  /-- Sizes of `rocsolver_getf2_getMemorySize<T,S>(m, batch_count, ...)`. -/
  rocsolver_getf2_getMemorySize : Int → Int → Nat × Nat × Nat × Nat
  /-- Sizes of `rocsolver_getri_getMemorySize<false,T>(n, batch_count, ...)`. -/
  rocsolver_getri_getMemorySize : Int → Int → Nat × Nat × Nat
  /-- Sizes of `rocsolver_potrf_getMemorySize<T>(n, batch_count, ...)`. -/
  rocsolver_potrf_getMemorySize : Int → Int → Nat × Nat × Nat × Nat
  /-- Sizes of `rocsolver_orm2r_getMemorySize<T,false>(side, m, n, batch_count, ...)`. -/
  rocsolver_orm2r_getMemorySize : rocblas_side → Int → Int → Int → Nat × Nat × Nat × Nat
  /-- Validator `rocsolver_getf2_getrf_argCheck(m, n, lda, A, ipiv, info)`. -/
  rocsolver_getf2_getrf_argCheck : Int → Int → Int → DevPtr → DevPtr → DevPtr → rocblas_status
  /-- Validator `rocsolver_getri_argCheck(n, lda, A, ipiv, info, batch_count)`. -/
  rocsolver_getri_argCheck : Int → Int → DevPtr → DevPtr → DevPtr → Int → rocblas_status
  /-- Validator `rocsolver_potf2_potrf_argCheck(uplo, n, lda, A, info, batch_count)`. -/
  rocsolver_potf2_potrf_argCheck : rocblas_fill → Int → Int → DevPtr → DevPtr → Int → rocblas_status
  /-- Pointer left by the `i`-th `hipMalloc` of a call when asked for `size` bytes. -/
  hipMalloc : Nat → Nat → DevPtr
  /-- Result of the `hipMemcpy` of the scalar constants. -/
  hipMemcpy : hipError_t
  /-- Status produced by `RETURN_IF_HIP_ERROR` for a failed runtime call. -/
  get_rocblas_status_for_hip_status : hipError_t → rocblas_status

/-- Reduction of an integer to the range of `size_t` (64 bits, unsigned). -/
def to_size_t (x : Int) : Nat := (x % 18446744073709551616).toNat

/-- Workspace sizes `(size_1, size_2, size_3, size_4)` of
`rocsolver_geqr2_getMemorySize`. -/
def rocsolver_geqr2_getMemorySize (host : Host) (BATCHED : Bool) (m n batch_count : Int) :
    Nat × Nat × Nat × Nat :=
  let (size_1, s1, size_3) := host.rocsolver_larf_getMemorySize BATCHED rocblas_side_left m n batch_count
  let (size_4, s2) := host.rocsolver_larfg_getMemorySize n batch_count
  (size_1, max s1 s2, size_3, size_4)

/-- Workspace sizes `(size_1, size_2, size_3, size_4, size_5)` of
`rocsolver_geqrf_getMemorySize`. -/
def rocsolver_geqrf_getMemorySize (host : Host) (cfg : IdealSizes) (BATCHED : Bool)
    (m n batch_count : Int) : Nat × Nat × Nat × Nat × Nat :=
  let (size_1, s1, size_3, size_4) := rocsolver_geqr2_getMemorySize host BATCHED m n batch_count
  if m ≤ cfg.GEQRF_GEQR2_SWITCHSIZE ∨ n ≤ cfg.GEQRF_GEQR2_SWITCHSIZE then
    (size_1, s1, size_3, size_4, 0)
  else
    let jb := cfg.GEQRF_GEQR2_BLOCKSIZE
    let s2 := host.rocsolver_larft_getMemorySize jb batch_count
    let s3 := host.rocsolver_larfb_getMemorySize rocblas_side_left m (n - jb) jb batch_count
    (size_1, max s1 (max s2 s3), size_3, size_4, to_size_t (host.sizeofT * jb * jb * batch_count))

/-- Entry point `rocsolver_geqrf_strided_batched_impl`. -/
def rocsolver_geqrf_strided_batched_impl {σ : Type} (dev : Device σ) (host : Host)
    (cfg : IdealSizes) (COMPLEX : Bool) (handle : rocblas_handle) (m n : Int) (A : DevPtr)
    (lda strideA : Int) (ipiv : DevPtr) (stridep batch_count : Int) (st : σ) :
    Option (rocblas_status × σ) :=
  if handle = none then
    some (rocblas_status_invalid_handle, st)
  else
    -- argument checking
    let status := rocsolver_geqr2_geqrf_argCheck m n lda A ipiv batch_count
    if status ≠ rocblas_status_continue then
      some (status, st)
    else
      -- memory managment
      let (size_1, size_2, size_3, size_4, size_5) :=
        rocsolver_geqrf_getMemorySize host cfg false m n batch_count
      let scalars := host.hipMalloc 0 size_1
      let work := host.hipMalloc 1 size_2
      let workArr := host.hipMalloc 2 size_3
      let diag := host.hipMalloc 3 size_4
      let trfact := host.hipMalloc 4 size_5
      if scalars = none ∨ (size_2 ≠ 0 ∧ work = none) ∨ (size_3 ≠ 0 ∧ workArr = none)
          ∨ (size_4 ≠ 0 ∧ diag = none) ∨ (size_5 ≠ 0 ∧ trfact = none) then
        some (rocblas_status_memory_error, st)
      else
        -- scalar constants for rocblas functions calls
        let st := dev.exec (Call.hipMemcpy_scalars size_1) st
        if host.hipMemcpy ≠ hipError_t.hipSuccess then
          some (host.get_rocblas_status_for_hip_status host.hipMemcpy, st)
        else
          -- execution
          rocsolver_geqrf_template dev cfg COMPLEX m n 0 lda strideA
            { buf := Buf.ipiv, off := 0 } stridep batch_count st

/-! ## Remaining entry points -/

/-- Entry point `rocsolver_orm2r_impl` (`rocauxiliary_orm2r.cpp`). -/
def rocsolver_orm2r_impl {σ : Type} (dev : Device σ) (host : Host) (handle : rocblas_handle)
    (side : rocblas_side) (trans : rocblas_operation) (m n k : Int) (A : DevPtr) (lda : Int)
    (ipiv C : DevPtr) (ldc : Int) (st : σ) : rocblas_status × σ :=
  if handle = none then
    (rocblas_status_invalid_handle, st)
  -- argument checking
  else if m < 0 ∨ n < 0 ∨ k < 0 ∨ ldc < m then
    (rocblas_status_invalid_size, st)
  else if side = rocblas_side_left ∧ (k > m ∨ lda < m) then
    (rocblas_status_invalid_size, st)
  else if side = rocblas_side_right ∧ (k > n ∨ lda < n) then
    (rocblas_status_invalid_size, st)
  else if A = none ∨ ipiv = none ∨ C = none then
    (rocblas_status_invalid_pointer, st)
  else
    let strideA : Int := 0
    let strideP : Int := 0
    let strideC : Int := 0
    let batch_count : Int := 1
    -- memory managment
    let (size_1, size_2, size_3, size_4) := host.rocsolver_orm2r_getMemorySize side m n batch_count
    let scalars := host.hipMalloc 0 size_1
    let work := host.hipMalloc 1 size_2
    let workArr := host.hipMalloc 2 size_3
    let diag := host.hipMalloc 3 size_4
    if scalars = none ∨ (size_2 ≠ 0 ∧ work = none) ∨ (size_3 ≠ 0 ∧ workArr = none)
        ∨ (size_4 ≠ 0 ∧ diag = none) then
      (rocblas_status_memory_error, st)
    else
      -- scalars constants for rocblas functions calls
      let st := dev.exec (Call.hipMemcpy_scalars (host.sizeofT * size_1)) st
      if host.hipMemcpy ≠ hipError_t.hipSuccess then
        (host.get_rocblas_status_for_hip_status host.hipMemcpy, st)
      else
        -- execution
        let call := Call.orm2r side trans m n k 0 lda strideA strideP 0 ldc strideC batch_count
        (dev.status call st, dev.exec call st)

/-- Entry point `rocsolver_getf2_impl` (`roclapack_getf2.cpp`). -/
def rocsolver_getf2_impl {σ : Type} (dev : Device σ) (host : Host) (handle : rocblas_handle)
    (m n : Int) (A : DevPtr) (lda : Int) (ipiv info : DevPtr) (pivot : Int) (st : σ) :
    rocblas_status × σ :=
  if handle = none then
    (rocblas_status_invalid_handle, st)
  else
    -- argument checking
    let status := host.rocsolver_getf2_getrf_argCheck m n lda A ipiv info
    if status ≠ rocblas_status_continue then
      (status, st)
    else
      let strideA : Int := 0
      let strideP : Int := 0
      let batch_count : Int := 1
      -- memory managment
      let (size_1, size_2, size_3, size_4) := host.rocsolver_getf2_getMemorySize m batch_count
      let scalars := host.hipMalloc 0 size_1
      let pivot_val := host.hipMalloc 1 size_2
      let pivot_idx := host.hipMalloc 2 size_3
      let work := host.hipMalloc 3 size_4
      if scalars = none ∨ (size_2 ≠ 0 ∧ pivot_idx = none) ∨ (size_3 ≠ 0 ∧ pivot_val = none)
          ∨ (size_4 ≠ 0 ∧ work = none) then
        (rocblas_status_memory_error, st)
      else
        -- scalar constants for rocblas functions calls
        let st := dev.exec (Call.hipMemcpy_scalars size_1) st
        if host.hipMemcpy ≠ hipError_t.hipSuccess then
          (host.get_rocblas_status_for_hip_status host.hipMemcpy, st)
        else
          -- execution
          let call := Call.getf2 m n 0 lda strideA 0 strideP Buf.info batch_count pivot
          (dev.status call st, dev.exec call st)

/-- Entry point `rocsolver_getri_strided_batched_impl`
(`roclapack_getri_strided_batched.cpp`). -/
def rocsolver_getri_strided_batched_impl {σ : Type} (dev : Device σ) (host : Host)
    (handle : rocblas_handle) (n : Int) (A : DevPtr) (lda strideA : Int) (ipiv : DevPtr)
    (strideP : Int) (info : DevPtr) (batch_count : Int) (st : σ) : rocblas_status × σ :=
  if handle = none then
    (rocblas_status_invalid_handle, st)
  else
    -- argument checking
    let status := host.rocsolver_getri_argCheck n lda A ipiv info batch_count
    if status ≠ rocblas_status_continue then
      (status, st)
    else
      -- memory managment
      let (size_1, size_2, size_3) := host.rocsolver_getri_getMemorySize n batch_count
      let scalars := host.hipMalloc 0 size_1
      let work := host.hipMalloc 1 size_2
      let workArr := host.hipMalloc 2 size_3
      if scalars = none ∨ (size_2 ≠ 0 ∧ work = none) ∨ (size_3 ≠ 0 ∧ workArr = none) then
        (rocblas_status_memory_error, st)
      else
        -- scalar constants for rocblas functions calls
        let st := dev.exec (Call.hipMemcpy_scalars size_1) st
        if host.hipMemcpy ≠ hipError_t.hipSuccess then
          (host.get_rocblas_status_for_hip_status host.hipMemcpy, st)
        else
          -- execution
          let call := Call.getri n 0 lda strideA 0 strideP batch_count
          (dev.status call st, dev.exec call st)

/-- Entry point `rocsolver_potrf_batched_impl` (`roclapack_potrf_batched.cpp`). -/
def rocsolver_potrf_batched_impl {σ : Type} (dev : Device σ) (host : Host)
    (handle : rocblas_handle) (uplo : rocblas_fill) (n : Int) (A : DevPtr) (lda : Int)
    (info : DevPtr) (batch_count : Int) (st : σ) : rocblas_status × σ :=
  if handle = none then
    (rocblas_status_invalid_handle, st)
  else
    -- argument checking
    let status := host.rocsolver_potf2_potrf_argCheck uplo n lda A info batch_count
    if status ≠ rocblas_status_continue then
      (status, st)
    else
      let strideA : Int := 0
      -- memory managment
      let (size_1, size_2, size_3, size_4) := host.rocsolver_potrf_getMemorySize n batch_count
      let scalars := host.hipMalloc 0 size_1
      let work := host.hipMalloc 1 size_2
      let pivotGPU := host.hipMalloc 2 size_3
      let iinfo := host.hipMalloc 3 size_4
      if scalars = none ∨ (size_2 ≠ 0 ∧ work = none) ∨ (size_3 ≠ 0 ∧ pivotGPU = none)
          ∨ (size_4 ≠ 0 ∧ iinfo = none) then
        (rocblas_status_memory_error, st)
      else
        -- scalar constants for rocblas functions calls
        let st := dev.exec (Call.hipMemcpy_scalars size_1) st
        if host.hipMemcpy ≠ hipError_t.hipSuccess then
          (host.get_rocblas_status_for_hip_status host.hipMemcpy, st)
        else
          -- execution
          let call := Call.potrf uplo n 0 lda strideA batch_count
          (dev.status call st, dev.exec call st)

/-! ## Concrete instances used to exercise the statements -/

/-- A host on which every allocation and the copy of the constants succeed and
every absent validator lets the call continue. -/
def host_ok : Host where
  sizeofT := 4
  rocsolver_larf_getMemorySize := fun _ _ _ _ _ => (12, 8, 0)
  rocsolver_larfg_getMemorySize := fun _ _ => (4, 8)
  rocsolver_larft_getMemorySize := fun _ _ => 8
  rocsolver_larfb_getMemorySize := fun _ _ _ _ _ => 8
  rocsolver_getf2_getMemorySize := fun _ _ => (12, 4, 4, 8)
  rocsolver_getri_getMemorySize := fun _ _ => (12, 8, 0)
  rocsolver_potrf_getMemorySize := fun _ _ => (12, 8, 4, 4)
  rocsolver_orm2r_getMemorySize := fun _ _ _ _ => (3, 8, 0, 4)
  rocsolver_getf2_getrf_argCheck := fun _ _ _ _ _ _ => rocblas_status_continue
  rocsolver_getri_argCheck := fun _ _ _ _ _ _ => rocblas_status_continue
  rocsolver_potf2_potrf_argCheck := fun _ _ _ _ _ _ => rocblas_status_continue
  hipMalloc := fun i _ => some (i + 1)
  hipMemcpy := hipError_t.hipSuccess
  get_rocblas_status_for_hip_status := fun _ => rocblas_status_internal_error

/-- Small tuning constants: QR switch size 4 and block size 2, LU switch size
2, launches of 2 threads per block. -/
def cfg_small : IdealSizes where
  GEQRF_GEQR2_SWITCHSIZE := 4
  GEQRF_GEQR2_BLOCKSIZE := 2
  GETRF_GETF2_SWITCHSIZE := 2
  BLOCKSIZE := 2

/-- A panel factorizer that reports a zero pivot for matrix `1` in the panel
starting at column `2` and for matrices `0` and `1` in the panel starting at
column `4`. -/
def pf_sample : PanelFactorizer where
  iinfoOf := fun j i =>
    if j = 2 ∧ i = 1 then 1 else if j = 4 ∧ i = 1 then 2 else if j = 4 ∧ i = 0 then 1 else 0
  pivots := fun _ p => p

/-- An initial LU state holding stale values in every buffer. -/
def lu_stale : LUState where
  ipiv := fun _ => 1
  iinfo := fun _ => 9
  info := fun _ => 7
  pointer_mode := rocblas_pointer_mode_device

/-! ## Properties of devices and calls used in the statements -/

/-- The pointer mode of the handle is set by `rocblas_set_pointer_mode` and by
nothing else: the assumption that the sub-operations preserve it. -/
def Device.pointer_mode_respected {σ : Type} (dev : Device σ) : Prop :=
  (∀ mode s, dev.get_pointer_mode (dev.exec (Call.set_pointer_mode mode) s) = mode)
  ∧ (∀ c s, (∀ mode, c ≠ Call.set_pointer_mode mode) →
      dev.get_pointer_mode (dev.exec c s) = dev.get_pointer_mode s)

/-- Operations issued by the unblocked QR factorization: reflector builder,
diagonal substitution and restoration, conjugation, reflector applier. -/
def Call.is_geqr2_op : Call → Bool
  | Call.larfg .. => true
  | Call.set_diag .. => true
  | Call.restore_diag .. => true
  | Call.lacgv .. => true
  | Call.larf .. => true
  | _ => false

/-- Operations that only the blocked paths issue: block reflector build and
apply, row interchanges, triangular solve, matrix multiply, status reset and
singularity check. -/
def Call.is_blocked_op : Call → Bool
  | Call.larft .. => true
  | Call.larfb .. => true
  | Call.laswp .. => true
  | Call.trsm .. => true
  | Call.gemm .. => true
  | Call.reset_info .. => true
  | Call.getrf_check_singularity .. => true
  | _ => false

/-! ## Further sizing and scheduling definitions -/

/-- Workspace sizes `(size_1, size_2, size_3, size_4, size_5)` of
`rocsolver_getrf_getMemorySize`, whose parameters are declared in the order
`(n, m, batch_count)`; `sizeof(rocblas_int)` is `4`. -/
def rocsolver_getrf_getMemorySize (host : Host) (cfg : IdealSizes) (n m batch_count : Int) :
    Nat × Nat × Nat × Nat × Nat :=
  let (size_1, size_2, size_3, size_5) := host.rocsolver_getf2_getMemorySize m batch_count
  if m < cfg.GETRF_GETF2_SWITCHSIZE ∨ n < cfg.GETRF_GETF2_SWITCHSIZE then
    (size_1, size_2, size_3, 0, size_5)
  else
    (size_1, size_2, size_3, to_size_t (4 * batch_count), size_5)

/-- Values taken by `j` in the panel loop of `rocsolver_geqrf_template`
(`while (j < dim - GEQRF_GEQR2_SWITCHSIZE) { ...; j += GEQRF_GEQR2_BLOCKSIZE; }`):
the first columns of the panels factored inside the loop, and the value of `j`
on exit. -/
def geqrf_schedule (cfg : IdealSizes) (dim : Int) : Nat → Int → Option (List Int × Int)
  | 0, _ => none
  | fuel + 1, j =>
    if j < dim - cfg.GEQRF_GEQR2_SWITCHSIZE then
      match geqrf_schedule cfg dim fuel (j + cfg.GEQRF_GEQR2_BLOCKSIZE) with
      | none => none
      | some (js, jf) => some (j :: js, jf)
    else
      some ([], j)

/-- The columns `a, a + 1, ..., a + len - 1`. -/
def col_range (a : Int) (len : Nat) : List Int :=
  (List.range len).map fun i : Nat => a + (i : Int)

/-- A host whose reflector-builder size function answers with the length it is
asked for. -/
def host_probe : Host :=
  { host_ok with
    rocsolver_larfg_getMemorySize := fun n _ => (n.toNat, 0) }

/-- The size formulas of the sub-operations are non-decreasing in their
dimension and batch arguments (componentwise for the ones that return several
sizes). -/
def Host.sizes_monotone (host : Host) : Prop :=
  (∀ (B : Bool) (side : rocblas_side) (m m' n n' b b' : Int), m ≤ m' → n ≤ n' → b ≤ b' →
    host.rocsolver_larf_getMemorySize B side m n b
      ≤ host.rocsolver_larf_getMemorySize B side m' n' b')
  ∧ (∀ (n n' b b' : Int), n ≤ n' → b ≤ b' →
    host.rocsolver_larfg_getMemorySize n b ≤ host.rocsolver_larfg_getMemorySize n' b')
  ∧ (∀ (k k' b b' : Int), k ≤ k' → b ≤ b' →
    host.rocsolver_larft_getMemorySize k b ≤ host.rocsolver_larft_getMemorySize k' b')
  ∧ (∀ (side : rocblas_side) (m m' n n' k k' b b' : Int), m ≤ m' → n ≤ n' → k ≤ k' → b ≤ b' →
    host.rocsolver_larfb_getMemorySize side m n k b
      ≤ host.rocsolver_larfb_getMemorySize side m' n' k' b')
  ∧ (∀ (m m' b b' : Int), m ≤ m' → b ≤ b' →
    host.rocsolver_getf2_getMemorySize m b ≤ host.rocsolver_getf2_getMemorySize m' b')

/-- State after the first `k` panels of the loop of `rocsolver_geqrf_template`
(first columns `0, BLOCKSIZE, ..., (k-1)*BLOCKSIZE`), followed by the call that
factors the last block when `k*BLOCKSIZE < min m n`. -/
def geqrf_blocked_run {σ : Type} (dev : Device σ) (cfg : IdealSizes) (COMPLEX : Bool)
    (m n shiftA lda strideA : Int) (ipiv : Loc) (strideP batch_count : Int) (k : Nat)
    (st : σ) : σ :=
  let st := ((List.range k).map fun i : Nat => (i : Int) * cfg.GEQRF_GEQR2_BLOCKSIZE).foldl
    (fun st j => geqrf_panel dev cfg COMPLEX m n shiftA lda strideA ipiv strideP batch_count
      (min m n) cfg.GEQRF_GEQR2_BLOCKSIZE
      (cfg.GEQRF_GEQR2_BLOCKSIZE * cfg.GEQRF_GEQR2_BLOCKSIZE) j st) st
  if (k : Int) * cfg.GEQRF_GEQR2_BLOCKSIZE < min m n then
    (rocsolver_geqr2_template dev COMPLEX (m - k * cfg.GEQRF_GEQR2_BLOCKSIZE)
      (n - k * cfg.GEQRF_GEQR2_BLOCKSIZE)
      (shiftA + idx2D (k * cfg.GEQRF_GEQR2_BLOCKSIZE) (k * cfg.GEQRF_GEQR2_BLOCKSIZE) lda) lda
      strideA (ipiv.add (k * cfg.GEQRF_GEQR2_BLOCKSIZE)) strideP batch_count st).2
  else st

/-- The triangular-factor buffer as a block-reflector call of the QR driver
may address it: `k` reflectors with `1 <= k <= BLOCKSIZE`, leading dimension
`BLOCKSIZE`, stride `BLOCKSIZE * BLOCKSIZE` between the factors of consecutive
matrices, from shift `0`, for `batch_count` matrices. -/
def Call.trfact_within (BLOCKSIZE batch_count : Int) : Call → Prop
  | Call.larft _ k _ _ _ _ _ ldf strideF b =>
      1 ≤ k ∧ k ≤ BLOCKSIZE ∧ ldf = BLOCKSIZE ∧ strideF = BLOCKSIZE * BLOCKSIZE
        ∧ b = batch_count
  | Call.larfb _ _ _ _ k _ _ _ shiftF ldf strideF _ _ _ b =>
      1 ≤ k ∧ k ≤ BLOCKSIZE ∧ shiftF = 0 ∧ ldf = BLOCKSIZE
        ∧ strideF = BLOCKSIZE * BLOCKSIZE ∧ b = batch_count
  | _ => True

/-- A host whose size formulas grow with the dimensions and the batch count. -/
def host_growing : Host :=
  { host_ok with
    rocsolver_larf_getMemorySize := fun _ _ m n b => (12, m.toNat + n.toNat + b.toNat, b.toNat)
    rocsolver_larfg_getMemorySize := fun n b => (b.toNat, n.toNat + b.toNat)
    rocsolver_larft_getMemorySize := fun k b => k.toNat + b.toNat
    rocsolver_larfb_getMemorySize := fun _ m n k b => m.toNat + n.toNat + k.toNat + b.toNat
    rocsolver_getf2_getMemorySize := fun m b => (12, b.toNat, b.toNat, m.toNat + b.toNat) }

/-! ## Layout of the pivot buffer -/

/-- Global index `hipBlockIdx_x * hipBlockDim_x + hipThreadIdx_x` of a thread
within its row of blocks. -/
def ThreadIdx.tid (t : ThreadIdx) (hipBlockDim_x : Nat) : Int :=
  t.hipBlockIdx_x * hipBlockDim_x + t.hipThreadIdx_x

/-- The pivot vectors of the `batch_count` matrices, read over `width`
consecutive entries each, do not share an entry. -/
def pivots_disjoint (strideP batch_count width : Int) : Prop :=
  ∀ id1 id2 t1 t2 : Int, 0 ≤ id1 → id1 < batch_count → 0 ≤ id2 → id2 < batch_count →
    0 ≤ t1 → t1 < width → 0 ≤ t2 → t2 < width →
    id1 * strideP + t1 = id2 * strideP + t2 → id1 = id2

/-- Modelled from the spec: `rocsolver_getf2_template` is not among the
sources.  The pivot vector of a matrix "holds 1-based row-interchange indices,
local-to-panel until adjusted to global", and the LU panel "records the pivot
index" of each of its columns: a call on a panel of `n` columns (at most
`width`) with pivot shift `sP` stores, for every matrix `id` of the batch, the
local pivots `L (sP - shiftP) id 0, ..., L (sP - shiftP) id (n - 1)` in the
entries `sP, ..., sP + n - 1` of that matrix's pivot vector and leaves every
other pivot entry as it is. -/
def PanelFactorizer.writes_local_pivots (pf : PanelFactorizer)
    (shiftP strideP batch_count width : Int) (L : Int → Int → Int → Int) : Prop :=
  ∀ (m n shiftA lda strideA sP : Int) (infoBuf : Buf) (pivot : Int) (ipiv : Int → Int),
    n ≤ width →
    (∀ id t : Int, 0 ≤ id → id < batch_count → 0 ≤ t → t < n →
      pf.pivots (Call.getf2 m n shiftA lda strideA sP strideP infoBuf batch_count pivot) ipiv
          (id * strideP + sP + t)
        = L (sP - shiftP) id t)
    ∧ (∀ p : Int,
        (∀ id t : Int, 0 ≤ id → id < batch_count → 0 ≤ t → t < n → p ≠ id * strideP + sP + t) →
        pf.pivots (Call.getf2 m n shiftA lda strideA sP strideP infoBuf batch_count pivot) ipiv p
          = ipiv p)

/-- Pivot buffer after the local pivots `L id 0, ..., L id (n - 1)` of the
matrices `0, ..., count - 1` were stored from entry `sP` of each pivot vector. -/
def write_local_pivots (L : Int → Int → Int) (n strideP sP : Int) :
    Nat → (Int → Int) → Int → Int
  | 0, ipiv, p => ipiv p
  | id + 1, ipiv, p =>
    if 0 ≤ p - ((id : Int) * strideP + sP) ∧ p - ((id : Int) * strideP + sP) < n then
      L id (p - ((id : Int) * strideP + sP))
    else
      write_local_pivots L n strideP sP id ipiv p

/-- A panel factorizer that stores the local pivots `L j id t` of the panel
starting at column `j` (see `PanelFactorizer.writes_local_pivots`) and reports
the statuses `iinfoOf`. -/
def pf_local_pivots (shiftP : Int) (L : Int → Int → Int → Int) (iinfoOf : Int → Int → Int) :
    PanelFactorizer where
  iinfoOf := iinfoOf
  pivots := fun c ipiv =>
    match c with
    | Call.getf2 _ n _ _ _ sP strideP _ batch_count _ =>
        write_local_pivots (L (sP - shiftP)) n strideP sP batch_count.toNat ipiv
    | _ => ipiv

/-- Local pivots without interchange: column `t` of a panel picks its own row
`t + 1` (1-based). -/
def L_identity : Int → Int → Int → Int := fun _ _ t => t + 1

/-! ## Shapes and positions of the sub-operations -/

/-- Shapes of the operations of the blocked QR driver measured against the
dimensions for which `rocsolver_geqrf_getMemorySize` sizes the shared scratch:
reflector builder and applier of the `geqr2` calls within `m` rows and `n`
columns, block-reflector build on at most `m` rows with `1 <= k <= BLOCKSIZE`
reflectors, block-reflector apply on at most `m` rows, between `1` and
`n - BLOCKSIZE` columns, with `1 <= k <= BLOCKSIZE` reflectors. -/
def Call.geqrf_shape_within (cfg : IdealSizes) (m n : Int) : Call → Prop
  | Call.larfg order _ _ _ _ _ _ _ => order ≤ m
  | Call.larf _ mm nn _ _ _ _ _ _ _ _ _ => mm ≤ m ∧ nn ≤ n
  | Call.larft nn k _ _ _ _ _ _ _ _ => nn ≤ m ∧ 1 ≤ k ∧ k ≤ cfg.GEQRF_GEQR2_BLOCKSIZE
  | Call.larfb _ _ mm nn k _ _ _ _ _ _ _ _ _ _ =>
      mm ≤ m ∧ 0 < nn ∧ nn ≤ n - cfg.GEQRF_GEQR2_BLOCKSIZE
        ∧ 1 ≤ k ∧ k ≤ cfg.GEQRF_GEQR2_BLOCKSIZE
  | _ => True
/-- State after the panels of the blocked LU driver whose first columns are
`0, SWITCHSIZE, ..., (k-1)*SWITCHSIZE`. -/
def getrf_blocked_run {σ : Type} (dev : Device σ) (cfg : IdealSizes)
    (m n shiftA lda strideA shiftP strideP batch_count pivot : Int) (optim_mem : Bool)
    (k : Nat) (st : σ) : σ :=
  ((List.range k).map fun i : Nat => (i : Int) * cfg.GETRF_GETF2_SWITCHSIZE).foldl
    (fun st j => getrf_panel dev cfg m n shiftA lda strideA shiftP strideP batch_count pivot
      optim_mem (min m n) (Int.tdiv (batch_count - 1) cfg.BLOCKSIZE + 1) j st) st

/-- Operations of a panel of the blocked LU driver that work on a non-empty
block: panel factorization and pivot adjustment on at least one column,
triangular solve on at least one row and one column, matrix multiply with all
three dimensions positive. -/
def Call.lu_block_nonempty : Call → Prop
  | Call.getf2 mm nn _ _ _ _ _ _ _ _ => 1 ≤ mm ∧ 1 ≤ nn
  | Call.getrf_check_singularity _ _ _ npiv _ _ _ _ => 1 ≤ npiv
  | Call.trsm mm nn _ _ _ _ _ _ _ _ => 1 ≤ mm ∧ 0 < nn
  | Call.gemm mm nn kk _ _ _ _ _ _ _ _ _ _ => 0 < mm ∧ 0 < nn ∧ 1 ≤ kk
  | _ => True

/-- Row-interchange operations. -/
def Call.is_laswp : Call → Bool
  | Call.laswp .. => true
  | _ => false
/-- The LU state `s` after the entries of matrix `id1` were replaced: `info`
by `v_info`, `iinfo` by `v_iinfo`, and the `n` pivot entries from `shiftP` by
the values of `v_ipiv`. -/
def LUState.with_matrix (s : LUState) (n shiftP strideP id1 v_info v_iinfo : Int)
    (v_ipiv : Int → Int) : LUState :=
  { s with
    info := Function.update s.info id1 v_info
    iinfo := Function.update s.iinfo id1 v_iinfo
    ipiv := fun p =>
      if 0 ≤ p - (id1 * strideP + shiftP) ∧ p - (id1 * strideP + shiftP) < n then
        v_ipiv (p - (id1 * strideP + shiftP))
      else s.ipiv p }

/-- An LU state with other values than `lu_stale` in every buffer. -/
def lu_other : LUState where
  ipiv := fun p => if 6 ≤ p then 40 + p else 1
  iinfo := fun i => if i = 0 then 9 else 3
  info := fun i => if i = 0 then 7 else 0
  pointer_mode := rocblas_pointer_mode_host

/-- The element offset `off` is the offset of an element `(r, c)`, with
`0 <= r < m` and `0 <= c < n`, of the `m x n` matrix stored by columns from
`shiftA` with leading dimension `lda`. -/
def in_matrix (shiftA lda m n off : Int) : Prop :=
  ∃ r c : Int, 0 ≤ r ∧ r < m ∧ 0 ≤ c ∧ c < n ∧ off = shiftA + idx2D r c lda

/-- Modelled from the spec: the reflector builder and applier are not among
the sources; the matrix positions they are handed are read off the argument
notes of the drivers.  The builder gets the position of alpha, the start of
the vector `x` and, with `order - 1` entries spaced by `incx`, its extent.  The
applier gets the reflector vector (as many entries as the block has rows when
applied from the left, columns when applied from the right, spaced by `incx`)
and the block to modify, `mm` rows by `nn` columns from its origin.  The
predicate says that all of these are positions of the `m x n` matrix. -/
def Call.positions_within (shiftA lda m n : Int) : Call → Prop
  | Call.larfg order sAlpha sX incx _ _ _ _ =>
      in_matrix shiftA lda m n sAlpha ∧ in_matrix shiftA lda m n sX
        ∧ ∀ i : Int, 0 ≤ i → i < order - 1 → in_matrix shiftA lda m n (sX + i * incx)
  | Call.larf side mm nn sx incx _ _ _ sC ldc _ _ =>
      in_matrix shiftA lda m n sx ∧ in_matrix shiftA lda m n sC
        ∧ (∀ i : Int, 0 ≤ i → i < (if side = rocblas_side_left then mm else nn) →
            in_matrix shiftA lda m n (sx + i * incx))
        ∧ (∀ r c : Int, 0 ≤ r → r < mm → 0 ≤ c → c < nn →
            in_matrix shiftA lda m n (sC + idx2D r c ldc))
  | _ => True

/-! ## Producers of the outputs of the bidiagonal reduction -/

/-- Index, relative to `base`, of the multiplier slot that a call of the
reflector builder produces, when the slot belongs to the buffer of `base`. -/
def Call.built_tau_at (base : Loc) : Call → Option Int
  | Call.larfg _ _ _ _ _ tau _ _ =>
      if tau.buf = base.buf then some (tau.off - base.off) else none
  | _ => none

/-- Index, relative to `base`, of the multiplier slot that a call sets to
zero: a `reset_batch_info` of one entry per matrix with value `0`. -/
def Call.zeroed_tau_at (base : Loc) : Call → Option Int
  | Call.reset_batch_info _ p _ n val =>
      if p.buf = base.buf ∧ n = 1 ∧ val = 0 then some (p.off - base.off) else none
  | _ => none

/-- Index of the entry of the buffer `d` that a `set_diag` call fills with a
value copied from the matrix. -/
def Call.saved_entry_at (d : Buf) : Call → Option Int
  | Call.set_diag _ d1 j _ _ _ _ _ _ => if d1 = d then some j else none
  | _ => none

/-! ## Matrix memory and the effect of the reflector operations -/

/-- Value of a matrix element: real and imaginary part; the elements of a real
matrix have imaginary part `0`. -/
structure Scalar where
  re : Int
  im : Int
  deriving DecidableEq, Repr

/-- Complex conjugate. -/
def Scalar.conj (x : Scalar) : Scalar := { re := x.re, im := -x.im }

/-- The constant `1`. -/
def Scalar.one : Scalar := { re := 1, im := 0 }

/-- The constant `0`. -/
def Scalar.zero : Scalar := { re := 0, im := 0 }

/-- Modelled from the spec: the batch addressing layer (`load_ptr_batch`) is
not among the sources; it "locates matrix b of a batch" whether the batch is
an array of pointers or one strided block.  Device memory is therefore read as
`mem buf b p`: element `p` of instance `b` of the buffer `buf`, the instances
of a batch being separate objects (the strides do not enter). -/
abbrev Mem := Buf → Int → Int → Scalar

/-- Memory after element `p` of instance `b` of `buf` was set to `v`. -/
def Mem.store (mem : Mem) (buf : Buf) (b p : Int) (v : Scalar) : Mem :=
  fun buf1 b1 p1 => if buf1 = buf ∧ b1 = b ∧ p1 = p then v else mem buf1 b1 p1

/-- The offset `p` is one of the `cnt` entries of the vector that starts at
`s` and advances by `inc`. -/
def vec_member (s inc cnt p : Int) : Prop :=
  ∃ i ∈ List.range cnt.toNat, p = s + (i : Int) * inc

instance (s inc cnt p : Int) : Decidable (vec_member s inc cnt p) :=
  inferInstanceAs (Decidable (∃ i ∈ List.range cnt.toNat, p = s + (i : Int) * inc))

/-- The offset `p` is an element of the block of `mm` rows and `nn` columns
that starts at `s` in a matrix of leading dimension `ld`. -/
def block_member (s ld mm nn p : Int) : Prop :=
  ∃ r ∈ List.range mm.toNat, ∃ c ∈ List.range nn.toNat, p = s + idx2D (r : Int) (c : Int) ld

instance (s ld mm nn p : Int) : Decidable (block_member s ld mm nn p) :=
  inferInstanceAs (Decidable (∃ r ∈ List.range mm.toNat, ∃ c ∈ List.range nn.toNat,
    p = s + idx2D (r : Int) (c : Int) ld))

/-- Modelled from the spec: the reflector builder and applier, the kernels
`set_diag`, `restore_diag`, `reset_batch_info` and the conjugation
`rocsolver_lacgv_template` are not among the sources.  The elements an
operation may write, for the matrices `0 <= b < batch_count`, follow the
argument notes of the drivers and the assumption that "the reflector
applier writes only its target block and the builder only its vector and
alpha": the builder writes alpha, the `order - 1` entries of `x`, its
multiplier slot and its scratch (the `diag` buffer it is handed as norm
workspace); the applier writes its `m x n` block; `set_diag` writes the `n`
entries of `d` from `j` and, when asked to insert ones, the `n` diagonal
elements from its matrix position; `restore_diag` writes these diagonal
elements; the conjugation writes the `n` entries of its vector;
`reset_batch_info` writes `n` entries from its pointer. -/
def Call.writes (c : Call) (buf : Buf) (b p : Int) : Prop :=
  match c with
  | Call.larfg order shiftAlpha shiftX incx _ tau _ batch_count =>
      (0 ≤ b ∧ b < batch_count)
        ∧ ((buf = Buf.A ∧ (p = shiftAlpha ∨ vec_member shiftX incx (order - 1) p))
            ∨ (buf = tau.buf ∧ p = tau.off) ∨ buf = Buf.diag)
  | Call.larf _ m n _ _ _ _ _ shiftA lda _ batch_count =>
      (0 ≤ b ∧ b < batch_count) ∧ buf = Buf.A ∧ block_member shiftA lda m n p
  | Call.set_diag batch_count d j _ shiftA lda _ n set_one =>
      (0 ≤ b ∧ b < batch_count)
        ∧ ((buf = d ∧ j ≤ p ∧ p < j + n)
            ∨ (buf = Buf.A ∧ set_one = true ∧ vec_member shiftA (lda + 1) n p))
  | Call.restore_diag batch_count _ _ _ shiftA lda _ n =>
      (0 ≤ b ∧ b < batch_count) ∧ buf = Buf.A ∧ vec_member shiftA (lda + 1) n p
  | Call.lacgv n x shift incx _ batch_count =>
      (0 ≤ b ∧ b < batch_count) ∧ buf = x.buf ∧ vec_member (x.off + shift) incx n p
  | Call.reset_batch_info batch_count q _ n _ =>
      (0 ≤ b ∧ b < batch_count) ∧ buf = q.buf ∧ q.off ≤ p ∧ p < q.off + n
  | _ => False

instance (c : Call) (buf : Buf) (b p : Int) : Decidable (c.writes buf b p) := by
  cases c <;> dsimp only [Call.writes] <;> infer_instance

/-- Values produced by the reflector builder and the reflector applier, whose
code is not among the sources: the memory each of them would leave for a call
in a given memory.  Only the elements the call may write are taken from it. -/
structure ReflectorOps where
  larfg : Call → Mem → Mem
  larf : Call → Mem → Mem

/-- Modelled from the spec: value that an operation stores in an element it
writes.  Builder and applier store what `ops` produces.  `set_diag` "copies
A(j,j) to D and inserts one": entry `j + i` of `d` receives the diagonal
element `i` (offset `shiftA + i*(lda + 1)`), which then becomes `1`;
`restore_diag` "restores the original value": the diagonal element `i`
receives entry `j + i` of `d`; the conjugation stores the conjugate;
`reset_batch_info` stores its value. -/
def Call.value (ops : ReflectorOps) (c : Call) (mem : Mem) (buf : Buf) (b p : Int) : Scalar :=
  match c with
  | Call.larfg .. => ops.larfg c mem buf b p
  | Call.larf .. => ops.larf c mem buf b p
  | Call.set_diag _ d j _ shiftA lda _ n _ =>
      if buf = d ∧ j ≤ p ∧ p < j + n then mem Buf.A b (shiftA + (p - j) * (lda + 1))
      else Scalar.one
  | Call.restore_diag _ d j _ shiftA lda _ _ => mem d b (j + (p - shiftA) / (lda + 1))
  | Call.lacgv .. => (mem buf b p).conj
  | Call.reset_batch_info _ _ _ _ val => { re := val, im := 0 }
  | _ => mem buf b p

/-- Device state of the reflector-based drivers: the memory. -/
structure MatState where
  mem : Mem

/-- The execution context of the unblocked QR factorization and of the
bidiagonal reduction: every operation stores its values in the elements it
may write and leaves all other elements as they are.  Operations that these
two drivers do not issue are not interpreted. -/
def memDevice (ops : ReflectorOps) : Device MatState where
  exec := fun c s =>
    { mem := fun buf b p => if c.writes buf b p then c.value ops s.mem buf b p
                            else s.mem buf b p }
  status := fun _ _ => rocblas_status_success
  get_pointer_mode := fun _ => rocblas_pointer_mode_host

/-- A builder that stores the value `10*order + p + i` in every element `p` it
may write, and an applier that adds `100` to the real part of the elements of
its block. -/
def ops_sample : ReflectorOps where
  larfg := fun c _ => fun _ _ p =>
    match c with
    | Call.larfg order _ _ _ _ _ _ _ => { re := 10 * order + p, im := 1 }
    | _ => Scalar.zero
  larf := fun _ mem => fun buf b p => { re := (mem buf b p).re + 100, im := (mem buf b p).im }

/-- A memory holding `p` in element `p` of every buffer. -/
def mem_sample : MatState where
  mem := fun _ _ p => { re := p, im := 0 }

/-- State after the first `k` column steps of `rocsolver_geqr2_template`. -/
def geqr2_steps {σ : Type} (dev : Device σ) (COMPLEX : Bool)
    (m n shiftA lda strideA : Int) (ipiv : Loc) (strideP batch_count : Int) (k : Nat)
    (st : σ) : σ :=
  ((List.range k).map fun i : Nat => (i : Int)).foldl
    (fun st j => geqr2_column dev COMPLEX m n shiftA lda strideA ipiv strideP batch_count j st)
    st

/-! ## Kernel `init_ident_col` (`rocauxiliary_org2r_ung2r.hpp`) -/

/-- Coordinates of one thread of a launch with a three-dimensional grid of
two-dimensional blocks. -/
structure ThreadIdx3 where
  hipBlockIdx_x : Nat
  hipBlockIdx_y : Nat
  hipBlockIdx_z : Nat
  hipThreadIdx_x : Nat
  hipThreadIdx_y : Nat
  deriving DecidableEq, Repr

/-- Conversion of an integer to `unsigned int` (32 bits): the type of the
thread coordinates, to which the signed operands of mixed comparisons and
products are converted. -/
def to_u32 (x : Int) : Int := x % 4294967296

/-- Kernel `init_ident_col`, as executed by the thread `t` of a launch whose
blocks have `hipBlockDim_x` by `hipBlockDim_y` threads.  The coordinates `i`
and `j` are unsigned, and so is the element index `i + j*lda`. -/
def init_ident_col (m n k shiftA lda : Int) (hipBlockDim_x hipBlockDim_y : Nat)
    (t : ThreadIdx3) (mem : Mem) : Mem :=
  let blocksizex := hipBlockDim_x
  let blocksizey := hipBlockDim_y
  let b : Int := t.hipBlockIdx_z
  let j : Int := to_u32 (t.hipBlockIdx_y * blocksizey + t.hipThreadIdx_y)
  let i : Int := to_u32 (t.hipBlockIdx_x * blocksizex + t.hipThreadIdx_x)
  if i < to_u32 m ∧ j < to_u32 n then
    -- Ap = load_ptr_batch<T>(A, b, shiftA, strideA)
    if i = j then
      mem.store Buf.A b (shiftA + to_u32 (i + j * lda)) Scalar.one
    else if j > i then
      mem.store Buf.A b (shiftA + to_u32 (i + j * lda)) Scalar.zero
    else if j ≥ to_u32 k then
      mem.store Buf.A b (shiftA + to_u32 (i + j * lda)) Scalar.zero
    else mem
  else mem

/-- Threads of a `(gridx, gridy, gridz)` grid of blocks of `blockx` by `blocky`
threads. -/
def grid3_threads (gridx gridy gridz blockx blocky : Nat) : List ThreadIdx3 :=
  (List.range gridz).flatMap fun z =>
    (List.range gridy).flatMap fun y =>
      (List.range gridx).flatMap fun x =>
        (List.range blocky).flatMap fun ty =>
          (List.range blockx).map fun tx =>
            { hipBlockIdx_x := x, hipBlockIdx_y := y, hipBlockIdx_z := z,
              hipThreadIdx_x := tx, hipThreadIdx_y := ty }

/-- Kernel `init_ident_col` run by the threads `ts`, one after the other. -/
def run_init_ident_col (m n k shiftA lda : Int) (hipBlockDim_x hipBlockDim_y : Nat)
    (ts : List ThreadIdx3) (mem : Mem) : Mem :=
  ts.foldl (fun mem t => init_ident_col m n k shiftA lda hipBlockDim_x hipBlockDim_y t mem) mem

/-- Launch of `init_ident_col` on a `(gridx, gridy, gridz)` grid of blocks of
`blockx` by `blocky` threads. -/
def hipLaunch_init_ident_col (gridx gridy gridz blockx blocky : Int)
    (m n k shiftA lda : Int) (mem : Mem) : Mem :=
  run_init_ident_col m n k shiftA lda blockx.toNat blocky.toNat
    (grid3_threads gridx.toNat gridy.toNat gridz.toNat blockx.toNat blocky.toNat) mem

/-- The launch of `init_ident_col` issued by `rocsolver_org2r_ung2r_template`:
`(m - 1)/32 + 1` by `(n - 1)/32 + 1` by `batch_count` blocks of `32 x 32`
threads. -/
def org2r_init_ident (m n k shiftA lda batch_count : Int) (mem : Mem) : Mem :=
  let blocksx := Int.tdiv (m - 1) 32 + 1
  let blocksy := Int.tdiv (n - 1) 32 + 1
  hipLaunch_init_ident_col blocksx blocksy batch_count 32 32 m n k shiftA lda mem

/-- Thread coordinate `hipBlockIdx_x * hipBlockDim_x + hipThreadIdx_x`. -/
def ThreadIdx3.row (t : ThreadIdx3) (hipBlockDim_x : Nat) : Int :=
  t.hipBlockIdx_x * hipBlockDim_x + t.hipThreadIdx_x

/-- Thread coordinate `hipBlockIdx_y * hipBlockDim_y + hipThreadIdx_y`. -/
def ThreadIdx3.col (t : ThreadIdx3) (hipBlockDim_y : Nat) : Int :=
  t.hipBlockIdx_y * hipBlockDim_y + t.hipThreadIdx_y

/-- A request of zero bytes leaves a null pointer, as `hipMalloc` does: the
buffer is then not tested, because every pointer test of the entry points is
guarded by the size requested. -/
def Host.malloc_zero_null (host : Host) : Prop :=
  ∀ i : Nat, host.hipMalloc i 0 = none

/-- A host that asks for no pivot-index buffer (`size_3 = 0`) and on which the
pivot-value buffer (`size_2 = 4`) cannot be allocated; a request of zero bytes
leaves a null pointer. -/
def host_pivot_val_null : Host :=
  { host_ok with
    rocsolver_getf2_getMemorySize := fun _ _ => (12, 4, 0, 8)
    hipMalloc := fun i size => if size = 0 ∨ i = 1 then none else some (i + 1) }

/-- The operations of the panel `[j, j + jb)` of the blocked LU factorization
as the specification lists them, to be compared with `getrf_panel`: reset of
the panel status, panel factorization of the `(m - j) x jb` block with the
pivots from `shiftP + j`, adjustment of `jb` pivots, interchanges (when
pivoting) on the columns `[0, j)` and, only with columns to the right of the
panel, on `[j + jb, n)`, the triangular solve on those `n - j - jb` columns,
and, only with rows below the panel, the matrix multiply on the trailing
`(m - j - jb) x (n - j - jb)` block. -/
def getrf_panel_spec (cfg : IdealSizes)
    (m n shiftA lda strideA shiftP strideP batch_count pivot : Int) (optim_mem : Bool)
    (j jb : Int) : List Call :=
  [Call.reset_info (Int.tdiv (batch_count - 1) cfg.BLOCKSIZE + 1) cfg.BLOCKSIZE Buf.iinfo
      batch_count 0,
    Call.getf2 (m - j) jb (shiftA + idx2D j j lda) lda strideA (shiftP + j) strideP Buf.iinfo
      batch_count pivot,
    Call.getrf_check_singularity (Int.tdiv (jb - 1) cfg.BLOCKSIZE + 1) batch_count cfg.BLOCKSIZE
      jb j (shiftP + j) strideP pivot]
  ++ (if pivot ≠ 0 then
        [Call.laswp j shiftA lda strideA (j + 1) (j + jb) shiftP strideP 1 batch_count]
      else [])
  ++ (if j + jb < n then
        (if pivot ≠ 0 then
          [Call.laswp (n - j - jb) (shiftA + idx2D 0 (j + jb) lda) lda strideA (j + 1) (j + jb)
            shiftP strideP 1 batch_count]
         else [])
        ++ [Call.trsm jb (n - j - jb) (shiftA + idx2D j j lda) lda strideA
              (shiftA + idx2D j (j + jb) lda) lda strideA batch_count optim_mem]
        ++ (if j + jb < m then
              [Call.gemm (m - j - jb) (n - j - jb) jb (shiftA + idx2D (j + jb) j lda) lda strideA
                (shiftA + idx2D j (j + jb) lda) lda strideA
                (shiftA + idx2D (j + jb) (j + jb) lda) lda strideA batch_count]
            else [])
      else [])

/-- Modelled from the spec: `rocsolver_getf2_template` is not among the
sources.  A panel factorization of an `mm x nn` block produces the
`min mm nn` pivots ("length = min(rows,cols)") of its columns, stored from its
pivot shift; the pivot columns are listed relative to the pivot shift `shiftP`
of the whole factorization.  Other operations factor no column. -/
def Call.getf2_pivot_columns (shiftP : Int) : Call → List Int
  | Call.getf2 mm nn _ _ _ sP _ _ _ _ => col_range (sP - shiftP) (min mm nn).toNat
  | _ => []

/-- Reflector-builder operations. -/
def Call.is_larfg : Call → Bool
  | Call.larfg .. => true
  | _ => false

/-- The builder call with which `geqr2_column` factors column `c` of an
`m`-row matrix stored from `shiftA` with multipliers `ipiv`: a reflector of
order `m - c` with alpha at `(c, c)`, the vector from row `min(c+1, m-1)` of
column `c`, and the multiplier `ipiv[c]`. -/
def geqr2_builder_call (m shiftA lda strideA : Int) (ipiv : Loc) (strideP batch_count : Int)
    (c : Int) : Call :=
  Call.larfg (m - c) (shiftA + idx2D c c lda) (shiftA + idx2D (min (c + 1) (m - 1)) c lda) 1
    strideA (ipiv.add c) strideP batch_count

/-! ## Offsets in `rocblas_int` arithmetic -/

/-- Sum of two `rocblas_int` values as the 32-bit adder delivers it. -/
def add32 (a b : Int) : Int := wrap32 (a + b)

/-- Modelled from the spec: the macro `idx2D` is not among the sources.  Its
value in `rocblas_int` arithmetic: the product `j*lda` and the sum with `i`
are both reduced to 32 bits. -/
def idx2D32 (i j lda : Int) : Int := add32 (mul32 j lda) i

/-- The operation as it is issued in `rocblas_int` arithmetic: every element
offset that the drivers form as `shiftA + idx2D(..)` is handed over as the
32-bit value of that expression (`offset32_eq`); dimensions, increments and
counts are bounded by the matrix dimensions and are left as they are. -/
def Call.int32_offsets : Call → Call
  | Call.larfg n shiftAlpha shiftX incx stridex tau strideP batch_count =>
      Call.larfg n (wrap32 shiftAlpha) (wrap32 shiftX) incx stridex tau strideP batch_count
  | Call.set_diag batch_count d j strideD shiftA lda strideA n set_one =>
      Call.set_diag batch_count d j strideD (wrap32 shiftA) lda strideA n set_one
  | Call.restore_diag batch_count d j strideD shiftA lda strideA n =>
      Call.restore_diag batch_count d j strideD (wrap32 shiftA) lda strideA n
  | Call.lacgv n x shift incx stride batch_count =>
      Call.lacgv n x (wrap32 shift) incx stride batch_count
  | Call.larf side m n shiftx incx stridex tau strideP shiftA lda strideA batch_count =>
      Call.larf side m n (wrap32 shiftx) incx stridex tau strideP (wrap32 shiftA) lda strideA
        batch_count
  | Call.larft n k shiftV ldv strideV tau strideT ldf strideF batch_count =>
      Call.larft n k (wrap32 shiftV) ldv strideV tau strideT ldf strideF batch_count
  | Call.larfb side op m n k shiftV ldv strideV shiftF ldf strideF shiftA lda strideA
      batch_count =>
      Call.larfb side op m n k (wrap32 shiftV) ldv strideV shiftF ldf strideF (wrap32 shiftA)
        lda strideA batch_count
  | Call.getf2 m n shiftA lda strideA shiftP strideP infoBuf batch_count pivot =>
      Call.getf2 m n (wrap32 shiftA) lda strideA shiftP strideP infoBuf batch_count pivot
  | Call.laswp n shiftA lda strideA k1 k2 shiftP strideP incx batch_count =>
      Call.laswp n (wrap32 shiftA) lda strideA k1 k2 shiftP strideP incx batch_count
  | Call.trsm m n shiftA lda strideA shiftB ldb strideB batch_count optim_mem =>
      Call.trsm m n (wrap32 shiftA) lda strideA (wrap32 shiftB) ldb strideB batch_count optim_mem
  | Call.gemm m n k shiftA lda strideA shiftB ldb strideB shiftC ldc strideC batch_count =>
      Call.gemm m n k (wrap32 shiftA) lda strideA (wrap32 shiftB) ldb strideB (wrap32 shiftC) ldc
        strideC batch_count
  | Call.scal n alpha stridea shiftx incx stridex batch_count =>
      Call.scal n alpha stridea (wrap32 shiftx) incx stridex batch_count
  | c => c

/-- The execution context `dev` as the drivers reach it with `rocblas_int`
offsets: each operation arrives with its element offsets reduced to 32 bits. -/
def int32Device {σ : Type} (dev : Device σ) : Device σ where
  exec := fun c st => dev.exec c.int32_offsets st
  status := fun c st => dev.status c.int32_offsets st
  get_pointer_mode := dev.get_pointer_mode

/-! ## Theorems -/

/-- C1: `rocsolver_geqr2_geqrf_argCheck` returns `invalid_size` exactly when
`m < 0`, `n < 0`, `lda < m` or `batch_count < 0`, whatever the pointers `A`
and `ipiv` are: the size check precedes the pointer check. -/
theorem geqr2_geqrf_argCheck_invalid_size_iff (m n lda batch_count : Int)
    (A ipiv : DevPtr) :
    rocsolver_geqr2_geqrf_argCheck m n lda A ipiv batch_count
        = rocblas_status_invalid_size
      ↔ (m < 0 ∨ n < 0 ∨ lda < m ∨ batch_count < 0) := by
  unfold rocsolver_geqr2_geqrf_argCheck
  split_ifs with h1 h2
  · simp [h1]
  · simp [h1]
  · simp [h1]

/-- C2 (failing input): for the non-empty shape `m = n = lda = 65536` the
32-bit product `m*n` is `0`, so a null `A` and a null `ipiv` pass the pointer
check and the validator answers `continue` instead of `invalid_pointer`. -/
theorem geqr2_geqrf_argCheck_null_unreported :
    is_rocblas_int 65536 ∧ (0 : Int) < 65536 ∧
    rocsolver_geqr2_geqrf_argCheck 65536 65536 65536 none none 1
      = rocblas_status_continue := by
  decide

/-! ### The 32-bit product in the null checks -/

/-- Reduction to 32 bits does not change a value of the 32-bit range. -/
theorem wrap32_of_fitting (x : Int) (h0 : -2147483648 ≤ x) (h1 : x ≤ INT_MAX) :
    wrap32 x = x := by
  unfold wrap32
  unfold INT_MAX at h1
  omega

/-- The 32-bit product of two positive dimensions is non-zero when the
mathematical product fits in `rocblas_int`. -/
theorem mul32_ne_zero_of_fitting (m n : Int) (hm : 0 < m) (hn : 0 < n)
    (hfit : m * n ≤ INT_MAX) : mul32 m n ≠ 0 := by
  have hpos : 0 < m * n := Int.mul_pos hm hn
  unfold mul32
  rw [wrap32_of_fitting (m * n) (by omega) hfit]
  omega

/-- For shapes whose product fits in 32 bits `rocsolver_geqr2_geqrf_argCheck`
does report a null `A` or `ipiv` of a non-empty matrix. -/
theorem geqr2_geqrf_argCheck_null_of_fitting (m n lda batch_count : Int) (A ipiv : DevPtr)
    (hm : 0 < m) (hn : 0 < n) (hfit : m * n ≤ INT_MAX) (hlda : m ≤ lda)
    (hbc : 0 ≤ batch_count) (hnull : A = none ∨ ipiv = none) :
    rocsolver_geqr2_geqrf_argCheck m n lda A ipiv batch_count
      = rocblas_status_invalid_pointer := by
  have hprod := mul32_ne_zero_of_fitting m n hm hn hfit
  have h1 : ¬ (m < 0 ∨ n < 0 ∨ lda < m ∨ batch_count < 0) := by omega
  unfold rocsolver_geqr2_geqrf_argCheck
  rw [if_neg h1]
  have h2 : (mul32 m n ≠ 0 ∧ A = none) ∨ (mul32 m n ≠ 0 ∧ ipiv = none) := by
    rcases hnull with h | h
    · exact Or.inl ⟨hprod, h⟩
    · exact Or.inr ⟨hprod, h⟩
  rw [if_pos h2]

/-- Outcome of `rocsolver_org2r_orgqr_argCheck` in terms of the 32-bit
product: `continue` exactly for valid dimensions with the required pointers,
`invalid_size` exactly for invalid dimensions. -/
theorem org2r_orgqr_argCheck_outcome (m n k lda : Int) (A ipiv : DevPtr) :
    (rocsolver_org2r_orgqr_argCheck m n k lda A ipiv = rocblas_status_continue
      ↔ (0 ≤ k ∧ k ≤ n ∧ n ≤ m ∧ m ≤ lda) ∧ (k = 0 ∨ ipiv ≠ none)
          ∧ (mul32 m n = 0 ∨ A ≠ none))
    ∧ (rocsolver_org2r_orgqr_argCheck m n k lda A ipiv = rocblas_status_invalid_size
      ↔ ¬ (0 ≤ k ∧ k ≤ n ∧ n ≤ m ∧ m ≤ lda)) := by
  unfold rocsolver_org2r_orgqr_argCheck
  by_cases h1 : m < 0 ∨ n < 0 ∨ n > m ∨ k < 0 ∨ k > n ∨ lda < m
  · rw [if_pos h1]
    have hdim : ¬ (0 ≤ k ∧ k ≤ n ∧ n ≤ m ∧ m ≤ lda) := by omega
    simp [hdim]
  · rw [if_neg h1]
    have hdim : 0 ≤ k ∧ k ≤ n ∧ n ≤ m ∧ m ≤ lda := by omega
    by_cases h2 : (k ≠ 0 ∧ ipiv = none) ∨ (mul32 m n ≠ 0 ∧ A = none)
    · rw [if_pos h2]
      have hp : ¬ ((k = 0 ∨ ipiv ≠ none) ∧ (mul32 m n = 0 ∨ A ≠ none)) := by
        rintro ⟨ha, hb⟩
        rcases h2 with ⟨hk, hi⟩ | ⟨hmn, hA⟩
        · rcases ha with h | h
          · exact hk h
          · exact h hi
        · rcases hb with h | h
          · exact hmn h
          · exact h hA
      simp [hdim, hp]
    · rw [if_neg h2]
      have hp : (k = 0 ∨ ipiv ≠ none) ∧ (mul32 m n = 0 ∨ A ≠ none) := by
        constructor
        · by_contra hc
          exact h2 (Or.inl ⟨fun h => hc (Or.inl h), by_contra fun h => hc (Or.inr h)⟩)
        · by_contra hc
          exact h2 (Or.inr ⟨fun h => hc (Or.inl h), by_contra fun h => hc (Or.inr h)⟩)
      simp [hdim, hp]

/-- For shapes whose product fits in 32 bits `rocsolver_org2r_orgqr_argCheck`
answers `continue` exactly when `0 <= k <= n <= m <= lda`, (`k = 0` or `ipiv`
is non-null) and (`m*n = 0` or `A` is non-null). -/
theorem org2r_orgqr_argCheck_continue_of_fitting (m n k lda : Int) (A ipiv : DevPtr)
    (hfit : m * n ≤ INT_MAX) :
    rocsolver_org2r_orgqr_argCheck m n k lda A ipiv = rocblas_status_continue
      ↔ (0 ≤ k ∧ k ≤ n ∧ n ≤ m ∧ m ≤ lda) ∧ (k = 0 ∨ ipiv ≠ none)
          ∧ (m * n = 0 ∨ A ≠ none) := by
  rw [(org2r_orgqr_argCheck_outcome m n k lda A ipiv).1]
  constructor
  · rintro ⟨hdim, hk, hA⟩
    refine ⟨hdim, hk, ?_⟩
    have hnn : 0 ≤ m * n := Int.mul_nonneg (by omega) (by omega)
    unfold mul32 at hA
    rw [wrap32_of_fitting (m * n) (by omega) hfit] at hA
    exact hA
  · rintro ⟨hdim, hk, hA⟩
    refine ⟨hdim, hk, ?_⟩
    have hnn : 0 ≤ m * n := Int.mul_nonneg (by omega) (by omega)
    unfold mul32
    rw [wrap32_of_fitting (m * n) (by omega) hfit]
    exact hA

/-- C5: with a non-null handle, `rocsolver_orm2r_impl` returns `invalid_size`
exactly when `m < 0`, `n < 0`, `k < 0`, `ldc < m`, or the side is left and
(`k > m` or `lda < m`), or the side is right and (`k > n` or `lda < n`),
whatever the pointers `A`, `ipiv` and `C` are; the later stages (error
conversion of the copy, `rocsolver_orm2r_template`) are assumed never to
answer `invalid_size` themselves. -/
theorem orm2r_impl_invalid_size_iff {σ : Type} (dev : Device σ) (host : Host)
    (handle : rocblas_handle) (side : rocblas_side) (trans : rocblas_operation)
    (m n k : Int) (A : DevPtr) (lda : Int) (ipiv C : DevPtr) (ldc : Int) (st : σ)
    (hh : handle ≠ none)
    (hhip : host.get_rocblas_status_for_hip_status host.hipMemcpy
      ≠ rocblas_status_invalid_size)
    (htmpl : ∀ c s, dev.status c s ≠ rocblas_status_invalid_size) :
    (rocsolver_orm2r_impl dev host handle side trans m n k A lda ipiv C ldc st).1
        = rocblas_status_invalid_size
      ↔ (m < 0 ∨ n < 0 ∨ k < 0 ∨ ldc < m
          ∨ (side = rocblas_side_left ∧ (k > m ∨ lda < m))
          ∨ (side = rocblas_side_right ∧ (k > n ∨ lda < n))) := by
  unfold rocsolver_orm2r_impl
  rw [if_neg hh]
  by_cases h1 : m < 0 ∨ n < 0 ∨ k < 0 ∨ ldc < m
  · rw [if_pos h1]
    constructor
    · intro _
      rcases h1 with h | h | h | h
      · exact Or.inl h
      · exact Or.inr (Or.inl h)
      · exact Or.inr (Or.inr (Or.inl h))
      · exact Or.inr (Or.inr (Or.inr (Or.inl h)))
    · intro _; rfl
  rw [if_neg h1]
  by_cases h2 : side = rocblas_side_left ∧ (k > m ∨ lda < m)
  · rw [if_pos h2]
    exact ⟨fun _ => Or.inr (Or.inr (Or.inr (Or.inr (Or.inl h2)))), fun _ => rfl⟩
  rw [if_neg h2]
  by_cases h3 : side = rocblas_side_right ∧ (k > n ∨ lda < n)
  · rw [if_pos h3]
    exact ⟨fun _ => Or.inr (Or.inr (Or.inr (Or.inr (Or.inr h3)))), fun _ => rfl⟩
  rw [if_neg h3]
  have hno : ¬ (m < 0 ∨ n < 0 ∨ k < 0 ∨ ldc < m
          ∨ (side = rocblas_side_left ∧ (k > m ∨ lda < m))
          ∨ (side = rocblas_side_right ∧ (k > n ∨ lda < n))) := by
    rintro (h | h | h | h | h | h)
    · exact h1 (Or.inl h)
    · exact h1 (Or.inr (Or.inl h))
    · exact h1 (Or.inr (Or.inr (Or.inl h)))
    · exact h1 (Or.inr (Or.inr (Or.inr h)))
    · exact h2 h
    · exact h3 h
  refine ⟨fun hres => ?_, fun h => absurd h hno⟩
  exfalso
  revert hres
  by_cases h4 : A = none ∨ ipiv = none ∨ C = none
  · rw [if_pos h4]; simp
  rw [if_neg h4]
  dsimp only
  split_ifs
  · simp
  · exact hhip
  · exact htmpl _ _

/-- C5 (witness): `k = 3 > m = 2` from the left with null pointers. -/
theorem orm2r_impl_invalid_size_iff_witness :
    (rocsolver_orm2r_impl traceDevice host_ok (some 0) rocblas_side_left
        rocblas_operation_none 2 2 3 none 2 none none 2 []).1
        = rocblas_status_invalid_size
      ↔ ((2 : Int) < 0 ∨ (2 : Int) < 0 ∨ (3 : Int) < 0 ∨ (2 : Int) < 2
          ∨ (rocblas_side_left = rocblas_side_left ∧ ((3 : Int) > 2 ∨ (2 : Int) < 2))
          ∨ (rocblas_side_left = rocblas_side_right ∧ ((3 : Int) > 2 ∨ (2 : Int) < 2))) :=
  orm2r_impl_invalid_size_iff traceDevice host_ok (some 0) rocblas_side_left
    rocblas_operation_none 2 2 3 none 2 none none 2 [] (by decide) (by decide)
    (by intro c s; simp [traceDevice])

/-- C6 (failing input): for `m = n = lda = 65536` and `k = 0` the 32-bit
product `m*n` is `0`, so `rocsolver_org2r_orgqr_argCheck` answers `continue`
for a null `A` although the dimensions are valid and the matrix is not
empty (`m*n = 4294967296`). -/
theorem org2r_orgqr_argCheck_null_unreported :
    ((0 : Int) ≤ 0 ∧ (0 : Int) ≤ 65536 ∧ (65536 : Int) ≤ 65536) ∧
    (65536 : Int) * 65536 ≠ 0 ∧
    rocsolver_org2r_orgqr_argCheck 65536 65536 0 65536 none none
      = rocblas_status_continue := by
  decide

/-- C7: every entry point answers `invalid_handle` for a null handle, whatever
the other arguments, the host and the device are, and leaves the device state
as it was: the handle check comes first. -/
theorem impl_null_handle {σ : Type} (dev : Device σ) (host : Host) (cfg : IdealSizes)
    (COMPLEX : Bool) (side : rocblas_side) (trans : rocblas_operation) (uplo : rocblas_fill)
    (m n k lda ldc strideA strideP batch_count pivot : Int) (A ipiv C info : DevPtr) (st : σ) :
    rocsolver_geqrf_strided_batched_impl dev host cfg COMPLEX none m n A lda strideA ipiv
        strideP batch_count st = some (rocblas_status_invalid_handle, st)
    ∧ rocsolver_getf2_impl dev host none m n A lda ipiv info pivot st
        = (rocblas_status_invalid_handle, st)
    ∧ rocsolver_getri_strided_batched_impl dev host none n A lda strideA ipiv strideP info
        batch_count st = (rocblas_status_invalid_handle, st)
    ∧ rocsolver_potrf_batched_impl dev host none uplo n A lda info batch_count st
        = (rocblas_status_invalid_handle, st)
    ∧ rocsolver_orm2r_impl dev host none side trans m n k A lda ipiv C ldc st
        = (rocblas_status_invalid_handle, st) := by
  refine ⟨?_, ?_, ?_, ?_, ?_⟩
  · unfold rocsolver_geqrf_strided_batched_impl; rw [if_pos rfl]
  · unfold rocsolver_getf2_impl; rw [if_pos rfl]
  · unfold rocsolver_getri_strided_batched_impl; rw [if_pos rfl]
  · unfold rocsolver_potrf_batched_impl; rw [if_pos rfl]
  · unfold rocsolver_orm2r_impl; rw [if_pos rfl]

/-- C8: when `m = 0` or `n = 0` or `batch_count = 0`, `rocsolver_geqrf_template`,
`rocsolver_getrf_template` and `rocsolver_gebd2_template` return `success` and
hand back the device state they received, on every device: no operation is
issued, so no buffer is read or written, the pointer mode is not touched and
`getrf` does not reset `info`. -/
theorem template_quick_return {σ : Type} (dev : Device σ) (cfg : IdealSizes) (COMPLEX : Bool)
    (m n shiftA lda strideA shiftP strideP strideD strideE strideQ batch_count pivot : Int)
    (ipiv tauq taup : Loc) (optim_mem : Bool) (st : σ)
    (hz : m = 0 ∨ n = 0 ∨ batch_count = 0) :
    rocsolver_geqrf_template dev cfg COMPLEX m n shiftA lda strideA ipiv strideP batch_count st
        = some (rocblas_status_success, st)
    ∧ rocsolver_getrf_template dev cfg m n shiftA lda strideA shiftP strideP batch_count pivot
        optim_mem st = some (rocblas_status_success, st)
    ∧ rocsolver_gebd2_template dev COMPLEX m n shiftA lda strideA strideD strideE tauq strideQ
        taup strideP batch_count st = (rocblas_status_success, st) := by
  refine ⟨?_, ?_, ?_⟩
  · unfold rocsolver_geqrf_template; rw [if_pos hz]
  · unfold rocsolver_getrf_template; rw [if_pos hz]
  · unfold rocsolver_gebd2_template; rw [if_pos hz]

/-- C8 (witness): a zero-batch `6 x 7` problem on the recording device: the
three drivers return `success` with an empty record. -/
theorem template_quick_return_witness :
    rocsolver_geqrf_template traceDevice cfg_small true 6 7 0 6 42 { buf := Buf.ipiv, off := 0 }
        6 0 [] = some (rocblas_status_success, [])
    ∧ rocsolver_getrf_template traceDevice cfg_small 6 7 0 6 42 0 6 0 1 false []
        = some (rocblas_status_success, [])
    ∧ rocsolver_gebd2_template traceDevice true 6 7 0 6 42 6 6 { buf := Buf.tauq, off := 0 } 6
        { buf := Buf.taup, off := 0 } 6 0 [] = (rocblas_status_success, []) :=
  template_quick_return traceDevice cfg_small true 6 7 0 6 42 0 6 6 6 6 0 1
    { buf := Buf.ipiv, off := 0 } { buf := Buf.tauq, off := 0 } { buf := Buf.taup, off := 0 }
    false [] (Or.inr (Or.inr rfl))

/-! ### Singularity tracking -/

/-- A thread of `getrf_check_singularity` does not write `iinfo`. -/
theorem check_singularity_thread_iinfo (n j shiftP strideP pivot : Int) (bd : Nat)
    (t : ThreadIdx) (s : LUState) :
    (getrf_check_singularity n j shiftP strideP pivot bd t s).iinfo = s.iinfo := by
  unfold getrf_check_singularity
  dsimp only
  split_ifs <;> rfl

/-- Effect of one thread of `getrf_check_singularity` on `info`. -/
theorem check_singularity_thread_info (n j shiftP strideP pivot : Int) (bd : Nat)
    (t : ThreadIdx) (s : LUState) (id : Int) :
    (getrf_check_singularity n j shiftP strideP pivot bd t s).info id
      = if (t.hipBlockIdx_y : Int) = id ∧ s.info id = 0 ∧ s.iinfo id > 0
        then s.iinfo id + j else s.info id := by
  unfold getrf_check_singularity
  dsimp only
  by_cases hid : (t.hipBlockIdx_y : Int) = id
  · subst hid
    split_ifs <;> simp_all [Function.update_same]
  · have hne : id ≠ (t.hipBlockIdx_y : Int) := fun h => hid h.symm
    split_ifs <;> simp_all [Function.update_noteq]

/-- The threads of a run of `getrf_check_singularity` do not write `iinfo`. -/
theorem run_check_singularity_iinfo (n j shiftP strideP pivot : Int) (bd : Nat)
    (ts : List ThreadIdx) (s : LUState) :
    (run_getrf_check_singularity n j shiftP strideP pivot bd ts s).iinfo = s.iinfo := by
  induction ts generalizing s with
  | nil => rfl
  | cons t ts ih =>
    simp only [run_getrf_check_singularity, List.foldl_cons] at ih ⊢
    rw [ih, check_singularity_thread_iinfo]

/-- Effect of a run of `getrf_check_singularity` on `info`: entry `id` is
replaced by `iinfo[id] + j` when some thread works for matrix `id`, the entry
was `0` and `iinfo[id] > 0`; otherwise it is kept. -/
theorem run_check_singularity_info (n j shiftP strideP pivot : Int) (bd : Nat)
    (ts : List ThreadIdx) (s : LUState) (id : Int) :
    (run_getrf_check_singularity n j shiftP strideP pivot bd ts s).info id
      = if (∃ t ∈ ts, (t.hipBlockIdx_y : Int) = id) ∧ s.info id = 0 ∧ s.iinfo id > 0
        then s.iinfo id + j else s.info id := by
  induction ts generalizing s with
  | nil => simp [run_getrf_check_singularity]
  | cons t ts ih =>
    simp only [run_getrf_check_singularity, List.foldl_cons] at ih ⊢
    rw [ih, check_singularity_thread_iinfo, check_singularity_thread_info]
    by_cases hid : (t.hipBlockIdx_y : Int) = id
    · by_cases hc : s.info id = 0 ∧ s.iinfo id > 0
      · have h1 : (∃ t' ∈ t :: ts, (t'.hipBlockIdx_y : Int) = id) :=
          ⟨t, List.mem_cons_self _ _, hid⟩
        have hk : (if (t.hipBlockIdx_y : Int) = id ∧ s.info id = 0 ∧ s.iinfo id > 0
            then s.iinfo id + j else s.info id) = s.iinfo id + j := if_pos ⟨hid, hc⟩
        have hr : (if (∃ t' ∈ t :: ts, (t'.hipBlockIdx_y : Int) = id) ∧ s.info id = 0
            ∧ s.iinfo id > 0 then s.iinfo id + j else s.info id) = s.iinfo id + j :=
          if_pos ⟨h1, hc⟩
        rw [hk, hr]
        split_ifs <;> rfl
      · have hk : (if (t.hipBlockIdx_y : Int) = id ∧ s.info id = 0 ∧ s.iinfo id > 0
            then s.iinfo id + j else s.info id) = s.info id := if_neg (fun h => hc h.2)
        have hr : (if (∃ t' ∈ t :: ts, (t'.hipBlockIdx_y : Int) = id) ∧ s.info id = 0
            ∧ s.iinfo id > 0 then s.iinfo id + j else s.info id) = s.info id :=
          if_neg (fun h => hc h.2)
        rw [hk, hr]
        exact if_neg (fun h => hc h.2)
    · have hk : (if (t.hipBlockIdx_y : Int) = id ∧ s.info id = 0 ∧ s.iinfo id > 0
          then s.iinfo id + j else s.info id) = s.info id := if_neg (fun h => hid h.1)
      rw [hk]
      have hiff : (∃ t' ∈ t :: ts, (t'.hipBlockIdx_y : Int) = id)
          ↔ (∃ t' ∈ ts, (t'.hipBlockIdx_y : Int) = id) := by
        constructor
        · rintro ⟨t', ht', h⟩
          rcases List.mem_cons.mp ht' with rfl | hmem
          · exact absurd h hid
          · exact ⟨t', hmem, h⟩
        · rintro ⟨t', ht', h⟩
          exact ⟨t', List.mem_cons_of_mem _ ht', h⟩
      simp only [hiff]

/-- C9: `getrf_check_singularity` never overwrites a recorded singularity.
Whatever threads run and in whatever order, for every matrix `id`: a non-zero
`info[id]` keeps its value; `info[id]` changes only when it was `0` and
`iinfo[id] > 0`, and then it is `iinfo[id] + j`; and when some thread works
for matrix `id`, a zero `info[id]` with `iinfo[id] > 0` does become
`iinfo[id] + j`. -/
theorem getrf_check_singularity_first_wins (n j shiftP strideP pivot : Int) (bd : Nat)
    (ts : List ThreadIdx) (s : LUState) (id : Int) :
    (s.info id ≠ 0 →
      (run_getrf_check_singularity n j shiftP strideP pivot bd ts s).info id = s.info id)
    ∧ ((run_getrf_check_singularity n j shiftP strideP pivot bd ts s).info id ≠ s.info id →
        s.info id = 0 ∧ s.iinfo id > 0
        ∧ (run_getrf_check_singularity n j shiftP strideP pivot bd ts s).info id
            = s.iinfo id + j)
    ∧ ((∃ t ∈ ts, (t.hipBlockIdx_y : Int) = id) → s.info id = 0 → s.iinfo id > 0 →
        (run_getrf_check_singularity n j shiftP strideP pivot bd ts s).info id
          = s.iinfo id + j) := by
  rw [run_check_singularity_info]
  refine ⟨?_, ?_, ?_⟩
  · intro h
    rw [if_neg (fun hc => h hc.2.1)]
  · intro h
    by_cases hc : (∃ t ∈ ts, (t.hipBlockIdx_y : Int) = id) ∧ s.info id = 0 ∧ s.iinfo id > 0
    · rw [if_pos hc]
      exact ⟨hc.2.1, hc.2.2, rfl⟩
    · rw [if_neg hc] at h
      exact absurd rfl h
  · intro ht h0 hpos
    rw [if_pos ⟨ht, h0, hpos⟩]

/-- Every row of a non-empty grid holds a thread. -/
theorem grid_threads_row (gridx gridy blockx y : Nat) (hx : 0 < gridx) (hy : y < gridy)
    (hb : 0 < blockx) :
    ∃ t ∈ grid_threads gridx gridy blockx, t.hipBlockIdx_y = y := by
  refine ⟨{ hipBlockIdx_x := 0, hipBlockIdx_y := y, hipThreadIdx_x := 0 }, ?_, rfl⟩
  simp only [grid_threads, List.mem_flatMap, List.mem_map, List.mem_range]
  exact ⟨y, hy, 0, hx, 0, hb, rfl⟩

/-- Effect on `info` of a launch of `getrf_check_singularity` whose grid has
a row for matrix `id`. -/
theorem launch_check_singularity_info (gridx gridy blockx n j shiftP strideP pivot : Int)
    (s : LUState) (id : Int) (hx : 1 ≤ gridx) (hb : 1 ≤ blockx) (h0 : 0 ≤ id)
    (hid : id < gridy) :
    (hipLaunch_getrf_check_singularity gridx gridy blockx n j shiftP strideP pivot s).info id
      = if s.info id = 0 ∧ s.iinfo id > 0 then s.iinfo id + j else s.info id := by
  unfold hipLaunch_getrf_check_singularity
  rw [run_check_singularity_info]
  have hrow : ∃ t ∈ grid_threads gridx.toNat gridy.toNat blockx.toNat,
      (t.hipBlockIdx_y : Int) = id := by
    obtain ⟨t, ht, hty⟩ := grid_threads_row gridx.toNat gridy.toNat blockx.toNat id.toNat
      (by omega) (by omega) (by omega)
    refine ⟨t, ht, ?_⟩
    rw [hty]
    omega
  simp only [hrow, true_and]

/-- The launch `reset_info` with `(n - 1) / threads + 1` blocks reaches every
entry below `n`. -/
theorem reset_info_covers (threads n val : Int) (buf : Int → Int) (idx : Int)
    (ht : 1 ≤ threads) (h0 : 0 ≤ idx) (hn : idx < n) :
    reset_info (Int.tdiv (n - 1) threads + 1) threads buf n val idx = val := by
  unfold reset_info
  have hq : Int.tdiv (n - 1) threads = (n - 1) / threads :=
    Int.tdiv_eq_ediv (by omega) (by omega)
  have hq0 : 0 ≤ (n - 1) / threads := Int.ediv_nonneg (by omega) (by omega)
  have hlt : n - 1 < ((n - 1) / threads + 1) * threads :=
    Int.lt_ediv_add_one_mul_self (n - 1) (by omega)
  have hcast : ((((n - 1) / threads + 1).toNat : Int)) * ((threads.toNat : Int))
      = ((n - 1) / threads + 1) * threads := by
    rw [Int.toNat_of_nonneg (by omega), Int.toNat_of_nonneg (by omega)]
  rw [hq]
  have hcond : 0 ≤ idx ∧ idx < (((n - 1) / threads + 1).toNat : Int) * (threads.toNat : Int)
      ∧ idx < n := by
    refine ⟨h0, ?_, hn⟩
    rw [hcast]
    omega
  rw [if_pos hcond]

/-- On the LU device a panel of the blocked driver acts on the bookkeeping
state through the panel factorizer and the singularity kernel only. -/
theorem getrf_panel_luDevice (shiftP : Int) (pf : PanelFactorizer) (cfg : IdealSizes)
    (m n shiftA lda strideA strideP batch_count pivot : Int) (optim_mem : Bool)
    (dim blocksReset j : Int) (s : LUState) :
    getrf_panel (luDevice shiftP pf) cfg m n shiftA lda strideA shiftP strideP batch_count
        pivot optim_mem dim blocksReset j s
      = hipLaunch_getrf_check_singularity
          (Int.tdiv (min (m - j) (min (dim - j) cfg.GETRF_GETF2_SWITCHSIZE) - 1)
            cfg.BLOCKSIZE + 1)
          batch_count cfg.BLOCKSIZE (min (m - j) (min (dim - j) cfg.GETRF_GETF2_SWITCHSIZE))
          j (shiftP + j) strideP pivot
          { s with
            ipiv := pf.pivots (Call.getf2 (m - j) (min (dim - j) cfg.GETRF_GETF2_SWITCHSIZE)
              (shiftA + idx2D j j lda) lda strideA (shiftP + j) strideP Buf.iinfo batch_count
              pivot) s.ipiv
            iinfo := fun i => if 0 ≤ i ∧ i < batch_count then pf.iinfoOf (shiftP + j - shiftP) i
              else reset_info blocksReset cfg.BLOCKSIZE s.iinfo batch_count 0 i } := by
  unfold getrf_panel
  simp only [luDevice]
  split_ifs <;> rfl

/-- Effect of one panel of the blocked LU driver on `info[i]`. -/
theorem getrf_panel_info (shiftP : Int) (pf : PanelFactorizer) (cfg : IdealSizes)
    (m n shiftA lda strideA strideP batch_count pivot : Int) (optim_mem : Bool)
    (dim blocksReset j : Int) (s : LUState) (i : Int)
    (hBS : 1 ≤ cfg.BLOCKSIZE) (hSW : 1 ≤ cfg.GETRF_GETF2_SWITCHSIZE)
    (hj : j < dim) (hdim : dim ≤ m) (hi0 : 0 ≤ i) (hi : i < batch_count) :
    (getrf_panel (luDevice shiftP pf) cfg m n shiftA lda strideA shiftP strideP batch_count
        pivot optim_mem dim blocksReset j s).info i
      = if s.info i = 0 ∧ pf.iinfoOf j i > 0 then pf.iinfoOf j i + j else s.info i := by
  rw [getrf_panel_luDevice]
  have hsize : 1 ≤ min (m - j) (min (dim - j) cfg.GETRF_GETF2_SWITCHSIZE) := by
    simp only [le_min_iff]
    omega
  have hgrid : 1 ≤ Int.tdiv (min (m - j) (min (dim - j) cfg.GETRF_GETF2_SWITCHSIZE) - 1)
      cfg.BLOCKSIZE + 1 := by
    have := Int.tdiv_nonneg (a := min (m - j) (min (dim - j) cfg.GETRF_GETF2_SWITCHSIZE) - 1)
      (b := cfg.BLOCKSIZE) (by omega) (by omega)
    omega
  rw [launch_check_singularity_info _ _ _ _ _ _ _ _ _ _ hgrid hBS hi0 hi]
  have hkey : shiftP + j - shiftP = j := by omega
  simp only [hkey, hi0, hi, and_self, if_true]

/-- Loop invariant of the blocked LU driver for `info[i]`: started before panel
number `t` with `info[i]` describing the panels before `t`, the loop ends, and
`info[i]` then describes all panels. -/
theorem getrf_panels_info (shiftP : Int) (pf : PanelFactorizer) (cfg : IdealSizes)
    (m n shiftA lda strideA strideP batch_count pivot : Int) (optim_mem : Bool)
    (dim blocksReset : Int) (i : Int)
    (hBS : 1 ≤ cfg.BLOCKSIZE) (hSW : 1 ≤ cfg.GETRF_GETF2_SWITCHSIZE)
    (hdim : dim ≤ m) (hi0 : 0 ≤ i) (hi : i < batch_count)
    (hstatus : ∀ j i, 0 ≤ pf.iinfoOf j i) :
    ∀ (fuel t : Nat) (s : LUState),
      (dim - t * cfg.GETRF_GETF2_SWITCHSIZE).toNat < fuel →
      (∀ u : Nat, u < t → (u : Int) * cfg.GETRF_GETF2_SWITCHSIZE < dim) →
      ((s.info i = 0 ∧ ∀ u : Nat, u < t → pf.iinfoOf (u * cfg.GETRF_GETF2_SWITCHSIZE) i = 0)
        ∨ (∃ u : Nat, u < t ∧ 0 < pf.iinfoOf (u * cfg.GETRF_GETF2_SWITCHSIZE) i
            ∧ (∀ w : Nat, w < u → pf.iinfoOf (w * cfg.GETRF_GETF2_SWITCHSIZE) i = 0)
            ∧ s.info i = u * cfg.GETRF_GETF2_SWITCHSIZE
                + pf.iinfoOf (u * cfg.GETRF_GETF2_SWITCHSIZE) i)) →
      ∃ s', getrf_panels (luDevice shiftP pf) cfg m n shiftA lda strideA shiftP strideP
              batch_count pivot optim_mem dim blocksReset fuel
              (t * cfg.GETRF_GETF2_SWITCHSIZE) s = some s'
        ∧ ((s'.info i = 0 ∧ ∀ u : Nat, (u : Int) * cfg.GETRF_GETF2_SWITCHSIZE < dim →
              pf.iinfoOf (u * cfg.GETRF_GETF2_SWITCHSIZE) i = 0)
          ∨ (∃ u : Nat, (u : Int) * cfg.GETRF_GETF2_SWITCHSIZE < dim
              ∧ 0 < pf.iinfoOf (u * cfg.GETRF_GETF2_SWITCHSIZE) i
              ∧ (∀ w : Nat, w < u → pf.iinfoOf (w * cfg.GETRF_GETF2_SWITCHSIZE) i = 0)
              ∧ s'.info i = u * cfg.GETRF_GETF2_SWITCHSIZE
                  + pf.iinfoOf (u * cfg.GETRF_GETF2_SWITCHSIZE) i)) := by
  intro fuel
  induction fuel with
  | zero => intro t s hfuel; omega
  | succ fuel ih =>
    intro t s hfuel hprev hinv
    have hmono : ∀ a b : Nat, a ≤ b →
        (a : Int) * cfg.GETRF_GETF2_SWITCHSIZE ≤ (b : Int) * cfg.GETRF_GETF2_SWITCHSIZE := by
      intro a b hab
      exact Int.mul_le_mul_of_nonneg_right (by exact_mod_cast hab) (by omega)
    unfold getrf_panels
    by_cases hj : (t : Int) * cfg.GETRF_GETF2_SWITCHSIZE < dim
    · rw [if_pos hj]
      have hnext : ((t + 1 : Nat) : Int) * cfg.GETRF_GETF2_SWITCHSIZE
          = (t : Int) * cfg.GETRF_GETF2_SWITCHSIZE + cfg.GETRF_GETF2_SWITCHSIZE := by
        push_cast; ring
      rw [← hnext]
      apply ih (t + 1)
      · rw [hnext]
        clear hinv hprev ih hmono
        omega
      · intro u hu
        exact lt_of_le_of_lt (hmono u t (by omega)) hj
      · rw [getrf_panel_info shiftP pf cfg m n shiftA lda strideA strideP batch_count pivot
          optim_mem dim blocksReset _ s i hBS hSW hj hdim hi0 hi]
        rcases hinv with ⟨hv, hall⟩ | ⟨u, hu, hpos, hzero, hv⟩
        · by_cases hp : pf.iinfoOf (t * cfg.GETRF_GETF2_SWITCHSIZE) i > 0
          · right
            refine ⟨t, by omega, hp, hall, ?_⟩
            rw [if_pos ⟨hv, hp⟩]; ring
          · left
            rw [if_neg (fun h => hp h.2)]
            refine ⟨hv, ?_⟩
            intro u hu
            rcases Nat.lt_succ_iff_lt_or_eq.mp hu with h | h
            · exact hall u h
            · subst h
              have := hstatus (u * cfg.GETRF_GETF2_SWITCHSIZE) i
              omega
        · right
          have hu0 : 0 ≤ (u : Int) * cfg.GETRF_GETF2_SWITCHSIZE :=
            Int.mul_nonneg (by omega) (by omega)
          have hne : ¬ (s.info i = 0
              ∧ pf.iinfoOf (t * cfg.GETRF_GETF2_SWITCHSIZE) i > 0) := by
            intro h
            omega
          refine ⟨u, by omega, hpos, hzero, ?_⟩
          rw [if_neg hne]
          exact hv
    · rw [if_neg hj]
      refine ⟨s, rfl, ?_⟩
      rcases hinv with ⟨hv, hall⟩ | ⟨u, hu, hpos, hzero, hv⟩
      · left
        refine ⟨hv, ?_⟩
        intro u hu
        apply hall
        by_contra hge
        have := hmono t u (by omega)
        omega
      · right
        exact ⟨u, hprev u hu, hpos, hzero, hv⟩

/-- C10: on the blocked path of `rocsolver_getrf_template`, with each panel
factorization reporting a local status `iinfo >= 0` per matrix, the driver
returns and the final `info[i]` is `0` exactly when every panel reported
`iinfo[i] = 0`; otherwise it is `j + iinfo[i]` for the first panel, starting
at column `j`, that reported `iinfo[i] > 0`, whatever `info[i]` held on
entry.  The panels start at the columns `t * GETRF_GETF2_SWITCHSIZE` below
`min m n`. -/
theorem getrf_blocked_info (shiftP : Int) (pf : PanelFactorizer) (cfg : IdealSizes)
    (m n shiftA lda strideA strideP batch_count pivot : Int) (optim_mem : Bool)
    (s : LUState) (i : Int)
    (hSW : 1 ≤ cfg.GETRF_GETF2_SWITCHSIZE) (hBS : 1 ≤ cfg.BLOCKSIZE)
    (hm : cfg.GETRF_GETF2_SWITCHSIZE ≤ m) (hn : cfg.GETRF_GETF2_SWITCHSIZE ≤ n)
    (hi0 : 0 ≤ i) (hi : i < batch_count)
    (hstatus : ∀ j i, 0 ≤ pf.iinfoOf j i) :
    ∃ s', rocsolver_getrf_template (luDevice shiftP pf) cfg m n shiftA lda strideA shiftP
            strideP batch_count pivot optim_mem s = some (rocblas_status_success, s')
      ∧ (s'.info i = 0 ↔ ∀ t : Nat, (t : Int) * cfg.GETRF_GETF2_SWITCHSIZE < min m n →
            pf.iinfoOf (t * cfg.GETRF_GETF2_SWITCHSIZE) i = 0)
      ∧ (∀ t : Nat, (t : Int) * cfg.GETRF_GETF2_SWITCHSIZE < min m n →
            0 < pf.iinfoOf (t * cfg.GETRF_GETF2_SWITCHSIZE) i →
            (∀ u : Nat, u < t → pf.iinfoOf (u * cfg.GETRF_GETF2_SWITCHSIZE) i = 0) →
            s'.info i = t * cfg.GETRF_GETF2_SWITCHSIZE
              + pf.iinfoOf (t * cfg.GETRF_GETF2_SWITCHSIZE) i) := by
  have hquick : ¬ (m = 0 ∨ n = 0 ∨ batch_count = 0) := by omega
  have hsmall : ¬ (m < cfg.GETRF_GETF2_SWITCHSIZE ∨ n < cfg.GETRF_GETF2_SWITCHSIZE) := by omega
  have hdim : min m n ≤ m := min_le_left m n
  have hdim1 : 1 ≤ min m n := by
    simp only [le_min_iff]; omega
  have hstart : ((luDevice shiftP pf).exec
      (Call.reset_info (Int.tdiv (batch_count - 1) cfg.BLOCKSIZE + 1) cfg.BLOCKSIZE Buf.info
        batch_count 0)
      ((luDevice shiftP pf).exec (Call.set_pointer_mode rocblas_pointer_mode_host) s)).info i
      = 0 := by
    simp only [luDevice]
    exact reset_info_covers cfg.BLOCKSIZE batch_count 0 _ i hBS hi0 hi
  obtain ⟨s', hrun, hfinal⟩ := getrf_panels_info shiftP pf cfg m n shiftA lda strideA strideP
    batch_count pivot optim_mem (min m n) (Int.tdiv (batch_count - 1) cfg.BLOCKSIZE + 1) i
    hBS hSW hdim hi0 hi hstatus ((min m n).toNat + 1) 0
    ((luDevice shiftP pf).exec
      (Call.reset_info (Int.tdiv (batch_count - 1) cfg.BLOCKSIZE + 1) cfg.BLOCKSIZE Buf.info
        batch_count 0)
      ((luDevice shiftP pf).exec (Call.set_pointer_mode rocblas_pointer_mode_host) s))
    (by simp only [Nat.cast_zero, zero_mul, sub_zero]; omega)
    (by intro u hu; omega)
    (Or.inl ⟨hstart, by intro u hu; omega⟩)
  simp only [Nat.cast_zero, zero_mul] at hrun
  refine ⟨(luDevice shiftP pf).exec
    (Call.set_pointer_mode ((luDevice shiftP pf).get_pointer_mode s)) s', ?_, ?_⟩
  · unfold rocsolver_getrf_template
    rw [if_neg hquick, if_neg hsmall]
    simp only [hrun]
  · have hinfo : ((luDevice shiftP pf).exec
        (Call.set_pointer_mode ((luDevice shiftP pf).get_pointer_mode s)) s').info i
        = s'.info i := by
      simp only [luDevice]
    rw [hinfo]
    rcases hfinal with ⟨hv, hall⟩ | ⟨u, hu, hpos, hzero, hv⟩
    · refine ⟨⟨fun _ => hall, fun _ => hv⟩, ?_⟩
      intro t ht hp _
      have := hall t ht
      omega
    · have hu0 : 0 ≤ (u : Int) * cfg.GETRF_GETF2_SWITCHSIZE :=
        Int.mul_nonneg (by omega) (by omega)
      refine ⟨⟨fun h0 => by omega, fun hall => ?_⟩, ?_⟩
      · have := hall u hu
        omega
      · intro t ht hp hz
        rcases Nat.lt_trichotomy u t with h | h | h
        · have := hz u h
          omega
        · subst h; exact hv
        · have := hzero t h
          omega

/-- C10 (witness): a `6 x 7` batch of two matrices with panels of two columns;
matrix `1` meets its first zero pivot in the panel starting at column `2`. -/
theorem getrf_blocked_info_witness :
    ∃ s', rocsolver_getrf_template (luDevice 0 pf_sample) cfg_small 6 7 0 6 42 0 6 2 1 false
            lu_stale = some (rocblas_status_success, s')
      ∧ (s'.info 1 = 0 ↔ ∀ t : Nat, (t : Int) * cfg_small.GETRF_GETF2_SWITCHSIZE < min 6 7 →
            pf_sample.iinfoOf (t * cfg_small.GETRF_GETF2_SWITCHSIZE) 1 = 0)
      ∧ (∀ t : Nat, (t : Int) * cfg_small.GETRF_GETF2_SWITCHSIZE < min 6 7 →
            0 < pf_sample.iinfoOf (t * cfg_small.GETRF_GETF2_SWITCHSIZE) 1 →
            (∀ u : Nat, u < t → pf_sample.iinfoOf (u * cfg_small.GETRF_GETF2_SWITCHSIZE) 1 = 0) →
            s'.info 1 = t * cfg_small.GETRF_GETF2_SWITCHSIZE
              + pf_sample.iinfoOf (t * cfg_small.GETRF_GETF2_SWITCHSIZE) 1) :=
  getrf_blocked_info 0 pf_sample cfg_small 6 7 0 6 42 6 2 1 false lu_stale 1
    (by decide) (by decide) (by decide) (by decide) (by decide) (by decide)
    (by intro j i; simp only [pf_sample]; split_ifs <;> decide)

/-- C9 (witness): two blocks of two threads, panel offset `4`; matrix `0` has
no recorded singularity and a panel status `2`, so `info[0]` becomes `6`. -/
theorem getrf_check_singularity_first_wins_witness :
    (run_getrf_check_singularity 2 4 0 2 1 2 (grid_threads 1 2 2)
        { ipiv := fun _ => 1, iinfo := fun _ => 2, info := fun i => if i = 0 then 0 else 5,
          pointer_mode := rocblas_pointer_mode_host }).info 0 = 2 + 4 :=
  (getrf_check_singularity_first_wins 2 4 0 2 1 2 (grid_threads 1 2 2)
    { ipiv := fun _ => 1, iinfo := fun _ => 2, info := fun i => if i = 0 then 0 else 5,
      pointer_mode := rocblas_pointer_mode_host } 0).2.2
    ⟨{ hipBlockIdx_x := 0, hipBlockIdx_y := 0, hipThreadIdx_x := 0 }, by decide, rfl⟩
    rfl (by decide)

/-- Sample run of the blocked LU driver: stale `info` values are replaced by
the position of the first zero pivot of each matrix, and the pointer mode found
on entry is put back. -/
theorem getrf_blocked_sample_run :
    (rocsolver_getrf_template (luDevice 0 pf_sample) cfg_small 6 7 0 6 42 0 6 2 1 false
        lu_stale).map (fun r => (r.1, r.2.info 0, r.2.info 1, r.2.pointer_mode))
      = some (rocblas_status_success, 5, 3, rocblas_pointer_mode_device) := by
  decide

/-! ### Pointer mode -/

/-- With a positive step the panel loop of the blocked LU driver ends on every
device. -/
theorem getrf_panels_terminates {σ : Type} (dev : Device σ) (cfg : IdealSizes)
    (m n shiftA lda strideA shiftP strideP batch_count pivot : Int) (optim_mem : Bool)
    (dim blocksReset : Int) (hSW : 1 ≤ cfg.GETRF_GETF2_SWITCHSIZE) :
    ∀ (fuel : Nat) (j : Int) (st : σ), (dim - j).toNat < fuel →
      ∃ st', getrf_panels dev cfg m n shiftA lda strideA shiftP strideP batch_count pivot
        optim_mem dim blocksReset fuel j st = some st' := by
  intro fuel
  induction fuel with
  | zero => intro j st h; omega
  | succ fuel ih =>
    intro j st h
    unfold getrf_panels
    by_cases hj : j < dim
    · rw [if_pos hj]
      exact ih _ _ (by omega)
    · rw [if_neg hj]
      exact ⟨st, rfl⟩

/-- The threads of `getrf_check_singularity` do not touch the pointer mode. -/
theorem run_check_singularity_pointer_mode (n j shiftP strideP pivot : Int) (bd : Nat)
    (ts : List ThreadIdx) (s : LUState) :
    (run_getrf_check_singularity n j shiftP strideP pivot bd ts s).pointer_mode
      = s.pointer_mode := by
  induction ts generalizing s with
  | nil => rfl
  | cons t ts ih =>
    simp only [run_getrf_check_singularity, List.foldl_cons] at ih ⊢
    rw [ih]
    unfold getrf_check_singularity
    dsimp only
    split_ifs <;> rfl

/-- The LU device sets the pointer mode through `rocblas_set_pointer_mode`
only. -/
theorem luDevice_pointer_mode_respected (shiftP : Int) (pf : PanelFactorizer) :
    (luDevice shiftP pf).pointer_mode_respected := by
  constructor
  · intro mode s
    rfl
  · intro c s hc
    cases c with
    | set_pointer_mode mode => exact absurd rfl (hc mode)
    | reset_info blocks threads buf n val => cases buf <;> rfl
    | getf2 m n shiftA lda strideA sP strideP infoBuf batch_count pivot =>
      cases infoBuf <;> rfl
    | getrf_check_singularity gridx gridy blockx n j sP strideP pivot =>
      exact run_check_singularity_pointer_mode _ _ _ _ _ _ _ _
    | _ => rfl

/-- C12: on a device whose sub-operations preserve the pointer mode (only
`rocblas_set_pointer_mode` sets it), `rocsolver_getrf_template` and
`rocsolver_org2r_ung2r_template` hand the handle back with the pointer mode it
had on entry, on every exit path: quick return, unblocked delegation and
normal completion.  The LU driver does return whenever
`GETRF_GETF2_SWITCHSIZE >= 1`; the Q generator always returns. -/
theorem pointer_mode_restored {σ : Type} (dev : Device σ) (cfg : IdealSizes)
    (m n k shiftA lda strideA shiftP strideP batch_count pivot : Int) (ipiv : Loc)
    (optim_mem : Bool) (st : σ) (hdev : dev.pointer_mode_respected) :
    (∀ r, rocsolver_getrf_template dev cfg m n shiftA lda strideA shiftP strideP batch_count
        pivot optim_mem st = some r → dev.get_pointer_mode r.2 = dev.get_pointer_mode st)
    ∧ (1 ≤ cfg.GETRF_GETF2_SWITCHSIZE →
        ∃ r, rocsolver_getrf_template dev cfg m n shiftA lda strideA shiftP strideP batch_count
          pivot optim_mem st = some r)
    ∧ dev.get_pointer_mode (rocsolver_org2r_ung2r_template dev m n k shiftA lda strideA ipiv
        strideP batch_count st).2 = dev.get_pointer_mode st := by
  have hset := hdev.1
  have hk : ∀ c s, (∀ mode, c ≠ Call.set_pointer_mode mode) →
      dev.get_pointer_mode (dev.exec c s) = dev.get_pointer_mode s := hdev.2
  refine ⟨?_, ?_, ?_⟩
  · intro r hr
    unfold rocsolver_getrf_template at hr
    by_cases hq : m = 0 ∨ n = 0 ∨ batch_count = 0
    · rw [if_pos hq] at hr
      cases hr
      rfl
    rw [if_neg hq] at hr
    by_cases hs : m < cfg.GETRF_GETF2_SWITCHSIZE ∨ n < cfg.GETRF_GETF2_SWITCHSIZE
    · rw [if_pos hs] at hr
      cases hr
      exact hk _ _ (by intro mode h; cases h)
    rw [if_neg hs] at hr
    dsimp only at hr
    split at hr
    · cases hr
    · cases hr
      exact hset _ _
  · intro hSW
    unfold rocsolver_getrf_template
    by_cases hq : m = 0 ∨ n = 0 ∨ batch_count = 0
    · rw [if_pos hq]; exact ⟨_, rfl⟩
    rw [if_neg hq]
    by_cases hs : m < cfg.GETRF_GETF2_SWITCHSIZE ∨ n < cfg.GETRF_GETF2_SWITCHSIZE
    · rw [if_pos hs]; exact ⟨_, rfl⟩
    rw [if_neg hs]
    dsimp only
    obtain ⟨st', hst'⟩ := getrf_panels_terminates dev cfg m n shiftA lda strideA shiftP strideP
      batch_count pivot optim_mem (min m n) (Int.tdiv (batch_count - 1) cfg.BLOCKSIZE + 1) hSW
      ((min m n).toNat + 1) 0
      (dev.exec (Call.reset_info (Int.tdiv (batch_count - 1) cfg.BLOCKSIZE + 1) cfg.BLOCKSIZE
        Buf.info batch_count 0)
        (dev.exec (Call.set_pointer_mode rocblas_pointer_mode_host) st))
      (by omega)
    rw [hst']
    exact ⟨_, rfl⟩
  · unfold rocsolver_org2r_ung2r_template
    by_cases hq : n = 0 ∨ m = 0 ∨ batch_count = 0
    · rw [if_pos hq]
    rw [if_neg hq]
    dsimp only
    exact hset _ _

/-- C12 (witness): the blocked LU run and a Q generation on the LU device,
entered in device mode. -/
theorem pointer_mode_restored_witness :
    (∀ r, rocsolver_getrf_template (luDevice 0 pf_sample) cfg_small 6 7 0 6 42 0 6 2 1 false
        lu_stale = some r →
        (luDevice 0 pf_sample).get_pointer_mode r.2
          = (luDevice 0 pf_sample).get_pointer_mode lu_stale)
    ∧ (1 ≤ cfg_small.GETRF_GETF2_SWITCHSIZE →
        ∃ r, rocsolver_getrf_template (luDevice 0 pf_sample) cfg_small 6 7 0 6 42 0 6 2 1 false
          lu_stale = some r)
    ∧ (luDevice 0 pf_sample).get_pointer_mode
        (rocsolver_org2r_ung2r_template (luDevice 0 pf_sample) 6 7 3 0 6 42
          { buf := Buf.ipiv, off := 0 } 6 2 lu_stale).2
        = (luDevice 0 pf_sample).get_pointer_mode lu_stale :=
  pointer_mode_restored (luDevice 0 pf_sample) cfg_small 6 7 3 0 6 42 0 6 2 1
    { buf := Buf.ipiv, off := 0 } false lu_stale (luDevice_pointer_mode_respected 0 pf_sample)

/-! ### Recorded operations of the unblocked QR factorization -/

/-- A fold of steps that each record only operations with a property records
only such operations. -/
theorem foldl_trace_all (P : Call → Prop) (step : Int → List Call → List Call)
    (js : List Int) (hstep : ∀ j ∈ js, ∀ tr c, c ∈ step j tr → c ∈ tr ∨ P c)
    (tr : List Call) :
    ∀ c, c ∈ js.foldl (fun tr j => step j tr) tr → c ∈ tr ∨ P c := by
  induction js generalizing tr with
  | nil => intro c hc; exact Or.inl hc
  | cons j js ih =>
    intro c hc
    rw [List.foldl_cons] at hc
    rcases ih (fun i hi => hstep i (List.mem_cons_of_mem _ hi)) (step j tr) c hc with h | h
    · exact hstep j (List.mem_cons_self _ _) tr c h
    · exact Or.inr h

/-- A column step of `rocsolver_geqr2_template` records reflector operations
only. -/
theorem geqr2_column_trace (COMPLEX : Bool) (m n shiftA lda strideA : Int) (ipiv : Loc)
    (strideP batch_count j : Int) (tr : List Call) (c : Call)
    (hc : c ∈ geqr2_column traceDevice COMPLEX m n shiftA lda strideA ipiv strideP batch_count
      j tr) :
    c ∈ tr ∨ c.is_geqr2_op = true := by
  unfold geqr2_column at hc
  dsimp only [traceDevice] at hc
  split_ifs at hc <;> simp only [List.mem_append, List.mem_singleton] at hc <;> aesop

/-- The unblocked QR factorization records reflector operations only. -/
theorem geqr2_template_trace (COMPLEX : Bool) (m n shiftA lda strideA : Int) (ipiv : Loc)
    (strideP batch_count : Int) (tr : List Call) (c : Call)
    (hc : c ∈ (rocsolver_geqr2_template traceDevice COMPLEX m n shiftA lda strideA ipiv strideP
      batch_count tr).2) :
    c ∈ tr ∨ c.is_geqr2_op = true := by
  unfold rocsolver_geqr2_template at hc
  split_ifs at hc
  · exact Or.inl hc
  · exact foldl_trace_all (fun c => c.is_geqr2_op = true)
      (fun j tr => geqr2_column traceDevice COMPLEX m n shiftA lda strideA ipiv strideP
        batch_count j tr) _
      (fun j _ tr c h => geqr2_column_trace COMPLEX m n shiftA lda strideA ipiv strideP
        batch_count j tr c h) tr c hc

/-- C13: when a dimension is below the switch-over threshold and `m`, `n`,
`batch_count` are non-zero, `rocsolver_geqrf_template` returns exactly the
status and state of one `rocsolver_geqr2_template` call on the full matrix
with the same arguments, and `rocsolver_getrf_template` exactly those of one
`rocsolver_getf2_template` call on the full matrix with the caller's `info`;
on the recording device no blocked-path operation (block reflector,
interchange, triangular solve, matrix multiply, status reset) appears. -/
theorem unblocked_path_refines {σ : Type} (dev : Device σ) (cfg : IdealSizes) (COMPLEX : Bool)
    (m n shiftA lda strideA shiftP strideP batch_count pivot : Int) (ipiv : Loc)
    (optim_mem : Bool) (st : σ) (hm : m ≠ 0) (hn : n ≠ 0) (hb : batch_count ≠ 0) :
    ((m < cfg.GEQRF_GEQR2_SWITCHSIZE ∨ n < cfg.GEQRF_GEQR2_SWITCHSIZE) →
      rocsolver_geqrf_template dev cfg COMPLEX m n shiftA lda strideA ipiv strideP batch_count st
        = some (rocsolver_geqr2_template dev COMPLEX m n shiftA lda strideA ipiv strideP
            batch_count st)
      ∧ ∀ r, rocsolver_geqrf_template traceDevice cfg COMPLEX m n shiftA lda strideA ipiv strideP
            batch_count [] = some r → ∀ c ∈ r.2, c.is_blocked_op = false)
    ∧ ((m < cfg.GETRF_GETF2_SWITCHSIZE ∨ n < cfg.GETRF_GETF2_SWITCHSIZE) →
      rocsolver_getrf_template dev cfg m n shiftA lda strideA shiftP strideP batch_count pivot
          optim_mem st
        = some (dev.status (Call.getf2 m n shiftA lda strideA shiftP strideP Buf.info
                  batch_count pivot) st,
                dev.exec (Call.getf2 m n shiftA lda strideA shiftP strideP Buf.info
                  batch_count pivot) st)
      ∧ rocsolver_getrf_template traceDevice cfg m n shiftA lda strideA shiftP strideP
          batch_count pivot optim_mem []
        = some (rocblas_status_success,
            [Call.getf2 m n shiftA lda strideA shiftP strideP Buf.info batch_count pivot])) := by
  have hq : ¬ (m = 0 ∨ n = 0 ∨ batch_count = 0) := by
    rintro (h | h | h)
    · exact hm h
    · exact hn h
    · exact hb h
  constructor
  · intro hsmall
    have hle : m ≤ cfg.GEQRF_GEQR2_SWITCHSIZE ∨ n ≤ cfg.GEQRF_GEQR2_SWITCHSIZE := by omega
    have hgen : ∀ {τ : Type} (d : Device τ) (s : τ),
        rocsolver_geqrf_template d cfg COMPLEX m n shiftA lda strideA ipiv strideP batch_count s
          = some (rocsolver_geqr2_template d COMPLEX m n shiftA lda strideA ipiv strideP
              batch_count s) := by
      intro τ d s
      unfold rocsolver_geqrf_template
      rw [if_neg hq, if_pos hle]
    refine ⟨hgen dev st, ?_⟩
    intro r hr c hc
    rw [hgen traceDevice []] at hr
    cases hr
    rcases geqr2_template_trace COMPLEX m n shiftA lda strideA ipiv strideP batch_count [] c hc
      with h | h
    · cases h
    · cases c <;> simp_all [Call.is_geqr2_op, Call.is_blocked_op]
  · intro hsmall
    have hgen : ∀ {τ : Type} (d : Device τ) (s : τ),
        rocsolver_getrf_template d cfg m n shiftA lda strideA shiftP strideP batch_count pivot
            optim_mem s
          = some (d.status (Call.getf2 m n shiftA lda strideA shiftP strideP Buf.info
                    batch_count pivot) s,
                  d.exec (Call.getf2 m n shiftA lda strideA shiftP strideP Buf.info
                    batch_count pivot) s) := by
      intro τ d s
      unfold rocsolver_getrf_template
      rw [if_neg hq, if_pos hsmall]
    exact ⟨hgen dev st, hgen traceDevice []⟩

/-- C13 (witness): a `3 x 7` matrix (QR switch size 4) and a `1 x 7` matrix (LU
switch size 2) on the recording device. -/
theorem unblocked_path_refines_witness :
    (rocsolver_geqrf_template traceDevice cfg_small true 3 7 0 3 21
        { buf := Buf.ipiv, off := 0 } 3 2 []
      = some (rocsolver_geqr2_template traceDevice true 3 7 0 3 21
          { buf := Buf.ipiv, off := 0 } 3 2 [])
      ∧ ∀ r, rocsolver_geqrf_template traceDevice cfg_small true 3 7 0 3 21
            { buf := Buf.ipiv, off := 0 } 3 2 [] = some r → ∀ c ∈ r.2, c.is_blocked_op = false)
    ∧ (rocsolver_getrf_template traceDevice cfg_small 1 7 0 1 7 0 1 2 1 false []
        = some (traceDevice.status (Call.getf2 1 7 0 1 7 0 1 Buf.info 2 1) [],
                traceDevice.exec (Call.getf2 1 7 0 1 7 0 1 Buf.info 2 1) [])
      ∧ rocsolver_getrf_template traceDevice cfg_small 1 7 0 1 7 0 1 2 1 false []
        = some (rocblas_status_success, [Call.getf2 1 7 0 1 7 0 1 Buf.info 2 1])) :=
  ⟨(unblocked_path_refines traceDevice cfg_small true 3 7 0 3 21 0 3 2 1
      { buf := Buf.ipiv, off := 0 } false [] (by decide) (by decide) (by decide)).1
      (Or.inl (by decide)),
   (unblocked_path_refines traceDevice cfg_small true 1 7 0 1 7 0 1 2 1
      { buf := Buf.ipiv, off := 0 } false [] (by decide) (by decide) (by decide)).2
      (Or.inl (by decide))⟩

/-! ### Workspace of the reflector builder and allocation check of `getf2` -/

/-- C14 (failing input): `rocsolver_geqr2_getMemorySize` sizes the
reflector-builder workspace for a vector of length `n` (for every host and
shape), while for the `3 x 1` matrix the factorizer's first reflector has
order `m - 0 = 3 > 1`. -/
theorem geqr2_larfg_workspace_too_short :
    (∀ (host : Host) (BATCHED : Bool) (m n batch_count : Int),
      (rocsolver_geqr2_getMemorySize host BATCHED m n batch_count).2.2.2
        = (host.rocsolver_larfg_getMemorySize n batch_count).1)
    ∧ (rocsolver_geqr2_getMemorySize host_probe false 3 1 1).2.2.2 = 1
    ∧ (rocsolver_geqr2_template traceDevice false 3 1 0 3 3 { buf := Buf.ipiv, off := 0 } 1 1
        []).2.head?
        = some (Call.larfg 3 0 1 1 3 { buf := Buf.ipiv, off := 0 } 1 1)
    ∧ ¬ ((3 : Int) - 0 ≤ 1) := by
  refine ⟨?_, by decide, by decide, by decide⟩
  intro host BATCHED m n batch_count
  rfl

/-- The allocation check of `rocsolver_getf2_impl` does report a failure when
both pivot buffers are requested with a non-zero size. -/
theorem getf2_impl_memory_error_of_sizes {σ : Type} (dev : Device σ) (host : Host)
    (handle : rocblas_handle) (m n : Int) (A : DevPtr) (lda : Int) (ipiv info : DevPtr)
    (pivot : Int) (st : σ) (hh : handle ≠ none)
    (harg : host.rocsolver_getf2_getrf_argCheck m n lda A ipiv info = rocblas_status_continue)
    (h2 : (host.rocsolver_getf2_getMemorySize m 1).2.1 ≠ 0)
    (h3 : (host.rocsolver_getf2_getMemorySize m 1).2.2.1 ≠ 0)
    (hfail : host.hipMalloc 0 (host.rocsolver_getf2_getMemorySize m 1).1 = none
      ∨ host.hipMalloc 1 (host.rocsolver_getf2_getMemorySize m 1).2.1 = none
      ∨ host.hipMalloc 2 (host.rocsolver_getf2_getMemorySize m 1).2.2.1 = none
      ∨ ((host.rocsolver_getf2_getMemorySize m 1).2.2.2 ≠ 0
          ∧ host.hipMalloc 3 (host.rocsolver_getf2_getMemorySize m 1).2.2.2 = none)) :
    rocsolver_getf2_impl dev host handle m n A lda ipiv info pivot st
      = (rocblas_status_memory_error, st) := by
  unfold rocsolver_getf2_impl
  rw [if_neg hh]
  simp only [harg, ne_eq, not_true_eq_false, if_false]
  rw [if_pos]
  rcases hfail with h | h | h | h
  · exact Or.inl h
  · exact Or.inr (Or.inr (Or.inl ⟨h3, h⟩))
  · exact Or.inr (Or.inl ⟨h2, h⟩)
  · exact Or.inr (Or.inr (Or.inr h))

/-! ### Workspace sizes of the blocked drivers -/

/-- Reduction to `size_t` does not change a value of the 64-bit range. -/
theorem to_size_t_of_fitting (x : Int) (h0 : 0 ≤ x) (h1 : x < 18446744073709551616) :
    (to_size_t x : Int) = x := by
  unfold to_size_t
  rw [Int.emod_eq_of_lt h0 h1, Int.toNat_of_nonneg h0]

/-- C16 (counterexample): for `batch_count = 0` and the dimensions `2 x 2`,
which select the blocked path for the LU switch size `2`, `size_4` is `0`. -/
theorem getrf_getMemorySize_zero_batch :
    (rocsolver_getrf_getMemorySize host_ok cfg_small 2 2 0).2.2.2.1 = 0
    ∧ ¬ ((2 : Int) < cfg_small.GETRF_GETF2_SWITCHSIZE
        ∨ (2 : Int) < cfg_small.GETRF_GETF2_SWITCHSIZE) := by
  decide

/-- C16 (amended): `size_4` of `rocsolver_getrf_getMemorySize` is `0` when a
dimension is below `GETRF_GETF2_SWITCHSIZE` (the unblocked path of the driver)
and `sizeof(rocblas_int) * batch_count` otherwise; for `batch_count >= 1` it is
`0` exactly on the unblocked path; and it is the same whether the dimensions
are passed as `(m, n)` or as `(n, m)`. -/
theorem getrf_getMemorySize_size_4 (host : Host) (cfg : IdealSizes) (m n batch_count : Int)
    (hb0 : 0 ≤ batch_count) (hb1 : batch_count ≤ INT_MAX) :
    ((m < cfg.GETRF_GETF2_SWITCHSIZE ∨ n < cfg.GETRF_GETF2_SWITCHSIZE) →
      (rocsolver_getrf_getMemorySize host cfg n m batch_count).2.2.2.1 = 0)
    ∧ (¬ (m < cfg.GETRF_GETF2_SWITCHSIZE ∨ n < cfg.GETRF_GETF2_SWITCHSIZE) →
      ((rocsolver_getrf_getMemorySize host cfg n m batch_count).2.2.2.1 : Int)
        = 4 * batch_count)
    ∧ (1 ≤ batch_count →
      ((rocsolver_getrf_getMemorySize host cfg n m batch_count).2.2.2.1 = 0
        ↔ (m < cfg.GETRF_GETF2_SWITCHSIZE ∨ n < cfg.GETRF_GETF2_SWITCHSIZE)))
    ∧ (rocsolver_getrf_getMemorySize host cfg n m batch_count).2.2.2.1
        = (rocsolver_getrf_getMemorySize host cfg m n batch_count).2.2.2.1 := by
  have hfit : ((to_size_t (4 * batch_count) : Nat) : Int) = 4 * batch_count :=
    to_size_t_of_fitting _ (by omega) (by unfold INT_MAX at hb1; omega)
  have hsmall : (m < cfg.GETRF_GETF2_SWITCHSIZE ∨ n < cfg.GETRF_GETF2_SWITCHSIZE) →
      (rocsolver_getrf_getMemorySize host cfg n m batch_count).2.2.2.1 = 0 := by
    intro h
    unfold rocsolver_getrf_getMemorySize
    simp only [if_pos h]
  have hbig : ¬ (m < cfg.GETRF_GETF2_SWITCHSIZE ∨ n < cfg.GETRF_GETF2_SWITCHSIZE) →
      (rocsolver_getrf_getMemorySize host cfg n m batch_count).2.2.2.1
        = to_size_t (4 * batch_count) := by
    intro h
    unfold rocsolver_getrf_getMemorySize
    simp only [if_neg h]
  refine ⟨hsmall, ?_, ?_, ?_⟩
  · intro h
    rw [hbig h, hfit]
  · intro hb
    constructor
    · intro h0
      by_contra hne
      have h4 := hbig hne
      rw [h0] at h4
      have : ((to_size_t (4 * batch_count) : Nat) : Int) = 0 := by rw [← h4]; rfl
      omega
    · exact hsmall
  · unfold rocsolver_getrf_getMemorySize
    by_cases h : m < cfg.GETRF_GETF2_SWITCHSIZE ∨ n < cfg.GETRF_GETF2_SWITCHSIZE
    · have h' : n < cfg.GETRF_GETF2_SWITCHSIZE ∨ m < cfg.GETRF_GETF2_SWITCHSIZE := h.symm
      simp only [if_pos h, if_pos h']
    · have h' : ¬ (n < cfg.GETRF_GETF2_SWITCHSIZE ∨ m < cfg.GETRF_GETF2_SWITCHSIZE) :=
        fun hc => h hc.symm
      simp only [if_neg h, if_neg h']

/-- C16 (witness): a batch of three `5 x 1` matrices (unblocked) for the LU
switch size `2`. -/
theorem getrf_getMemorySize_size_4_witness :
    (rocsolver_getrf_getMemorySize host_ok cfg_small 1 5 3).2.2.2.1 = 0
    ∧ (rocsolver_getrf_getMemorySize host_ok cfg_small 1 5 3).2.2.2.1
        = (rocsolver_getrf_getMemorySize host_ok cfg_small 5 1 3).2.2.2.1 :=
  ⟨(getrf_getMemorySize_size_4 host_ok cfg_small 5 1 3 (by decide) (by decide)).1
      (Or.inr (by decide)),
   (getrf_getMemorySize_size_4 host_ok cfg_small 5 1 3 (by decide) (by decide)).2.2.2⟩

/-- C17: for non-negative arguments every size returned by
`rocsolver_geqrf_getMemorySize` and by `rocsolver_getrf_getMemorySize` is
non-decreasing in each of `m`, `n` and `batch_count`, also across the
switch-over between the unblocked and the blocked path, provided the size
formulas of the sub-operations are non-decreasing and the products taken in
`size_t` stay within 64 bits. -/
theorem getMemorySize_monotone (host : Host) (cfg : IdealSizes) (BATCHED : Bool)
    (m m' n n' batch_count batch_count' : Int) (hhost : host.sizes_monotone)
    (hm : m ≤ m') (hn : n ≤ n') (hb0 : 0 ≤ batch_count) (hb : batch_count ≤ batch_count')
    (hfit5 : host.sizeofT * cfg.GEQRF_GEQR2_BLOCKSIZE * cfg.GEQRF_GEQR2_BLOCKSIZE * batch_count'
      < 18446744073709551616)
    (hfit4 : 4 * batch_count' < 18446744073709551616) :
    rocsolver_geqrf_getMemorySize host cfg BATCHED m n batch_count
        ≤ rocsolver_geqrf_getMemorySize host cfg BATCHED m' n' batch_count'
    ∧ rocsolver_getrf_getMemorySize host cfg n m batch_count
        ≤ rocsolver_getrf_getMemorySize host cfg n' m' batch_count' := by
  obtain ⟨hlarf, hlarfg, hlarft, hlarfb, hgetf2⟩ := hhost
  have h1 := hlarf BATCHED rocblas_side_left m m' n n' batch_count batch_count' hm hn hb
  have h2 := hlarfg n n' batch_count batch_count' hn hb
  have h3 := hlarft cfg.GEQRF_GEQR2_BLOCKSIZE cfg.GEQRF_GEQR2_BLOCKSIZE batch_count batch_count'
    (le_refl _) hb
  have h4 := hlarfb rocblas_side_left m m' (n - cfg.GEQRF_GEQR2_BLOCKSIZE)
    (n' - cfg.GEQRF_GEQR2_BLOCKSIZE) cfg.GEQRF_GEQR2_BLOCKSIZE cfg.GEQRF_GEQR2_BLOCKSIZE
    batch_count batch_count' hm (by omega) (le_refl _) hb
  have h5 := hgetf2 m m' batch_count batch_count' hm hb
  rw [Prod.le_def, Prod.le_def] at h1
  rw [Prod.le_def] at h2
  rw [Prod.le_def, Prod.le_def, Prod.le_def] at h5
  have hsq : 0 ≤ (host.sizeofT : Int) * cfg.GEQRF_GEQR2_BLOCKSIZE * cfg.GEQRF_GEQR2_BLOCKSIZE := by
    have := mul_self_nonneg cfg.GEQRF_GEQR2_BLOCKSIZE
    have hs : (0 : Int) ≤ host.sizeofT := Int.ofNat_nonneg _
    rw [mul_assoc]
    exact Int.mul_nonneg hs this
  have hprod : (host.sizeofT : Int) * cfg.GEQRF_GEQR2_BLOCKSIZE * cfg.GEQRF_GEQR2_BLOCKSIZE
      * batch_count ≤ (host.sizeofT : Int) * cfg.GEQRF_GEQR2_BLOCKSIZE
      * cfg.GEQRF_GEQR2_BLOCKSIZE * batch_count' := Int.mul_le_mul_of_nonneg_left hb hsq
  have hprod0 : 0 ≤ (host.sizeofT : Int) * cfg.GEQRF_GEQR2_BLOCKSIZE * cfg.GEQRF_GEQR2_BLOCKSIZE
      * batch_count := Int.mul_nonneg hsq hb0
  have hsize5 : to_size_t (host.sizeofT * cfg.GEQRF_GEQR2_BLOCKSIZE * cfg.GEQRF_GEQR2_BLOCKSIZE
      * batch_count) ≤ to_size_t (host.sizeofT * cfg.GEQRF_GEQR2_BLOCKSIZE
      * cfg.GEQRF_GEQR2_BLOCKSIZE * batch_count') := by
    have e1 := to_size_t_of_fitting _ hprod0 (lt_of_le_of_lt hprod hfit5)
    have e2 := to_size_t_of_fitting _ (le_trans hprod0 hprod) hfit5
    omega
  have hsize4 : to_size_t (4 * batch_count) ≤ to_size_t (4 * batch_count') := by
    have e1 := to_size_t_of_fitting (4 * batch_count) (by omega) (by omega)
    have e2 := to_size_t_of_fitting (4 * batch_count') (by omega) hfit4
    omega
  constructor
  · unfold rocsolver_geqrf_getMemorySize rocsolver_geqr2_getMemorySize
    by_cases hs : m ≤ cfg.GEQRF_GEQR2_SWITCHSIZE ∨ n ≤ cfg.GEQRF_GEQR2_SWITCHSIZE
    · by_cases hs' : m' ≤ cfg.GEQRF_GEQR2_SWITCHSIZE ∨ n' ≤ cfg.GEQRF_GEQR2_SWITCHSIZE
      · simp only [if_pos hs, if_pos hs', Prod.le_def]
        refine ⟨h1.1, ?_, h1.2.2, h2.1, le_refl _⟩
        exact max_le_max h1.2.1 h2.2
      · simp only [if_pos hs, if_neg hs', Prod.le_def]
        refine ⟨h1.1, ?_, h1.2.2, h2.1, Nat.zero_le _⟩
        exact le_trans (max_le_max h1.2.1 h2.2) (le_max_left _ _)
    · have hs' : ¬ (m' ≤ cfg.GEQRF_GEQR2_SWITCHSIZE ∨ n' ≤ cfg.GEQRF_GEQR2_SWITCHSIZE) := by
        omega
      simp only [if_neg hs, if_neg hs', Prod.le_def]
      refine ⟨h1.1, ?_, h1.2.2, h2.1, hsize5⟩
      exact max_le_max (max_le_max h1.2.1 h2.2) (max_le_max h3 h4)
  · unfold rocsolver_getrf_getMemorySize
    by_cases hs : m < cfg.GETRF_GETF2_SWITCHSIZE ∨ n < cfg.GETRF_GETF2_SWITCHSIZE
    · by_cases hs' : m' < cfg.GETRF_GETF2_SWITCHSIZE ∨ n' < cfg.GETRF_GETF2_SWITCHSIZE
      · simp only [if_pos hs, if_pos hs', Prod.le_def]
        exact ⟨h5.1, h5.2.1, h5.2.2.1, le_refl _, h5.2.2.2⟩
      · simp only [if_pos hs, if_neg hs', Prod.le_def]
        exact ⟨h5.1, h5.2.1, h5.2.2.1, Nat.zero_le _, h5.2.2.2⟩
    · have hs' : ¬ (m' < cfg.GETRF_GETF2_SWITCHSIZE ∨ n' < cfg.GETRF_GETF2_SWITCHSIZE) := by
        omega
      simp only [if_neg hs, if_neg hs', Prod.le_def]
      exact ⟨h5.1, h5.2.1, h5.2.2.1, hsize4, h5.2.2.2⟩

/-! ### Panel schedule of the blocked QR driver -/

/-- The panel loop of `rocsolver_geqrf_template` runs the panel body at the
columns of `geqrf_schedule`, on every device. -/
theorem geqrf_panels_eq_schedule {σ : Type} (dev : Device σ) (cfg : IdealSizes)
    (COMPLEX : Bool) (m n shiftA lda strideA : Int) (ipiv : Loc) (strideP batch_count : Int)
    (dim ldw strideW : Int) :
    ∀ (fuel : Nat) (j : Int) (st : σ),
      geqrf_panels dev cfg COMPLEX m n shiftA lda strideA ipiv strideP batch_count dim ldw
          strideW fuel j st
        = (geqrf_schedule cfg dim fuel j).map fun r =>
            (r.2, r.1.foldl (fun st j => geqrf_panel dev cfg COMPLEX m n shiftA lda strideA ipiv
              strideP batch_count dim ldw strideW j st) st) := by
  intro fuel
  induction fuel with
  | zero => intro j st; rfl
  | succ fuel ih =>
    intro j st
    unfold geqrf_panels geqrf_schedule
    by_cases hj : j < dim - cfg.GEQRF_GEQR2_SWITCHSIZE
    · rw [if_pos hj, if_pos hj, ih]
      cases geqrf_schedule cfg dim fuel (j + cfg.GEQRF_GEQR2_BLOCKSIZE) with
      | none => rfl
      | some r => rfl
    · rw [if_neg hj, if_neg hj]
      rfl

/-- With a positive block size the schedule of the QR panel loop is the
arithmetic progression `j, j + BLOCKSIZE, ...` of the columns below
`dim - SWITCHSIZE`, and the loop exits at the first term that is not. -/
theorem geqrf_schedule_spec (cfg : IdealSizes) (dim : Int)
    (hBS : 1 ≤ cfg.GEQRF_GEQR2_BLOCKSIZE) :
    ∀ (fuel : Nat) (j : Int), (dim - cfg.GEQRF_GEQR2_SWITCHSIZE - j).toNat < fuel →
      ∃ k : Nat,
        geqrf_schedule cfg dim fuel j
          = some ((List.range k).map (fun i : Nat => j + (i : Int) * cfg.GEQRF_GEQR2_BLOCKSIZE),
              j + (k : Int) * cfg.GEQRF_GEQR2_BLOCKSIZE)
        ∧ (∀ i : Nat, i < k →
            j + (i : Int) * cfg.GEQRF_GEQR2_BLOCKSIZE < dim - cfg.GEQRF_GEQR2_SWITCHSIZE)
        ∧ dim - cfg.GEQRF_GEQR2_SWITCHSIZE ≤ j + (k : Int) * cfg.GEQRF_GEQR2_BLOCKSIZE := by
  intro fuel
  induction fuel with
  | zero => intro j h; omega
  | succ fuel ih =>
    intro j h
    unfold geqrf_schedule
    by_cases hj : j < dim - cfg.GEQRF_GEQR2_SWITCHSIZE
    · rw [if_pos hj]
      obtain ⟨k, hk, hin, hout⟩ := ih (j + cfg.GEQRF_GEQR2_BLOCKSIZE) (by omega)
      refine ⟨k + 1, ?_, ?_, ?_⟩
      · rw [hk]
        simp only [List.range_succ_eq_map, List.map_cons, List.map_map, Nat.cast_zero, zero_mul,
          add_zero]
        congr 2
        · congr 1
          apply List.map_congr_left
          intro i _
          simp only [Function.comp, Nat.succ_eq_add_one, Nat.cast_add, Nat.cast_one]
          ring
        · push_cast
          ring
      · intro i hi
        rcases Nat.eq_zero_or_pos i with h0 | hpos
        · subst h0
          simpa using hj
        · have := hin (i - 1) (by omega)
          have hc : ((i - 1 : Nat) : Int) = (i : Int) - 1 := by omega
          rw [hc] at this
          have he : j + cfg.GEQRF_GEQR2_BLOCKSIZE + ((i : Int) - 1) * cfg.GEQRF_GEQR2_BLOCKSIZE
              = j + (i : Int) * cfg.GEQRF_GEQR2_BLOCKSIZE := by ring
          rw [he] at this
          exact this
      · have he : j + ((k + 1 : Nat) : Int) * cfg.GEQRF_GEQR2_BLOCKSIZE
            = j + cfg.GEQRF_GEQR2_BLOCKSIZE + (k : Int) * cfg.GEQRF_GEQR2_BLOCKSIZE := by
          push_cast
          ring
        rw [he]
        exact hout
    · rw [if_neg hj]
      refine ⟨0, ?_, ?_, ?_⟩
      · simp
      · intro i hi
        omega
      · simpa using not_lt.mp hj

/-- On the blocked path (`m, n > SWITCHSIZE >= 0`, `BLOCKSIZE >= 1`, non-empty
batch) `rocsolver_geqrf_template` returns on every device: it runs `k` panels,
all starting below `min m n - SWITCHSIZE`, leaves the loop at `k*BLOCKSIZE`
and factors the last block there. -/
theorem geqrf_template_blocked {σ : Type} (dev : Device σ) (cfg : IdealSizes) (COMPLEX : Bool)
    (m n shiftA lda strideA : Int) (ipiv : Loc) (strideP batch_count : Int) (st : σ)
    (hSW : 0 ≤ cfg.GEQRF_GEQR2_SWITCHSIZE) (hBS : 1 ≤ cfg.GEQRF_GEQR2_BLOCKSIZE)
    (hm : cfg.GEQRF_GEQR2_SWITCHSIZE < m) (hn : cfg.GEQRF_GEQR2_SWITCHSIZE < n)
    (hb : batch_count ≠ 0) :
    ∃ k : Nat,
      rocsolver_geqrf_template dev cfg COMPLEX m n shiftA lda strideA ipiv strideP batch_count st
        = some (rocblas_status_success,
            geqrf_blocked_run dev cfg COMPLEX m n shiftA lda strideA ipiv strideP batch_count k
              st)
      ∧ (∀ i : Nat, i < k →
          (i : Int) * cfg.GEQRF_GEQR2_BLOCKSIZE < min m n - cfg.GEQRF_GEQR2_SWITCHSIZE)
      ∧ min m n - cfg.GEQRF_GEQR2_SWITCHSIZE ≤ (k : Int) * cfg.GEQRF_GEQR2_BLOCKSIZE := by
  have hq : ¬ (m = 0 ∨ n = 0 ∨ batch_count = 0) := by omega
  have hs : ¬ (m ≤ cfg.GEQRF_GEQR2_SWITCHSIZE ∨ n ≤ cfg.GEQRF_GEQR2_SWITCHSIZE) := by omega
  have hdim : 0 ≤ min m n := by
    simp only [le_min_iff]; omega
  obtain ⟨k, hk, hin, hout⟩ := geqrf_schedule_spec cfg (min m n) hBS ((min m n).toNat + 1) 0
    (by omega)
  simp only [zero_add] at hk hin hout
  refine ⟨k, ?_, hin, hout⟩
  unfold rocsolver_geqrf_template
  rw [if_neg hq, if_neg hs]
  dsimp only
  rw [geqrf_panels_eq_schedule, hk]
  rfl

/-- Consecutive column ranges concatenate. -/
theorem col_range_append (a : Int) (l1 l2 : Nat) :
    col_range a l1 ++ col_range (a + l1) l2 = col_range a (l1 + l2) := by
  unfold col_range
  rw [List.range_add, List.map_append, List.map_map]
  congr 1
  apply List.map_congr_left
  intro i _
  simp only [Function.comp, Nat.cast_add]
  ring

/-- The columns below `a` followed by a range starting at `a`. -/
theorem col_range_append_zero (a : Int) (ha : 0 ≤ a) (l : Nat) :
    col_range 0 a.toNat ++ col_range a l = col_range 0 (a.toNat + l) := by
  have h := col_range_append 0 a.toNat l
  have he : (0 : Int) + (a.toNat : Int) = a := by omega
  rw [he] at h
  exact h

/-- The pivot columns of the first `k` panels of the blocked QR driver, each
panel starting below `dim`, are the columns `0, ..., min dim (k*BLOCKSIZE) - 1`
in increasing order. -/
theorem geqrf_panel_columns (BS m dim : Int) (hBS : 1 ≤ BS) (hdim : dim ≤ m) :
    ∀ k : Nat, (∀ i : Nat, i < k → (i : Int) * BS < dim) →
      (List.range k).flatMap
          (fun i => col_range ((i : Int) * BS)
            (min (m - (i : Int) * BS) (min (dim - (i : Int) * BS) BS)).toNat)
        = col_range 0 (min dim ((k : Int) * BS)).toNat := by
  intro k
  induction k with
  | zero =>
    intro _
    simp [col_range]
  | succ k ih =>
    intro hin
    have hk : (k : Int) * BS < dim := hin k (by omega)
    have hk0 : 0 ≤ (k : Int) * BS := Int.mul_nonneg (by omega) (by omega)
    have hnext : ((k + 1 : Nat) : Int) * BS = (k : Int) * BS + BS := by
      push_cast; ring
    rw [List.range_succ, List.flatMap_append, List.flatMap_singleton,
      ih (fun i hi => hin i (by omega))]
    have h1 : min dim ((k : Int) * BS) = (k : Int) * BS := by omega
    rw [h1, hnext, col_range_append_zero _ hk0]
    congr 1
    omega

/-- Sample run of the blocked QR driver on a `7 x 8` matrix with switch size `4`
and block size `2`: two panels in the loop, then the last block from column
`4`; the reflector builder is called for the columns `0, ..., 6` in this
order. -/
theorem geqrf_blocked_sample_run :
    rocsolver_geqrf_template traceDevice cfg_small false 7 8 0 7 56
        { buf := Buf.ipiv, off := 0 } 7 1 []
      = some (rocblas_status_success,
          geqrf_blocked_run traceDevice cfg_small false 7 8 0 7 56
            { buf := Buf.ipiv, off := 0 } 7 1 2 [])
    ∧ ((geqrf_blocked_run traceDevice cfg_small false 7 8 0 7 56
          { buf := Buf.ipiv, off := 0 } 7 1 2 []).filterMap fun c =>
        match c with
        | Call.larfg _ _ _ _ _ tau _ _ => some tau.off
        | _ => none)
      = [0, 1, 2, 3, 4, 5, 6] := by
  decide

/-! ### The block-reflector factor buffer -/

/-- Reflector operations do not address the triangular-factor buffer. -/
theorem trfact_within_of_geqr2_op (BS bc : Int) (c : Call) (h : c.is_geqr2_op = true) :
    c.trfact_within BS bc := by
  cases c <;> simp_all [Call.is_geqr2_op, Call.trfact_within]

/-- A panel of the blocked QR driver that starts with at least one column left
addresses the triangular-factor buffer within `BLOCKSIZE x BLOCKSIZE` per
matrix. -/
theorem geqrf_panel_trace (cfg : IdealSizes) (COMPLEX : Bool) (m n shiftA lda strideA : Int)
    (ipiv : Loc) (strideP batch_count dim j : Int) (tr : List Call) (c : Call)
    (hj : j < dim)
    (hc : c ∈ geqrf_panel traceDevice cfg COMPLEX m n shiftA lda strideA ipiv strideP
      batch_count dim cfg.GEQRF_GEQR2_BLOCKSIZE
      (cfg.GEQRF_GEQR2_BLOCKSIZE * cfg.GEQRF_GEQR2_BLOCKSIZE) j tr)
    (hBS : 1 ≤ cfg.GEQRF_GEQR2_BLOCKSIZE) :
    c ∈ tr ∨ c.trfact_within cfg.GEQRF_GEQR2_BLOCKSIZE batch_count := by
  have hjb1 : 1 ≤ min (dim - j) cfg.GEQRF_GEQR2_BLOCKSIZE := by omega
  have hjb2 : min (dim - j) cfg.GEQRF_GEQR2_BLOCKSIZE ≤ cfg.GEQRF_GEQR2_BLOCKSIZE := by omega
  have hgeqr2 : ∀ c, c ∈ (rocsolver_geqr2_template traceDevice COMPLEX (m - j)
      (min (dim - j) cfg.GEQRF_GEQR2_BLOCKSIZE) (shiftA + idx2D j j lda) lda strideA
      (ipiv.add j) strideP batch_count tr).2 →
      c ∈ tr ∨ c.trfact_within cfg.GEQRF_GEQR2_BLOCKSIZE batch_count := by
    intro c hc
    rcases geqr2_template_trace COMPLEX _ _ _ _ _ _ _ _ tr c hc with h | h
    · exact Or.inl h
    · exact Or.inr (trfact_within_of_geqr2_op _ _ c h)
  unfold geqrf_panel at hc
  dsimp only at hc
  split_ifs at hc
  · simp only [traceDevice, List.mem_append, List.mem_singleton] at hc
    rcases hc with (hc | hc) | hc
    · exact hgeqr2 c hc
    · right
      subst hc
      exact ⟨hjb1, hjb2, rfl, rfl, rfl⟩
    · right
      subst hc
      exact ⟨hjb1, hjb2, rfl, rfl, rfl, rfl⟩
  · exact hgeqr2 c hc

/-- C15 (counterexample): for `batch_count = 0` and the shape `5 x 5`, which
selects the blocked path for the QR switch size `4`, `size_5` is `0`. -/
theorem geqrf_getMemorySize_zero_batch :
    (rocsolver_geqrf_getMemorySize host_ok cfg_small false 5 5 0).2.2.2.2 = 0
    ∧ ¬ ((5 : Int) ≤ cfg_small.GEQRF_GEQR2_SWITCHSIZE
        ∨ (5 : Int) ≤ cfg_small.GEQRF_GEQR2_SWITCHSIZE) := by
  decide

/-- The size formulas of `host_growing` are non-decreasing. -/
theorem host_growing_sizes_monotone : host_growing.sizes_monotone := by
  refine ⟨?_, ?_, ?_, ?_, ?_⟩
  · intro B side m m' n n' b b' hm hn hb
    simp only [host_growing, Prod.le_def]
    omega
  · intro n n' b b' hn hb
    simp only [host_growing, Prod.le_def]
    omega
  · intro k k' b b' hk hb
    simp only [host_growing]
    omega
  · intro side m m' n n' k k' b b' hm hn hk hb
    simp only [host_growing]
    omega
  · intro m m' b b' hm hb
    simp only [host_growing, Prod.le_def]
    omega

/-- C17 (witness): from one `1 x 5` matrix (unblocked for both factorizations
with the small constants) to two `6 x 7` matrices (blocked). -/
theorem getMemorySize_monotone_witness :
    rocsolver_geqrf_getMemorySize host_growing cfg_small false 1 5 1
        ≤ rocsolver_geqrf_getMemorySize host_growing cfg_small false 6 7 2
    ∧ rocsolver_getrf_getMemorySize host_growing cfg_small 5 1 1
        ≤ rocsolver_getrf_getMemorySize host_growing cfg_small 7 6 2 :=
  getMemorySize_monotone host_growing cfg_small false 1 6 5 7 1 2 host_growing_sizes_monotone
    (by decide) (by decide) (by decide) (by decide) (by decide) (by decide)

/-! ### Adjustment of the pivot indices -/

/-- Pivot vectors that are at least `width` entries apart do not overlap. -/
theorem pivots_disjoint_of_stride (strideP batch_count width : Int) (h : width ≤ strideP) :
    pivots_disjoint strideP batch_count width := by
  intro id1 id2 t1 t2 h1 _ h2 _ ht1 ht1' ht2 ht2' heq
  by_contra hne
  rcases lt_or_gt_of_ne hne with hlt | hgt
  · have : (id1 + 1) * strideP ≤ id2 * strideP :=
      Int.mul_le_mul_of_nonneg_right (by omega) (by omega)
    have he : (id1 + 1) * strideP = id1 * strideP + strideP := by ring
    omega
  · have : (id2 + 1) * strideP ≤ id1 * strideP :=
      Int.mul_le_mul_of_nonneg_right (by omega) (by omega)
    have he : (id2 + 1) * strideP = id2 * strideP + strideP := by ring
    omega

/-- A single pivot vector does not overlap with any other. -/
theorem pivots_disjoint_of_single (strideP batch_count width : Int) (h : batch_count ≤ 1) :
    pivots_disjoint strideP batch_count width := by
  intro id1 id2 t1 t2 h1 h1' h2 h2' _ _ _ _ _
  omega

/-- Disjointness is inherited by narrower windows. -/
theorem pivots_disjoint_mono (strideP batch_count width width' : Int) (h : width' ≤ width)
    (hd : pivots_disjoint strideP batch_count width) :
    pivots_disjoint strideP batch_count width' := by
  intro id1 id2 t1 t2 h1 h1' h2 h2' ht1 ht1' ht2 ht2' heq
  exact hd id1 id2 t1 t2 h1 h1' h2 h2' ht1 (by omega) ht2 (by omega) heq

/-- Effect of one thread of `getrf_check_singularity` on the pivot buffer. -/
theorem check_singularity_thread_ipiv (n j shiftP strideP pivot : Int) (bd : Nat)
    (t : ThreadIdx) (s : LUState) (p : Int) :
    (getrf_check_singularity n j shiftP strideP pivot bd t s).ipiv p
      = if (t.tid bd < n ∧ pivot ≠ 0)
          ∧ (t.hipBlockIdx_y : Int) * strideP + shiftP + t.tid bd = p
        then s.ipiv p + j else s.ipiv p := by
  unfold getrf_check_singularity ThreadIdx.tid
  dsimp only
  by_cases hi : s.info (t.hipBlockIdx_y : Int) = 0 ∧ s.iinfo (t.hipBlockIdx_y : Int) > 0 <;>
  by_cases hw : (t.hipBlockIdx_x : Int) * bd + t.hipThreadIdx_x < n ∧ pivot ≠ 0 <;>
  by_cases hp : (t.hipBlockIdx_y : Int) * strideP + shiftP
        + ((t.hipBlockIdx_x : Int) * bd + t.hipThreadIdx_x) = p
  all_goals first
    | (subst hp; simp [hi, hw, Function.update_same])
    | (have hne : p ≠ (t.hipBlockIdx_y : Int) * strideP + shiftP
          + ((t.hipBlockIdx_x : Int) * bd + t.hipThreadIdx_x) := fun h => hp h.symm
       simp [hi, hw, hp, Function.update_noteq hne])

/-- Without pivoting the kernel does not write the pivot buffer. -/
theorem run_check_singularity_ipiv_nopivot (n j shiftP strideP : Int) (bd : Nat)
    (ts : List ThreadIdx) (s : LUState) :
    (run_getrf_check_singularity n j shiftP strideP 0 bd ts s).ipiv = s.ipiv := by
  induction ts generalizing s with
  | nil => rfl
  | cons t ts ih =>
    simp only [run_getrf_check_singularity, List.foldl_cons] at ih ⊢
    rw [ih]
    funext p
    rw [check_singularity_thread_ipiv]
    simp

/-- Effect on the pivot buffer of a run of `getrf_check_singularity` by
threads that write pairwise different entries: every entry written by some
thread is increased by `j` once, the others are kept. -/
theorem run_check_singularity_ipiv (n j shiftP strideP pivot : Int) (bd : Nat)
    (ts : List ThreadIdx) (s : LUState) (p : Int)
    (hts : ts.Pairwise fun t1 t2 => t1.tid bd < n → t2.tid bd < n →
      (t1.hipBlockIdx_y : Int) * strideP + shiftP + t1.tid bd
        ≠ (t2.hipBlockIdx_y : Int) * strideP + shiftP + t2.tid bd) :
    (run_getrf_check_singularity n j shiftP strideP pivot bd ts s).ipiv p
      = if ∃ t ∈ ts, (t.tid bd < n ∧ pivot ≠ 0)
            ∧ (t.hipBlockIdx_y : Int) * strideP + shiftP + t.tid bd = p
        then s.ipiv p + j else s.ipiv p := by
  induction ts generalizing s with
  | nil => simp [run_getrf_check_singularity]
  | cons t ts ih =>
    rw [List.pairwise_cons] at hts
    simp only [run_getrf_check_singularity, List.foldl_cons] at ih ⊢
    rw [ih _ hts.2, check_singularity_thread_ipiv]
    by_cases hw : (t.tid bd < n ∧ pivot ≠ 0)
        ∧ (t.hipBlockIdx_y : Int) * strideP + shiftP + t.tid bd = p
    · have hnone : ¬ ∃ t' ∈ ts, (t'.tid bd < n ∧ pivot ≠ 0)
          ∧ (t'.hipBlockIdx_y : Int) * strideP + shiftP + t'.tid bd = p := by
        rintro ⟨t', ht', hw'⟩
        exact hts.1 t' ht' hw.1.1 hw'.1.1 (hw.2.trans hw'.2.symm)
      have hsome : ∃ t' ∈ t :: ts, (t'.tid bd < n ∧ pivot ≠ 0)
          ∧ (t'.hipBlockIdx_y : Int) * strideP + shiftP + t'.tid bd = p :=
        ⟨t, List.mem_cons_self _ _, hw⟩
      simp only [if_neg hnone, if_pos hsome, if_pos hw]
    · have hiff : (∃ t' ∈ t :: ts, (t'.tid bd < n ∧ pivot ≠ 0)
          ∧ (t'.hipBlockIdx_y : Int) * strideP + shiftP + t'.tid bd = p)
          ↔ (∃ t' ∈ ts, (t'.tid bd < n ∧ pivot ≠ 0)
          ∧ (t'.hipBlockIdx_y : Int) * strideP + shiftP + t'.tid bd = p) := by
        constructor
        · rintro ⟨t', ht', h⟩
          rcases List.mem_cons.mp ht' with rfl | hmem
          · exact absurd h hw
          · exact ⟨t', hmem, h⟩
        · rintro ⟨t', ht', h⟩
          exact ⟨t', List.mem_cons_of_mem _ ht', h⟩
      simp only [hiff, if_neg hw]

/-- Membership in the grid of a launch. -/
theorem mem_grid_threads (gridx gridy blockx : Nat) (t : ThreadIdx) :
    t ∈ grid_threads gridx gridy blockx
      ↔ t.hipBlockIdx_x < gridx ∧ t.hipBlockIdx_y < gridy ∧ t.hipThreadIdx_x < blockx := by
  simp only [grid_threads, List.mem_flatMap, List.mem_map, List.mem_range]
  constructor
  · rintro ⟨y, hy, x, hx, tx, htx, rfl⟩
    exact ⟨hx, hy, htx⟩
  · rintro ⟨hx, hy, htx⟩
    exact ⟨t.hipBlockIdx_y, hy, t.hipBlockIdx_x, hx, t.hipThreadIdx_x, htx, rfl⟩

/-- The threads of a launch of `getrf_check_singularity` on `gridy` matrices
whose pivot vectors do not overlap over `n` entries write pairwise different
pivot entries. -/
theorem grid_threads_pairwise (gridx gridy blockx : Nat) (n shiftP strideP : Int)
    (hd : pivots_disjoint strideP gridy n) :
    (grid_threads gridx gridy blockx).Pairwise fun t1 t2 =>
      t1.tid blockx < n → t2.tid blockx < n →
      (t1.hipBlockIdx_y : Int) * strideP + shiftP + t1.tid blockx
        ≠ (t2.hipBlockIdx_y : Int) * strideP + shiftP + t2.tid blockx := by
  unfold grid_threads
  rw [List.pairwise_flatMap]
  constructor
  · intro y _
    rw [List.pairwise_flatMap]
    constructor
    · intro x _
      rw [List.pairwise_map]
      refine (List.pairwise_lt_range blockx).imp ?_
      intro a b hab _ _
      simp only [ThreadIdx.tid]
      omega
    · refine (List.pairwise_lt_range gridx).imp_of_mem ?_
      intro x1 x2 _ _ hx t1 ht1 t2 ht2 _ _
      obtain ⟨a, ha, rfl⟩ := List.mem_map.mp ht1
      obtain ⟨b, hb, rfl⟩ := List.mem_map.mp ht2
      rw [List.mem_range] at ha hb
      simp only [ThreadIdx.tid]
      have hmul : (x1 + 1) * blockx ≤ x2 * blockx := Nat.mul_le_mul_right _ (by omega)
      have hexp : (x1 + 1) * blockx = x1 * blockx + blockx := by ring
      have hcast : ((x1 * blockx : Nat) : Int) + blockx ≤ ((x2 * blockx : Nat) : Int) := by
        omega
      push_cast at hcast
      omega
  · refine (List.pairwise_lt_range gridy).imp_of_mem ?_
    intro y1 y2 hy1 hy2 hy t1 ht1 t2 ht2 hn1 hn2
    rw [List.mem_range] at hy1 hy2
    obtain ⟨x1, _, ht1⟩ := List.mem_flatMap.mp ht1
    obtain ⟨a, _, rfl⟩ := List.mem_map.mp ht1
    obtain ⟨x2, _, ht2⟩ := List.mem_flatMap.mp ht2
    obtain ⟨b, _, rfl⟩ := List.mem_map.mp ht2
    simp only [ThreadIdx.tid] at hn1 hn2 ⊢
    intro heq
    have h0a : (0 : Int) ≤ (x1 : Int) * blockx + a :=
      Int.add_nonneg (Int.mul_nonneg (by omega) (by omega)) (by omega)
    have h0b : (0 : Int) ≤ (x2 : Int) * blockx + b :=
      Int.add_nonneg (Int.mul_nonneg (by omega) (by omega)) (by omega)
    have := hd y1 y2 ((x1 : Int) * blockx + a) ((x2 : Int) * blockx + b) (by omega) (by omega)
      (by omega) (by omega) h0a hn1 h0b hn2 (by omega)
    omega

/-- Effect on the pivot buffer of a launch of `getrf_check_singularity` with
pivoting, on a grid whose rows are the `batch_count` matrices and reach the
`n` pivots of the panel, when the pivot vectors do not overlap: the `n`
entries from `shiftP` of every matrix are increased by `j`, the others are
kept. -/
theorem launch_check_singularity_ipiv (gridx gridy blockx n j shiftP strideP pivot : Int)
    (s : LUState) (hpivot : pivot ≠ 0) (hb : 1 ≤ blockx) (hy : 0 ≤ gridy)
    (hcover : n ≤ gridx * blockx) (hd : pivots_disjoint strideP gridy n) :
    (∀ id t : Int, 0 ≤ id → id < gridy → 0 ≤ t → t < n →
      (hipLaunch_getrf_check_singularity gridx gridy blockx n j shiftP strideP pivot s).ipiv
          (id * strideP + shiftP + t)
        = s.ipiv (id * strideP + shiftP + t) + j)
    ∧ (∀ p : Int,
        (∀ id t : Int, 0 ≤ id → id < gridy → 0 ≤ t → t < n → p ≠ id * strideP + shiftP + t) →
        (hipLaunch_getrf_check_singularity gridx gridy blockx n j shiftP strideP pivot s).ipiv p
          = s.ipiv p) := by
  have hgy : ((gridy.toNat : Nat) : Int) = gridy := Int.toNat_of_nonneg hy
  have hrun : ∀ p, (hipLaunch_getrf_check_singularity gridx gridy blockx n j shiftP strideP
      pivot s).ipiv p
      = if ∃ t ∈ grid_threads gridx.toNat gridy.toNat blockx.toNat,
            (t.tid blockx.toNat < n ∧ pivot ≠ 0)
            ∧ (t.hipBlockIdx_y : Int) * strideP + shiftP + t.tid blockx.toNat = p
        then s.ipiv p + j else s.ipiv p := by
    intro p
    unfold hipLaunch_getrf_check_singularity
    exact run_check_singularity_ipiv _ _ _ _ _ _ _ _ _
      (grid_threads_pairwise gridx.toNat gridy.toNat blockx.toNat n shiftP strideP
        (by rw [hgy]; exact hd))
  constructor
  · intro id t hid0 hid ht0 ht
    rw [hrun]
    have hbx : 0 < blockx.toNat := by omega
    have hdecomp := Nat.div_add_mod t.toNat blockx.toNat
    have hmod := Nat.mod_lt t.toNat hbx
    have hgx0 : 0 ≤ gridx := by
      by_contra hneg
      have : gridx * blockx ≤ 0 :=
        Int.mul_nonpos_of_nonpos_of_nonneg (by omega) (by omega)
      omega
    have hdiv : t.toNat / blockx.toNat < gridx.toNat := by
      rw [Nat.div_lt_iff_lt_mul hbx]
      have hc : ((gridx.toNat * blockx.toNat : Nat) : Int) = gridx * blockx := by
        push_cast
        rw [Int.toNat_of_nonneg hgx0, Int.toNat_of_nonneg (by omega)]
      omega
    have htid : (ThreadIdx.mk (t.toNat / blockx.toNat) id.toNat
        (t.toNat % blockx.toNat)).tid blockx.toNat = t := by
      simp only [ThreadIdx.tid]
      have hc : ((blockx.toNat * (t.toNat / blockx.toNat) + t.toNat % blockx.toNat : Nat)
          : Int) = t := by
        rw [hdecomp]; omega
      push_cast at hc
      rw [mul_comm] at hc
      exact hc
    have hex : ∃ t' ∈ grid_threads gridx.toNat gridy.toNat blockx.toNat,
        (t'.tid blockx.toNat < n ∧ pivot ≠ 0)
        ∧ (t'.hipBlockIdx_y : Int) * strideP + shiftP + t'.tid blockx.toNat
          = id * strideP + shiftP + t := by
      refine ⟨ThreadIdx.mk (t.toNat / blockx.toNat) id.toNat (t.toNat % blockx.toNat),
        ?_, ?_, ?_⟩
      · rw [mem_grid_threads]
        exact ⟨hdiv, by dsimp only; omega, hmod⟩
      · rw [htid]
        exact ⟨ht, hpivot⟩
      · rw [htid]
        have : ((id.toNat : Nat) : Int) = id := Int.toNat_of_nonneg hid0
        simp only [this]
    rw [if_pos hex]
  · intro p hp
    rw [hrun]
    have hno : ¬ ∃ t ∈ grid_threads gridx.toNat gridy.toNat blockx.toNat,
        (t.tid blockx.toNat < n ∧ pivot ≠ 0)
        ∧ (t.hipBlockIdx_y : Int) * strideP + shiftP + t.tid blockx.toNat = p := by
      rintro ⟨t, ht, ⟨htid, _⟩, hpt⟩
      rw [mem_grid_threads] at ht
      refine hp t.hipBlockIdx_y (t.tid blockx.toNat) (by omega) (by omega) ?_ htid hpt.symm
      simp only [ThreadIdx.tid]
      exact Int.add_nonneg (Int.mul_nonneg (by omega) (by omega)) (by omega)
    rw [if_neg hno]

/-- Without pivoting a launch of `getrf_check_singularity` does not write the
pivot buffer. -/
theorem launch_check_singularity_ipiv_nopivot (gridx gridy blockx n j shiftP strideP : Int)
    (s : LUState) :
    (hipLaunch_getrf_check_singularity gridx gridy blockx n j shiftP strideP 0 s).ipiv
      = s.ipiv := by
  unfold hipLaunch_getrf_check_singularity
  exact run_check_singularity_ipiv_nopivot _ _ _ _ _ _ _

/-- Effect of one panel of the blocked LU driver on the pivot buffer, with
pivoting and pivot vectors that do not overlap: the `jb` entries of the panel
hold, for every matrix, the local pivots increased by the first column `j` of
the panel; every other entry is kept. -/
theorem getrf_panel_ipiv (shiftP : Int) (pf : PanelFactorizer) (cfg : IdealSizes)
    (m n shiftA lda strideA strideP batch_count pivot : Int) (optim_mem : Bool)
    (dim blocksReset j : Int) (s : LUState) (L : Int → Int → Int → Int)
    (hBS : 1 ≤ cfg.BLOCKSIZE) (hSW : 1 ≤ cfg.GETRF_GETF2_SWITCHSIZE)
    (hj0 : 0 ≤ j) (hj : j < dim) (hdim : dim ≤ m) (hbc : 0 ≤ batch_count) (hpivot : pivot ≠ 0)
    (hd : pivots_disjoint strideP batch_count dim)
    (hpf : pf.writes_local_pivots shiftP strideP batch_count dim L) :
    (∀ id t : Int, 0 ≤ id → id < batch_count → 0 ≤ t →
      t < min (dim - j) cfg.GETRF_GETF2_SWITCHSIZE →
      (getrf_panel (luDevice shiftP pf) cfg m n shiftA lda strideA shiftP strideP batch_count
          pivot optim_mem dim blocksReset j s).ipiv (id * strideP + shiftP + (j + t))
        = L j id t + j)
    ∧ (∀ p : Int,
        (∀ id t : Int, 0 ≤ id → id < batch_count → 0 ≤ t →
          t < min (dim - j) cfg.GETRF_GETF2_SWITCHSIZE → p ≠ id * strideP + shiftP + (j + t)) →
        (getrf_panel (luDevice shiftP pf) cfg m n shiftA lda strideA shiftP strideP batch_count
            pivot optim_mem dim blocksReset j s).ipiv p = s.ipiv p) := by
  rw [getrf_panel_luDevice]
  have hsz : min (m - j) (min (dim - j) cfg.GETRF_GETF2_SWITCHSIZE)
      = min (dim - j) cfg.GETRF_GETF2_SWITCHSIZE := by omega
  rw [hsz]
  have hjb1 : 1 ≤ min (dim - j) cfg.GETRF_GETF2_SWITCHSIZE := by omega
  have hjbd : min (dim - j) cfg.GETRF_GETF2_SWITCHSIZE ≤ dim := by omega
  have hq : Int.tdiv (min (dim - j) cfg.GETRF_GETF2_SWITCHSIZE - 1) cfg.BLOCKSIZE
      = (min (dim - j) cfg.GETRF_GETF2_SWITCHSIZE - 1) / cfg.BLOCKSIZE :=
    Int.tdiv_eq_ediv (by omega) (by omega)
  have hcover : min (dim - j) cfg.GETRF_GETF2_SWITCHSIZE
      ≤ (Int.tdiv (min (dim - j) cfg.GETRF_GETF2_SWITCHSIZE - 1) cfg.BLOCKSIZE + 1)
        * cfg.BLOCKSIZE := by
    rw [hq]
    have := Int.lt_ediv_add_one_mul_self (min (dim - j) cfg.GETRF_GETF2_SWITCHSIZE - 1)
      (by omega : 0 < cfg.BLOCKSIZE)
    omega
  obtain ⟨hadd, hkeep⟩ := launch_check_singularity_ipiv
    (Int.tdiv (min (dim - j) cfg.GETRF_GETF2_SWITCHSIZE - 1) cfg.BLOCKSIZE + 1) batch_count
    cfg.BLOCKSIZE (min (dim - j) cfg.GETRF_GETF2_SWITCHSIZE) j (shiftP + j) strideP pivot
    { s with
      ipiv := pf.pivots (Call.getf2 (m - j) (min (dim - j) cfg.GETRF_GETF2_SWITCHSIZE)
        (shiftA + idx2D j j lda) lda strideA (shiftP + j) strideP Buf.iinfo batch_count
        pivot) s.ipiv
      iinfo := fun i => if 0 ≤ i ∧ i < batch_count then pf.iinfoOf (shiftP + j - shiftP) i
        else reset_info blocksReset cfg.BLOCKSIZE s.iinfo batch_count 0 i }
    hpivot hBS hbc hcover (pivots_disjoint_mono _ _ _ _ hjbd hd)
  obtain ⟨hwrite, hframe⟩ := hpf (m - j) (min (dim - j) cfg.GETRF_GETF2_SWITCHSIZE)
    (shiftA + idx2D j j lda) lda strideA (shiftP + j) Buf.iinfo pivot s.ipiv hjbd
  have hkey : shiftP + j - shiftP = j := by omega
  constructor
  · intro id t hid0 hid ht0 ht
    have e : id * strideP + shiftP + (j + t) = id * strideP + (shiftP + j) + t := by ring
    rw [e, hadd id t hid0 hid ht0 ht]
    dsimp only
    rw [hwrite id t hid0 hid ht0 ht, hkey]
  · intro p hp
    have hp' : ∀ id t : Int, 0 ≤ id → id < batch_count → 0 ≤ t →
        t < min (dim - j) cfg.GETRF_GETF2_SWITCHSIZE → p ≠ id * strideP + (shiftP + j) + t := by
      intro id t hid0 hid ht0 ht heq
      exact hp id t hid0 hid ht0 ht (by rw [heq]; ring)
    rw [hkeep p hp']
    dsimp only
    exact hframe p hp'

/-- Loop invariant of the blocked LU driver for the pivot buffer: started
before panel number `t` with the pivots of the earlier panels adjusted and
everything outside the pivot vectors untouched, the loop ends with the pivots
of all panels adjusted, each by the first column of its own panel. -/
theorem getrf_panels_ipiv (shiftP : Int) (pf : PanelFactorizer) (cfg : IdealSizes)
    (m n shiftA lda strideA strideP batch_count pivot : Int) (optim_mem : Bool)
    (dim blocksReset : Int) (L : Int → Int → Int → Int) (ipiv0 : Int → Int)
    (hBS : 1 ≤ cfg.BLOCKSIZE) (hSW : 1 ≤ cfg.GETRF_GETF2_SWITCHSIZE)
    (hdim : dim ≤ m) (hbc : 0 ≤ batch_count) (hpivot : pivot ≠ 0)
    (hd : pivots_disjoint strideP batch_count dim)
    (hpf : pf.writes_local_pivots shiftP strideP batch_count dim L) :
    ∀ (fuel t : Nat) (s : LUState),
      (dim - t * cfg.GETRF_GETF2_SWITCHSIZE).toNat < fuel →
      (∀ (id c : Int) (u : Nat), 0 ≤ id → id < batch_count → u < t →
        (u : Int) * cfg.GETRF_GETF2_SWITCHSIZE ≤ c →
        c < (u : Int) * cfg.GETRF_GETF2_SWITCHSIZE + cfg.GETRF_GETF2_SWITCHSIZE → c < dim →
        s.ipiv (id * strideP + shiftP + c)
          = L (u * cfg.GETRF_GETF2_SWITCHSIZE) id (c - u * cfg.GETRF_GETF2_SWITCHSIZE)
              + u * cfg.GETRF_GETF2_SWITCHSIZE) →
      (∀ p : Int,
        (∀ id c : Int, 0 ≤ id → id < batch_count → 0 ≤ c → c < dim →
          p ≠ id * strideP + shiftP + c) →
        s.ipiv p = ipiv0 p) →
      ∃ s', getrf_panels (luDevice shiftP pf) cfg m n shiftA lda strideA shiftP strideP
              batch_count pivot optim_mem dim blocksReset fuel
              (t * cfg.GETRF_GETF2_SWITCHSIZE) s = some s'
        ∧ (∀ (id c : Int) (u : Nat), 0 ≤ id → id < batch_count →
            (u : Int) * cfg.GETRF_GETF2_SWITCHSIZE ≤ c →
            c < (u : Int) * cfg.GETRF_GETF2_SWITCHSIZE + cfg.GETRF_GETF2_SWITCHSIZE → c < dim →
            s'.ipiv (id * strideP + shiftP + c)
              = L (u * cfg.GETRF_GETF2_SWITCHSIZE) id (c - u * cfg.GETRF_GETF2_SWITCHSIZE)
                  + u * cfg.GETRF_GETF2_SWITCHSIZE)
        ∧ (∀ p : Int,
            (∀ id c : Int, 0 ≤ id → id < batch_count → 0 ≤ c → c < dim →
              p ≠ id * strideP + shiftP + c) →
            s'.ipiv p = ipiv0 p) := by
  have hmono : ∀ a b : Nat, a ≤ b →
      (a : Int) * cfg.GETRF_GETF2_SWITCHSIZE ≤ (b : Int) * cfg.GETRF_GETF2_SWITCHSIZE := by
    intro a b hab
    exact Int.mul_le_mul_of_nonneg_right (by exact_mod_cast hab) (by omega)
  have hsucc : ∀ a : Nat, ((a + 1 : Nat) : Int) * cfg.GETRF_GETF2_SWITCHSIZE
      = (a : Int) * cfg.GETRF_GETF2_SWITCHSIZE + cfg.GETRF_GETF2_SWITCHSIZE := by
    intro a; push_cast; ring
  have hnn : ∀ a : Nat, 0 ≤ (a : Int) * cfg.GETRF_GETF2_SWITCHSIZE := by
    intro a; exact Int.mul_nonneg (by omega) (by omega)
  intro fuel
  induction fuel with
  | zero => intro t s hfuel; omega
  | succ fuel ih =>
    intro t s hfuel hinv hout
    unfold getrf_panels
    by_cases hj : (t : Int) * cfg.GETRF_GETF2_SWITCHSIZE < dim
    · rw [if_pos hj, ← hsucc t]
      obtain ⟨hnew, hkeep⟩ := getrf_panel_ipiv shiftP pf cfg m n shiftA lda strideA strideP
        batch_count pivot optim_mem dim blocksReset (t * cfg.GETRF_GETF2_SWITCHSIZE) s L hBS hSW
        (hnn t) hj hdim hbc hpivot hd hpf
      have hnot : ∀ (id c : Int), 0 ≤ id → id < batch_count → 0 ≤ c → c < dim →
          (c < (t : Int) * cfg.GETRF_GETF2_SWITCHSIZE ∨
            (t : Int) * cfg.GETRF_GETF2_SWITCHSIZE + cfg.GETRF_GETF2_SWITCHSIZE ≤ c) →
          ∀ id' t' : Int, 0 ≤ id' → id' < batch_count → 0 ≤ t' →
            t' < min (dim - (t : Int) * cfg.GETRF_GETF2_SWITCHSIZE)
              cfg.GETRF_GETF2_SWITCHSIZE →
            id * strideP + shiftP + c
              ≠ id' * strideP + shiftP + ((t : Int) * cfg.GETRF_GETF2_SWITCHSIZE + t') := by
        intro id c hid0 hid hc0 hc hcase id' t' hid0' hid' ht0' ht' heq
        have h0 := hnn t
        have := hd id id' c ((t : Int) * cfg.GETRF_GETF2_SWITCHSIZE + t') hid0 hid hid0' hid'
          hc0 hc (by omega) (by omega) (by omega)
        subst this
        omega
      apply ih (t + 1)
      · rw [hsucc]
        omega
      · intro id c u hid0 hid hu hlo hhi hc
        rcases Nat.lt_succ_iff_lt_or_eq.mp hu with hlt | heq
        · have h1 := hmono (u + 1) t (by omega)
          rw [hsucc] at h1
          have h0 := hnn u
          rw [hkeep _ (hnot id c hid0 hid (by omega) hc (Or.inl (by omega)))]
          exact hinv id c u hid0 hid hlt hlo hhi hc
        · subst heq
          have e : id * strideP + shiftP + c = id * strideP + shiftP
              + ((u : Int) * cfg.GETRF_GETF2_SWITCHSIZE
                + (c - (u : Int) * cfg.GETRF_GETF2_SWITCHSIZE)) := by ring
          rw [e]
          exact hnew id (c - (u : Int) * cfg.GETRF_GETF2_SWITCHSIZE) hid0 hid (by omega)
            (by omega)
      · intro p hp
        rw [hkeep p]
        · exact hout p hp
        · intro id' t' hid0' hid' ht0' ht' heq
          have h0 := hnn t
          exact hp id' ((t : Int) * cfg.GETRF_GETF2_SWITCHSIZE + t') hid0' hid' (by omega)
            (by omega) heq
    · rw [if_neg hj]
      refine ⟨s, rfl, ?_, hout⟩
      intro id c u hid0 hid hlo hhi hc
      apply hinv id c u hid0 hid ?_ hlo hhi hc
      by_contra hge
      have := hmono t u (by omega)
      omega

/-- The stored local pivots are found where they were written, and nothing
else is changed, when the pivot vectors do not overlap. -/
theorem write_local_pivots_spec (L : Int → Int → Int) (n strideP sP : Int) (ipiv : Int → Int)
    (batch_count : Int) (hd : pivots_disjoint strideP batch_count n) :
    ∀ count : Nat, (count : Int) ≤ batch_count →
      (∀ id t : Int, 0 ≤ id → id < count → 0 ≤ t → t < n →
        write_local_pivots L n strideP sP count ipiv (id * strideP + sP + t) = L id t)
      ∧ (∀ p : Int,
          (∀ id t : Int, 0 ≤ id → id < count → 0 ≤ t → t < n → p ≠ id * strideP + sP + t) →
          write_local_pivots L n strideP sP count ipiv p = ipiv p) := by
  intro count
  induction count with
  | zero =>
    intro _
    refine ⟨?_, ?_⟩
    · intro id t h0 h1
      simp only [Nat.cast_zero] at h1
      omega
    · intro p _
      rfl
  | succ k ih =>
    intro hk
    obtain ⟨ih1, ih2⟩ := ih (by omega)
    refine ⟨?_, ?_⟩
    · intro id t hid0 hid ht0 ht
      unfold write_local_pivots
      by_cases hlast : id = (k : Int)
      · subst hlast
        have e : (k : Int) * strideP + sP + t - ((k : Int) * strideP + sP) = t := by ring
        rw [e, if_pos ⟨ht0, ht⟩]
      · have hneg : ¬ (0 ≤ id * strideP + sP + t - ((k : Int) * strideP + sP)
            ∧ id * strideP + sP + t - ((k : Int) * strideP + sP) < n) := by
          rintro ⟨h1, h2⟩
          have := hd id k t (id * strideP + sP + t - ((k : Int) * strideP + sP)) hid0
            (by omega) (by omega) (by omega) ht0 ht h1 h2 (by ring)
          exact hlast this
        rw [if_neg hneg]
        exact ih1 id t hid0 (by omega) ht0 ht
    · intro p hp
      unfold write_local_pivots
      have hneg : ¬ (0 ≤ p - ((k : Int) * strideP + sP) ∧ p - ((k : Int) * strideP + sP) < n) := by
        rintro ⟨h1, h2⟩
        exact hp k (p - ((k : Int) * strideP + sP)) (by omega) (by omega) h1 h2 (by ring)
      rw [if_neg hneg]
      exact ih2 p (fun id t hid0 hid ht0 ht => hp id t hid0 (by omega) ht0 ht)

/-- The panel factorizer `pf_local_pivots` stores local pivots as the data
model says, for pivot vectors that do not overlap. -/
theorem pf_local_pivots_writes (shiftP strideP batch_count width : Int)
    (L : Int → Int → Int → Int) (iinfoOf : Int → Int → Int) (hbc : 0 ≤ batch_count)
    (hd : pivots_disjoint strideP batch_count width) :
    (pf_local_pivots shiftP L iinfoOf).writes_local_pivots shiftP strideP batch_count width
      L := by
  intro m n shiftA lda strideA sP infoBuf pivot ipiv hn
  have hd' := pivots_disjoint_mono strideP batch_count width n hn hd
  obtain ⟨h1, h2⟩ := write_local_pivots_spec (L (sP - shiftP)) n strideP sP ipiv batch_count hd'
    batch_count.toNat (by omega)
  have hc : ((batch_count.toNat : Nat) : Int) = batch_count := Int.toNat_of_nonneg hbc
  rw [hc] at h1 h2
  exact ⟨fun id t hid0 hid ht0 ht => h1 id t hid0 hid ht0 ht, fun p hp => h2 p hp⟩

/-- C11 (counterexample): with pivot stride `0` the pivot vectors of a batch of
two matrices are the same memory, and a launch of `getrf_check_singularity`
for the panel at column `2` raises the pivot entry `0` from `1` to `5`: the
offset `2` is added twice, not exactly once. -/
theorem check_singularity_overlapping_pivots :
    lu_stale.ipiv 0 = 1
      ∧ (hipLaunch_getrf_check_singularity 1 2 2 2 2 0 0 1 lu_stale).ipiv 0 = 5 := by
  decide

/-- C11 (amended): blocked LU factorization of a batch whose pivot vectors do
not overlap (`pivots_disjoint`, for instance `strideP >= min m n` or a single
matrix), the panel factorization storing the local 1-based pivots `L j id t`
of the panel starting at column `j`.  (1) With pivoting, the launch of
`getrf_check_singularity` issued for the panel at column `j` adds `j` to each
of the pivot entries of the panel, for every matrix, and keeps every other
entry.  (2) Without pivoting no launch writes the pivot buffer.  (3) With
pivoting the driver returns, and in the final buffer the pivot of column `c`
of the panel starting at `j = u * GETRF_GETF2_SWITCHSIZE` is `L j id (c - j)
+ j`, hence lies in `[j + 1, m]` when the local pivot lies in `[1, m - j]`;
entries outside the pivot vectors are as on entry. -/
theorem getrf_pivot_adjustment (shiftP : Int) (pf : PanelFactorizer) (cfg : IdealSizes)
    (m n shiftA lda strideA strideP batch_count pivot : Int) (optim_mem : Bool)
    (s : LUState) (L : Int → Int → Int → Int)
    (hSW : 1 ≤ cfg.GETRF_GETF2_SWITCHSIZE) (hBS : 1 ≤ cfg.BLOCKSIZE)
    (hm : cfg.GETRF_GETF2_SWITCHSIZE ≤ m) (hn : cfg.GETRF_GETF2_SWITCHSIZE ≤ n)
    (hbc : 1 ≤ batch_count)
    (hd : pivots_disjoint strideP batch_count (min m n))
    (hpf : pf.writes_local_pivots shiftP strideP batch_count (min m n) L) :
    (pivot ≠ 0 → ∀ (j : Int) (s1 : LUState), 0 ≤ j → j < min m n →
      (∀ id t : Int, 0 ≤ id → id < batch_count → 0 ≤ t →
        t < min (m - j) (min (min m n - j) cfg.GETRF_GETF2_SWITCHSIZE) →
        ((luDevice shiftP pf).exec (Call.getrf_check_singularity
            (Int.tdiv (min (m - j) (min (min m n - j) cfg.GETRF_GETF2_SWITCHSIZE) - 1)
              cfg.BLOCKSIZE + 1)
            batch_count cfg.BLOCKSIZE
            (min (m - j) (min (min m n - j) cfg.GETRF_GETF2_SWITCHSIZE)) j (shiftP + j)
            strideP pivot) s1).ipiv (id * strideP + (shiftP + j) + t)
          = s1.ipiv (id * strideP + (shiftP + j) + t) + j)
      ∧ (∀ p : Int,
          (∀ id t : Int, 0 ≤ id → id < batch_count → 0 ≤ t →
            t < min (m - j) (min (min m n - j) cfg.GETRF_GETF2_SWITCHSIZE) →
            p ≠ id * strideP + (shiftP + j) + t) →
          ((luDevice shiftP pf).exec (Call.getrf_check_singularity
              (Int.tdiv (min (m - j) (min (min m n - j) cfg.GETRF_GETF2_SWITCHSIZE) - 1)
                cfg.BLOCKSIZE + 1)
              batch_count cfg.BLOCKSIZE
              (min (m - j) (min (min m n - j) cfg.GETRF_GETF2_SWITCHSIZE)) j (shiftP + j)
              strideP pivot) s1).ipiv p = s1.ipiv p))
    ∧ (∀ (gridx gridy blockx n1 j sP : Int) (s1 : LUState),
        ((luDevice shiftP pf).exec
          (Call.getrf_check_singularity gridx gridy blockx n1 j sP strideP 0) s1).ipiv
          = s1.ipiv)
    ∧ (pivot ≠ 0 →
        ∃ s', rocsolver_getrf_template (luDevice shiftP pf) cfg m n shiftA lda strideA shiftP
                strideP batch_count pivot optim_mem s = some (rocblas_status_success, s')
          ∧ (∀ (id c : Int) (u : Nat), 0 ≤ id → id < batch_count →
              (u : Int) * cfg.GETRF_GETF2_SWITCHSIZE ≤ c →
              c < (u : Int) * cfg.GETRF_GETF2_SWITCHSIZE + cfg.GETRF_GETF2_SWITCHSIZE →
              c < min m n →
              s'.ipiv (id * strideP + shiftP + c)
                  = L (u * cfg.GETRF_GETF2_SWITCHSIZE) id (c - u * cfg.GETRF_GETF2_SWITCHSIZE)
                      + u * cfg.GETRF_GETF2_SWITCHSIZE
                ∧ (1 ≤ L (u * cfg.GETRF_GETF2_SWITCHSIZE) id
                        (c - u * cfg.GETRF_GETF2_SWITCHSIZE) →
                    L (u * cfg.GETRF_GETF2_SWITCHSIZE) id (c - u * cfg.GETRF_GETF2_SWITCHSIZE)
                      ≤ m - u * cfg.GETRF_GETF2_SWITCHSIZE →
                    (u : Int) * cfg.GETRF_GETF2_SWITCHSIZE + 1
                        ≤ s'.ipiv (id * strideP + shiftP + c)
                      ∧ s'.ipiv (id * strideP + shiftP + c) ≤ m))
          ∧ (∀ p : Int,
              (∀ id c : Int, 0 ≤ id → id < batch_count → 0 ≤ c → c < min m n →
                p ≠ id * strideP + shiftP + c) →
              s'.ipiv p = s.ipiv p)) := by
  have hquick : ¬ (m = 0 ∨ n = 0 ∨ batch_count = 0) := by omega
  have hsmall : ¬ (m < cfg.GETRF_GETF2_SWITCHSIZE ∨ n < cfg.GETRF_GETF2_SWITCHSIZE) := by omega
  have hdim : min m n ≤ m := min_le_left m n
  refine ⟨?_, ?_, ?_⟩
  · intro hpivot j s1 hj0 hj
    have hjb1 : 1 ≤ min (m - j) (min (min m n - j) cfg.GETRF_GETF2_SWITCHSIZE) := by omega
    have hjbd : min (m - j) (min (min m n - j) cfg.GETRF_GETF2_SWITCHSIZE) ≤ min m n := by
      omega
    have hq : Int.tdiv (min (m - j) (min (min m n - j) cfg.GETRF_GETF2_SWITCHSIZE) - 1)
        cfg.BLOCKSIZE
        = (min (m - j) (min (min m n - j) cfg.GETRF_GETF2_SWITCHSIZE) - 1) / cfg.BLOCKSIZE :=
      Int.tdiv_eq_ediv (by omega) (by omega)
    have hcover : min (m - j) (min (min m n - j) cfg.GETRF_GETF2_SWITCHSIZE)
        ≤ (Int.tdiv (min (m - j) (min (min m n - j) cfg.GETRF_GETF2_SWITCHSIZE) - 1)
            cfg.BLOCKSIZE + 1) * cfg.BLOCKSIZE := by
      rw [hq]
      have := Int.lt_ediv_add_one_mul_self
        (min (m - j) (min (min m n - j) cfg.GETRF_GETF2_SWITCHSIZE) - 1)
        (by omega : 0 < cfg.BLOCKSIZE)
      omega
    exact launch_check_singularity_ipiv _ batch_count cfg.BLOCKSIZE _ j (shiftP + j) strideP
      pivot s1 hpivot hBS (by omega) hcover (pivots_disjoint_mono _ _ _ _ hjbd hd)
  · intro gridx gridy blockx n1 j sP s1
    exact launch_check_singularity_ipiv_nopivot gridx gridy blockx n1 j sP strideP s1
  · intro hpivot
    obtain ⟨s', hrun, hadj, hout⟩ := getrf_panels_ipiv shiftP pf cfg m n shiftA lda strideA
      strideP batch_count pivot optim_mem (min m n)
      (Int.tdiv (batch_count - 1) cfg.BLOCKSIZE + 1) L s.ipiv hBS hSW hdim (by omega) hpivot
      hd hpf ((min m n).toNat + 1) 0
      ((luDevice shiftP pf).exec
        (Call.reset_info (Int.tdiv (batch_count - 1) cfg.BLOCKSIZE + 1) cfg.BLOCKSIZE Buf.info
          batch_count 0)
        ((luDevice shiftP pf).exec (Call.set_pointer_mode rocblas_pointer_mode_host) s))
      (by simp only [Nat.cast_zero, zero_mul, sub_zero]; omega)
      (by intro id c u _ _ hu; omega)
      (by intro p _; simp only [luDevice])
    simp only [Nat.cast_zero, zero_mul] at hrun
    refine ⟨(luDevice shiftP pf).exec
      (Call.set_pointer_mode ((luDevice shiftP pf).get_pointer_mode s)) s', ?_, ?_, ?_⟩
    · unfold rocsolver_getrf_template
      rw [if_neg hquick, if_neg hsmall]
      simp only [hrun]
    · intro id c u hid0 hid hlo hhi hc
      have hipiv : ((luDevice shiftP pf).exec
          (Call.set_pointer_mode ((luDevice shiftP pf).get_pointer_mode s)) s').ipiv
          = s'.ipiv := by
        simp only [luDevice]
      rw [hipiv]
      have hval := hadj id c u hid0 hid hlo hhi hc
      refine ⟨hval, ?_⟩
      intro h1 h2
      rw [hval]
      omega
    · intro p hp
      have hipiv : ((luDevice shiftP pf).exec
          (Call.set_pointer_mode ((luDevice shiftP pf).get_pointer_mode s)) s').ipiv
          = s'.ipiv := by
        simp only [luDevice]
      rw [hipiv]
      exact hout p hp

/-- C11 (witness): a `6 x 7` batch of two matrices with pivot stride `6`,
panels of two columns, and a panel factorization without row interchanges
(local pivot `t + 1` in column `t` of each panel). -/
theorem getrf_pivot_adjustment_witness :
    (1 : Int) ≠ 0 ∧ pivots_disjoint 6 2 (min 6 7)
    ∧ ((1 : Int) ≠ 0 → ∀ (j : Int) (s1 : LUState), 0 ≤ j → j < min 6 7 →
      (∀ id t : Int, 0 ≤ id → id < 2 → 0 ≤ t →
        t < min (6 - j) (min (min 6 7 - j) cfg_small.GETRF_GETF2_SWITCHSIZE) →
        ((luDevice 0 (pf_local_pivots 0 L_identity (fun _ _ => 0))).exec
          (Call.getrf_check_singularity
            (Int.tdiv (min (6 - j) (min (min 6 7 - j) cfg_small.GETRF_GETF2_SWITCHSIZE) - 1)
              cfg_small.BLOCKSIZE + 1)
            2 cfg_small.BLOCKSIZE
            (min (6 - j) (min (min 6 7 - j) cfg_small.GETRF_GETF2_SWITCHSIZE)) j (0 + j)
            6 1) s1).ipiv (id * 6 + (0 + j) + t)
          = s1.ipiv (id * 6 + (0 + j) + t) + j)
      ∧ (∀ p : Int,
          (∀ id t : Int, 0 ≤ id → id < 2 → 0 ≤ t →
            t < min (6 - j) (min (min 6 7 - j) cfg_small.GETRF_GETF2_SWITCHSIZE) →
            p ≠ id * 6 + (0 + j) + t) →
          ((luDevice 0 (pf_local_pivots 0 L_identity (fun _ _ => 0))).exec
            (Call.getrf_check_singularity
              (Int.tdiv (min (6 - j) (min (min 6 7 - j) cfg_small.GETRF_GETF2_SWITCHSIZE) - 1)
                cfg_small.BLOCKSIZE + 1)
              2 cfg_small.BLOCKSIZE
              (min (6 - j) (min (min 6 7 - j) cfg_small.GETRF_GETF2_SWITCHSIZE)) j (0 + j)
              6 1) s1).ipiv p = s1.ipiv p))
    ∧ (∀ (gridx gridy blockx n1 j sP : Int) (s1 : LUState),
        ((luDevice 0 (pf_local_pivots 0 L_identity (fun _ _ => 0))).exec
          (Call.getrf_check_singularity gridx gridy blockx n1 j sP 6 0) s1).ipiv
          = s1.ipiv)
    ∧ ((1 : Int) ≠ 0 →
        ∃ s', rocsolver_getrf_template (luDevice 0 (pf_local_pivots 0 L_identity (fun _ _ => 0)))
                cfg_small 6 7 0 6 42 0 6 2 1 false lu_stale = some (rocblas_status_success, s')
          ∧ (∀ (id c : Int) (u : Nat), 0 ≤ id → id < 2 →
              (u : Int) * cfg_small.GETRF_GETF2_SWITCHSIZE ≤ c →
              c < (u : Int) * cfg_small.GETRF_GETF2_SWITCHSIZE
                    + cfg_small.GETRF_GETF2_SWITCHSIZE →
              c < min 6 7 →
              s'.ipiv (id * 6 + 0 + c)
                  = L_identity (u * cfg_small.GETRF_GETF2_SWITCHSIZE) id
                        (c - u * cfg_small.GETRF_GETF2_SWITCHSIZE)
                      + u * cfg_small.GETRF_GETF2_SWITCHSIZE
                ∧ (1 ≤ L_identity (u * cfg_small.GETRF_GETF2_SWITCHSIZE) id
                        (c - u * cfg_small.GETRF_GETF2_SWITCHSIZE) →
                    L_identity (u * cfg_small.GETRF_GETF2_SWITCHSIZE) id
                        (c - u * cfg_small.GETRF_GETF2_SWITCHSIZE)
                      ≤ 6 - u * cfg_small.GETRF_GETF2_SWITCHSIZE →
                    (u : Int) * cfg_small.GETRF_GETF2_SWITCHSIZE + 1
                        ≤ s'.ipiv (id * 6 + 0 + c)
                      ∧ s'.ipiv (id * 6 + 0 + c) ≤ 6))
          ∧ (∀ p : Int,
              (∀ id c : Int, 0 ≤ id → id < 2 → 0 ≤ c → c < min 6 7 →
                p ≠ id * 6 + 0 + c) →
              s'.ipiv p = lu_stale.ipiv p)) :=
  ⟨by decide, pivots_disjoint_of_stride 6 2 (min 6 7) (by decide),
    getrf_pivot_adjustment 0 (pf_local_pivots 0 L_identity (fun _ _ => 0)) cfg_small 6 7 0 6 42
      6 2 1 false lu_stale L_identity (by decide) (by decide) (by decide) (by decide)
      (by decide) (pivots_disjoint_of_stride 6 2 (min 6 7) (by decide))
      (pf_local_pivots_writes 0 6 2 (min 6 7) L_identity (fun _ _ => 0) (by decide)
        (pivots_disjoint_of_stride 6 2 (min 6 7) (by decide)))⟩

/-- Sample run of the blocked LU driver on the pivot buffer: with the
identity local pivots, panels of two columns and pivot stride `6`, the pivot
of column `3` of matrix `1` (entry `9`) ends as `4`, and entry `12`, outside
both pivot vectors, keeps its stale value. -/
theorem getrf_pivot_sample_run :
    (rocsolver_getrf_template (luDevice 0 (pf_local_pivots 0 L_identity (fun _ _ => 0)))
        cfg_small 6 7 0 6 42 0 6 2 1 false lu_stale).map
      (fun r => (r.2.ipiv 9, r.2.ipiv 3, r.2.ipiv 12)) = some (4, 4, 1) := by
  decide

/-! ### Shapes of the sub-calls of the blocked QR driver -/

/-- A column step of the unblocked QR factorization appends its operations to
the record. -/
theorem geqr2_column_trace_append (COMPLEX : Bool) (m n shiftA lda strideA : Int)
    (ipiv : Loc) (strideP batch_count j : Int) (tr : List Call) :
    geqr2_column traceDevice COMPLEX m n shiftA lda strideA ipiv strideP batch_count j tr
      = tr ++ geqr2_column traceDevice COMPLEX m n shiftA lda strideA ipiv strideP batch_count
          j [] := by
  unfold geqr2_column
  dsimp only [traceDevice]
  split_ifs <;> simp

/-- A column step of the unblocked QR factorization of an `m1 x n1` block
inside the first `m` rows and `n` columns builds and applies reflectors within
`m` rows and `n` columns. -/
theorem geqr2_column_shape (cfg : IdealSizes) (COMPLEX : Bool)
    (m n m1 n1 shiftA lda strideA : Int) (ipiv : Loc) (strideP batch_count j : Int)
    (hm : m1 ≤ m) (hn : n1 ≤ n) (hj : 0 ≤ j) :
    ∀ c ∈ geqr2_column traceDevice COMPLEX m1 n1 shiftA lda strideA ipiv strideP
      batch_count j [], c.geqrf_shape_within cfg m n := by
  unfold geqr2_column
  dsimp only [traceDevice]
  split_ifs <;> simp [Call.geqrf_shape_within] <;> omega

/-- A fold of steps that append to the record yields the record followed by
the operations of the steps, in order. -/
theorem foldl_trace_flatMap (step : Int → List Call → List Call) (js : List Int)
    (happ : ∀ j tr, step j tr = tr ++ step j []) (tr : List Call) :
    js.foldl (fun tr j => step j tr) tr = tr ++ js.flatMap (fun j => step j []) := by
  induction js generalizing tr with
  | nil => simp
  | cons j js ih =>
    rw [List.foldl_cons, ih, happ j tr, List.flatMap_cons, List.append_assoc]

/-- A list of naturals read as integers, element by element. -/
theorem flatMap_singleton_cast (l : List Nat) :
    (l.flatMap fun a => [(a : Int)]) = l.map fun i : Nat => (i : Int) := by
  induction l with
  | nil => rfl
  | cons a l ih => simp [List.flatMap_cons, ih]

/-- The record of the unblocked QR factorization is the concatenation of the
records of its column steps `0, ..., min m n - 1`. -/
theorem geqr2_template_trace_eq (COMPLEX : Bool) (m n shiftA lda strideA : Int) (ipiv : Loc)
    (strideP batch_count : Int) (tr : List Call)
    (hq : ¬ (m = 0 ∨ n = 0 ∨ batch_count = 0)) :
    (rocsolver_geqr2_template traceDevice COMPLEX m n shiftA lda strideA ipiv strideP
        batch_count tr).2
      = tr ++ ((List.range (min m n).toNat).map fun i : Nat => (i : Int)).flatMap
          (fun j => geqr2_column traceDevice COMPLEX m n shiftA lda strideA ipiv strideP
            batch_count j []) := by
  unfold rocsolver_geqr2_template
  rw [if_neg hq]
  dsimp only
  have h := foldl_trace_flatMap
    (fun j tr => geqr2_column traceDevice COMPLEX m n shiftA lda strideA ipiv strideP
      batch_count j tr)
    ((List.range (min m n).toNat).map fun i : Nat => (i : Int))
    (fun j tr => geqr2_column_trace_append COMPLEX m n shiftA lda strideA ipiv strideP
      batch_count j tr) tr
  convert h using 2
  exact flatMap_singleton_cast _

/-- The unblocked QR factorization of an `m1 x n1` block inside the first `m`
rows and `n` columns builds and applies reflectors within `m` rows and `n`
columns. -/
theorem geqr2_template_shape (cfg : IdealSizes) (COMPLEX : Bool)
    (m n m1 n1 shiftA lda strideA : Int) (ipiv : Loc) (strideP batch_count : Int)
    (tr : List Call) (hm : m1 ≤ m) (hn : n1 ≤ n) :
    ∀ c ∈ (rocsolver_geqr2_template traceDevice COMPLEX m1 n1 shiftA lda strideA ipiv strideP
      batch_count tr).2, c ∈ tr ∨ c.geqrf_shape_within cfg m n := by
  intro c hc
  by_cases hq : m1 = 0 ∨ n1 = 0 ∨ batch_count = 0
  · unfold rocsolver_geqr2_template at hc
    rw [if_pos hq] at hc
    exact Or.inl hc
  · rw [geqr2_template_trace_eq COMPLEX m1 n1 shiftA lda strideA ipiv strideP batch_count tr hq,
      List.mem_append] at hc
    rcases hc with hc | hc
    · exact Or.inl hc
    · right
      obtain ⟨j, hj, hcj⟩ := List.mem_flatMap.mp hc
      obtain ⟨i, _, rfl⟩ := List.mem_map.mp hj
      exact geqr2_column_shape cfg COMPLEX m n m1 n1 shiftA lda strideA ipiv strideP
        batch_count i hm hn (by omega) c hcj

/-- C21: on the blocked path of `rocsolver_geqrf_template` with
`1 <= BLOCKSIZE <= SWITCHSIZE` the driver returns after `k` panels at the
offsets `j = i*BLOCKSIZE >= 0`.  Each panel is a `geqr2` call of shape
`(m - j, BLOCKSIZE)`, a block-reflector build of order `BLOCKSIZE` and a
block-reflector apply of shape `(m - j, n - j - BLOCKSIZE, BLOCKSIZE)` with
`m - j <= m`, `BLOCKSIZE <= n` and `0 < n - j - BLOCKSIZE <= n - BLOCKSIZE`;
the last `geqr2` call has shape `(m - j, n - j)` with `m - j <= m` and
`n - j <= n`.  On the recording device every reflector and block-reflector
operation stays within the dimensions `(m, n)`, `BLOCKSIZE` and
`(m, n - BLOCKSIZE, BLOCKSIZE)` that `rocsolver_geqrf_getMemorySize` passes to
the size formulas. -/
theorem geqrf_subcall_shapes {σ : Type} (dev : Device σ) (cfg : IdealSizes) (COMPLEX : Bool)
    (m n shiftA lda strideA : Int) (ipiv : Loc) (strideP batch_count : Int) (st : σ)
    (hBS : 1 ≤ cfg.GEQRF_GEQR2_BLOCKSIZE)
    (hBSW : cfg.GEQRF_GEQR2_BLOCKSIZE ≤ cfg.GEQRF_GEQR2_SWITCHSIZE)
    (hm : cfg.GEQRF_GEQR2_SWITCHSIZE < m) (hn : cfg.GEQRF_GEQR2_SWITCHSIZE < n)
    (hb : batch_count ≠ 0) :
    ∃ k : Nat,
      rocsolver_geqrf_template dev cfg COMPLEX m n shiftA lda strideA ipiv strideP batch_count st
        = some (rocblas_status_success,
            geqrf_blocked_run dev cfg COMPLEX m n shiftA lda strideA ipiv strideP batch_count k
              st)
      ∧ (∀ i : Nat, i < k →
          (∀ st1 : σ,
            geqrf_panel dev cfg COMPLEX m n shiftA lda strideA ipiv strideP batch_count
                (min m n) cfg.GEQRF_GEQR2_BLOCKSIZE
                (cfg.GEQRF_GEQR2_BLOCKSIZE * cfg.GEQRF_GEQR2_BLOCKSIZE)
                ((i : Int) * cfg.GEQRF_GEQR2_BLOCKSIZE) st1
              = dev.exec (Call.larfb rocblas_side_left rocblas_operation_conjugate_transpose
                  (m - (i : Int) * cfg.GEQRF_GEQR2_BLOCKSIZE)
                  (n - (i : Int) * cfg.GEQRF_GEQR2_BLOCKSIZE - cfg.GEQRF_GEQR2_BLOCKSIZE)
                  cfg.GEQRF_GEQR2_BLOCKSIZE
                  (shiftA + idx2D ((i : Int) * cfg.GEQRF_GEQR2_BLOCKSIZE)
                    ((i : Int) * cfg.GEQRF_GEQR2_BLOCKSIZE) lda) lda strideA 0
                  cfg.GEQRF_GEQR2_BLOCKSIZE
                  (cfg.GEQRF_GEQR2_BLOCKSIZE * cfg.GEQRF_GEQR2_BLOCKSIZE)
                  (shiftA + idx2D ((i : Int) * cfg.GEQRF_GEQR2_BLOCKSIZE)
                    ((i : Int) * cfg.GEQRF_GEQR2_BLOCKSIZE + cfg.GEQRF_GEQR2_BLOCKSIZE) lda)
                  lda strideA batch_count)
                (dev.exec (Call.larft (m - (i : Int) * cfg.GEQRF_GEQR2_BLOCKSIZE)
                    cfg.GEQRF_GEQR2_BLOCKSIZE
                    (shiftA + idx2D ((i : Int) * cfg.GEQRF_GEQR2_BLOCKSIZE)
                      ((i : Int) * cfg.GEQRF_GEQR2_BLOCKSIZE) lda) lda strideA
                    (ipiv.add ((i : Int) * cfg.GEQRF_GEQR2_BLOCKSIZE)) strideP
                    cfg.GEQRF_GEQR2_BLOCKSIZE
                    (cfg.GEQRF_GEQR2_BLOCKSIZE * cfg.GEQRF_GEQR2_BLOCKSIZE) batch_count)
                  (rocsolver_geqr2_template dev COMPLEX
                    (m - (i : Int) * cfg.GEQRF_GEQR2_BLOCKSIZE) cfg.GEQRF_GEQR2_BLOCKSIZE
                    (shiftA + idx2D ((i : Int) * cfg.GEQRF_GEQR2_BLOCKSIZE)
                      ((i : Int) * cfg.GEQRF_GEQR2_BLOCKSIZE) lda) lda strideA
                    (ipiv.add ((i : Int) * cfg.GEQRF_GEQR2_BLOCKSIZE)) strideP batch_count
                    st1).2))
          ∧ 0 ≤ (i : Int) * cfg.GEQRF_GEQR2_BLOCKSIZE
          ∧ m - (i : Int) * cfg.GEQRF_GEQR2_BLOCKSIZE ≤ m
          ∧ cfg.GEQRF_GEQR2_BLOCKSIZE ≤ n
          ∧ 0 < n - (i : Int) * cfg.GEQRF_GEQR2_BLOCKSIZE - cfg.GEQRF_GEQR2_BLOCKSIZE
          ∧ n - (i : Int) * cfg.GEQRF_GEQR2_BLOCKSIZE - cfg.GEQRF_GEQR2_BLOCKSIZE
              ≤ n - cfg.GEQRF_GEQR2_BLOCKSIZE)
      ∧ (k : Int) * cfg.GEQRF_GEQR2_BLOCKSIZE < min m n
      ∧ m - (k : Int) * cfg.GEQRF_GEQR2_BLOCKSIZE ≤ m
      ∧ n - (k : Int) * cfg.GEQRF_GEQR2_BLOCKSIZE ≤ n
      ∧ ∃ tr, rocsolver_geqrf_template traceDevice cfg COMPLEX m n shiftA lda strideA ipiv
            strideP batch_count [] = some (rocblas_status_success, tr)
          ∧ ∀ c ∈ tr, c.geqrf_shape_within cfg m n := by
  have hSW : 0 ≤ cfg.GEQRF_GEQR2_SWITCHSIZE := by omega
  obtain ⟨k, hrun, hin, hout⟩ := geqrf_template_blocked dev cfg COMPLEX m n shiftA lda strideA
    ipiv strideP batch_count st hSW hBS hm hn hb
  obtain ⟨k', hrun', hin', hout'⟩ := geqrf_template_blocked traceDevice cfg COMPLEX m n shiftA
    lda strideA ipiv strideP batch_count [] hSW hBS hm hn hb
  have hnn : ∀ i : Nat, 0 ≤ (i : Int) * cfg.GEQRF_GEQR2_BLOCKSIZE := fun i =>
    Int.mul_nonneg (by omega) (by omega)
  have hlast : (k : Int) * cfg.GEQRF_GEQR2_BLOCKSIZE < min m n := by
    rcases Nat.eq_zero_or_pos k with h0 | hpos
    · subst h0
      simp only [Nat.cast_zero, zero_mul, lt_min_iff]
      omega
    · have h1 := hin (k - 1) (by omega)
      have hc : ((k - 1 : Nat) : Int) = (k : Int) - 1 := by omega
      rw [hc] at h1
      have he : ((k : Int) - 1) * cfg.GEQRF_GEQR2_BLOCKSIZE
          = (k : Int) * cfg.GEQRF_GEQR2_BLOCKSIZE - cfg.GEQRF_GEQR2_BLOCKSIZE := by ring
      omega
  refine ⟨k, hrun, ?_, hlast, by have := hnn k; omega, by have := hnn k; omega, ?_⟩
  · intro i hi
    have h1 := hin i hi
    have h0 := hnn i
    have hjb : min (min m n - (i : Int) * cfg.GEQRF_GEQR2_BLOCKSIZE)
        cfg.GEQRF_GEQR2_BLOCKSIZE = cfg.GEQRF_GEQR2_BLOCKSIZE := by omega
    refine ⟨?_, h0, by omega, by omega, by omega, by omega⟩
    intro st1
    unfold geqrf_panel
    simp only [hjb]
    rw [if_pos (by omega)]
  · refine ⟨_, hrun', ?_⟩
    intro c hc
    unfold geqrf_blocked_run at hc
    dsimp only at hc
    have hpanels : ∀ c, c ∈ ((List.range k').map
        fun i : Nat => (i : Int) * cfg.GEQRF_GEQR2_BLOCKSIZE).foldl
        (fun st j => geqrf_panel traceDevice cfg COMPLEX m n shiftA lda strideA ipiv strideP
          batch_count (min m n) cfg.GEQRF_GEQR2_BLOCKSIZE
          (cfg.GEQRF_GEQR2_BLOCKSIZE * cfg.GEQRF_GEQR2_BLOCKSIZE) j st) [] →
        c.geqrf_shape_within cfg m n := by
      intro c hc
      rcases foldl_trace_all (fun c => c.geqrf_shape_within cfg m n)
        (fun j tr => geqrf_panel traceDevice cfg COMPLEX m n shiftA lda strideA ipiv strideP
          batch_count (min m n) cfg.GEQRF_GEQR2_BLOCKSIZE
          (cfg.GEQRF_GEQR2_BLOCKSIZE * cfg.GEQRF_GEQR2_BLOCKSIZE) j tr) _
        (fun j hj tr c h => by
          obtain ⟨i, hi, rfl⟩ := List.mem_map.mp hj
          have h1 := hin' i (List.mem_range.mp hi)
          have h0 := hnn i
          have hjb : min (min m n - (i : Int) * cfg.GEQRF_GEQR2_BLOCKSIZE)
              cfg.GEQRF_GEQR2_BLOCKSIZE = cfg.GEQRF_GEQR2_BLOCKSIZE := by omega
          unfold geqrf_panel at h
          simp only [hjb] at h
          rw [if_pos (by omega)] at h
          simp only [traceDevice, List.mem_append, List.mem_singleton] at h
          rcases h with (h | h) | h
          · exact geqr2_template_shape cfg COMPLEX m n _ _ _ lda strideA _ strideP batch_count
              tr (by omega) (by omega) c h
          · right
            subst h
            simp only [Call.geqrf_shape_within]
            omega
          · right
            subst h
            simp only [Call.geqrf_shape_within]
            omega) [] c hc with h | h
      · cases h
      · exact h
    have h0 := hnn k'
    split_ifs at hc
    · rcases geqr2_template_shape cfg COMPLEX m n _ _ _ lda strideA _ strideP batch_count _
        (by omega) (by omega) c hc with h | h
      · exact hpanels c h
      · exact h
    · exact hpanels c hc

/-- C21 (witness): a batch of two `7 x 8` matrices with switch size `4` and
block size `2`, on the recording device. -/
theorem geqrf_subcall_shapes_witness :
    ∃ tr, rocsolver_geqrf_template traceDevice cfg_small false 7 8 0 7 56
          { buf := Buf.ipiv, off := 0 } 7 2 [] = some (rocblas_status_success, tr)
      ∧ ∀ c ∈ tr, c.geqrf_shape_within cfg_small 7 8 :=
  (geqrf_subcall_shapes traceDevice cfg_small false 7 8 0 7 56 { buf := Buf.ipiv, off := 0 } 7 2
    [] (by decide) (by decide) (by decide) (by decide) (by decide)).elim
    fun _ h => h.2.2.2.2.2

/-! ### Panel schedule of the blocked LU driver -/

/-- With a positive step the panel loop of the blocked LU driver, entered at
column `j`, runs the panel body at `j, j + SWITCHSIZE, ...` while the column
is below `dim`, on every device. -/
theorem getrf_panels_run {σ : Type} (dev : Device σ) (cfg : IdealSizes)
    (m n shiftA lda strideA shiftP strideP batch_count pivot : Int) (optim_mem : Bool)
    (dim blocksReset : Int) (hSW : 1 ≤ cfg.GETRF_GETF2_SWITCHSIZE) :
    ∀ (fuel : Nat) (j : Int) (st : σ), (dim - j).toNat < fuel →
      ∃ k : Nat,
        getrf_panels dev cfg m n shiftA lda strideA shiftP strideP batch_count pivot optim_mem
            dim blocksReset fuel j st
          = some (((List.range k).map
              fun i : Nat => j + (i : Int) * cfg.GETRF_GETF2_SWITCHSIZE).foldl
              (fun st j => getrf_panel dev cfg m n shiftA lda strideA shiftP strideP
                batch_count pivot optim_mem dim blocksReset j st) st)
        ∧ (∀ i : Nat, i < k → j + (i : Int) * cfg.GETRF_GETF2_SWITCHSIZE < dim)
        ∧ dim ≤ j + (k : Int) * cfg.GETRF_GETF2_SWITCHSIZE := by
  intro fuel
  induction fuel with
  | zero => intro j st h; omega
  | succ fuel ih =>
    intro j st h
    unfold getrf_panels
    by_cases hj : j < dim
    · rw [if_pos hj]
      obtain ⟨k, hk, hin, hout⟩ := ih (j + cfg.GETRF_GETF2_SWITCHSIZE)
        (getrf_panel dev cfg m n shiftA lda strideA shiftP strideP batch_count pivot optim_mem
          dim blocksReset j st) (by omega)
      refine ⟨k + 1, ?_, ?_, ?_⟩
      · rw [hk]
        simp only [List.range_succ_eq_map, List.map_cons, List.map_map, Nat.cast_zero, zero_mul,
          add_zero, List.foldl_cons]
        congr 2
        apply List.map_congr_left
        intro i _
        simp only [Function.comp, Nat.succ_eq_add_one, Nat.cast_add, Nat.cast_one]
        ring
      · intro i hi
        rcases Nat.eq_zero_or_pos i with h0 | hpos
        · subst h0
          simpa using hj
        · have := hin (i - 1) (by omega)
          have hc : ((i - 1 : Nat) : Int) = (i : Int) - 1 := by omega
          rw [hc] at this
          have he : j + cfg.GETRF_GETF2_SWITCHSIZE
              + ((i : Int) - 1) * cfg.GETRF_GETF2_SWITCHSIZE
              = j + (i : Int) * cfg.GETRF_GETF2_SWITCHSIZE := by ring
          rw [he] at this
          exact this
      · have he : j + ((k + 1 : Nat) : Int) * cfg.GETRF_GETF2_SWITCHSIZE
            = j + cfg.GETRF_GETF2_SWITCHSIZE + (k : Int) * cfg.GETRF_GETF2_SWITCHSIZE := by
          push_cast
          ring
        rw [he]
        exact hout
    · rw [if_neg hj]
      refine ⟨0, ?_, ?_, ?_⟩
      · simp
      · intro i hi
        omega
      · simpa using not_lt.mp hj

/-- On the blocked path (`m, n >= SWITCHSIZE >= 1`, non-empty batch)
`rocsolver_getrf_template` returns on every device: it sets host pointer mode,
resets `info`, runs `k` panels that all start below `min m n` and together
reach it, and sets the pointer mode back. -/
theorem getrf_template_blocked {σ : Type} (dev : Device σ) (cfg : IdealSizes)
    (m n shiftA lda strideA shiftP strideP batch_count pivot : Int) (optim_mem : Bool)
    (st : σ) (hSW : 1 ≤ cfg.GETRF_GETF2_SWITCHSIZE)
    (hm : cfg.GETRF_GETF2_SWITCHSIZE ≤ m) (hn : cfg.GETRF_GETF2_SWITCHSIZE ≤ n)
    (hb : batch_count ≠ 0) :
    ∃ k : Nat,
      rocsolver_getrf_template dev cfg m n shiftA lda strideA shiftP strideP batch_count pivot
          optim_mem st
        = some (rocblas_status_success,
            dev.exec (Call.set_pointer_mode (dev.get_pointer_mode st))
              (getrf_blocked_run dev cfg m n shiftA lda strideA shiftP strideP batch_count
                pivot optim_mem k
                (dev.exec (Call.reset_info (Int.tdiv (batch_count - 1) cfg.BLOCKSIZE + 1)
                    cfg.BLOCKSIZE Buf.info batch_count 0)
                  (dev.exec (Call.set_pointer_mode rocblas_pointer_mode_host) st))))
      ∧ (∀ i : Nat, i < k → (i : Int) * cfg.GETRF_GETF2_SWITCHSIZE < min m n)
      ∧ min m n ≤ (k : Int) * cfg.GETRF_GETF2_SWITCHSIZE := by
  have hq : ¬ (m = 0 ∨ n = 0 ∨ batch_count = 0) := by omega
  have hs : ¬ (m < cfg.GETRF_GETF2_SWITCHSIZE ∨ n < cfg.GETRF_GETF2_SWITCHSIZE) := by omega
  have hdim : 0 ≤ min m n := by
    simp only [le_min_iff]; omega
  obtain ⟨k, hk, hin, hout⟩ := getrf_panels_run dev cfg m n shiftA lda strideA shiftP strideP
    batch_count pivot optim_mem (min m n) (Int.tdiv (batch_count - 1) cfg.BLOCKSIZE + 1) hSW
    ((min m n).toNat + 1) 0
    (dev.exec (Call.reset_info (Int.tdiv (batch_count - 1) cfg.BLOCKSIZE + 1)
        cfg.BLOCKSIZE Buf.info batch_count 0)
      (dev.exec (Call.set_pointer_mode rocblas_pointer_mode_host) st)) (by omega)
  simp only [zero_add] at hk hin hout
  refine ⟨k, ?_, hin, hout⟩
  unfold rocsolver_getrf_template
  rw [if_neg hq, if_neg hs]
  dsimp only
  rw [hk]
  rfl

/-- A panel of the blocked LU driver appends its operations to the record. -/
theorem getrf_panel_trace_append (cfg : IdealSizes)
    (m n shiftA lda strideA shiftP strideP batch_count pivot : Int) (optim_mem : Bool)
    (dim blocksReset j : Int) (tr : List Call) :
    getrf_panel traceDevice cfg m n shiftA lda strideA shiftP strideP batch_count pivot
        optim_mem dim blocksReset j tr
      = tr ++ getrf_panel traceDevice cfg m n shiftA lda strideA shiftP strideP batch_count
          pivot optim_mem dim blocksReset j [] := by
  unfold getrf_panel
  dsimp only [traceDevice]
  split_ifs <;> simp

/-- A panel of the blocked LU driver that starts below `dim <= m` works on
non-empty blocks only. -/
theorem getrf_panel_nonempty (cfg : IdealSizes)
    (m n shiftA lda strideA shiftP strideP batch_count pivot : Int) (optim_mem : Bool)
    (dim blocksReset j : Int) (hSW : 1 ≤ cfg.GETRF_GETF2_SWITCHSIZE) (hj : j < dim)
    (hdim : dim ≤ m) :
    ∀ c ∈ getrf_panel traceDevice cfg m n shiftA lda strideA shiftP strideP batch_count pivot
      optim_mem dim blocksReset j [], c.lu_block_nonempty := by
  unfold getrf_panel
  dsimp only [traceDevice]
  split_ifs <;> simp [Call.lu_block_nonempty] <;> omega

/-- The record of the blocked LU driver on the blocked path: pointer mode,
reset of `info`, the records of the `k` panels in order, pointer mode. -/
theorem getrf_template_trace_eq (cfg : IdealSizes)
    (m n shiftA lda strideA shiftP strideP batch_count pivot : Int) (optim_mem : Bool)
    (hSW : 1 ≤ cfg.GETRF_GETF2_SWITCHSIZE)
    (hm : cfg.GETRF_GETF2_SWITCHSIZE ≤ m) (hn : cfg.GETRF_GETF2_SWITCHSIZE ≤ n)
    (hb : batch_count ≠ 0) :
    ∃ k : Nat,
      rocsolver_getrf_template traceDevice cfg m n shiftA lda strideA shiftP strideP batch_count
          pivot optim_mem []
        = some (rocblas_status_success,
            [Call.set_pointer_mode rocblas_pointer_mode_host,
              Call.reset_info (Int.tdiv (batch_count - 1) cfg.BLOCKSIZE + 1) cfg.BLOCKSIZE
                Buf.info batch_count 0]
            ++ ((List.range k).map
                  fun i : Nat => (i : Int) * cfg.GETRF_GETF2_SWITCHSIZE).flatMap
                (fun j => getrf_panel traceDevice cfg m n shiftA lda strideA shiftP strideP
                  batch_count pivot optim_mem (min m n)
                  (Int.tdiv (batch_count - 1) cfg.BLOCKSIZE + 1) j [])
            ++ [Call.set_pointer_mode rocblas_pointer_mode_host])
      ∧ (∀ i : Nat, i < k → (i : Int) * cfg.GETRF_GETF2_SWITCHSIZE < min m n)
      ∧ min m n ≤ (k : Int) * cfg.GETRF_GETF2_SWITCHSIZE := by
  obtain ⟨k, hrun, hin, hout⟩ := getrf_template_blocked traceDevice cfg m n shiftA lda strideA
    shiftP strideP batch_count pivot optim_mem [] hSW hm hn hb
  refine ⟨k, ?_, hin, hout⟩
  rw [hrun]
  unfold getrf_blocked_run
  rw [foldl_trace_flatMap
    (fun j tr => getrf_panel traceDevice cfg m n shiftA lda strideA shiftP strideP batch_count
      pivot optim_mem (min m n) (Int.tdiv (batch_count - 1) cfg.BLOCKSIZE + 1) j tr) _
    (fun j tr => getrf_panel_trace_append cfg m n shiftA lda strideA shiftP strideP batch_count
      pivot optim_mem (min m n) (Int.tdiv (batch_count - 1) cfg.BLOCKSIZE + 1) j tr)]
  simp [traceDevice]

/-- Sample record of the blocked LU driver: a `3 x 4` matrix with panels of two
columns gives two panels; the first one solves for two columns and updates a
`1 x 2` block, the second one has one column and only solves. -/
theorem getrf_blocked_sample_trace :
    rocsolver_getrf_template traceDevice cfg_small 3 4 0 3 12 0 3 1 1 false []
      = some (rocblas_status_success,
          [Call.set_pointer_mode rocblas_pointer_mode_host,
            Call.reset_info 1 2 Buf.info 1 0,
            Call.reset_info 1 2 Buf.iinfo 1 0,
            Call.getf2 3 2 0 3 12 0 3 Buf.iinfo 1 1,
            Call.getrf_check_singularity 1 1 2 2 0 0 3 1,
            Call.laswp 0 0 3 12 1 2 0 3 1 1,
            Call.laswp 2 6 3 12 1 2 0 3 1 1,
            Call.trsm 2 2 0 3 12 6 3 12 1 false,
            Call.gemm 1 2 2 2 3 12 6 3 12 8 3 12 1,
            Call.reset_info 1 2 Buf.iinfo 1 0,
            Call.getf2 1 1 8 3 12 2 3 Buf.iinfo 1 1,
            Call.getrf_check_singularity 1 1 2 1 2 2 3 1,
            Call.laswp 2 0 3 12 3 3 0 3 1 1,
            Call.laswp 1 9 3 12 3 3 0 3 1 1,
            Call.trsm 1 1 8 3 12 11 3 12 1 false,
            Call.set_pointer_mode rocblas_pointer_mode_host]) := by
  decide

/-! ### Row interchanges of the blocked LU driver -/

/-- A range of consecutive columns lists no column twice. -/
theorem col_range_nodup (a : Int) (len : Nat) : (col_range a len).Nodup := by
  unfold col_range
  apply List.Nodup.map _ (List.nodup_range len)
  intro i j h
  simp only at h
  omega

/-- C23: in the blocked `rocsolver_getrf_template` with pivoting enabled
(`k` panels, panel `i` with first column `j = i*SWITCHSIZE` and
`jb = min(dim - j, SWITCHSIZE)` columns), the row-interchange calls of a panel
are, in this order, one on the `j` columns from column `0` and, only when
`j + jb < n`, one on the `n - j - jb` columns from column `j + jb`, both with
the 1-based pivot range `j + 1 .. j + jb`, increment `1` and the pivot shift of
the whole factorization.  The columns `[0, j)`, the panel `[j, j + jb)` and
`[j + jb, n)` list every column of `[0, n)` exactly once, and when
`j + jb < n` fails there is no column to the right of the panel. -/
theorem getrf_panel_interchanges (cfg : IdealSizes)
    (m n shiftA lda strideA shiftP strideP batch_count pivot : Int) (optim_mem : Bool)
    (hSW : 1 ≤ cfg.GETRF_GETF2_SWITCHSIZE)
    (hm : cfg.GETRF_GETF2_SWITCHSIZE ≤ m) (hn : cfg.GETRF_GETF2_SWITCHSIZE ≤ n)
    (hb : batch_count ≠ 0) (hpivot : pivot ≠ 0) :
    ∃ k : Nat,
      rocsolver_getrf_template traceDevice cfg m n shiftA lda strideA shiftP strideP batch_count
          pivot optim_mem []
        = some (rocblas_status_success,
            [Call.set_pointer_mode rocblas_pointer_mode_host,
              Call.reset_info (Int.tdiv (batch_count - 1) cfg.BLOCKSIZE + 1) cfg.BLOCKSIZE
                Buf.info batch_count 0]
            ++ ((List.range k).map
                  fun i : Nat => (i : Int) * cfg.GETRF_GETF2_SWITCHSIZE).flatMap
                (fun j => getrf_panel traceDevice cfg m n shiftA lda strideA shiftP strideP
                  batch_count pivot optim_mem (min m n)
                  (Int.tdiv (batch_count - 1) cfg.BLOCKSIZE + 1) j [])
            ++ [Call.set_pointer_mode rocblas_pointer_mode_host])
      ∧ ∀ i : Nat, i < k →
          (getrf_panel traceDevice cfg m n shiftA lda strideA shiftP strideP batch_count pivot
              optim_mem (min m n) (Int.tdiv (batch_count - 1) cfg.BLOCKSIZE + 1)
              ((i : Int) * cfg.GETRF_GETF2_SWITCHSIZE) []).filter Call.is_laswp
            = Call.laswp ((i : Int) * cfg.GETRF_GETF2_SWITCHSIZE) (shiftA + idx2D 0 0 lda) lda
                strideA ((i : Int) * cfg.GETRF_GETF2_SWITCHSIZE + 1)
                ((i : Int) * cfg.GETRF_GETF2_SWITCHSIZE
                  + min (min m n - (i : Int) * cfg.GETRF_GETF2_SWITCHSIZE)
                      cfg.GETRF_GETF2_SWITCHSIZE)
                shiftP strideP 1 batch_count
              :: (if (i : Int) * cfg.GETRF_GETF2_SWITCHSIZE
                      + min (min m n - (i : Int) * cfg.GETRF_GETF2_SWITCHSIZE)
                          cfg.GETRF_GETF2_SWITCHSIZE < n then
                    [Call.laswp
                      (n - (i : Int) * cfg.GETRF_GETF2_SWITCHSIZE
                        - min (min m n - (i : Int) * cfg.GETRF_GETF2_SWITCHSIZE)
                            cfg.GETRF_GETF2_SWITCHSIZE)
                      (shiftA + idx2D 0
                        ((i : Int) * cfg.GETRF_GETF2_SWITCHSIZE
                          + min (min m n - (i : Int) * cfg.GETRF_GETF2_SWITCHSIZE)
                              cfg.GETRF_GETF2_SWITCHSIZE) lda)
                      lda strideA ((i : Int) * cfg.GETRF_GETF2_SWITCHSIZE + 1)
                      ((i : Int) * cfg.GETRF_GETF2_SWITCHSIZE
                        + min (min m n - (i : Int) * cfg.GETRF_GETF2_SWITCHSIZE)
                            cfg.GETRF_GETF2_SWITCHSIZE)
                      shiftP strideP 1 batch_count]
                  else [])
          ∧ col_range 0 ((i : Int) * cfg.GETRF_GETF2_SWITCHSIZE).toNat
              ++ col_range ((i : Int) * cfg.GETRF_GETF2_SWITCHSIZE)
                  (min (min m n - (i : Int) * cfg.GETRF_GETF2_SWITCHSIZE)
                    cfg.GETRF_GETF2_SWITCHSIZE).toNat
              ++ col_range ((i : Int) * cfg.GETRF_GETF2_SWITCHSIZE
                    + min (min m n - (i : Int) * cfg.GETRF_GETF2_SWITCHSIZE)
                        cfg.GETRF_GETF2_SWITCHSIZE)
                  (n - (i : Int) * cfg.GETRF_GETF2_SWITCHSIZE
                    - min (min m n - (i : Int) * cfg.GETRF_GETF2_SWITCHSIZE)
                        cfg.GETRF_GETF2_SWITCHSIZE).toNat
            = col_range 0 n.toNat
          ∧ (col_range 0 ((i : Int) * cfg.GETRF_GETF2_SWITCHSIZE).toNat
              ++ col_range ((i : Int) * cfg.GETRF_GETF2_SWITCHSIZE)
                  (min (min m n - (i : Int) * cfg.GETRF_GETF2_SWITCHSIZE)
                    cfg.GETRF_GETF2_SWITCHSIZE).toNat
              ++ col_range ((i : Int) * cfg.GETRF_GETF2_SWITCHSIZE
                    + min (min m n - (i : Int) * cfg.GETRF_GETF2_SWITCHSIZE)
                        cfg.GETRF_GETF2_SWITCHSIZE)
                  (n - (i : Int) * cfg.GETRF_GETF2_SWITCHSIZE
                    - min (min m n - (i : Int) * cfg.GETRF_GETF2_SWITCHSIZE)
                        cfg.GETRF_GETF2_SWITCHSIZE).toNat).Nodup
          ∧ (¬ ((i : Int) * cfg.GETRF_GETF2_SWITCHSIZE
                  + min (min m n - (i : Int) * cfg.GETRF_GETF2_SWITCHSIZE)
                      cfg.GETRF_GETF2_SWITCHSIZE < n) →
              (i : Int) * cfg.GETRF_GETF2_SWITCHSIZE
                  + min (min m n - (i : Int) * cfg.GETRF_GETF2_SWITCHSIZE)
                      cfg.GETRF_GETF2_SWITCHSIZE = n) := by
  obtain ⟨k, hrun, hin, _⟩ := getrf_template_trace_eq cfg m n shiftA lda strideA shiftP
    strideP batch_count pivot optim_mem hSW hm hn hb
  have hnn : ∀ i : Nat, 0 ≤ (i : Int) * cfg.GETRF_GETF2_SWITCHSIZE := fun i =>
    Int.mul_nonneg (by omega) (by omega)
  refine ⟨k, hrun, ?_⟩
  intro i hi
  have h1 := hin i hi
  have h0 := hnn i
  generalize (i : Int) * cfg.GETRF_GETF2_SWITCHSIZE = j at h1 h0 ⊢
  have hfilter : (getrf_panel traceDevice cfg m n shiftA lda strideA shiftP strideP batch_count
      pivot optim_mem (min m n) (Int.tdiv (batch_count - 1) cfg.BLOCKSIZE + 1) j []).filter
        Call.is_laswp
      = Call.laswp j (shiftA + idx2D 0 0 lda) lda strideA (j + 1)
          (j + min (min m n - j) cfg.GETRF_GETF2_SWITCHSIZE) shiftP strideP 1 batch_count
        :: (if j + min (min m n - j) cfg.GETRF_GETF2_SWITCHSIZE < n then
              [Call.laswp (n - j - min (min m n - j) cfg.GETRF_GETF2_SWITCHSIZE)
                (shiftA + idx2D 0 (j + min (min m n - j) cfg.GETRF_GETF2_SWITCHSIZE) lda)
                lda strideA (j + 1) (j + min (min m n - j) cfg.GETRF_GETF2_SWITCHSIZE)
                shiftP strideP 1 batch_count]
            else []) := by
    unfold getrf_panel
    dsimp only [traceDevice]
    simp only [if_pos hpivot]
    split_ifs <;> simp [List.filter_cons, Call.is_laswp, idx2D]
  have hjb1 : 1 ≤ min (min m n - j) cfg.GETRF_GETF2_SWITCHSIZE := by omega
  have hjbn : j + min (min m n - j) cfg.GETRF_GETF2_SWITCHSIZE ≤ n := by omega
  generalize min (min m n - j) cfg.GETRF_GETF2_SWITCHSIZE = jb at hjb1 hjbn hfilter ⊢
  have hcols : col_range 0 j.toNat ++ col_range j jb.toNat
      ++ col_range (j + jb) (n - j - jb).toNat = col_range 0 n.toNat := by
    rw [col_range_append_zero j h0]
    have e1 : (((j.toNat + jb.toNat : Nat) : Int)) = j + jb := by omega
    have h2 := col_range_append 0 (j.toNat + jb.toNat) (n - j - jb).toNat
    rw [zero_add, e1] at h2
    rw [h2]
    congr 1
    omega
  refine ⟨?_, hcols, ?_, by omega⟩
  · exact hfilter
  · rw [hcols]
    exact col_range_nodup 0 _

/-- C23 (witness): a batch of two `6 x 7` matrices with panels of two columns
and pivoting, on the recording device. -/
theorem getrf_panel_interchanges_witness :
    ∃ k : Nat,
      rocsolver_getrf_template traceDevice cfg_small 6 7 0 6 42 0 6 2 1 false []
        = some (rocblas_status_success,
            [Call.set_pointer_mode rocblas_pointer_mode_host,
              Call.reset_info (Int.tdiv (2 - 1) cfg_small.BLOCKSIZE + 1) cfg_small.BLOCKSIZE
                Buf.info 2 0]
            ++ ((List.range k).map
                  fun i : Nat => (i : Int) * cfg_small.GETRF_GETF2_SWITCHSIZE).flatMap
                (fun j => getrf_panel traceDevice cfg_small 6 7 0 6 42 0 6 2 1 false (min 6 7)
                  (Int.tdiv (2 - 1) cfg_small.BLOCKSIZE + 1) j [])
            ++ [Call.set_pointer_mode rocblas_pointer_mode_host]) :=
  (getrf_panel_interchanges cfg_small 6 7 0 6 42 0 6 2 1 false (by decide) (by decide)
    (by decide) (by decide) (by decide)).elim fun k h => ⟨k, h.1⟩

/-! ### Independence of the batch elements in `getrf_check_singularity` -/

/-- After a run of `getrf_check_singularity` a pivot entry depends only on its
own value before the run. -/
theorem run_check_singularity_ipiv_congr (n j shiftP strideP pivot : Int) (bd : Nat)
    (ts : List ThreadIdx) (s1 s2 : LUState) (p : Int) (h : s1.ipiv p = s2.ipiv p) :
    (run_getrf_check_singularity n j shiftP strideP pivot bd ts s1).ipiv p
      = (run_getrf_check_singularity n j shiftP strideP pivot bd ts s2).ipiv p := by
  induction ts generalizing s1 s2 with
  | nil => exact h
  | cons t ts ih =>
    simp only [run_getrf_check_singularity, List.foldl_cons] at ih ⊢
    apply ih
    rw [check_singularity_thread_ipiv, check_singularity_thread_ipiv, h]

/-- C24: a launch of `getrf_check_singularity` treats the matrices of the
batch independently.  Two states that agree on `info[id]`, `iinfo[id]` and the
`n` pivot entries of matrix `id` agree on `info[id]` and on these pivot
entries after the launch (same `j`, same grid).  When `strideP >= n`,
replacing `info`, `iinfo` and the `n` pivot entries of another matrix `id1` by
arbitrary values is such a change: it alters neither `info[id]` nor the pivot
entries of matrix `id` after the launch. -/
theorem check_singularity_batch_independent (gridx gridy blockx n j shiftP strideP pivot : Int)
    (id : Int) (hstride : n ≤ strideP) :
    (∀ s1 s2 : LUState, s1.info id = s2.info id → s1.iinfo id = s2.iinfo id →
      (∀ t : Int, 0 ≤ t → t < n →
        s1.ipiv (id * strideP + shiftP + t) = s2.ipiv (id * strideP + shiftP + t)) →
      (hipLaunch_getrf_check_singularity gridx gridy blockx n j shiftP strideP pivot s1).info id
        = (hipLaunch_getrf_check_singularity gridx gridy blockx n j shiftP strideP pivot
            s2).info id
      ∧ ∀ t : Int, 0 ≤ t → t < n →
          (hipLaunch_getrf_check_singularity gridx gridy blockx n j shiftP strideP pivot
              s1).ipiv (id * strideP + shiftP + t)
            = (hipLaunch_getrf_check_singularity gridx gridy blockx n j shiftP strideP pivot
                s2).ipiv (id * strideP + shiftP + t))
    ∧ (∀ (s : LUState) (id1 v_info v_iinfo : Int) (v_ipiv : Int → Int), id1 ≠ id →
        (hipLaunch_getrf_check_singularity gridx gridy blockx n j shiftP strideP pivot
            (s.with_matrix n shiftP strideP id1 v_info v_iinfo v_ipiv)).info id
          = (hipLaunch_getrf_check_singularity gridx gridy blockx n j shiftP strideP pivot
              s).info id
        ∧ ∀ t : Int, 0 ≤ t → t < n →
            (hipLaunch_getrf_check_singularity gridx gridy blockx n j shiftP strideP pivot
                (s.with_matrix n shiftP strideP id1 v_info v_iinfo v_ipiv)).ipiv
                  (id * strideP + shiftP + t)
              = (hipLaunch_getrf_check_singularity gridx gridy blockx n j shiftP strideP pivot
                  s).ipiv (id * strideP + shiftP + t)) := by
  have hagree : ∀ s1 s2 : LUState, s1.info id = s2.info id → s1.iinfo id = s2.iinfo id →
      (∀ t : Int, 0 ≤ t → t < n →
        s1.ipiv (id * strideP + shiftP + t) = s2.ipiv (id * strideP + shiftP + t)) →
      (hipLaunch_getrf_check_singularity gridx gridy blockx n j shiftP strideP pivot s1).info id
        = (hipLaunch_getrf_check_singularity gridx gridy blockx n j shiftP strideP pivot
            s2).info id
      ∧ ∀ t : Int, 0 ≤ t → t < n →
          (hipLaunch_getrf_check_singularity gridx gridy blockx n j shiftP strideP pivot
              s1).ipiv (id * strideP + shiftP + t)
            = (hipLaunch_getrf_check_singularity gridx gridy blockx n j shiftP strideP pivot
                s2).ipiv (id * strideP + shiftP + t) := by
    intro s1 s2 hinfo hiinfo hpiv
    unfold hipLaunch_getrf_check_singularity
    refine ⟨?_, ?_⟩
    · rw [run_check_singularity_info, run_check_singularity_info, hinfo, hiinfo]
    · intro t ht0 ht
      exact run_check_singularity_ipiv_congr _ _ _ _ _ _ _ _ _ _ (hpiv t ht0 ht)
  refine ⟨hagree, ?_⟩
  intro s id1 v_info v_iinfo v_ipiv hne
  apply hagree
  · simp only [LUState.with_matrix]
    exact Function.update_noteq (fun h => hne h.symm) _ _
  · simp only [LUState.with_matrix]
    exact Function.update_noteq (fun h => hne h.symm) _ _
  · intro t ht0 ht
    simp only [LUState.with_matrix]
    have hout : ¬ (0 ≤ id * strideP + shiftP + t - (id1 * strideP + shiftP)
        ∧ id * strideP + shiftP + t - (id1 * strideP + shiftP) < n) := by
      rintro ⟨h1, h2⟩
      have e : id * strideP + shiftP + t - (id1 * strideP + shiftP)
          = (id - id1) * strideP + t := by ring
      rw [e] at h1 h2
      rcases lt_or_gt_of_ne hne with hlt | hgt
      · have : (id - id1) * strideP ≥ 1 * strideP :=
          Int.mul_le_mul_of_nonneg_right (by omega) (by omega)
        omega
      · have : (id - id1) * strideP ≤ (-1) * strideP :=
          Int.mul_le_mul_of_nonneg_right (by omega) (by omega)
        omega
    rw [if_neg hout]

/-- C24 (witness): a launch for the panel at column `2` on two matrices with
pivot stride `6`; the states `lu_stale` and `lu_other` agree on matrix `0`
and differ on matrix `1`. -/
theorem check_singularity_batch_independent_witness :
    (hipLaunch_getrf_check_singularity 1 2 2 2 2 0 6 1 lu_stale).info 0
        = (hipLaunch_getrf_check_singularity 1 2 2 2 2 0 6 1 lu_other).info 0
      ∧ ∀ t : Int, 0 ≤ t → t < 2 →
          (hipLaunch_getrf_check_singularity 1 2 2 2 2 0 6 1 lu_stale).ipiv (0 * 6 + 0 + t)
            = (hipLaunch_getrf_check_singularity 1 2 2 2 2 0 6 1 lu_other).ipiv
                (0 * 6 + 0 + t) :=
  (check_singularity_batch_independent 1 2 2 2 2 0 6 1 0 (by decide)).1 lu_stale lu_other
    (by decide) (by decide)
    (by intro t ht0 ht; simp only [lu_stale, lu_other]; rw [if_neg (by omega)])

/-- The states `lu_stale` and `lu_other` differ on matrix `1`, and so do the
results of the launch there. -/
theorem check_singularity_sample_other :
    lu_stale.info 1 ≠ lu_other.info 1
      ∧ (hipLaunch_getrf_check_singularity 1 2 2 2 2 0 6 1 lu_stale).info 1 = 7
      ∧ (hipLaunch_getrf_check_singularity 1 2 2 2 2 0 6 1 lu_other).info 1 = 5
      ∧ (hipLaunch_getrf_check_singularity 1 2 2 2 2 0 6 1 lu_stale).ipiv 6 = 3
      ∧ (hipLaunch_getrf_check_singularity 1 2 2 2 2 0 6 1 lu_other).ipiv 6 = 48 := by
  decide

/-! ### Matrix positions handed to the reflector builder and applier -/

/-- An element of the matrix lies at an offset below `(n-1)*lda + m` from the
start of the matrix. -/
theorem in_matrix_offset (shiftA lda m n off : Int) (hlda : m ≤ lda)
    (h : in_matrix shiftA lda m n off) :
    shiftA ≤ off ∧ off - shiftA < (n - 1) * lda + m := by
  obtain ⟨r, c, hr0, hr, hc0, hc, rfl⟩ := h
  unfold idx2D
  have h1 : 0 ≤ c * lda := Int.mul_nonneg hc0 (by omega)
  have h2 : c * lda ≤ (n - 1) * lda := Int.mul_le_mul_of_nonneg_right (by omega) (by omega)
  omega

/-- The builder called on a column: alpha at `(ra, ca)`, vector from `(r0, c0)`
downwards. -/
theorem positions_within_larfg_col (shiftA lda m n order ra ca r0 c0 stridex : Int) (tau : Loc)
    (strideP bc : Int) (hra0 : 0 ≤ ra) (hra : ra < m) (hca0 : 0 ≤ ca) (hca : ca < n)
    (hr0 : 0 ≤ r0) (hr : r0 < m) (hc0 : 0 ≤ c0) (hc : c0 < n)
    (hext : ∀ i : Int, 0 ≤ i → i < order - 1 → r0 + i < m) :
    (Call.larfg order (shiftA + idx2D ra ca lda) (shiftA + idx2D r0 c0 lda) 1 stridex tau
      strideP bc).positions_within shiftA lda m n := by
  refine ⟨⟨ra, ca, hra0, hra, hca0, hca, rfl⟩, ⟨r0, c0, hr0, hr, hc0, hc, rfl⟩, ?_⟩
  intro i hi0 hi
  exact ⟨r0 + i, c0, by omega, hext i hi0 hi, hc0, hc, by unfold idx2D; ring⟩

/-- The builder called on a row: alpha at `(ra, ca)`, vector from `(r0, c0)`
to the right. -/
theorem positions_within_larfg_row (shiftA lda m n order ra ca r0 c0 stridex : Int) (tau : Loc)
    (strideP bc : Int) (hra0 : 0 ≤ ra) (hra : ra < m) (hca0 : 0 ≤ ca) (hca : ca < n)
    (hr0 : 0 ≤ r0) (hr : r0 < m) (hc0 : 0 ≤ c0) (hc : c0 < n)
    (hext : ∀ i : Int, 0 ≤ i → i < order - 1 → c0 + i < n) :
    (Call.larfg order (shiftA + idx2D ra ca lda) (shiftA + idx2D r0 c0 lda) lda stridex tau
      strideP bc).positions_within shiftA lda m n := by
  refine ⟨⟨ra, ca, hra0, hra, hca0, hca, rfl⟩, ⟨r0, c0, hr0, hr, hc0, hc, rfl⟩, ?_⟩
  intro i hi0 hi
  exact ⟨r0, c0 + i, hr0, hr, by omega, hext i hi0 hi, by unfold idx2D; ring⟩

/-- The applier called from the left: reflector in a column from `(rx, cx)`,
block of `mm x nn` from `(rc, cc)`. -/
theorem positions_within_larf_left (shiftA lda m n mm nn rx cx rc cc stridex : Int) (tau : Loc)
    (strideP strideA bc : Int) (hmm : 1 ≤ mm) (hnn : 1 ≤ nn)
    (hrx0 : 0 ≤ rx) (hrx : rx + mm ≤ m) (hcx0 : 0 ≤ cx) (hcx : cx < n)
    (hrc0 : 0 ≤ rc) (hrc : rc + mm ≤ m) (hcc0 : 0 ≤ cc) (hcc : cc + nn ≤ n) :
    (Call.larf rocblas_side_left mm nn (shiftA + idx2D rx cx lda) 1 stridex tau strideP
      (shiftA + idx2D rc cc lda) lda strideA bc).positions_within shiftA lda m n := by
  refine ⟨⟨rx, cx, hrx0, by omega, hcx0, hcx, rfl⟩, ⟨rc, cc, hrc0, by omega, hcc0, by omega, rfl⟩,
    ?_, ?_⟩
  · intro i hi0 hi
    rw [if_pos rfl] at hi
    exact ⟨rx + i, cx, by omega, by omega, hcx0, hcx, by unfold idx2D; ring⟩
  · intro r c hr0 hr hc0 hc
    exact ⟨rc + r, cc + c, by omega, by omega, by omega, by omega, by unfold idx2D; ring⟩

/-- The applier called from the right: reflector in a row from `(rx, cx)`,
block of `mm x nn` from `(rc, cc)`. -/
theorem positions_within_larf_right (shiftA lda m n mm nn rx cx rc cc stridex : Int)
    (tau : Loc) (strideP strideA bc : Int) (hmm : 1 ≤ mm) (hnn : 1 ≤ nn)
    (hrx0 : 0 ≤ rx) (hrx : rx < m) (hcx0 : 0 ≤ cx) (hcx : cx + nn ≤ n)
    (hrc0 : 0 ≤ rc) (hrc : rc + mm ≤ m) (hcc0 : 0 ≤ cc) (hcc : cc + nn ≤ n) :
    (Call.larf rocblas_side_right mm nn (shiftA + idx2D rx cx lda) lda stridex tau strideP
      (shiftA + idx2D rc cc lda) lda strideA bc).positions_within shiftA lda m n := by
  refine ⟨⟨rx, cx, hrx0, hrx, hcx0, by omega, rfl⟩, ⟨rc, cc, hrc0, by omega, hcc0, by omega, rfl⟩,
    ?_, ?_⟩
  · intro i hi0 hi
    rw [if_neg (by decide)] at hi
    exact ⟨rx, cx + i, hrx0, hrx, by omega, by omega, by unfold idx2D; ring⟩
  · intro r c hr0 hr hc0 hc
    exact ⟨rc + r, cc + c, by omega, by omega, by omega, by omega, by unfold idx2D; ring⟩

/-- A column step of the unblocked QR factorization hands the builder and the
applier positions of the matrix only. -/
theorem geqr2_column_positions (COMPLEX : Bool) (m n shiftA lda strideA : Int) (ipiv : Loc)
    (strideP batch_count j : Int) (hj0 : 0 ≤ j) (hjm : j < m) (hjn : j < n) :
    ∀ c ∈ geqr2_column traceDevice COMPLEX m n shiftA lda strideA ipiv strideP batch_count j [],
      c.positions_within shiftA lda m n := by
  have hG : (Call.larfg (m - j) (shiftA + idx2D j j lda)
      (shiftA + idx2D (min (j + 1) (m - 1)) j lda) 1 strideA (ipiv.add j) strideP
      batch_count).positions_within shiftA lda m n :=
    positions_within_larfg_col shiftA lda m n _ _ _ _ _ _ _ _ _ hj0 hjm hj0 hjn (by omega)
      (by omega) hj0 hjn (by intro i _ _; omega)
  have hF : j < n - 1 → (Call.larf rocblas_side_left (m - j) (n - j - 1)
      (shiftA + idx2D j j lda) 1 strideA (ipiv.add j) strideP (shiftA + idx2D j (j + 1) lda)
      lda strideA batch_count).positions_within shiftA lda m n := fun h =>
    positions_within_larf_left shiftA lda m n _ _ _ _ _ _ _ _ _ _ _ (by omega) (by omega) hj0
      (by omega) hj0 hjn hj0 (by omega) (by omega) (by omega)
  unfold geqr2_column
  dsimp only [traceDevice]
  by_cases h2 : j < n - 1 <;> cases COMPLEX <;>
    simp only [h2, if_true, if_false, Bool.false_eq_true, List.nil_append,
      List.cons_append, List.mem_cons, List.mem_singleton, List.not_mem_nil, or_false,
      forall_eq_or_imp, forall_eq] <;>
    simp only [Call.positions_within, and_true, true_and] <;>
    first
      | exact hG
      | exact ⟨hG, hF h2⟩

/-- Column `j` of a matrix with `min m n` pivots is a step of the unblocked
drivers. -/
theorem mem_cast_range (j : Int) (len : Nat) (hj0 : 0 ≤ j) (hj : j < len) :
    j ∈ (List.range len).map fun i : Nat => (i : Int) := by
  refine List.mem_map.mpr ⟨j.toNat, List.mem_range.mpr (by omega), ?_⟩
  exact Int.toNat_of_nonneg hj0

/-- The record of a column step of the unblocked QR factorization. -/
theorem geqr2_column_trace_eq (COMPLEX : Bool) (m n shiftA lda strideA : Int) (ipiv : Loc)
    (strideP batch_count j : Int) :
    geqr2_column traceDevice COMPLEX m n shiftA lda strideA ipiv strideP batch_count j []
      = [Call.larfg (m - j) (shiftA + idx2D j j lda)
            (shiftA + idx2D (min (j + 1) (m - 1)) j lda) 1 strideA (ipiv.add j) strideP
            batch_count,
          Call.set_diag batch_count Buf.diag 0 1 (shiftA + idx2D j j lda) lda strideA 1 true]
        ++ (if COMPLEX then [Call.lacgv 1 ipiv j 1 strideP batch_count] else [])
        ++ (if j < n - 1 then
              [Call.larf rocblas_side_left (m - j) (n - j - 1) (shiftA + idx2D j j lda) 1
                strideA (ipiv.add j) strideP (shiftA + idx2D j (j + 1) lda) lda strideA
                batch_count]
            else [])
        ++ [Call.restore_diag batch_count Buf.diag 0 1 (shiftA + idx2D j j lda) lda strideA 1]
        ++ (if COMPLEX then [Call.lacgv 1 ipiv j 1 strideP batch_count] else []) := by
  unfold geqr2_column
  dsimp only [traceDevice]
  split_ifs <;> rfl

/-! ### Operations of the bidiagonal reduction -/

/-- The record of a step of the upper-bidiagonal loop of
`rocsolver_gebd2_template`. -/
theorem gebd2_upper_step_trace_eq (COMPLEX : Bool)
    (m n shiftA lda strideA strideD strideE : Int) (tauq : Loc) (strideQ : Int) (taup : Loc)
    (strideP batch_count j : Int) :
    gebd2_upper_step traceDevice COMPLEX m n shiftA lda strideA strideD strideE tauq strideQ
        taup strideP batch_count j []
      = [Call.larfg (m - j) (shiftA + idx2D j j lda)
            (shiftA + idx2D (min (j + 1) (m - 1)) j lda) 1 strideA (tauq.add j) strideQ
            batch_count,
          Call.set_diag batch_count Buf.D j strideD (shiftA + idx2D j j lda) lda strideA 1 true]
        ++ (if j < n - 1 then
              (if COMPLEX then [Call.lacgv 1 tauq j 1 strideQ batch_count] else [])
              ++ [Call.larf rocblas_side_left (m - j) (n - j - 1) (shiftA + idx2D j j lda) 1
                    strideA (tauq.add j) strideQ (shiftA + idx2D j (j + 1) lda) lda strideA
                    batch_count]
              ++ (if COMPLEX then [Call.lacgv 1 tauq j 1 strideQ batch_count] else [])
            else [])
        ++ [Call.restore_diag batch_count Buf.D j strideD (shiftA + idx2D j j lda) lda strideA 1]
        ++ (if j < n - 1 then
              (if COMPLEX then
                  [Call.lacgv (n - j - 1) A_ptr (shiftA + idx2D j (j + 1) lda) lda strideA
                    batch_count]
                else [])
              ++ [Call.larfg (n - j - 1) (shiftA + idx2D j (j + 1) lda)
                    (shiftA + idx2D j (min (j + 2) (n - 1)) lda) lda strideA (taup.add j)
                    strideP batch_count,
                  Call.set_diag batch_count Buf.E j strideE (shiftA + idx2D j (j + 1) lda) lda
                    strideA 1 true,
                  Call.larf rocblas_side_right (m - j - 1) (n - j - 1)
                    (shiftA + idx2D j (j + 1) lda) lda strideA (taup.add j) strideP
                    (shiftA + idx2D (j + 1) (j + 1) lda) lda strideA batch_count]
              ++ (if COMPLEX then
                    [Call.lacgv (n - j - 1) A_ptr (shiftA + idx2D j (j + 1) lda) lda strideA
                      batch_count]
                  else [])
              ++ [Call.restore_diag batch_count Buf.E j strideE (shiftA + idx2D j (j + 1) lda)
                    lda strideA 1]
            else [Call.reset_batch_info batch_count (taup.add j) strideP 1 0]) := by
  unfold gebd2_upper_step
  dsimp only [traceDevice]
  split_ifs <;> rfl

/-- The record of a step of the lower-bidiagonal loop of
`rocsolver_gebd2_template`. -/
theorem gebd2_lower_step_trace_eq (COMPLEX : Bool)
    (m n shiftA lda strideA strideD strideE : Int) (tauq : Loc) (strideQ : Int) (taup : Loc)
    (strideP batch_count j : Int) :
    gebd2_lower_step traceDevice COMPLEX m n shiftA lda strideA strideD strideE tauq strideQ
        taup strideP batch_count j []
      = (if COMPLEX then
            [Call.lacgv (n - j) A_ptr (shiftA + idx2D j j lda) lda strideA batch_count]
          else [])
        ++ [Call.larfg (n - j) (shiftA + idx2D j j lda)
              (shiftA + idx2D j (min (j + 1) (n - 1)) lda) lda strideA (taup.add j) strideP
              batch_count,
            Call.set_diag batch_count Buf.D j strideD (shiftA + idx2D j j lda) lda strideA 1
              true]
        ++ (if j < m - 1 then
              [Call.larf rocblas_side_right (m - j - 1) (n - j) (shiftA + idx2D j j lda) lda
                strideA (taup.add j) strideP (shiftA + idx2D (j + 1) j lda) lda strideA
                batch_count]
            else [])
        ++ (if COMPLEX then
              [Call.lacgv (n - j) A_ptr (shiftA + idx2D j j lda) lda strideA batch_count]
            else [])
        ++ [Call.restore_diag batch_count Buf.D j strideD (shiftA + idx2D j j lda) lda strideA 1]
        ++ (if j < m - 1 then
              [Call.larfg (m - j - 1) (shiftA + idx2D (j + 1) j lda)
                  (shiftA + idx2D (min (j + 2) (m - 1)) j lda) 1 strideA (tauq.add j) strideQ
                  batch_count,
                Call.set_diag batch_count Buf.E j strideE (shiftA + idx2D (j + 1) j lda) lda
                  strideA 1 true]
              ++ (if COMPLEX then [Call.lacgv 1 tauq j 1 strideQ batch_count] else [])
              ++ [Call.larf rocblas_side_left (m - j - 1) (n - j - 1)
                    (shiftA + idx2D (j + 1) j lda) 1 strideA (tauq.add j) strideQ
                    (shiftA + idx2D (j + 1) (j + 1) lda) lda strideA batch_count]
              ++ (if COMPLEX then [Call.lacgv 1 tauq j 1 strideQ batch_count] else [])
              ++ [Call.restore_diag batch_count Buf.E j strideE (shiftA + idx2D (j + 1) j lda)
                    lda strideA 1]
            else [Call.reset_batch_info batch_count (tauq.add j) strideQ 1 0]) := by
  unfold gebd2_lower_step
  dsimp only [traceDevice]
  split_ifs <;> rfl

/-- A step of the upper-bidiagonal loop appends its operations to the record. -/
theorem gebd2_upper_step_trace_append (COMPLEX : Bool)
    (m n shiftA lda strideA strideD strideE : Int) (tauq : Loc) (strideQ : Int) (taup : Loc)
    (strideP batch_count j : Int) (tr : List Call) :
    gebd2_upper_step traceDevice COMPLEX m n shiftA lda strideA strideD strideE tauq strideQ
        taup strideP batch_count j tr
      = tr ++ gebd2_upper_step traceDevice COMPLEX m n shiftA lda strideA strideD strideE tauq
          strideQ taup strideP batch_count j [] := by
  unfold gebd2_upper_step
  dsimp only [traceDevice]
  split_ifs <;> simp

/-- A step of the lower-bidiagonal loop appends its operations to the record. -/
theorem gebd2_lower_step_trace_append (COMPLEX : Bool)
    (m n shiftA lda strideA strideD strideE : Int) (tauq : Loc) (strideQ : Int) (taup : Loc)
    (strideP batch_count j : Int) (tr : List Call) :
    gebd2_lower_step traceDevice COMPLEX m n shiftA lda strideA strideD strideE tauq strideQ
        taup strideP batch_count j tr
      = tr ++ gebd2_lower_step traceDevice COMPLEX m n shiftA lda strideA strideD strideE tauq
          strideQ taup strideP batch_count j [] := by
  unfold gebd2_lower_step
  dsimp only [traceDevice]
  split_ifs <;> simp

/-- The record of the bidiagonal reduction is the concatenation of the records
of its steps: the upper-bidiagonal steps `0, ..., n - 1` when `m >= n`, the
lower-bidiagonal steps `0, ..., m - 1` otherwise. -/
theorem gebd2_template_trace_eq (COMPLEX : Bool)
    (m n shiftA lda strideA strideD strideE : Int) (tauq : Loc) (strideQ : Int) (taup : Loc)
    (strideP batch_count : Int) (hq : ¬ (m = 0 ∨ n = 0 ∨ batch_count = 0)) :
    (rocsolver_gebd2_template traceDevice COMPLEX m n shiftA lda strideA strideD strideE tauq
        strideQ taup strideP batch_count []).2
      = if m ≥ n then
          ((List.range n.toNat).map fun i : Nat => (i : Int)).flatMap
            (fun j => gebd2_upper_step traceDevice COMPLEX m n shiftA lda strideA strideD
              strideE tauq strideQ taup strideP batch_count j [])
        else
          ((List.range m.toNat).map fun i : Nat => (i : Int)).flatMap
            (fun j => gebd2_lower_step traceDevice COMPLEX m n shiftA lda strideA strideD
              strideE tauq strideQ taup strideP batch_count j []) := by
  unfold rocsolver_gebd2_template
  rw [if_neg hq]
  by_cases hmn : m ≥ n
  · rw [if_pos hmn, if_pos hmn]
    dsimp only
    have h := foldl_trace_flatMap
      (fun j tr => gebd2_upper_step traceDevice COMPLEX m n shiftA lda strideA strideD strideE
        tauq strideQ taup strideP batch_count j tr)
      ((List.range n.toNat).map fun i : Nat => (i : Int))
      (fun j tr => gebd2_upper_step_trace_append COMPLEX m n shiftA lda strideA strideD strideE
        tauq strideQ taup strideP batch_count j tr) []
    rw [List.nil_append] at h
    convert h using 2
    exact flatMap_singleton_cast _
  · rw [if_neg hmn, if_neg hmn]
    dsimp only
    have h := foldl_trace_flatMap
      (fun j tr => gebd2_lower_step traceDevice COMPLEX m n shiftA lda strideA strideD strideE
        tauq strideQ taup strideP batch_count j tr)
      ((List.range m.toNat).map fun i : Nat => (i : Int))
      (fun j tr => gebd2_lower_step_trace_append COMPLEX m n shiftA lda strideA strideD strideE
        tauq strideQ taup strideP batch_count j tr) []
    rw [List.nil_append] at h
    convert h using 2
    exact flatMap_singleton_cast _

/-- A step of the upper-bidiagonal loop (`m >= n`) hands the builder and the
applier positions of the matrix only. -/
theorem gebd2_upper_step_positions (COMPLEX : Bool)
    (m n shiftA lda strideA strideD strideE : Int) (tauq : Loc) (strideQ : Int) (taup : Loc)
    (strideP batch_count j : Int) (hmn : n ≤ m) (hj0 : 0 ≤ j) (hjn : j < n) :
    ∀ c ∈ gebd2_upper_step traceDevice COMPLEX m n shiftA lda strideA strideD strideE tauq
      strideQ taup strideP batch_count j [], c.positions_within shiftA lda m n := by
  have hH : (Call.larfg (m - j) (shiftA + idx2D j j lda)
      (shiftA + idx2D (min (j + 1) (m - 1)) j lda) 1 strideA (tauq.add j) strideQ
      batch_count).positions_within shiftA lda m n :=
    positions_within_larfg_col shiftA lda m n _ _ _ _ _ _ _ _ _ hj0 (by omega) hj0 hjn
      (by omega) (by omega) hj0 hjn (by intro i _ _; omega)
  have hL : j < n - 1 → (Call.larf rocblas_side_left (m - j) (n - j - 1)
      (shiftA + idx2D j j lda) 1 strideA (tauq.add j) strideQ (shiftA + idx2D j (j + 1) lda)
      lda strideA batch_count).positions_within shiftA lda m n := fun h =>
    positions_within_larf_left shiftA lda m n _ _ _ _ _ _ _ _ _ _ _ (by omega) (by omega) hj0
      (by omega) hj0 hjn hj0 (by omega) (by omega) (by omega)
  have hG : j < n - 1 → (Call.larfg (n - j - 1) (shiftA + idx2D j (j + 1) lda)
      (shiftA + idx2D j (min (j + 2) (n - 1)) lda) lda strideA (taup.add j) strideP
      batch_count).positions_within shiftA lda m n := fun h =>
    positions_within_larfg_row shiftA lda m n _ _ _ _ _ _ _ _ _ hj0 (by omega) (by omega)
      (by omega) hj0 (by omega) (by omega) (by omega) (by intro i _ _; omega)
  have hR : j < n - 1 → (Call.larf rocblas_side_right (m - j - 1) (n - j - 1)
      (shiftA + idx2D j (j + 1) lda) lda strideA (taup.add j) strideP
      (shiftA + idx2D (j + 1) (j + 1) lda) lda strideA batch_count).positions_within shiftA lda
        m n := fun h =>
    positions_within_larf_right shiftA lda m n _ _ _ _ _ _ _ _ _ _ _ (by omega) (by omega) hj0
      (by omega) (by omega) (by omega) (by omega) (by omega) (by omega) (by omega)
  rw [gebd2_upper_step_trace_eq]
  by_cases h2 : j < n - 1 <;> cases COMPLEX <;>
    simp only [h2, if_true, if_false, Bool.false_eq_true, List.nil_append, List.append_nil,
      List.cons_append, List.mem_cons, List.mem_singleton, List.not_mem_nil, or_false,
      forall_eq_or_imp, forall_eq] <;>
    simp only [Call.positions_within, and_true, true_and] <;>
    first
      | exact hH
      | exact ⟨hH, hL h2, hG h2, hR h2⟩

/-- A step of the lower-bidiagonal loop (`m < n`) hands the builder and the
applier positions of the matrix only. -/
theorem gebd2_lower_step_positions (COMPLEX : Bool)
    (m n shiftA lda strideA strideD strideE : Int) (tauq : Loc) (strideQ : Int) (taup : Loc)
    (strideP batch_count j : Int) (hmn : m < n) (hj0 : 0 ≤ j) (hjm : j < m) :
    ∀ c ∈ gebd2_lower_step traceDevice COMPLEX m n shiftA lda strideA strideD strideE tauq
      strideQ taup strideP batch_count j [], c.positions_within shiftA lda m n := by
  have hG : (Call.larfg (n - j) (shiftA + idx2D j j lda)
      (shiftA + idx2D j (min (j + 1) (n - 1)) lda) lda strideA (taup.add j) strideP
      batch_count).positions_within shiftA lda m n :=
    positions_within_larfg_row shiftA lda m n _ _ _ _ _ _ _ _ _ hj0 hjm hj0 (by omega) hj0 hjm
      (by omega) (by omega) (by intro i _ _; omega)
  have hR : j < m - 1 → (Call.larf rocblas_side_right (m - j - 1) (n - j)
      (shiftA + idx2D j j lda) lda strideA (taup.add j) strideP (shiftA + idx2D (j + 1) j lda)
      lda strideA batch_count).positions_within shiftA lda m n := fun h =>
    positions_within_larf_right shiftA lda m n _ _ _ _ _ _ _ _ _ _ _ (by omega) (by omega) hj0
      hjm hj0 (by omega) (by omega) (by omega) hj0 (by omega)
  have hH : j < m - 1 → (Call.larfg (m - j - 1) (shiftA + idx2D (j + 1) j lda)
      (shiftA + idx2D (min (j + 2) (m - 1)) j lda) 1 strideA (tauq.add j) strideQ
      batch_count).positions_within shiftA lda m n := fun h =>
    positions_within_larfg_col shiftA lda m n _ _ _ _ _ _ _ _ _ (by omega) (by omega) hj0
      (by omega) (by omega) (by omega) hj0 (by omega) (by intro i _ _; omega)
  have hL : j < m - 1 → (Call.larf rocblas_side_left (m - j - 1) (n - j - 1)
      (shiftA + idx2D (j + 1) j lda) 1 strideA (tauq.add j) strideQ
      (shiftA + idx2D (j + 1) (j + 1) lda) lda strideA batch_count).positions_within shiftA lda
        m n := fun h =>
    positions_within_larf_left shiftA lda m n _ _ _ _ _ _ _ _ _ _ _ (by omega) (by omega)
      (by omega) (by omega) hj0 (by omega) (by omega) (by omega) (by omega) (by omega)
  rw [gebd2_lower_step_trace_eq]
  by_cases h2 : j < m - 1 <;> cases COMPLEX <;>
    simp only [h2, if_true, if_false, Bool.false_eq_true, List.nil_append, List.append_nil,
      List.cons_append, List.mem_cons, List.mem_singleton, List.not_mem_nil, or_false,
      forall_eq_or_imp, forall_eq] <;>
    simp only [Call.positions_within, and_true, true_and] <;>
    first
      | exact hG
      | exact ⟨hG, hR h2, hH h2, hL h2⟩

/-- Sample record of the bidiagonal reduction of a real `2 x 3` matrix (lower
branch) with leading dimension `2`. -/
theorem gebd2_sample_trace :
    (rocsolver_gebd2_template traceDevice false 2 3 0 2 6 2 1 { buf := Buf.tauq, off := 0 } 2
        { buf := Buf.taup, off := 0 } 2 1 []).2
      = [Call.larfg 3 0 2 2 6 { buf := Buf.taup, off := 0 } 2 1,
          Call.set_diag 1 Buf.D 0 2 0 2 6 1 true,
          Call.larf rocblas_side_right 1 3 0 2 6 { buf := Buf.taup, off := 0 } 2 1 2 6 1,
          Call.restore_diag 1 Buf.D 0 2 0 2 6 1,
          Call.larfg 1 1 1 1 6 { buf := Buf.tauq, off := 0 } 2 1,
          Call.set_diag 1 Buf.E 0 1 1 2 6 1 true,
          Call.larf rocblas_side_left 1 2 1 1 6 { buf := Buf.tauq, off := 0 } 2 3 2 6 1,
          Call.restore_diag 1 Buf.E 0 1 1 2 6 1,
          Call.larfg 2 3 5 2 6 { buf := Buf.taup, off := 1 } 2 1,
          Call.set_diag 1 Buf.D 1 2 3 2 6 1 true,
          Call.restore_diag 1 Buf.D 1 2 3 2 6 1,
          Call.reset_batch_info 1 { buf := Buf.tauq, off := 1 } 2 1 0] := by
  decide

/-! ### Producers of the multipliers and of `D`, `E` in the bidiagonal reduction -/

/-- Selecting from the concatenated records of the steps is selecting from
each step. -/
theorem filterMap_flatMap_steps {β : Type} (g : Call → Option β) (step : Int → List Call)
    (js : List Int) :
    (js.flatMap step).filterMap g = js.flatMap fun j => (step j).filterMap g := by
  induction js with
  | nil => rfl
  | cons j js ih => simp only [List.flatMap_cons, List.filterMap_append, ih]

/-- A step list keeps the steps that all satisfy the test and drops them from
the complement. -/
theorem flatMap_ite_of_forall (l : List Int) (p : Int → Prop) [DecidablePred p]
    (h : ∀ j ∈ l, p j) :
    l.flatMap (fun j => if p j then [j] else []) = l
      ∧ l.flatMap (fun j => if p j then [] else [j]) = [] := by
  induction l with
  | nil => exact ⟨rfl, rfl⟩
  | cons a l ih =>
    obtain ⟨h1, h2⟩ := ih (fun j hj => h j (List.mem_cons_of_mem _ hj))
    have ha := h a (List.mem_cons_self _ _)
    simp only [List.flatMap_cons, if_pos ha, h1, h2]
    exact ⟨rfl, rfl⟩

/-- Among the steps `0, ..., n - 1` the ones before the last are
`0, ..., n - 2`, and the remaining one is `n - 1`. -/
theorem flatMap_range_before_last (n : Int) (hn : 1 ≤ n) :
    ((List.range n.toNat).map fun i : Nat => (i : Int)).flatMap
        (fun j => if j < n - 1 then [j] else [])
      = (List.range (n - 1).toNat).map (fun i : Nat => (i : Int))
    ∧ ((List.range n.toNat).map fun i : Nat => (i : Int)).flatMap
        (fun j => if j < n - 1 then [] else [j]) = [n - 1] := by
  have hk : n.toNat = (n - 1).toNat + 1 := by omega
  have hall : ∀ j ∈ (List.range (n - 1).toNat).map (fun i : Nat => (i : Int)), j < n - 1 := by
    intro j hj
    obtain ⟨i, hi, rfl⟩ := List.mem_map.mp hj
    have := List.mem_range.mp hi
    omega
  obtain ⟨h1, h2⟩ := flatMap_ite_of_forall _ (fun j => j < n - 1) hall
  have hlast : ((n - 1).toNat : Int) = n - 1 := by omega
  rw [hk, List.range_succ, List.map_append, List.flatMap_append, List.flatMap_append, h1, h2]
  simp only [List.map_cons, List.map_nil, List.flatMap_cons, List.flatMap_nil, List.append_nil,
    hlast, lt_self_iff_false, if_false, List.nil_append]
  exact ⟨trivial, trivial⟩

/-- Every step contributes itself. -/
theorem flatMap_range_self (l : List Int) : l.flatMap (fun j => [j]) = l := by
  induction l with
  | nil => rfl
  | cons a l ih => simp only [List.flatMap_cons, ih, List.singleton_append]

/-- Producers recorded by a step of the upper-bidiagonal loop. -/
theorem gebd2_upper_step_producers (COMPLEX : Bool)
    (m n shiftA lda strideA strideD strideE : Int) (tauq : Loc) (strideQ : Int) (taup : Loc)
    (strideP batch_count j : Int) (hne : tauq.buf ≠ taup.buf) :
    (gebd2_upper_step traceDevice COMPLEX m n shiftA lda strideA strideD strideE tauq strideQ
        taup strideP batch_count j []).filterMap (Call.built_tau_at tauq) = [j]
    ∧ (gebd2_upper_step traceDevice COMPLEX m n shiftA lda strideA strideD strideE tauq strideQ
        taup strideP batch_count j []).filterMap (Call.built_tau_at taup)
        = (if j < n - 1 then [j] else [])
    ∧ (gebd2_upper_step traceDevice COMPLEX m n shiftA lda strideA strideD strideE tauq strideQ
        taup strideP batch_count j []).filterMap (Call.zeroed_tau_at taup)
        = (if j < n - 1 then [] else [j])
    ∧ (gebd2_upper_step traceDevice COMPLEX m n shiftA lda strideA strideD strideE tauq strideQ
        taup strideP batch_count j []).filterMap (Call.zeroed_tau_at tauq) = []
    ∧ (gebd2_upper_step traceDevice COMPLEX m n shiftA lda strideA strideD strideE tauq strideQ
        taup strideP batch_count j []).filterMap (Call.saved_entry_at Buf.D) = [j]
    ∧ (gebd2_upper_step traceDevice COMPLEX m n shiftA lda strideA strideD strideE tauq strideQ
        taup strideP batch_count j []).filterMap (Call.saved_entry_at Buf.E)
        = (if j < n - 1 then [j] else []) := by
  have hne' : taup.buf ≠ tauq.buf := fun h => hne h.symm
  rw [gebd2_upper_step_trace_eq]
  by_cases h2 : j < n - 1 <;> cases COMPLEX <;>
    simp [h2, hne, hne', Call.built_tau_at, Call.zeroed_tau_at, Call.saved_entry_at, Loc.add,
      List.filterMap_cons]

/-- Producers recorded by a step of the lower-bidiagonal loop. -/
theorem gebd2_lower_step_producers (COMPLEX : Bool)
    (m n shiftA lda strideA strideD strideE : Int) (tauq : Loc) (strideQ : Int) (taup : Loc)
    (strideP batch_count j : Int) (hne : tauq.buf ≠ taup.buf) :
    (gebd2_lower_step traceDevice COMPLEX m n shiftA lda strideA strideD strideE tauq strideQ
        taup strideP batch_count j []).filterMap (Call.built_tau_at taup) = [j]
    ∧ (gebd2_lower_step traceDevice COMPLEX m n shiftA lda strideA strideD strideE tauq strideQ
        taup strideP batch_count j []).filterMap (Call.built_tau_at tauq)
        = (if j < m - 1 then [j] else [])
    ∧ (gebd2_lower_step traceDevice COMPLEX m n shiftA lda strideA strideD strideE tauq strideQ
        taup strideP batch_count j []).filterMap (Call.zeroed_tau_at tauq)
        = (if j < m - 1 then [] else [j])
    ∧ (gebd2_lower_step traceDevice COMPLEX m n shiftA lda strideA strideD strideE tauq strideQ
        taup strideP batch_count j []).filterMap (Call.zeroed_tau_at taup) = []
    ∧ (gebd2_lower_step traceDevice COMPLEX m n shiftA lda strideA strideD strideE tauq strideQ
        taup strideP batch_count j []).filterMap (Call.saved_entry_at Buf.D) = [j]
    ∧ (gebd2_lower_step traceDevice COMPLEX m n shiftA lda strideA strideD strideE tauq strideQ
        taup strideP batch_count j []).filterMap (Call.saved_entry_at Buf.E)
        = (if j < m - 1 then [j] else []) := by
  have hne' : taup.buf ≠ tauq.buf := fun h => hne h.symm
  rw [gebd2_lower_step_trace_eq]
  by_cases h2 : j < m - 1 <;> cases COMPLEX <;>
    simp [h2, hne, hne', Call.built_tau_at, Call.zeroed_tau_at, Call.saved_entry_at, Loc.add,
      List.filterMap_cons]

/-- C29: for `m, n >= 1`, a non-empty batch and multiplier vectors in different
buffers, the operations recorded for `rocsolver_gebd2_template` produce every
multiplier slot exactly once.  When `m >= n` the builder calls, in order,
produce `tauq[0], ..., tauq[n-1]` and `taup[0], ..., taup[n-2]`, and the only
slot set to zero is `taup[n-1]`; when `m < n` the builder calls produce
`taup[0], ..., taup[m-1]` and `tauq[0], ..., tauq[m-2]`, and the only slot set
to zero is `tauq[m-1]`.  The entries of `D` filled from the matrix are
`0, ..., min m n - 1`, those of `E` are `0, ..., min m n - 2`, each once. -/
theorem gebd2_multiplier_slots (COMPLEX : Bool)
    (m n shiftA lda strideA strideD strideE : Int) (tauq : Loc) (strideQ : Int) (taup : Loc)
    (strideP batch_count : Int) (hm : 1 ≤ m) (hn : 1 ≤ n) (hb : batch_count ≠ 0)
    (hne : tauq.buf ≠ taup.buf) :
    (n ≤ m →
      ((rocsolver_gebd2_template traceDevice COMPLEX m n shiftA lda strideA strideD strideE tauq
          strideQ taup strideP batch_count []).2.filterMap (Call.built_tau_at tauq)
        = (List.range n.toNat).map fun i : Nat => (i : Int))
      ∧ ((rocsolver_gebd2_template traceDevice COMPLEX m n shiftA lda strideA strideD strideE
          tauq strideQ taup strideP batch_count []).2.filterMap (Call.built_tau_at taup)
        = (List.range (n - 1).toNat).map fun i : Nat => (i : Int))
      ∧ (rocsolver_gebd2_template traceDevice COMPLEX m n shiftA lda strideA strideD strideE
          tauq strideQ taup strideP batch_count []).2.filterMap (Call.zeroed_tau_at taup)
        = [n - 1]
      ∧ (rocsolver_gebd2_template traceDevice COMPLEX m n shiftA lda strideA strideD strideE
          tauq strideQ taup strideP batch_count []).2.filterMap (Call.zeroed_tau_at tauq)
        = [])
    ∧ (m < n →
      ((rocsolver_gebd2_template traceDevice COMPLEX m n shiftA lda strideA strideD strideE tauq
          strideQ taup strideP batch_count []).2.filterMap (Call.built_tau_at taup)
        = (List.range m.toNat).map fun i : Nat => (i : Int))
      ∧ ((rocsolver_gebd2_template traceDevice COMPLEX m n shiftA lda strideA strideD strideE
          tauq strideQ taup strideP batch_count []).2.filterMap (Call.built_tau_at tauq)
        = (List.range (m - 1).toNat).map fun i : Nat => (i : Int))
      ∧ (rocsolver_gebd2_template traceDevice COMPLEX m n shiftA lda strideA strideD strideE
          tauq strideQ taup strideP batch_count []).2.filterMap (Call.zeroed_tau_at tauq)
        = [m - 1]
      ∧ (rocsolver_gebd2_template traceDevice COMPLEX m n shiftA lda strideA strideD strideE
          tauq strideQ taup strideP batch_count []).2.filterMap (Call.zeroed_tau_at taup)
        = [])
    ∧ ((rocsolver_gebd2_template traceDevice COMPLEX m n shiftA lda strideA strideD strideE tauq
          strideQ taup strideP batch_count []).2.filterMap (Call.saved_entry_at Buf.D)
        = (List.range (min m n).toNat).map fun i : Nat => (i : Int))
    ∧ ((rocsolver_gebd2_template traceDevice COMPLEX m n shiftA lda strideA strideD strideE tauq
          strideQ taup strideP batch_count []).2.filterMap (Call.saved_entry_at Buf.E)
        = (List.range (min m n - 1).toNat).map fun i : Nat => (i : Int)) := by
  have hq : ¬ (m = 0 ∨ n = 0 ∨ batch_count = 0) := by omega
  rw [gebd2_template_trace_eq COMPLEX m n shiftA lda strideA strideD strideE tauq strideQ taup
    strideP batch_count hq]
  have hU := fun j => gebd2_upper_step_producers COMPLEX m n shiftA lda strideA strideD strideE
    tauq strideQ taup strideP batch_count j hne
  have hL := fun j => gebd2_lower_step_producers COMPLEX m n shiftA lda strideA strideD strideE
    tauq strideQ taup strideP batch_count j hne
  by_cases hmn : m ≥ n
  · have hmin : min m n = n := by omega
    obtain ⟨hA, hB⟩ := flatMap_range_before_last n hn
    rw [if_pos hmn, hmin]
    simp only [filterMap_flatMap_steps, fun j => (hU j).1, fun j => (hU j).2.1,
      fun j => (hU j).2.2.1, fun j => (hU j).2.2.2.1, fun j => (hU j).2.2.2.2.1,
      fun j => (hU j).2.2.2.2.2, flatMap_range_self, hA, hB]
    refine ⟨fun _ => ⟨trivial, trivial, trivial, ?_⟩, fun h => absurd h (by omega), trivial,
      trivial⟩
    simp
  · have hmin : min m n = m := by omega
    obtain ⟨hA, hB⟩ := flatMap_range_before_last m hm
    rw [if_neg hmn, hmin]
    simp only [filterMap_flatMap_steps, fun j => (hL j).1, fun j => (hL j).2.1,
      fun j => (hL j).2.2.1, fun j => (hL j).2.2.2.1, fun j => (hL j).2.2.2.2.1,
      fun j => (hL j).2.2.2.2.2, flatMap_range_self, hA, hB]
    refine ⟨fun h => absurd h (by omega), fun _ => ⟨trivial, trivial, trivial, ?_⟩, trivial,
      trivial⟩
    simp

/-- C29 (witness): a complex `3 x 2` matrix (upper branch): the builder
produces `tauq[0]`, `tauq[1]` and `taup[0]`, and `taup[1]` is set to zero. -/
theorem gebd2_multiplier_slots_witness :
    ((rocsolver_gebd2_template traceDevice true 3 2 0 3 6 2 1 { buf := Buf.tauq, off := 0 } 2
          { buf := Buf.taup, off := 0 } 2 1 []).2.filterMap
            (Call.built_tau_at { buf := Buf.tauq, off := 0 })
        = (List.range (2 : Int).toNat).map fun i : Nat => (i : Int))
      ∧ ((rocsolver_gebd2_template traceDevice true 3 2 0 3 6 2 1 { buf := Buf.tauq, off := 0 }
          2 { buf := Buf.taup, off := 0 } 2 1 []).2.filterMap
            (Call.built_tau_at { buf := Buf.taup, off := 0 })
        = (List.range ((2 : Int) - 1).toNat).map fun i : Nat => (i : Int))
      ∧ (rocsolver_gebd2_template traceDevice true 3 2 0 3 6 2 1 { buf := Buf.tauq, off := 0 }
          2 { buf := Buf.taup, off := 0 } 2 1 []).2.filterMap
            (Call.zeroed_tau_at { buf := Buf.taup, off := 0 })
        = [2 - 1]
      ∧ (rocsolver_gebd2_template traceDevice true 3 2 0 3 6 2 1 { buf := Buf.tauq, off := 0 }
          2 { buf := Buf.taup, off := 0 } 2 1 []).2.filterMap
            (Call.zeroed_tau_at { buf := Buf.tauq, off := 0 })
        = [] :=
  (gebd2_multiplier_slots true 3 2 0 3 6 2 1 { buf := Buf.tauq, off := 0 } 2
    { buf := Buf.taup, off := 0 } 2 1 (by decide) (by decide) (by decide) (by decide)).1
    (by decide)

/-! ### Replay of the recorded operations on a device -/

/-- Running a list of steps, each of which replays its own record, replays the
concatenated records. -/
theorem foldl_replay {σ : Type} (dev : Device σ) (step : Int → σ → σ) (tr : Int → List Call)
    (h : ∀ j s, step j s = (tr j).foldl (fun s c => dev.exec c s) s) (js : List Int) (s : σ) :
    js.foldl (fun s j => step j s) s
      = (js.flatMap tr).foldl (fun s c => dev.exec c s) s := by
  induction js generalizing s with
  | nil => rfl
  | cons j js ih => rw [List.foldl_cons, List.flatMap_cons, List.foldl_append, ih, h]

/-- A column step of the unblocked QR factorization executes, on any device,
the operations it records. -/
theorem geqr2_column_replay {σ : Type} (dev : Device σ) (COMPLEX : Bool)
    (m n shiftA lda strideA : Int) (ipiv : Loc) (strideP batch_count j : Int) (s : σ) :
    geqr2_column dev COMPLEX m n shiftA lda strideA ipiv strideP batch_count j s
      = (geqr2_column traceDevice COMPLEX m n shiftA lda strideA ipiv strideP batch_count j
          []).foldl (fun s c => dev.exec c s) s := by
  unfold geqr2_column
  dsimp only [traceDevice]
  split_ifs <;> rfl

/-- The unblocked QR factorization executes, on any device, the operations of
its column steps `0, ..., min m n - 1` in order. -/
theorem geqr2_template_replay {σ : Type} (dev : Device σ) (COMPLEX : Bool)
    (m n shiftA lda strideA : Int) (ipiv : Loc) (strideP batch_count : Int) (s : σ)
    (hq : ¬ (m = 0 ∨ n = 0 ∨ batch_count = 0)) :
    (rocsolver_geqr2_template dev COMPLEX m n shiftA lda strideA ipiv strideP batch_count s).2
      = (((List.range (min m n).toNat).map fun i : Nat => (i : Int)).flatMap
          (fun j => geqr2_column traceDevice COMPLEX m n shiftA lda strideA ipiv strideP
            batch_count j [])).foldl (fun s c => dev.exec c s) s := by
  unfold rocsolver_geqr2_template
  rw [if_neg hq]
  dsimp only
  have h := foldl_replay dev
    (fun j s => geqr2_column dev COMPLEX m n shiftA lda strideA ipiv strideP batch_count j s)
    (fun j => geqr2_column traceDevice COMPLEX m n shiftA lda strideA ipiv strideP batch_count
      j [])
    (fun j s => geqr2_column_replay dev COMPLEX m n shiftA lda strideA ipiv strideP batch_count
      j s)
    ((List.range (min m n).toNat).map fun i : Nat => (i : Int)) s
  rw [← h]
  congr 1
  exact flatMap_singleton_cast _

/-- A step of the upper-bidiagonal loop executes, on any device, the
operations it records. -/
theorem gebd2_upper_step_replay {σ : Type} (dev : Device σ) (COMPLEX : Bool)
    (m n shiftA lda strideA strideD strideE : Int) (tauq : Loc) (strideQ : Int) (taup : Loc)
    (strideP batch_count j : Int) (s : σ) :
    gebd2_upper_step dev COMPLEX m n shiftA lda strideA strideD strideE tauq strideQ taup
        strideP batch_count j s
      = (gebd2_upper_step traceDevice COMPLEX m n shiftA lda strideA strideD strideE tauq
          strideQ taup strideP batch_count j []).foldl (fun s c => dev.exec c s) s := by
  unfold gebd2_upper_step
  dsimp only [traceDevice]
  split_ifs <;> rfl

/-- A step of the lower-bidiagonal loop executes, on any device, the
operations it records. -/
theorem gebd2_lower_step_replay {σ : Type} (dev : Device σ) (COMPLEX : Bool)
    (m n shiftA lda strideA strideD strideE : Int) (tauq : Loc) (strideQ : Int) (taup : Loc)
    (strideP batch_count j : Int) (s : σ) :
    gebd2_lower_step dev COMPLEX m n shiftA lda strideA strideD strideE tauq strideQ taup
        strideP batch_count j s
      = (gebd2_lower_step traceDevice COMPLEX m n shiftA lda strideA strideD strideE tauq
          strideQ taup strideP batch_count j []).foldl (fun s c => dev.exec c s) s := by
  unfold gebd2_lower_step
  dsimp only [traceDevice]
  split_ifs <;> rfl

/-- The bidiagonal reduction executes, on any device, the operations of its
steps in order. -/
theorem gebd2_template_replay {σ : Type} (dev : Device σ) (COMPLEX : Bool)
    (m n shiftA lda strideA strideD strideE : Int) (tauq : Loc) (strideQ : Int) (taup : Loc)
    (strideP batch_count : Int) (s : σ) (hq : ¬ (m = 0 ∨ n = 0 ∨ batch_count = 0)) :
    (rocsolver_gebd2_template dev COMPLEX m n shiftA lda strideA strideD strideE tauq strideQ
        taup strideP batch_count s).2
      = (if m ≥ n then
          ((List.range n.toNat).map fun i : Nat => (i : Int)).flatMap
            (fun j => gebd2_upper_step traceDevice COMPLEX m n shiftA lda strideA strideD
              strideE tauq strideQ taup strideP batch_count j [])
        else
          ((List.range m.toNat).map fun i : Nat => (i : Int)).flatMap
            (fun j => gebd2_lower_step traceDevice COMPLEX m n shiftA lda strideA strideD
              strideE tauq strideQ taup strideP batch_count j [])).foldl
          (fun s c => dev.exec c s) s := by
  unfold rocsolver_gebd2_template
  rw [if_neg hq]
  by_cases hmn : m ≥ n
  · rw [if_pos hmn, if_pos hmn]
    dsimp only
    have h := foldl_replay dev
      (fun j s => gebd2_upper_step dev COMPLEX m n shiftA lda strideA strideD strideE tauq
        strideQ taup strideP batch_count j s)
      (fun j => gebd2_upper_step traceDevice COMPLEX m n shiftA lda strideA strideD strideE tauq
        strideQ taup strideP batch_count j [])
      (fun j s => gebd2_upper_step_replay dev COMPLEX m n shiftA lda strideA strideD strideE
        tauq strideQ taup strideP batch_count j s)
      ((List.range n.toNat).map fun i : Nat => (i : Int)) s
    rw [← h]
    congr 1
    exact flatMap_singleton_cast _
  · rw [if_neg hmn, if_neg hmn]
    dsimp only
    have h := foldl_replay dev
      (fun j s => gebd2_lower_step dev COMPLEX m n shiftA lda strideA strideD strideE tauq
        strideQ taup strideP batch_count j s)
      (fun j => gebd2_lower_step traceDevice COMPLEX m n shiftA lda strideA strideD strideE tauq
        strideQ taup strideP batch_count j [])
      (fun j s => gebd2_lower_step_replay dev COMPLEX m n shiftA lda strideA strideD strideE
        tauq strideQ taup strideP batch_count j s)
      ((List.range m.toNat).map fun i : Nat => (i : Int)) s
    rw [← h]
    congr 1
    exact flatMap_singleton_cast _

/-! ### Elements written by the operations -/

/-- On the memory device an operation changes only elements it may write. -/
theorem memDevice_exec_mem (ops : ReflectorOps) (c : Call) (s : MatState) (buf : Buf)
    (b p : Int) :
    ((memDevice ops).exec c s).mem buf b p
      = if c.writes buf b p then c.value ops s.mem buf b p else s.mem buf b p := rfl

/-- A list of operations none of which may write an element leaves it as it
is. -/
theorem foldl_exec_frame (ops : ReflectorOps) (l : List Call) (s : MatState) (buf : Buf)
    (b p : Int) (h : ∀ c ∈ l, ¬ c.writes buf b p) :
    (l.foldl (fun s c => (memDevice ops).exec c s) s).mem buf b p = s.mem buf b p := by
  induction l generalizing s with
  | nil => rfl
  | cons c l ih =>
    rw [List.foldl_cons, ih _ (fun c1 hc1 => h c1 (List.mem_cons_of_mem _ hc1)),
      memDevice_exec_mem, if_neg (h c (List.mem_cons_self _ _))]

/-- Entries of a vector, by integer index. -/
theorem vec_member_iff (s inc cnt p : Int) :
    vec_member s inc cnt p ↔ ∃ i : Int, 0 ≤ i ∧ i < cnt ∧ p = s + i * inc := by
  unfold vec_member
  constructor
  · rintro ⟨i, hi, rfl⟩
    have := List.mem_range.mp hi
    exact ⟨i, by omega, by omega, rfl⟩
  · rintro ⟨i, hi0, hi, rfl⟩
    refine ⟨i.toNat, List.mem_range.mpr (by omega), ?_⟩
    rw [Int.toNat_of_nonneg hi0]

/-- A vector of one entry is its start. -/
theorem vec_member_one (s inc p : Int) : vec_member s inc 1 p ↔ p = s := by
  rw [vec_member_iff]
  constructor
  · rintro ⟨i, hi0, hi, rfl⟩
    have : i = 0 := by omega
    subst this
    simp
  · rintro rfl
    exact ⟨0, by omega, by omega, by simp⟩

/-- Elements of a block, by integer row and column. -/
theorem block_member_iff (s ld mm nn p : Int) :
    block_member s ld mm nn p
      ↔ ∃ r c : Int, 0 ≤ r ∧ r < mm ∧ 0 ≤ c ∧ c < nn ∧ p = s + idx2D r c ld := by
  unfold block_member
  constructor
  · rintro ⟨r, hr, c, hc, rfl⟩
    have := List.mem_range.mp hr
    have := List.mem_range.mp hc
    exact ⟨r, c, by omega, by omega, by omega, by omega, rfl⟩
  · rintro ⟨r, c, hr0, hr, hc0, hc, rfl⟩
    refine ⟨r.toNat, List.mem_range.mpr (by omega), c.toNat, List.mem_range.mpr (by omega), ?_⟩
    rw [Int.toNat_of_nonneg hr0, Int.toNat_of_nonneg hc0]

/-- Two elements of a matrix stored by columns with rows below the leading
dimension share their offset only if they are the same element. -/
theorem idx2D_inj (lda r c r1 c1 : Int) (hr0 : 0 ≤ r) (hr : r < lda) (hr10 : 0 ≤ r1)
    (hr1 : r1 < lda) (h : idx2D r c lda = idx2D r1 c1 lda) : r = r1 ∧ c = c1 := by
  unfold idx2D at h
  have hc : c = c1 := by
    by_contra hne
    rcases lt_or_gt_of_ne hne with hlt | hgt
    · have : (c + 1) * lda ≤ c1 * lda := Int.mul_le_mul_of_nonneg_right (by omega) (by omega)
      have he : (c + 1) * lda = c * lda + lda := by ring
      omega
    · have : (c1 + 1) * lda ≤ c * lda := Int.mul_le_mul_of_nonneg_right (by omega) (by omega)
      have he : (c1 + 1) * lda = c1 * lda + lda := by ring
      omega
  subst hc
  exact ⟨by omega, rfl⟩

/-! ### Substitute, apply, restore in the unblocked QR factorization -/

/-- The steps `0, ..., len - 1` are the steps before `j`, step `j`, and the
steps after `j`. -/
theorem cast_range_split (len j : Nat) (hj : j < len) :
    ((List.range len).map fun i : Nat => (i : Int))
      = ((List.range j).map fun i : Nat => (i : Int))
        ++ (j : Int) :: (List.range (len - j - 1)).map fun i : Nat => (j : Int) + 1 + (i : Int) := by
  have hlen : len = j + ((len - j - 1) + 1) := by omega
  conv_lhs => rw [hlen, List.range_add, List.range_succ_eq_map]
  simp only [List.map_append, List.map_cons, List.map_map, add_zero]
  congr 2
  apply List.map_congr_left
  intro i _
  simp only [Function.comp, Nat.succ_eq_add_one]
  push_cast
  ring

/-- Conjugating twice gives the value back. -/
theorem Scalar.conj_conj (x : Scalar) : x.conj.conj = x := by
  cases x
  simp [Scalar.conj]

/-- Elements that the operations of column step `j` of the unblocked QR
factorization may write: matrix elements in rows and columns `j` and beyond,
the multiplier slot `j`, and the scratch buffer `diag`. -/
theorem geqr2_column_writes (COMPLEX : Bool) (m n shiftA lda strideA : Int) (ipiv : Loc)
    (strideP batch_count j : Int) (hjm : j < m) (hjn : j < n) :
    ∀ c ∈ geqr2_column traceDevice COMPLEX m n shiftA lda strideA ipiv strideP batch_count j [],
      ∀ (buf : Buf) (b p : Int), c.writes buf b p →
        (buf = Buf.A ∧ ∃ r c : Int, j ≤ r ∧ r < m ∧ j ≤ c ∧ c < n ∧ p = shiftA + idx2D r c lda)
          ∨ (buf = ipiv.buf ∧ p = ipiv.off + j) ∨ buf = Buf.diag := by
  have hG : ∀ (buf : Buf) (b p : Int),
      (Call.larfg (m - j) (shiftA + idx2D j j lda) (shiftA + idx2D (min (j + 1) (m - 1)) j lda)
        1 strideA (ipiv.add j) strideP batch_count).writes buf b p →
      (buf = Buf.A ∧ ∃ r c : Int, j ≤ r ∧ r < m ∧ j ≤ c ∧ c < n ∧ p = shiftA + idx2D r c lda)
        ∨ (buf = ipiv.buf ∧ p = ipiv.off + j) ∨ buf = Buf.diag := by
    intro buf b p h
    simp only [Call.writes, vec_member_iff] at h
    rcases h with ⟨_, (⟨rfl, rfl | ⟨i, hi0, hi, rfl⟩⟩ | ⟨rfl, rfl⟩ | rfl)⟩
    · exact Or.inl ⟨rfl, j, j, le_refl _, hjm, le_refl _, hjn, rfl⟩
    · exact Or.inl ⟨rfl, min (j + 1) (m - 1) + i, j, by omega, by omega, le_refl _, hjn,
        by unfold idx2D; ring⟩
    · exact Or.inr (Or.inl ⟨rfl, rfl⟩)
    · exact Or.inr (Or.inr rfl)
  have hS : ∀ (buf : Buf) (b p : Int),
      (Call.set_diag batch_count Buf.diag 0 1 (shiftA + idx2D j j lda) lda strideA 1
        true).writes buf b p →
      (buf = Buf.A ∧ ∃ r c : Int, j ≤ r ∧ r < m ∧ j ≤ c ∧ c < n ∧ p = shiftA + idx2D r c lda)
        ∨ (buf = ipiv.buf ∧ p = ipiv.off + j) ∨ buf = Buf.diag := by
    intro buf b p h
    simp only [Call.writes, vec_member_one] at h
    rcases h with ⟨_, (⟨rfl, _⟩ | ⟨rfl, _, rfl⟩)⟩
    · exact Or.inr (Or.inr rfl)
    · exact Or.inl ⟨rfl, j, j, le_refl _, hjm, le_refl _, hjn, rfl⟩
  have hC : ∀ (buf : Buf) (b p : Int),
      (Call.lacgv 1 ipiv j 1 strideP batch_count).writes buf b p →
      (buf = Buf.A ∧ ∃ r c : Int, j ≤ r ∧ r < m ∧ j ≤ c ∧ c < n ∧ p = shiftA + idx2D r c lda)
        ∨ (buf = ipiv.buf ∧ p = ipiv.off + j) ∨ buf = Buf.diag := by
    intro buf b p h
    simp only [Call.writes, vec_member_one] at h
    exact Or.inr (Or.inl ⟨h.2.1, h.2.2⟩)
  have hF : ∀ (buf : Buf) (b p : Int),
      (Call.larf rocblas_side_left (m - j) (n - j - 1) (shiftA + idx2D j j lda) 1 strideA
        (ipiv.add j) strideP (shiftA + idx2D j (j + 1) lda) lda strideA batch_count).writes
          buf b p →
      (buf = Buf.A ∧ ∃ r c : Int, j ≤ r ∧ r < m ∧ j ≤ c ∧ c < n ∧ p = shiftA + idx2D r c lda)
        ∨ (buf = ipiv.buf ∧ p = ipiv.off + j) ∨ buf = Buf.diag := by
    intro buf b p h
    simp only [Call.writes, block_member_iff] at h
    obtain ⟨_, rfl, r, c, hr0, hr, hc0, hc, rfl⟩ := h
    exact Or.inl ⟨rfl, j + r, j + 1 + c, by omega, by omega, by omega, by omega,
      by unfold idx2D; ring⟩
  have hR : ∀ (buf : Buf) (b p : Int),
      (Call.restore_diag batch_count Buf.diag 0 1 (shiftA + idx2D j j lda) lda strideA
        1).writes buf b p →
      (buf = Buf.A ∧ ∃ r c : Int, j ≤ r ∧ r < m ∧ j ≤ c ∧ c < n ∧ p = shiftA + idx2D r c lda)
        ∨ (buf = ipiv.buf ∧ p = ipiv.off + j) ∨ buf = Buf.diag := by
    intro buf b p h
    simp only [Call.writes, vec_member_one] at h
    obtain ⟨_, rfl, rfl⟩ := h
    exact Or.inl ⟨rfl, j, j, le_refl _, hjm, le_refl _, hjn, rfl⟩
  rw [geqr2_column_trace_eq]
  by_cases h2 : j < n - 1 <;> cases COMPLEX <;>
    simp only [h2, if_true, if_false, Bool.false_eq_true, List.nil_append, List.append_nil,
      List.cons_append, List.mem_cons, List.mem_singleton, List.not_mem_nil, or_false,
      forall_eq_or_imp, forall_eq] <;>
    first
      | exact ⟨hG, hS, hR⟩
      | exact ⟨hG, hS, hC, hR, hC⟩
      | exact ⟨hG, hS, hF, hR⟩
      | exact ⟨hG, hS, hC, hF, hR, hC⟩

/-- After column step `j` of the unblocked QR factorization the diagonal
element `(j, j)` and the multiplier slot `j` hold what the builder call of the
step produced. -/
theorem geqr2_column_own (ops : ReflectorOps) (COMPLEX : Bool)
    (m n shiftA lda strideA : Int) (ipiv : Loc) (strideP batch_count j : Int) (s : MatState)
    (b : Int) (hb0 : 0 ≤ b) (hb : b < batch_count) (hj0 : 0 ≤ j) (hlda : m ≤ lda) (hA : ipiv.buf ≠ Buf.A) (hdiag : ipiv.buf ≠ Buf.diag) :
    ((geqr2_column traceDevice COMPLEX m n shiftA lda strideA ipiv strideP batch_count j
        []).foldl (fun s c => (memDevice ops).exec c s) s).mem Buf.A b (shiftA + idx2D j j lda)
      = ops.larfg (Call.larfg (m - j) (shiftA + idx2D j j lda)
          (shiftA + idx2D (min (j + 1) (m - 1)) j lda) 1 strideA (ipiv.add j) strideP
          batch_count) s.mem Buf.A b (shiftA + idx2D j j lda)
    ∧ ((geqr2_column traceDevice COMPLEX m n shiftA lda strideA ipiv strideP batch_count j
        []).foldl (fun s c => (memDevice ops).exec c s) s).mem ipiv.buf b (ipiv.off + j)
      = ops.larfg (Call.larfg (m - j) (shiftA + idx2D j j lda)
          (shiftA + idx2D (min (j + 1) (m - 1)) j lda) 1 strideA (ipiv.add j) strideP
          batch_count) s.mem ipiv.buf b (ipiv.off + j) := by
  have hblk : ¬ block_member (shiftA + idx2D j (j + 1) lda) lda (m - j) (n - j - 1)
      (shiftA + idx2D j j lda) := by
    rw [block_member_iff]
    rintro ⟨r, c, hr0, hr, hc0, hc, h⟩
    have e : shiftA + idx2D j (j + 1) lda + idx2D r c lda
        = shiftA + idx2D (j + r) (j + 1 + c) lda := by unfold idx2D; ring
    rw [e] at h
    have := idx2D_inj lda j j (j + r) (j + 1 + c) hj0 (by omega) (by omega) (by omega)
      (by omega)
    omega
  have hA' : Buf.A ≠ ipiv.buf := fun h => hA h.symm
  have hdiag' : Buf.diag ≠ ipiv.buf := fun h => hdiag h.symm
  rw [geqr2_column_trace_eq]
  by_cases h2 : j < n - 1 <;> cases COMPLEX <;>
    simp only [h2, if_true, if_false, Bool.false_eq_true, List.nil_append, List.append_nil,
      List.cons_append, List.foldl_cons, List.foldl_nil] <;>
    simp [memDevice_exec_mem, Call.writes, Call.value, vec_member_one, hblk, hb0, hb, hA, hdiag,
      hA', hdiag', Loc.add, Scalar.conj_conj]

/-- C28: on the memory device (the applier writes only its block, the builder
only alpha, its vector, its multiplier and its scratch), for `m, n >= 1`,
`lda >= m`, a multiplier vector outside the matrix and the scratch buffer, and
every column `j < min m n` of every matrix `b` of the batch: when
`rocsolver_geqr2_template` returns, `A(j, j)` holds the alpha value and
`tau[j]` the multiplier that the builder call of step `j` produced from the
state left by the steps before it, not the substituted `1`.  For complex types
step `j` conjugates `tau[j]` exactly twice, and conjugating twice gives the
value back. -/
theorem geqr2_builder_outputs_kept (ops : ReflectorOps) (COMPLEX : Bool)
    (m n shiftA lda strideA : Int) (ipiv : Loc) (strideP batch_count : Int) (s : MatState)
    (j : Nat) (b : Int) (hm : 1 ≤ m) (hn : 1 ≤ n) (hlda : m ≤ lda)
    (hj : (j : Int) < min m n) (hb0 : 0 ≤ b) (hb : b < batch_count)
    (hA : ipiv.buf ≠ Buf.A) (hdiag : ipiv.buf ≠ Buf.diag) :
    (rocsolver_geqr2_template (memDevice ops) COMPLEX m n shiftA lda strideA ipiv strideP
        batch_count s).2.mem Buf.A b (shiftA + idx2D j j lda)
      = ops.larfg (Call.larfg (m - j) (shiftA + idx2D j j lda)
          (shiftA + idx2D (min ((j : Int) + 1) (m - 1)) j lda) 1 strideA (ipiv.add j) strideP
          batch_count)
          (geqr2_steps (memDevice ops) COMPLEX m n shiftA lda strideA ipiv strideP batch_count
            j s).mem Buf.A b (shiftA + idx2D j j lda)
    ∧ (rocsolver_geqr2_template (memDevice ops) COMPLEX m n shiftA lda strideA ipiv strideP
        batch_count s).2.mem ipiv.buf b (ipiv.off + j)
      = ops.larfg (Call.larfg (m - j) (shiftA + idx2D j j lda)
          (shiftA + idx2D (min ((j : Int) + 1) (m - 1)) j lda) 1 strideA (ipiv.add j) strideP
          batch_count)
          (geqr2_steps (memDevice ops) COMPLEX m n shiftA lda strideA ipiv strideP batch_count
            j s).mem ipiv.buf b (ipiv.off + j)
    ∧ (COMPLEX = true →
        (geqr2_column traceDevice COMPLEX m n shiftA lda strideA ipiv strideP batch_count j
          []).count (Call.lacgv 1 ipiv j 1 strideP batch_count) = 2)
    ∧ ∀ x : Scalar, x.conj.conj = x := by
  have hq : ¬ (m = 0 ∨ n = 0 ∨ batch_count = 0) := by omega
  have hjlen : j < (min m n).toNat := by omega
  have hpre : geqr2_steps (memDevice ops) COMPLEX m n shiftA lda strideA ipiv strideP
      batch_count j s
      = (((List.range j).map fun i : Nat => (i : Int)).flatMap
          (fun j => geqr2_column traceDevice COMPLEX m n shiftA lda strideA ipiv strideP
            batch_count j [])).foldl (fun s c => (memDevice ops).exec c s) s := by
    unfold geqr2_steps
    exact foldl_replay (memDevice ops)
      (fun j s => geqr2_column (memDevice ops) COMPLEX m n shiftA lda strideA ipiv strideP
        batch_count j s)
      (fun j => geqr2_column traceDevice COMPLEX m n shiftA lda strideA ipiv strideP
        batch_count j [])
      (fun j s => geqr2_column_replay (memDevice ops) COMPLEX m n shiftA lda strideA ipiv
        strideP batch_count j s) _ s
  have hlater : ∀ c ∈ ((List.range ((min m n).toNat - j - 1)).map
      fun i : Nat => (j : Int) + 1 + (i : Int)).flatMap
      (fun j => geqr2_column traceDevice COMPLEX m n shiftA lda strideA ipiv strideP
        batch_count j []),
      ¬ c.writes Buf.A b (shiftA + idx2D j j lda)
        ∧ ¬ c.writes ipiv.buf b (ipiv.off + j) := by
    intro c hc
    obtain ⟨j1, hj1, hcj⟩ := List.mem_flatMap.mp hc
    obtain ⟨i, hi, rfl⟩ := List.mem_map.mp hj1
    have hi' := List.mem_range.mp hi
    have hw := geqr2_column_writes COMPLEX m n shiftA lda strideA ipiv strideP batch_count
      ((j : Int) + 1 + (i : Int)) (by omega) (by omega) c hcj
    constructor
    · intro h
      rcases hw _ _ _ h with ⟨_, r, c1, hr, hrm, hc1, hc1n, he⟩ | ⟨h1, _⟩ | h1
      · have := idx2D_inj lda j j r c1 (by omega) (by omega) (by omega) (by omega) (by omega)
        omega
      · exact hA h1.symm
      · cases h1
    · intro h
      rcases hw _ _ _ h with ⟨h1, _⟩ | ⟨_, h1⟩ | h1
      · exact hA h1
      · omega
      · exact hdiag h1
  rw [geqr2_template_replay (memDevice ops) COMPLEX m n shiftA lda strideA ipiv strideP
    batch_count s hq, cast_range_split (min m n).toNat j hjlen, List.flatMap_append,
    List.flatMap_cons, List.foldl_append, List.foldl_append, ← hpre,
    foldl_exec_frame ops _ _ Buf.A b _ (fun c hc => (hlater c hc).1),
    foldl_exec_frame ops _ _ ipiv.buf b _ (fun c hc => (hlater c hc).2)]
  obtain ⟨h1, h2⟩ := geqr2_column_own ops COMPLEX m n shiftA lda strideA ipiv strideP
    batch_count j (geqr2_steps (memDevice ops) COMPLEX m n shiftA lda strideA ipiv strideP
      batch_count j s) b hb0 hb (by omega) hlda hA hdiag
  refine ⟨h1, h2, ?_, Scalar.conj_conj⟩
  intro hC
  subst hC
  rw [geqr2_column_trace_eq]
  by_cases h2 : (j : Int) < n - 1 <;> simp [h2, List.count_cons]

/-- C28 (witness): a complex `3 x 2` matrix of leading dimension `3` with the
sample builder and applier, matrix `0`, column `1`. -/
theorem geqr2_builder_outputs_kept_witness :
    (rocsolver_geqr2_template (memDevice ops_sample) true 3 2 0 3 6
        { buf := Buf.ipiv, off := 0 } 2 1 mem_sample).2.mem Buf.A 0 (0 + idx2D 1 1 3)
      = ops_sample.larfg (Call.larfg (3 - 1) (0 + idx2D 1 1 3)
          (0 + idx2D (min (1 + 1) (3 - 1)) 1 3) 1 6 (Loc.add { buf := Buf.ipiv, off := 0 } 1) 2
          1)
          (geqr2_steps (memDevice ops_sample) true 3 2 0 3 6 { buf := Buf.ipiv, off := 0 } 2 1
            1 mem_sample).mem Buf.A 0 (0 + idx2D 1 1 3)
    ∧ (rocsolver_geqr2_template (memDevice ops_sample) true 3 2 0 3 6
        { buf := Buf.ipiv, off := 0 } 2 1 mem_sample).2.mem Buf.ipiv 0 (0 + 1)
      = ops_sample.larfg (Call.larfg (3 - 1) (0 + idx2D 1 1 3)
          (0 + idx2D (min (1 + 1) (3 - 1)) 1 3) 1 6 (Loc.add { buf := Buf.ipiv, off := 0 } 1) 2
          1)
          (geqr2_steps (memDevice ops_sample) true 3 2 0 3 6 { buf := Buf.ipiv, off := 0 } 2 1
            1 mem_sample).mem Buf.ipiv 0 (0 + 1) :=
  ⟨(geqr2_builder_outputs_kept ops_sample true 3 2 0 3 6 { buf := Buf.ipiv, off := 0 } 2 1
      mem_sample 1 0 (by decide) (by decide) (by decide) (by decide) (by decide) (by decide)
      (by decide) (by decide)).1,
    (geqr2_builder_outputs_kept ops_sample true 3 2 0 3 6 { buf := Buf.ipiv, off := 0 } 2 1
      mem_sample 1 0 (by decide) (by decide) (by decide) (by decide) (by decide) (by decide)
      (by decide) (by decide)).2.1⟩

/-- Sample run of the unblocked QR factorization on the memory device: a
complex `3 x 2` matrix; `A(0,0)` holds the builder's alpha `30 + i` and
`tau[1]` the builder's multiplier `21 + i`, not the substituted `1` and not a
conjugate. -/
theorem geqr2_sample_memory :
    ((rocsolver_geqr2_template (memDevice ops_sample) true 3 2 0 3 6
        { buf := Buf.ipiv, off := 0 } 2 1 mem_sample).2.mem Buf.A 0 0,
     (rocsolver_geqr2_template (memDevice ops_sample) true 3 2 0 3 6
        { buf := Buf.ipiv, off := 0 } 2 1 mem_sample).2.mem Buf.ipiv 0 1)
      = ({ re := 30, im := 1 }, { re := 21, im := 1 }) := by
  decide

/-! ### Copy and restore of the diagonals in the bidiagonal reduction -/

/-- Elements written by a builder call on a column: within the rows and
columns from `(j, j)` on when alpha and the vector are. -/
theorem writes_larfg_col (shiftA lda m n j order ra ca r0 c0 stridex : Int) (tau : Loc)
    (strideP bc : Int) (hra : j ≤ ra ∧ ra < m) (hca : j ≤ ca ∧ ca < n)
    (hr0 : j ≤ r0) (hc0 : j ≤ c0 ∧ c0 < n)
    (hext : ∀ i : Int, 0 ≤ i → i < order - 1 → r0 + i < m)
    (buf : Buf) (b p : Int)
    (h : (Call.larfg order (shiftA + idx2D ra ca lda) (shiftA + idx2D r0 c0 lda) 1 stridex tau
      strideP bc).writes buf b p) :
    (buf = Buf.A ∧ ∃ r c : Int, j ≤ r ∧ r < m ∧ j ≤ c ∧ c < n ∧ p = shiftA + idx2D r c lda)
      ∨ (buf = tau.buf ∧ p = tau.off) ∨ buf = Buf.diag := by
  simp only [Call.writes, vec_member_iff] at h
  rcases h with ⟨_, (⟨rfl, rfl | ⟨i, hi0, hi, rfl⟩⟩ | ⟨rfl, rfl⟩ | rfl)⟩
  · exact Or.inl ⟨rfl, ra, ca, hra.1, hra.2, hca.1, hca.2, rfl⟩
  · exact Or.inl ⟨rfl, r0 + i, c0, by omega, hext i hi0 hi, hc0.1, hc0.2,
      by unfold idx2D; ring⟩
  · exact Or.inr (Or.inl ⟨rfl, rfl⟩)
  · exact Or.inr (Or.inr rfl)

/-- Elements written by a builder call on a row. -/
theorem writes_larfg_row (shiftA lda m n j order ra ca r0 c0 stridex : Int) (tau : Loc)
    (strideP bc : Int) (hra : j ≤ ra ∧ ra < m) (hca : j ≤ ca ∧ ca < n)
    (hr0 : j ≤ r0 ∧ r0 < m) (hc0 : j ≤ c0)
    (hext : ∀ i : Int, 0 ≤ i → i < order - 1 → c0 + i < n)
    (buf : Buf) (b p : Int)
    (h : (Call.larfg order (shiftA + idx2D ra ca lda) (shiftA + idx2D r0 c0 lda) lda stridex
      tau strideP bc).writes buf b p) :
    (buf = Buf.A ∧ ∃ r c : Int, j ≤ r ∧ r < m ∧ j ≤ c ∧ c < n ∧ p = shiftA + idx2D r c lda)
      ∨ (buf = tau.buf ∧ p = tau.off) ∨ buf = Buf.diag := by
  simp only [Call.writes, vec_member_iff] at h
  rcases h with ⟨_, (⟨rfl, rfl | ⟨i, hi0, hi, rfl⟩⟩ | ⟨rfl, rfl⟩ | rfl)⟩
  · exact Or.inl ⟨rfl, ra, ca, hra.1, hra.2, hca.1, hca.2, rfl⟩
  · exact Or.inl ⟨rfl, r0, c0 + i, hr0.1, hr0.2, by omega, hext i hi0 hi,
      by unfold idx2D; ring⟩
  · exact Or.inr (Or.inl ⟨rfl, rfl⟩)
  · exact Or.inr (Or.inr rfl)

/-- Elements written by an applier call: its block. -/
theorem writes_larf (shiftA lda m n j mm nn sx incx stridex : Int) (side : rocblas_side)
    (tau : Loc) (strideP rc cc strideA bc : Int) (hrc : j ≤ rc ∧ rc + mm ≤ m)
    (hcc : j ≤ cc ∧ cc + nn ≤ n) (buf : Buf) (b p : Int)
    (h : (Call.larf side mm nn sx incx stridex tau strideP (shiftA + idx2D rc cc lda) lda strideA
      bc).writes buf b p) :
    buf = Buf.A ∧ ∃ r c : Int, j ≤ r ∧ r < m ∧ j ≤ c ∧ c < n ∧ p = shiftA + idx2D r c lda := by
  simp only [Call.writes, block_member_iff] at h
  obtain ⟨_, rfl, r, c, hr0, hr, hc0, hc, rfl⟩ := h
  exact ⟨rfl, rc + r, cc + c, by omega, by omega, by omega, by omega, by unfold idx2D; ring⟩

/-- Elements written by `set_diag` for one diagonal element: entry `k` of `d`
and the matrix element. -/
theorem writes_set_diag (shiftA lda m n j bc k strideD ra ca strideA : Int) (d : Buf)
    (set_one : Bool) (hra : j ≤ ra ∧ ra < m) (hca : j ≤ ca ∧ ca < n) (buf : Buf) (b p : Int)
    (h : (Call.set_diag bc d k strideD (shiftA + idx2D ra ca lda) lda strideA 1 set_one).writes
      buf b p) :
    (buf = Buf.A ∧ ∃ r c : Int, j ≤ r ∧ r < m ∧ j ≤ c ∧ c < n ∧ p = shiftA + idx2D r c lda)
      ∨ (buf = d ∧ p = k) := by
  simp only [Call.writes, vec_member_one] at h
  rcases h with ⟨_, (⟨rfl, h1, h2⟩ | ⟨rfl, _, rfl⟩)⟩
  · exact Or.inr ⟨rfl, by omega⟩
  · exact Or.inl ⟨rfl, ra, ca, hra.1, hra.2, hca.1, hca.2, rfl⟩

/-- Elements written by `restore_diag` for one diagonal element: the matrix
element. -/
theorem writes_restore_diag (shiftA lda m n j bc k strideD ra ca strideA : Int) (d : Buf)
    (hra : j ≤ ra ∧ ra < m) (hca : j ≤ ca ∧ ca < n) (buf : Buf) (b p : Int)
    (h : (Call.restore_diag bc d k strideD (shiftA + idx2D ra ca lda) lda strideA 1).writes
      buf b p) :
    buf = Buf.A ∧ ∃ r c : Int, j ≤ r ∧ r < m ∧ j ≤ c ∧ c < n ∧ p = shiftA + idx2D r c lda := by
  simp only [Call.writes, vec_member_one] at h
  obtain ⟨_, rfl, rfl⟩ := h
  exact ⟨rfl, ra, ca, hra.1, hra.2, hca.1, hca.2, rfl⟩

/-- Elements that the operations of step `j` of the upper-bidiagonal loop may
write, for real types: matrix elements in rows and columns `j` and beyond,
the multiplier slots `j`, the entries `j` of `D` and `E`, and the scratch
buffer `diag`. -/
theorem gebd2_upper_step_writes (m n shiftA lda strideA strideD strideE : Int) (tauq : Loc)
    (strideQ : Int) (taup : Loc) (strideP batch_count j : Int) (hmn : n ≤ m) (hjn : j < n) :
    ∀ c ∈ gebd2_upper_step traceDevice false m n shiftA lda strideA strideD strideE tauq
        strideQ taup strideP batch_count j [],
      ∀ (buf : Buf) (b p : Int), c.writes buf b p →
        (buf = Buf.A ∧ ∃ r c : Int, j ≤ r ∧ r < m ∧ j ≤ c ∧ c < n ∧ p = shiftA + idx2D r c lda)
          ∨ (buf = tauq.buf ∧ p = tauq.off + j) ∨ (buf = taup.buf ∧ p = taup.off + j)
          ∨ (buf = Buf.D ∧ p = j) ∨ (buf = Buf.E ∧ p = j) ∨ buf = Buf.diag := by
  rw [gebd2_upper_step_trace_eq]
  by_cases h2 : j < n - 1 <;>
    simp only [h2, if_true, if_false, Bool.false_eq_true, List.nil_append, List.append_nil,
      List.cons_append, List.mem_cons, List.mem_singleton, List.not_mem_nil, or_false,
      forall_eq_or_imp, forall_eq]
  · refine ⟨?_, ?_, ?_, ?_, ?_, ?_, ?_, ?_⟩ <;> intro buf b p h
    · rcases writes_larfg_col shiftA lda m n j _ _ _ _ _ _ _ _ _ (by omega) (by omega)
        (by omega) (by omega) (by intro i _ _; omega) buf b p h with h | h | h
      · exact Or.inl h
      · exact Or.inr (Or.inl h)
      · exact Or.inr (Or.inr (Or.inr (Or.inr (Or.inr h))))
    · rcases writes_set_diag shiftA lda m n j _ _ _ _ _ _ _ _ (by omega) (by omega) buf b p h
        with h | h
      · exact Or.inl h
      · exact Or.inr (Or.inr (Or.inr (Or.inl h)))
    · exact Or.inl (writes_larf shiftA lda m n j _ _ _ _ _ _ _ _ _ _ _ _ (by omega) (by omega)
        buf b p h)
    · exact Or.inl (writes_restore_diag shiftA lda m n j _ _ _ _ _ _ _ (by omega) (by omega)
        buf b p h)
    · rcases writes_larfg_row shiftA lda m n j _ _ _ _ _ _ _ _ _ (by omega) (by omega)
        (by omega) (by omega) (by intro i _ _; omega) buf b p h with h | h | h
      · exact Or.inl h
      · exact Or.inr (Or.inr (Or.inl h))
      · exact Or.inr (Or.inr (Or.inr (Or.inr (Or.inr h))))
    · rcases writes_set_diag shiftA lda m n j _ _ _ _ _ _ _ _ (by omega) (by omega) buf b p h
        with h | h
      · exact Or.inl h
      · exact Or.inr (Or.inr (Or.inr (Or.inr (Or.inl h))))
    · exact Or.inl (writes_larf shiftA lda m n j _ _ _ _ _ _ _ _ _ _ _ _ (by omega) (by omega)
        buf b p h)
    · exact Or.inl (writes_restore_diag shiftA lda m n j _ _ _ _ _ _ _ (by omega) (by omega)
        buf b p h)
  · refine ⟨?_, ?_, ?_, ?_⟩ <;> intro buf b p h
    · rcases writes_larfg_col shiftA lda m n j _ _ _ _ _ _ _ _ _ (by omega) (by omega)
        (by omega) (by omega) (by intro i _ _; omega) buf b p h with h | h | h
      · exact Or.inl h
      · exact Or.inr (Or.inl h)
      · exact Or.inr (Or.inr (Or.inr (Or.inr (Or.inr h))))
    · rcases writes_set_diag shiftA lda m n j _ _ _ _ _ _ _ _ (by omega) (by omega) buf b p h
        with h | h
      · exact Or.inl h
      · exact Or.inr (Or.inr (Or.inr (Or.inl h)))
    · exact Or.inl (writes_restore_diag shiftA lda m n j _ _ _ _ _ _ _ (by omega) (by omega)
        buf b p h)
    · simp only [Call.writes, Loc.add] at h
      exact Or.inr (Or.inr (Or.inl ⟨h.2.1, by omega⟩))

/-- Elements that the operations of step `j` of the lower-bidiagonal loop may
write, for real types: matrix elements in rows and columns `j` and beyond,
the multiplier slots `j`, the entries `j` of `D` and `E`, and the scratch
buffer `diag`. -/
theorem gebd2_lower_step_writes (m n shiftA lda strideA strideD strideE : Int) (tauq : Loc)
    (strideQ : Int) (taup : Loc) (strideP batch_count j : Int) (hmn : m < n) (hjm : j < m) :
    ∀ c ∈ gebd2_lower_step traceDevice false m n shiftA lda strideA strideD strideE tauq
        strideQ taup strideP batch_count j [],
      ∀ (buf : Buf) (b p : Int), c.writes buf b p →
        (buf = Buf.A ∧ ∃ r c : Int, j ≤ r ∧ r < m ∧ j ≤ c ∧ c < n ∧ p = shiftA + idx2D r c lda)
          ∨ (buf = tauq.buf ∧ p = tauq.off + j) ∨ (buf = taup.buf ∧ p = taup.off + j)
          ∨ (buf = Buf.D ∧ p = j) ∨ (buf = Buf.E ∧ p = j) ∨ buf = Buf.diag := by
  rw [gebd2_lower_step_trace_eq]
  by_cases h2 : j < m - 1 <;>
    simp only [h2, if_true, if_false, Bool.false_eq_true, List.nil_append, List.append_nil,
      List.cons_append, List.mem_cons, List.mem_singleton, List.not_mem_nil, or_false,
      forall_eq_or_imp, forall_eq]
  · refine ⟨?_, ?_, ?_, ?_, ?_, ?_, ?_, ?_⟩ <;> intro buf b p h
    · rcases writes_larfg_row shiftA lda m n j _ _ _ _ _ _ _ _ _ (by omega) (by omega)
        (by omega) (by omega) (by intro i _ _; omega) buf b p h with h | h | h
      · exact Or.inl h
      · exact Or.inr (Or.inr (Or.inl h))
      · exact Or.inr (Or.inr (Or.inr (Or.inr (Or.inr h))))
    · rcases writes_set_diag shiftA lda m n j _ _ _ _ _ _ _ _ (by omega) (by omega) buf b p h
        with h | h
      · exact Or.inl h
      · exact Or.inr (Or.inr (Or.inr (Or.inl h)))
    · exact Or.inl (writes_larf shiftA lda m n j _ _ _ _ _ _ _ _ _ _ _ _ (by omega) (by omega)
        buf b p h)
    · exact Or.inl (writes_restore_diag shiftA lda m n j _ _ _ _ _ _ _ (by omega) (by omega)
        buf b p h)
    · rcases writes_larfg_col shiftA lda m n j _ _ _ _ _ _ _ _ _ (by omega) (by omega)
        (by omega) (by omega) (by intro i _ _; omega) buf b p h with h | h | h
      · exact Or.inl h
      · exact Or.inr (Or.inl h)
      · exact Or.inr (Or.inr (Or.inr (Or.inr (Or.inr h))))
    · rcases writes_set_diag shiftA lda m n j _ _ _ _ _ _ _ _ (by omega) (by omega) buf b p h
        with h | h
      · exact Or.inl h
      · exact Or.inr (Or.inr (Or.inr (Or.inr (Or.inl h))))
    · exact Or.inl (writes_larf shiftA lda m n j _ _ _ _ _ _ _ _ _ _ _ _ (by omega) (by omega)
        buf b p h)
    · exact Or.inl (writes_restore_diag shiftA lda m n j _ _ _ _ _ _ _ (by omega) (by omega)
        buf b p h)
  · refine ⟨?_, ?_, ?_, ?_⟩ <;> intro buf b p h
    · rcases writes_larfg_row shiftA lda m n j _ _ _ _ _ _ _ _ _ (by omega) (by omega)
        (by omega) (by omega) (by intro i _ _; omega) buf b p h with h | h | h
      · exact Or.inl h
      · exact Or.inr (Or.inr (Or.inl h))
      · exact Or.inr (Or.inr (Or.inr (Or.inr (Or.inr h))))
    · rcases writes_set_diag shiftA lda m n j _ _ _ _ _ _ _ _ (by omega) (by omega) buf b p h
        with h | h
      · exact Or.inl h
      · exact Or.inr (Or.inr (Or.inr (Or.inl h)))
    · exact Or.inl (writes_restore_diag shiftA lda m n j _ _ _ _ _ _ _ (by omega) (by omega)
        buf b p h)
    · simp only [Call.writes, Loc.add] at h
      exact Or.inr (Or.inl ⟨h.2.1, by omega⟩)

/-- After step `j` of the upper-bidiagonal loop, for real types, `D[j]` equals
the matrix element `(j, j)` and, when the step has a second reflector, `E[j]`
equals the matrix element `(j, j + 1)`. -/
theorem gebd2_upper_step_own (ops : ReflectorOps)
    (m n shiftA lda strideA strideD strideE : Int) (tauq : Loc) (strideQ : Int) (taup : Loc)
    (strideP batch_count j : Int) (s : MatState) (b : Int) (hb0 : 0 ≤ b) (hb : b < batch_count)
    (hj0 : 0 ≤ j) (hjn : j < n) (hmn : n ≤ m) (hlda : m ≤ lda)
    (hq : tauq.buf ≠ Buf.A ∧ tauq.buf ≠ Buf.D ∧ tauq.buf ≠ Buf.E)
    (hp : taup.buf ≠ Buf.A ∧ taup.buf ≠ Buf.D ∧ taup.buf ≠ Buf.E) :
    ((gebd2_upper_step traceDevice false m n shiftA lda strideA strideD strideE tauq strideQ
        taup strideP batch_count j []).foldl (fun s c => (memDevice ops).exec c s) s).mem
          Buf.D b j
      = ((gebd2_upper_step traceDevice false m n shiftA lda strideA strideD strideE tauq
          strideQ taup strideP batch_count j []).foldl (fun s c => (memDevice ops).exec c s)
            s).mem Buf.A b (shiftA + idx2D j j lda)
    ∧ (j < n - 1 →
        ((gebd2_upper_step traceDevice false m n shiftA lda strideA strideD strideE tauq
            strideQ taup strideP batch_count j []).foldl
              (fun s c => (memDevice ops).exec c s) s).mem Buf.E b j
          = ((gebd2_upper_step traceDevice false m n shiftA lda strideA strideD strideE tauq
              strideQ taup strideP batch_count j []).foldl
                (fun s c => (memDevice ops).exec c s) s).mem Buf.A b
                  (shiftA + idx2D j (j + 1) lda)) := by
  have hne1 : shiftA + idx2D j j lda ≠ shiftA + idx2D j (j + 1) lda := by
    intro h
    have := idx2D_inj lda j j j (j + 1) hj0 (by omega) hj0 (by omega) (by omega)
    omega
  have hvec : ¬ vec_member (shiftA + idx2D j (min (j + 2) (n - 1)) lda) lda (n - j - 1 - 1)
      (shiftA + idx2D j j lda) := by
    rw [vec_member_iff]
    rintro ⟨i, hi0, hi, h⟩
    have e : shiftA + idx2D j (min (j + 2) (n - 1)) lda + i * lda
        = shiftA + idx2D j (min (j + 2) (n - 1) + i) lda := by unfold idx2D; ring
    rw [e] at h
    have := idx2D_inj lda j j j (min (j + 2) (n - 1) + i) hj0 (by omega) hj0 (by omega)
      (by omega)
    omega
  have hblk : ¬ block_member (shiftA + idx2D (j + 1) (j + 1) lda) lda (m - j - 1) (n - j - 1)
      (shiftA + idx2D j j lda) := by
    rw [block_member_iff]
    rintro ⟨r, c, hr0, hr, hc0, hc, h⟩
    have e : shiftA + idx2D (j + 1) (j + 1) lda + idx2D r c lda
        = shiftA + idx2D (j + 1 + r) (j + 1 + c) lda := by unfold idx2D; ring
    rw [e] at h
    have := idx2D_inj lda j j (j + 1 + r) (j + 1 + c) hj0 (by omega) (by omega) (by omega)
      (by omega)
    omega
  obtain ⟨hq1, hq2, hq3⟩ := hq
  obtain ⟨hp1, hp2, hp3⟩ := hp
  have hq1' : Buf.A ≠ tauq.buf := fun h => hq1 h.symm
  have hq2' : Buf.D ≠ tauq.buf := fun h => hq2 h.symm
  have hq3' : Buf.E ≠ tauq.buf := fun h => hq3 h.symm
  have hp1' : Buf.A ≠ taup.buf := fun h => hp1 h.symm
  have hp2' : Buf.D ≠ taup.buf := fun h => hp2 h.symm
  have hp3' : Buf.E ≠ taup.buf := fun h => hp3 h.symm
  rw [gebd2_upper_step_trace_eq]
  by_cases h2 : j < n - 1 <;>
    simp only [h2, if_true, if_false, Bool.false_eq_true, List.nil_append, List.append_nil,
      List.cons_append, List.foldl_cons, List.foldl_nil] <;>
    simp [memDevice_exec_mem, Call.writes, Call.value, vec_member_one, hblk, hvec, hne1,
      hne1.symm, hb0, hb, hq1, hq2, hq3, hp1, hp2, hp3, hq1', hq2', hq3', hp1', hp2', hp3',
      Loc.add]

/-- After step `j` of the lower-bidiagonal loop, for real types, `D[j]` equals
the matrix element `(j, j)` and, when the step has a second reflector, `E[j]`
equals the matrix element `(j + 1, j)`. -/
theorem gebd2_lower_step_own (ops : ReflectorOps)
    (m n shiftA lda strideA strideD strideE : Int) (tauq : Loc) (strideQ : Int) (taup : Loc)
    (strideP batch_count j : Int) (s : MatState) (b : Int) (hb0 : 0 ≤ b) (hb : b < batch_count)
    (hj0 : 0 ≤ j) (hjm : j < m) (hlda : m ≤ lda)
    (hq : tauq.buf ≠ Buf.A ∧ tauq.buf ≠ Buf.D ∧ tauq.buf ≠ Buf.E)
    (hp : taup.buf ≠ Buf.A ∧ taup.buf ≠ Buf.D ∧ taup.buf ≠ Buf.E) :
    ((gebd2_lower_step traceDevice false m n shiftA lda strideA strideD strideE tauq strideQ
        taup strideP batch_count j []).foldl (fun s c => (memDevice ops).exec c s) s).mem
          Buf.D b j
      = ((gebd2_lower_step traceDevice false m n shiftA lda strideA strideD strideE tauq
          strideQ taup strideP batch_count j []).foldl (fun s c => (memDevice ops).exec c s)
            s).mem Buf.A b (shiftA + idx2D j j lda)
    ∧ (j < m - 1 →
        ((gebd2_lower_step traceDevice false m n shiftA lda strideA strideD strideE tauq
            strideQ taup strideP batch_count j []).foldl
              (fun s c => (memDevice ops).exec c s) s).mem Buf.E b j
          = ((gebd2_lower_step traceDevice false m n shiftA lda strideA strideD strideE tauq
              strideQ taup strideP batch_count j []).foldl
                (fun s c => (memDevice ops).exec c s) s).mem Buf.A b
                  (shiftA + idx2D (j + 1) j lda)) := by
  have hne1 : shiftA + idx2D j j lda ≠ shiftA + idx2D (j + 1) j lda := by
    unfold idx2D
    omega
  have hvec : ¬ vec_member (shiftA + idx2D (min (j + 2) (m - 1)) j lda) 1 (m - j - 1 - 1)
      (shiftA + idx2D j j lda) := by
    rw [vec_member_iff]
    rintro ⟨i, hi0, hi, h⟩
    unfold idx2D at h
    omega
  have hblk : ¬ block_member (shiftA + idx2D (j + 1) (j + 1) lda) lda (m - j - 1) (n - j - 1)
      (shiftA + idx2D j j lda) := by
    rw [block_member_iff]
    rintro ⟨r, c, hr0, hr, hc0, hc, h⟩
    have e : shiftA + idx2D (j + 1) (j + 1) lda + idx2D r c lda
        = shiftA + idx2D (j + 1 + r) (j + 1 + c) lda := by unfold idx2D; ring
    rw [e] at h
    have := idx2D_inj lda j j (j + 1 + r) (j + 1 + c) hj0 (by omega) (by omega) (by omega)
      (by omega)
    omega
  obtain ⟨hq1, hq2, hq3⟩ := hq
  obtain ⟨hp1, hp2, hp3⟩ := hp
  have hq1' : Buf.A ≠ tauq.buf := fun h => hq1 h.symm
  have hq2' : Buf.D ≠ tauq.buf := fun h => hq2 h.symm
  have hq3' : Buf.E ≠ tauq.buf := fun h => hq3 h.symm
  have hp1' : Buf.A ≠ taup.buf := fun h => hp1 h.symm
  have hp2' : Buf.D ≠ taup.buf := fun h => hp2 h.symm
  have hp3' : Buf.E ≠ taup.buf := fun h => hp3 h.symm
  rw [gebd2_lower_step_trace_eq]
  by_cases h2 : j < m - 1 <;>
    simp only [h2, if_true, if_false, Bool.false_eq_true, List.nil_append, List.append_nil,
      List.cons_append, List.foldl_cons, List.foldl_nil] <;>
    simp [memDevice_exec_mem, Call.writes, Call.value, vec_member_one, hblk, hvec, hne1,
      hne1.symm, hb0, hb, hq1, hq2, hq3, hp1, hp2, hp3, hq1', hq2', hq3', hp1', hp2', hp3',
      Loc.add]

/-- C27: on the memory device (the applier writes only its block, the builder
only alpha, its vector, its multiplier and its scratch), for real types,
`m, n >= 1`, `lda >= m` and multiplier vectors outside the matrix, `D` and
`E`: when `rocsolver_gebd2_template` returns, for every matrix `b` of the
batch `D[j]` equals the matrix element `(j, j)` for every `j < min m n`, and
`E[j]` equals the element `(j, j + 1)` when `m >= n`, the element `(j + 1, j)`
when `m < n`, for every `j < min m n - 1`. -/
theorem gebd2_diagonals_restored (ops : ReflectorOps)
    (m n shiftA lda strideA strideD strideE : Int) (tauq : Loc) (strideQ : Int) (taup : Loc)
    (strideP batch_count : Int) (s : MatState) (j : Nat) (b : Int)
    (hm : 1 ≤ m) (hn : 1 ≤ n) (hlda : m ≤ lda) (hj : (j : Int) < min m n)
    (hb0 : 0 ≤ b) (hb : b < batch_count)
    (hq : tauq.buf ≠ Buf.A ∧ tauq.buf ≠ Buf.D ∧ tauq.buf ≠ Buf.E)
    (hp : taup.buf ≠ Buf.A ∧ taup.buf ≠ Buf.D ∧ taup.buf ≠ Buf.E) :
    (rocsolver_gebd2_template (memDevice ops) false m n shiftA lda strideA strideD strideE tauq
        strideQ taup strideP batch_count s).2.mem Buf.D b j
      = (rocsolver_gebd2_template (memDevice ops) false m n shiftA lda strideA strideD strideE
          tauq strideQ taup strideP batch_count s).2.mem Buf.A b (shiftA + idx2D j j lda)
    ∧ ((j : Int) < min m n - 1 →
        (rocsolver_gebd2_template (memDevice ops) false m n shiftA lda strideA strideD strideE
            tauq strideQ taup strideP batch_count s).2.mem Buf.E b j
          = (rocsolver_gebd2_template (memDevice ops) false m n shiftA lda strideA strideD
              strideE tauq strideQ taup strideP batch_count s).2.mem Buf.A b
                (if m ≥ n then shiftA + idx2D j ((j : Int) + 1) lda
                  else shiftA + idx2D ((j : Int) + 1) j lda)) := by
  have hqk : ¬ (m = 0 ∨ n = 0 ∨ batch_count = 0) := by omega
  rw [gebd2_template_replay (memDevice ops) false m n shiftA lda strideA strideD strideE tauq
    strideQ taup strideP batch_count s hqk]
  by_cases hmn : m ≥ n
  · have hjlen : j < n.toNat := by omega
    have hlater : ∀ c ∈ ((List.range (n.toNat - j - 1)).map
        fun i : Nat => (j : Int) + 1 + (i : Int)).flatMap
        (fun j => gebd2_upper_step traceDevice false m n shiftA lda strideA strideD strideE
          tauq strideQ taup strideP batch_count j []),
        ¬ c.writes Buf.A b (shiftA + idx2D j j lda) ∧ ¬ c.writes Buf.D b j
          ∧ ¬ c.writes Buf.A b (shiftA + idx2D j ((j : Int) + 1) lda)
          ∧ ¬ c.writes Buf.E b j := by
      intro c hc
      obtain ⟨j1, hj1, hcj⟩ := List.mem_flatMap.mp hc
      obtain ⟨i, hi, rfl⟩ := List.mem_map.mp hj1
      have hi' := List.mem_range.mp hi
      have hw := gebd2_upper_step_writes m n shiftA lda strideA strideD strideE tauq strideQ
        taup strideP batch_count ((j : Int) + 1 + (i : Int)) hmn (by omega) c hcj
      refine ⟨?_, ?_, ?_, ?_⟩ <;> intro h <;>
        rcases hw _ _ _ h with ⟨_, r, c1, hr, hrm, hc1, hc1n, he⟩ | ⟨h1, _⟩ | ⟨h1, _⟩
          | ⟨h1, h2⟩ | ⟨h1, h2⟩ | h1
      · have := idx2D_inj lda j j r c1 (by omega) (by omega) (by omega) (by omega) (by omega)
        omega
      · exact hq.1 h1.symm
      · exact hp.1 h1.symm
      · cases h1
      · cases h1
      · cases h1
      · rename_i h0; cases h0
      · exact hq.2.1 h1.symm
      · exact hp.2.1 h1.symm
      · omega
      · cases h1
      · cases h1
      · have := idx2D_inj lda j ((j : Int) + 1) r c1 (by omega) (by omega) (by omega)
          (by omega) (by omega)
        omega
      · exact hq.1 h1.symm
      · exact hp.1 h1.symm
      · cases h1
      · cases h1
      · cases h1
      · rename_i h0; cases h0
      · exact hq.2.2 h1.symm
      · exact hp.2.2 h1.symm
      · cases h1
      · omega
      · cases h1
    rw [if_pos hmn, if_pos hmn, cast_range_split n.toNat j hjlen, List.flatMap_append,
      List.flatMap_cons, List.foldl_append, List.foldl_append,
      foldl_exec_frame ops _ _ Buf.A b _ (fun c hc => (hlater c hc).1),
      foldl_exec_frame ops _ _ Buf.D b _ (fun c hc => (hlater c hc).2.1),
      foldl_exec_frame ops _ _ Buf.A b _ (fun c hc => (hlater c hc).2.2.1),
      foldl_exec_frame ops _ _ Buf.E b _ (fun c hc => (hlater c hc).2.2.2)]
    obtain ⟨h1, h2⟩ := gebd2_upper_step_own ops m n shiftA lda strideA strideD strideE tauq
      strideQ taup strideP batch_count j
      ((((List.range j).map fun i : Nat => (i : Int)).flatMap
        (fun j => gebd2_upper_step traceDevice false m n shiftA lda strideA strideD strideE tauq
          strideQ taup strideP batch_count j [])).foldl
        (fun s c => (memDevice ops).exec c s) s) b hb0 hb (by omega) (by omega) hmn hlda hq hp
    exact ⟨h1, fun h => h2 (by omega)⟩
  · have hmn1 : m < n := by omega
    have hjlen : j < m.toNat := by omega
    have hlater : ∀ c ∈ ((List.range (m.toNat - j - 1)).map
        fun i : Nat => (j : Int) + 1 + (i : Int)).flatMap
        (fun j => gebd2_lower_step traceDevice false m n shiftA lda strideA strideD strideE
          tauq strideQ taup strideP batch_count j []),
        ¬ c.writes Buf.A b (shiftA + idx2D j j lda) ∧ ¬ c.writes Buf.D b j
          ∧ ¬ c.writes Buf.A b (shiftA + idx2D ((j : Int) + 1) j lda)
          ∧ ¬ c.writes Buf.E b j := by
      intro c hc
      obtain ⟨j1, hj1, hcj⟩ := List.mem_flatMap.mp hc
      obtain ⟨i, hi, rfl⟩ := List.mem_map.mp hj1
      have hi' := List.mem_range.mp hi
      have hw := gebd2_lower_step_writes m n shiftA lda strideA strideD strideE tauq strideQ
        taup strideP batch_count ((j : Int) + 1 + (i : Int)) hmn1 (by omega) c hcj
      refine ⟨?_, ?_, ?_, ?_⟩ <;> intro h <;>
        rcases hw _ _ _ h with ⟨_, r, c1, hr, hrm, hc1, hc1n, he⟩ | ⟨h1, _⟩ | ⟨h1, _⟩
          | ⟨h1, h2⟩ | ⟨h1, h2⟩ | h1
      · have := idx2D_inj lda j j r c1 (by omega) (by omega) (by omega) (by omega) (by omega)
        omega
      · exact hq.1 h1.symm
      · exact hp.1 h1.symm
      · cases h1
      · cases h1
      · cases h1
      · rename_i h0; cases h0
      · exact hq.2.1 h1.symm
      · exact hp.2.1 h1.symm
      · omega
      · cases h1
      · cases h1
      · have := idx2D_inj lda ((j : Int) + 1) j r c1 (by omega) (by omega) (by omega)
          (by omega) (by omega)
        omega
      · exact hq.1 h1.symm
      · exact hp.1 h1.symm
      · cases h1
      · cases h1
      · cases h1
      · rename_i h0; cases h0
      · exact hq.2.2 h1.symm
      · exact hp.2.2 h1.symm
      · cases h1
      · omega
      · cases h1
    rw [if_neg hmn, if_neg hmn, cast_range_split m.toNat j hjlen, List.flatMap_append,
      List.flatMap_cons, List.foldl_append, List.foldl_append,
      foldl_exec_frame ops _ _ Buf.A b _ (fun c hc => (hlater c hc).1),
      foldl_exec_frame ops _ _ Buf.D b _ (fun c hc => (hlater c hc).2.1),
      foldl_exec_frame ops _ _ Buf.A b _ (fun c hc => (hlater c hc).2.2.1),
      foldl_exec_frame ops _ _ Buf.E b _ (fun c hc => (hlater c hc).2.2.2)]
    obtain ⟨h1, h2⟩ := gebd2_lower_step_own ops m n shiftA lda strideA strideD strideE tauq
      strideQ taup strideP batch_count j
      ((((List.range j).map fun i : Nat => (i : Int)).flatMap
        (fun j => gebd2_lower_step traceDevice false m n shiftA lda strideA strideD strideE tauq
          strideQ taup strideP batch_count j [])).foldl
        (fun s c => (memDevice ops).exec c s) s) b hb0 hb (by omega) (by omega) hlda hq hp
    exact ⟨h1, fun h => h2 (by omega)⟩

/-- C27 (witness): a real `3 x 2` matrix (upper branch) of leading dimension
`3`, with the sample builder and applier, matrix `0`, step `0`. -/
theorem gebd2_diagonals_restored_witness :
    (rocsolver_gebd2_template (memDevice ops_sample) false 3 2 0 3 6 2 1
        { buf := Buf.tauq, off := 0 } 2 { buf := Buf.taup, off := 0 } 2 1 mem_sample).2.mem
          Buf.D 0 0
      = (rocsolver_gebd2_template (memDevice ops_sample) false 3 2 0 3 6 2 1
          { buf := Buf.tauq, off := 0 } 2 { buf := Buf.taup, off := 0 } 2 1 mem_sample).2.mem
            Buf.A 0 (0 + idx2D 0 0 3)
    ∧ (rocsolver_gebd2_template (memDevice ops_sample) false 3 2 0 3 6 2 1
        { buf := Buf.tauq, off := 0 } 2 { buf := Buf.taup, off := 0 } 2 1 mem_sample).2.mem
          Buf.E 0 0
      = (rocsolver_gebd2_template (memDevice ops_sample) false 3 2 0 3 6 2 1
          { buf := Buf.tauq, off := 0 } 2 { buf := Buf.taup, off := 0 } 2 1 mem_sample).2.mem
            Buf.A 0 (0 + idx2D 0 (0 + 1) 3) :=
  ⟨(gebd2_diagonals_restored ops_sample 3 2 0 3 6 2 1 { buf := Buf.tauq, off := 0 } 2
      { buf := Buf.taup, off := 0 } 2 1 mem_sample 0 0 (by decide) (by decide) (by decide)
      (by decide) (by decide) (by decide) (by decide) (by decide)).1,
    (gebd2_diagonals_restored ops_sample 3 2 0 3 6 2 1 { buf := Buf.tauq, off := 0 } 2
      { buf := Buf.taup, off := 0 } 2 1 mem_sample 0 0 (by decide) (by decide) (by decide)
      (by decide) (by decide) (by decide) (by decide) (by decide)).2 (by decide)⟩

/-- Sample run of the bidiagonal reduction on the memory device: a real
`3 x 2` matrix; `D[0]` and `A(0,0)` hold the builder's alpha `30`, `E[0]` and
`A(0,1)` hold `13`, not the substituted `1`, and `taup[1]` is `0`. -/
theorem gebd2_sample_memory :
    ((rocsolver_gebd2_template (memDevice ops_sample) false 3 2 0 3 6 2 1
        { buf := Buf.tauq, off := 0 } 2 { buf := Buf.taup, off := 0 } 2 1 mem_sample).2.mem
          Buf.D 0 0,
     (rocsolver_gebd2_template (memDevice ops_sample) false 3 2 0 3 6 2 1
        { buf := Buf.tauq, off := 0 } 2 { buf := Buf.taup, off := 0 } 2 1 mem_sample).2.mem
          Buf.A 0 0,
     (rocsolver_gebd2_template (memDevice ops_sample) false 3 2 0 3 6 2 1
        { buf := Buf.tauq, off := 0 } 2 { buf := Buf.taup, off := 0 } 2 1 mem_sample).2.mem
          Buf.E 0 0,
     (rocsolver_gebd2_template (memDevice ops_sample) false 3 2 0 3 6 2 1
        { buf := Buf.tauq, off := 0 } 2 { buf := Buf.taup, off := 0 } 2 1 mem_sample).2.mem
          Buf.A 0 3,
     (rocsolver_gebd2_template (memDevice ops_sample) false 3 2 0 3 6 2 1
        { buf := Buf.tauq, off := 0 } 2 { buf := Buf.taup, off := 0 } 2 1 mem_sample).2.mem
          Buf.taup 0 1)
      = ({ re := 30, im := 1 }, { re := 30, im := 1 }, { re := 13, im := 1 },
          { re := 13, im := 1 }, { re := 0, im := 0 }) := by
  decide

/-! ### Effect of `init_ident_col` -/

/-- Conversion to `unsigned int` keeps the values of its range. -/
theorem to_u32_of_fitting (x : Int) (h0 : 0 ≤ x) (h1 : x < 4294967296) : to_u32 x = x := by
  unfold to_u32
  omega

/-- Effect of one thread of `init_ident_col` whose coordinates and element
index fit `unsigned int`: the element `(i, j)` of matrix `b` of the thread is
set when it lies in the matrix and on or above the diagonal or in a column
from `k` on; nothing else changes. -/
theorem init_ident_col_thread (m n k shiftA lda : Int) (bdx bdy : Nat) (t : ThreadIdx3)
    (mem : Mem) (buf : Buf) (b p : Int)
    (hk0 : 0 ≤ k) (hkn : k ≤ n) (hnm : n ≤ m) (hm : m ≤ INT_MAX) (hlda : m ≤ lda)
    (hfit : (n - 1) * lda + m ≤ 4294967296)
    (hrow : t.row bdx < 4294967296) (hcol : t.col bdy < 4294967296) :
    init_ident_col m n k shiftA lda bdx bdy t mem buf b p
      = if (buf = Buf.A ∧ b = t.hipBlockIdx_z ∧ p = shiftA + idx2D (t.row bdx) (t.col bdy) lda)
            ∧ t.row bdx < m ∧ t.col bdy < n
            ∧ (t.row bdx = t.col bdy ∨ t.col bdy > t.row bdx ∨ t.col bdy ≥ k) then
          (if t.row bdx = t.col bdy then Scalar.one else Scalar.zero)
        else mem buf b p := by
  unfold ThreadIdx3.row at hrow ⊢
  unfold ThreadIdx3.col at hcol ⊢
  unfold init_ident_col
  have hr0 : (0 : Int) ≤ (t.hipBlockIdx_x : Int) * bdx + t.hipThreadIdx_x := by positivity
  have hc0 : (0 : Int) ≤ (t.hipBlockIdx_y : Int) * bdy + t.hipThreadIdx_y := by positivity
  generalize (t.hipBlockIdx_x : Int) * bdx + t.hipThreadIdx_x = I at hrow hr0 ⊢
  generalize (t.hipBlockIdx_y : Int) * bdy + t.hipThreadIdx_y = J at hcol hc0 ⊢
  have hmu : to_u32 m = m := to_u32_of_fitting m (by omega) (by unfold INT_MAX at hm; omega)
  have hnu : to_u32 n = n := to_u32_of_fitting n (by omega) (by unfold INT_MAX at hm; omega)
  have hku : to_u32 k = k := to_u32_of_fitting k (by omega) (by unfold INT_MAX at hm; omega)
  rw [to_u32_of_fitting I hr0 hrow, to_u32_of_fitting J hc0 hcol, hmu, hnu, hku]
  by_cases hin : I < m ∧ J < n
  · have h3 : 0 ≤ J * lda := Int.mul_nonneg hc0 (by omega)
    have h4 : J * lda ≤ (n - 1) * lda := Int.mul_le_mul_of_nonneg_right (by omega) (by omega)
    have hidx : shiftA + to_u32 (I + J * lda) = shiftA + idx2D I J lda := by
      rw [to_u32_of_fitting _ (by omega) (by omega)]
      unfold idx2D
      ring
    rw [if_pos hin, hidx]
    by_cases h1 : I = J
    · simp only [h1, if_true, Mem.store, true_or, and_true]
      simp only [h1] at hin
      simp [hin]
    · rw [if_neg h1]
      by_cases h2 : J > I
      · simp only [h2, if_true, Mem.store, true_or, or_true, and_true, h1, if_false]
        simp [hin]
      · rw [if_neg h2]
        by_cases h5 : J ≥ k
        · simp only [h5, if_true, Mem.store, or_true, and_true, h1, if_false]
          simp [hin]
        · simp only [h5, if_false, h1, h2, or_self, and_false]
  · rw [if_neg hin]
    have : ¬ ((buf = Buf.A ∧ b = t.hipBlockIdx_z ∧ p = shiftA + idx2D I J lda)
        ∧ I < m ∧ J < n ∧ (I = J ∨ J > I ∨ J ≥ k)) := by
      rintro ⟨_, h1, h2, _⟩
      exact hin ⟨h1, h2⟩
    rw [if_neg this]

/-- The threads of a three-dimensional grid. -/
theorem mem_grid3_threads (gridx gridy gridz blockx blocky : Nat) (t : ThreadIdx3) :
    t ∈ grid3_threads gridx gridy gridz blockx blocky
      ↔ t.hipBlockIdx_x < gridx ∧ t.hipBlockIdx_y < gridy ∧ t.hipBlockIdx_z < gridz
        ∧ t.hipThreadIdx_x < blockx ∧ t.hipThreadIdx_y < blocky := by
  simp only [grid3_threads, List.mem_flatMap, List.mem_map, List.mem_range]
  constructor
  · rintro ⟨z, hz, y, hy, x, hx, ty, hty, tx, htx, rfl⟩
    exact ⟨hx, hy, hz, htx, hty⟩
  · rintro ⟨hx, hy, hz, htx, hty⟩
    exact ⟨t.hipBlockIdx_z, hz, t.hipBlockIdx_y, hy, t.hipBlockIdx_x, hx, t.hipThreadIdx_y, hty,
      t.hipThreadIdx_x, htx, rfl⟩

/-- Effect of a run of `init_ident_col` on the element `(i, j)` of matrix `b`:
when some thread has these coordinates and the element is on or above the
diagonal or in a column from `k` on, it becomes `1` on the diagonal and `0`
elsewhere; otherwise it is kept. -/
theorem run_init_ident_col_element (m n k shiftA lda : Int) (bdx bdy : Nat)
    (hk0 : 0 ≤ k) (hkn : k ≤ n) (hnm : n ≤ m) (hm : m ≤ INT_MAX) (hlda : m ≤ lda)
    (hfit : (n - 1) * lda + m ≤ 4294967296)
    (b i j : Int) (hi0 : 0 ≤ i) (hi : i < m) :
    ∀ (ts : List ThreadIdx3) (mem : Mem),
      (∀ t ∈ ts, t.row bdx < 4294967296 ∧ t.col bdy < 4294967296) →
      ((∃ t ∈ ts, (t.hipBlockIdx_z : Int) = b ∧ t.row bdx = i ∧ t.col bdy = j) →
        j < n → (i = j ∨ j > i ∨ j ≥ k) →
        run_init_ident_col m n k shiftA lda bdx bdy ts mem Buf.A b (shiftA + idx2D i j lda)
          = if i = j then Scalar.one else Scalar.zero)
      ∧ ((¬ ∃ t ∈ ts, (t.hipBlockIdx_z : Int) = b ∧ t.row bdx = i ∧ t.col bdy = j)
          ∨ ¬ (i = j ∨ j > i ∨ j ≥ k) →
        run_init_ident_col m n k shiftA lda bdx bdy ts mem Buf.A b (shiftA + idx2D i j lda)
          = mem Buf.A b (shiftA + idx2D i j lda)) := by
  intro ts
  induction ts with
  | nil =>
    intro mem _
    refine ⟨?_, fun _ => rfl⟩
    rintro ⟨t, ht, _⟩
    cases ht
  | cons t ts ih =>
    intro mem hbound
    have hbt := hbound t (List.mem_cons_self _ _)
    have hth := init_ident_col_thread m n k shiftA lda bdx bdy t mem Buf.A b
      (shiftA + idx2D i j lda) hk0 hkn hnm hm hlda hfit hbt.1 hbt.2
    have hr0 : 0 ≤ t.row bdx := by unfold ThreadIdx3.row; positivity
    obtain ⟨iha, ihb⟩ := ih (init_ident_col m n k shiftA lda bdx bdy t mem)
      (fun t1 ht1 => hbound t1 (List.mem_cons_of_mem _ ht1))
    have hrun : run_init_ident_col m n k shiftA lda bdx bdy (t :: ts) mem
        = run_init_ident_col m n k shiftA lda bdx bdy ts
            (init_ident_col m n k shiftA lda bdx bdy t mem) := rfl
    rw [hrun]
    have hsame : t.row bdx < m →
        shiftA + idx2D i j lda = shiftA + idx2D (t.row bdx) (t.col bdy) lda →
        t.row bdx = i ∧ t.col bdy = j := by
      intro h1 h2
      have := idx2D_inj lda i j (t.row bdx) (t.col bdy) hi0 (by omega) hr0 (by omega)
        (by omega)
      exact ⟨this.1.symm, this.2.symm⟩
    constructor
    · intro hex hjn hcond
      by_cases hex1 : ∃ t1 ∈ ts, (t1.hipBlockIdx_z : Int) = b ∧ t1.row bdx = i ∧ t1.col bdy = j
      · exact iha hex1 hjn hcond
      · rw [ihb (Or.inl hex1), hth]
        obtain ⟨t0, ht0, hz, hrow, hcol⟩ := hex
        rcases List.mem_cons.mp ht0 with rfl | hmem
        · rw [if_pos ⟨⟨rfl, hz.symm, by rw [hrow, hcol]⟩, by omega, by omega,
            by rw [hrow, hcol]; exact hcond⟩, hrow, hcol]
        · exact absurd ⟨t0, hmem, hz, hrow, hcol⟩ hex1
    · intro hno
      have hno1 : (¬ ∃ t1 ∈ ts, (t1.hipBlockIdx_z : Int) = b ∧ t1.row bdx = i ∧ t1.col bdy = j)
          ∨ ¬ (i = j ∨ j > i ∨ j ≥ k) := by
        rcases hno with h | h
        · left
          rintro ⟨t1, ht1, h1⟩
          exact h ⟨t1, List.mem_cons_of_mem _ ht1, h1⟩
        · exact Or.inr h
      rw [ihb hno1, hth]
      apply if_neg
      rintro ⟨⟨_, hz, hp⟩, hrm, _, hc⟩
      obtain ⟨hrow, hcol⟩ := hsame hrm hp
      rcases hno with h | h
      · exact h ⟨t, List.mem_cons_self _ _, hz.symm, hrow, hcol⟩
      · rw [hrow, hcol] at hc
        exact h hc

/-- A run of `init_ident_col` changes only elements of the `m x n` block of
the matrices of its threads. -/
theorem run_init_ident_col_frame (m n k shiftA lda : Int) (bdx bdy : Nat)
    (hk0 : 0 ≤ k) (hkn : k ≤ n) (hnm : n ≤ m) (hm : m ≤ INT_MAX) (hlda : m ≤ lda)
    (hfit : (n - 1) * lda + m ≤ 4294967296) (buf : Buf) (b p : Int) :
    ∀ (ts : List ThreadIdx3) (mem : Mem),
      (∀ t ∈ ts, t.row bdx < 4294967296 ∧ t.col bdy < 4294967296) →
      (∀ t ∈ ts, ¬ (buf = Buf.A ∧ b = t.hipBlockIdx_z ∧ in_matrix shiftA lda m n p)) →
      run_init_ident_col m n k shiftA lda bdx bdy ts mem buf b p = mem buf b p := by
  intro ts
  induction ts with
  | nil => intro mem _ _; rfl
  | cons t ts ih =>
    intro mem hbound hout
    have hbt := hbound t (List.mem_cons_self _ _)
    have hr0 : 0 ≤ t.row bdx := by unfold ThreadIdx3.row; positivity
    have hc0 : 0 ≤ t.col bdy := by unfold ThreadIdx3.col; positivity
    have hrun : run_init_ident_col m n k shiftA lda bdx bdy (t :: ts) mem
        = run_init_ident_col m n k shiftA lda bdx bdy ts
            (init_ident_col m n k shiftA lda bdx bdy t mem) := rfl
    rw [hrun, ih _ (fun t1 ht1 => hbound t1 (List.mem_cons_of_mem _ ht1))
      (fun t1 ht1 => hout t1 (List.mem_cons_of_mem _ ht1)),
      init_ident_col_thread m n k shiftA lda bdx bdy t mem buf b p hk0 hkn hnm hm hlda hfit
        hbt.1 hbt.2]
    apply if_neg
    rintro ⟨⟨h1, h2, h3⟩, hrm, hcn, _⟩
    exact hout t (List.mem_cons_self _ _)
      ⟨h1, h2, t.row bdx, t.col bdy, hr0, hrm, hc0, hcn, h3⟩

/-- Number of blocks `(m - 1)/32 + 1` of the launch along a dimension of
length `m`: at least one, enough to reach `m`, and at most `m + 31`
threads. -/
theorem init_ident_blocks (m : Int) (h0 : 0 ≤ m) :
    1 ≤ Int.tdiv (m - 1) 32 + 1 ∧ m ≤ (Int.tdiv (m - 1) 32 + 1) * 32
      ∧ (Int.tdiv (m - 1) 32 + 1) * 32 ≤ m + 32
      ∧ ∀ i : Int, 0 ≤ i → i < m → i / 32 < Int.tdiv (m - 1) 32 + 1 := by
  rcases lt_or_ge 0 m with hpos | hzero
  · have hq : Int.tdiv (m - 1) 32 = (m - 1) / 32 := Int.tdiv_eq_ediv (by omega) (by omega)
    rw [hq]
    refine ⟨by omega, by omega, by omega, ?_⟩
    intro i hi0 hi
    omega
  · have hm0 : m = 0 := by omega
    subst hm0
    refine ⟨by decide, by decide, by decide, ?_⟩
    intro i hi0 hi
    omega

/-- Effect of the launch of `init_ident_col` issued by
`rocsolver_org2r_ung2r_template`, for `0 <= k <= n <= m`, `lda >= m` and
element indices that fit `unsigned int`: the entries of every matrix of the
batch afterwards, and the elements left alone. -/
theorem org2r_init_ident_entries (m n k shiftA lda batch_count : Int) (mem : Mem)
    (hk0 : 0 ≤ k) (hkn : k ≤ n) (hnm : n ≤ m) (hm : m ≤ INT_MAX) (hlda : m ≤ lda)
    (hfit : (n - 1) * lda + m ≤ 4294967296) :
    (∀ b i j : Int, 0 ≤ b → b < batch_count → 0 ≤ i → i < m → 0 ≤ j → j < n →
      org2r_init_ident m n k shiftA lda batch_count mem Buf.A b (shiftA + idx2D i j lda)
        = if i = j then Scalar.one
          else if j > i then Scalar.zero
          else if j ≥ k then Scalar.zero
          else mem Buf.A b (shiftA + idx2D i j lda))
    ∧ (∀ (buf : Buf) (b p : Int),
        ¬ (buf = Buf.A ∧ 0 ≤ b ∧ b < batch_count ∧ in_matrix shiftA lda m n p) →
        org2r_init_ident m n k shiftA lda batch_count mem buf b p = mem buf b p) := by
  obtain ⟨hgx1, hgxm, hgxb, hgxi⟩ := init_ident_blocks m (by omega)
  obtain ⟨hgy1, hgyn, hgyb, hgyi⟩ := init_ident_blocks n (by omega)
  have hbound : ∀ t ∈ grid3_threads (Int.tdiv (m - 1) 32 + 1).toNat
      (Int.tdiv (n - 1) 32 + 1).toNat batch_count.toNat (32 : Int).toNat (32 : Int).toNat,
      t.row (32 : Int).toNat < 4294967296 ∧ t.col (32 : Int).toNat < 4294967296 := by
    intro t ht
    obtain ⟨hx, hy, _, htx, hty⟩ := (mem_grid3_threads _ _ _ _ _ t).mp ht
    have h32 : (32 : Int).toNat = 32 := rfl
    rw [h32] at htx hty ⊢
    unfold ThreadIdx3.row ThreadIdx3.col
    unfold INT_MAX at hm
    constructor
    · push_cast
      omega
    · push_cast
      omega
  unfold org2r_init_ident hipLaunch_init_ident_col
  constructor
  · intro b i j hb0 hb hi0 hi hj0 hj
    obtain ⟨ha, hb'⟩ := run_init_ident_col_element m n k shiftA lda (32 : Int).toNat
      (32 : Int).toNat hk0 hkn hnm hm hlda hfit b i j hi0 hi _ mem hbound
    by_cases hcond : i = j ∨ j > i ∨ j ≥ k
    · have hex : ∃ t ∈ grid3_threads (Int.tdiv (m - 1) 32 + 1).toNat
          (Int.tdiv (n - 1) 32 + 1).toNat batch_count.toNat (32 : Int).toNat (32 : Int).toNat,
          (t.hipBlockIdx_z : Int) = b ∧ t.row (32 : Int).toNat = i
            ∧ t.col (32 : Int).toNat = j := by
        refine ⟨{ hipBlockIdx_x := (i / 32).toNat, hipBlockIdx_y := (j / 32).toNat,
                  hipBlockIdx_z := b.toNat, hipThreadIdx_x := (i % 32).toNat,
                  hipThreadIdx_y := (j % 32).toNat }, ?_, ?_, ?_, ?_⟩
        · rw [mem_grid3_threads]
          have h32 : (32 : Int).toNat = 32 := rfl
          rw [h32]
          have := hgxi i hi0 hi
          have := hgyi j hj0 hj
          dsimp only
          refine ⟨by omega, by omega, by omega, by omega, by omega⟩
        · dsimp only
          omega
        · unfold ThreadIdx3.row
          have h32 : (32 : Int).toNat = 32 := rfl
          rw [h32]
          dsimp only
          push_cast
          omega
        · unfold ThreadIdx3.col
          have h32 : (32 : Int).toNat = 32 := rfl
          rw [h32]
          dsimp only
          push_cast
          omega
      rw [ha hex hj hcond]
      by_cases h1 : i = j
      · rw [if_pos h1, if_pos h1]
      · rw [if_neg h1, if_neg h1]
        by_cases h2 : j > i
        · rw [if_pos h2]
        · rw [if_neg h2]
          have h3 : j ≥ k := by
            rcases hcond with h | h | h
            · exact absurd h h1
            · exact absurd h h2
            · exact h
          rw [if_pos h3]
    · rw [hb' (Or.inr hcond)]
      have h1 : ¬ i = j := fun h => hcond (Or.inl h)
      have h2 : ¬ j > i := fun h => hcond (Or.inr (Or.inl h))
      have h3 : ¬ j ≥ k := fun h => hcond (Or.inr (Or.inr h))
      rw [if_neg h1, if_neg h2, if_neg h3]
  · intro buf b p hout
    apply run_init_ident_col_frame m n k shiftA lda (32 : Int).toNat (32 : Int).toNat hk0 hkn
      hnm hm hlda hfit buf b p _ mem hbound
    intro t ht hw
    obtain ⟨_, _, hz, _, _⟩ := (mem_grid3_threads _ _ _ _ _ t).mp ht
    exact hout ⟨hw.1, by omega, by omega, hw.2.2⟩

/-- Every step of the loop of `rocsolver_org2r_ung2r_template` appends its
calls to the trace. -/
theorem org2r_ung2r_step_trace_append (m n shiftA lda strideA : Int) (ipiv : Loc)
    (strideP batch_count j : Int) (tr : List Call) :
    org2r_ung2r_step traceDevice m n shiftA lda strideA ipiv strideP batch_count j tr
      = tr ++ org2r_ung2r_step traceDevice m n shiftA lda strideA ipiv strideP batch_count
          j [] := by
  unfold org2r_ung2r_step
  dsimp only [traceDevice]
  split_ifs <;> simp

/-- Unless it returns at once, `rocsolver_org2r_ung2r_template` starts by
switching the pointer mode and launching `init_ident_col` on
`(m - 1)/32 + 1` by `(n - 1)/32 + 1` by `batch_count` blocks. -/
theorem org2r_ung2r_template_trace_head (m n k shiftA lda strideA : Int) (ipiv : Loc)
    (strideP batch_count : Int) (hm : m ≠ 0) (hn : n ≠ 0) (hb : batch_count ≠ 0) :
    ∃ rest, (rocsolver_org2r_ung2r_template traceDevice m n k shiftA lda strideA ipiv strideP
        batch_count []).2
      = Call.set_pointer_mode rocblas_pointer_mode_device
        :: Call.init_ident_col (Int.tdiv (m - 1) 32 + 1) (Int.tdiv (n - 1) 32 + 1) batch_count
            m n k shiftA lda strideA
        :: rest := by
  unfold rocsolver_org2r_ung2r_template
  rw [if_neg (by simp [hm, hn, hb])]
  dsimp only
  obtain ⟨steps, hsteps⟩ : ∃ steps, List.foldl
      (fun st j => org2r_ung2r_step traceDevice m n shiftA lda strideA ipiv strideP
        batch_count j st)
      (traceDevice.exec (Call.init_ident_col (Int.tdiv (m - 1) 32 + 1)
        (Int.tdiv (n - 1) 32 + 1) batch_count m n k shiftA lda strideA)
        (traceDevice.exec (Call.set_pointer_mode rocblas_pointer_mode_device) []))
      ((List.range k.toNat).reverse.flatMap fun a => [(a : Int)])
      = traceDevice.exec (Call.init_ident_col (Int.tdiv (m - 1) 32 + 1)
        (Int.tdiv (n - 1) 32 + 1) batch_count m n k shiftA lda strideA)
        (traceDevice.exec (Call.set_pointer_mode rocblas_pointer_mode_device) []) ++ steps :=
    ⟨_, foldl_trace_flatMap
      (fun j tr => org2r_ung2r_step traceDevice m n shiftA lda strideA ipiv strideP
        batch_count j tr) _
      (fun j tr => org2r_ung2r_step_trace_append m n shiftA lda strideA ipiv strideP
        batch_count j tr) _⟩
  by_cases hk : k > 0
  · rw [if_pos hk]
    refine ⟨steps ++ [Call.restau (Int.tdiv (k - 1) 128 + 1) batch_count k ipiv strideP]
      ++ [Call.set_pointer_mode (traceDevice.get_pointer_mode [])], ?_⟩
    exact (congrArg (fun tr => traceDevice.exec
      (Call.set_pointer_mode (traceDevice.get_pointer_mode []))
      (traceDevice.exec (Call.restau (Int.tdiv (k - 1) 128 + 1) batch_count k ipiv strideP)
        tr)) hsteps).trans (by simp [traceDevice])
  · rw [if_neg hk]
    refine ⟨steps ++ [Call.set_pointer_mode (traceDevice.get_pointer_mode [])], ?_⟩
    exact (congrArg (fun tr => traceDevice.exec
      (Call.set_pointer_mode (traceDevice.get_pointer_mode [])) tr) hsteps).trans
      (by simp [traceDevice])

/-- C30 (amended): for `0 <= k <= n <= m`, `lda >= m` and a matrix whose
element indices fit `unsigned int` (`(n-1)*lda + m <= 2^32`), the launch of
`init_ident_col` issued by `rocsolver_org2r_ung2r_template` leaves, in every
matrix `b` of the batch and for every `i < m`, `j < n`: the entry `(i, j)`
equal to `1` if `i = j`, to `0` if `j > i`, to `0` if `i > j` and `j >= k`,
and unchanged if `i > j` and `j < k`.  Columns `k .. n-1` become columns of the identity, the strictly
lower parts of the first `k` columns are kept, and no element outside the
`m x n` blocks of the batch is written.  The launch is the one the driver
issues right after switching the pointer mode. -/
theorem init_ident_col_effect (m n k shiftA lda strideA : Int) (ipiv : Loc)
    (strideP batch_count : Int) (mem : Mem)
    (hk0 : 0 ≤ k) (hkn : k ≤ n) (hnm : n ≤ m) (hm : m ≤ INT_MAX) (hlda : m ≤ lda)
    (hfit : (n - 1) * lda + m ≤ 4294967296) :
    (∀ b i j : Int, 0 ≤ b → b < batch_count → 0 ≤ i → i < m → 0 ≤ j → j < n →
      org2r_init_ident m n k shiftA lda batch_count mem Buf.A b (shiftA + idx2D i j lda)
        = if i = j then Scalar.one
          else if j > i then Scalar.zero
          else if j ≥ k then Scalar.zero
          else mem Buf.A b (shiftA + idx2D i j lda))
    ∧ (∀ (buf : Buf) (b p : Int),
        ¬ (buf = Buf.A ∧ 0 ≤ b ∧ b < batch_count ∧ in_matrix shiftA lda m n p) →
        org2r_init_ident m n k shiftA lda batch_count mem buf b p = mem buf b p)
    ∧ (m ≠ 0 → n ≠ 0 → batch_count ≠ 0 →
        ∃ rest, (rocsolver_org2r_ung2r_template traceDevice m n k shiftA lda strideA ipiv
            strideP batch_count []).2
          = Call.set_pointer_mode rocblas_pointer_mode_device
            :: Call.init_ident_col (Int.tdiv (m - 1) 32 + 1) (Int.tdiv (n - 1) 32 + 1)
                batch_count m n k shiftA lda strideA
            :: rest) :=
  ⟨(org2r_init_ident_entries m n k shiftA lda batch_count mem hk0 hkn hnm hm hlda hfit).1,
   (org2r_init_ident_entries m n k shiftA lda batch_count mem hk0 hkn hnm hm hlda hfit).2,
   org2r_ung2r_template_trace_head m n k shiftA lda strideA ipiv strideP batch_count⟩

/-- The launch on a `3 x 2` matrix with one reflector, leading dimension `4`
and two matrices in the batch. -/
theorem init_ident_col_effect_witness :
    ((0 : Int) ≤ 1 ∧ (1 : Int) ≤ 2 ∧ (2 : Int) ≤ 3 ∧ (3 : Int) ≤ INT_MAX ∧ (3 : Int) ≤ 4
      ∧ ((2 : Int) - 1) * 4 + 3 ≤ 4294967296)
    ∧ (∀ b i j : Int, 0 ≤ b → b < 2 → 0 ≤ i → i < 3 → 0 ≤ j → j < 2 →
      org2r_init_ident 3 2 1 0 4 2 mem_sample.mem Buf.A b (0 + idx2D i j 4)
        = if i = j then Scalar.one
          else if j > i then Scalar.zero
          else if j ≥ 1 then Scalar.zero
          else mem_sample.mem Buf.A b (0 + idx2D i j 4))
    ∧ (∀ (buf : Buf) (b p : Int),
        ¬ (buf = Buf.A ∧ 0 ≤ b ∧ b < 2 ∧ in_matrix 0 4 3 2 p) →
        org2r_init_ident 3 2 1 0 4 2 mem_sample.mem buf b p = mem_sample.mem buf b p) :=
  ⟨by decide,
   (init_ident_col_effect 3 2 1 0 4 8 { buf := Buf.ipiv, off := 0 } 1 2 mem_sample.mem
      (by decide) (by decide) (by decide) (by decide) (by decide) (by decide)).1,
   (init_ident_col_effect 3 2 1 0 4 8 { buf := Buf.ipiv, off := 0 } 1 2 mem_sample.mem
      (by decide) (by decide) (by decide) (by decide) (by decide) (by decide)).2.1⟩

/-- Sample launch of `init_ident_col` on a `3 x 2` matrix with one reflector
and leading dimension `4`, on `2 x 1` blocks of `2 x 2` threads: the elements
`0 .. 7` of the matrix afterwards.  Column `0` keeps its reflector entries `1`
and `2`, column `1` is a column of the identity, and the padding row of each
column (elements `3` and `7`) is untouched. -/
theorem init_ident_col_sample :
    (List.range 8).map (fun p : Nat =>
      (hipLaunch_init_ident_col 2 1 1 2 2 3 2 1 0 4 mem_sample.mem Buf.A 0 p).re)
      = [1, 1, 2, 3, 0, 1, 0, 7] := by
  decide

set_option maxRecDepth 1000000 in
/-- Sample launch with the driver's own grid: `32 x 32` threads, of which six
write or skip an element of the `3 x 2` matrix. -/
theorem org2r_init_ident_sample :
    (List.range 8).map (fun p : Nat =>
      (org2r_init_ident 3 2 1 0 4 1 mem_sample.mem Buf.A 0 p).re)
      = [1, 1, 2, 3, 0, 1, 0, 7] := by
  decide

/-- The element index `i + j*lda` of `init_ident_col` is an `unsigned int`: no
thread writes an element at index `2^32` or more, whatever the shape. -/
theorem run_init_ident_col_beyond_u32 (m n k shiftA lda : Int) (bdx bdy : Nat)
    (buf : Buf) (b p : Int) (hp : shiftA + 4294967296 ≤ p) :
    ∀ (ts : List ThreadIdx3) (mem : Mem),
      run_init_ident_col m n k shiftA lda bdx bdy ts mem buf b p = mem buf b p := by
  have hlt : ∀ x : Int, to_u32 x < 4294967296 := fun x =>
    Int.emod_lt_of_pos x (by decide)
  have hstep : ∀ (t : ThreadIdx3) (mem : Mem),
      init_ident_col m n k shiftA lda bdx bdy t mem buf b p = mem buf b p := by
    intro t mem
    unfold init_ident_col
    have hne : ∀ x : Int, ¬ (buf = Buf.A ∧ b = (t.hipBlockIdx_z : Int) ∧ p = shiftA + to_u32 x) := by
      intro x h
      have := hlt x
      omega
    split_ifs <;> simp only [Mem.store, if_neg (hne _)]
  intro ts
  induction ts with
  | nil => intro mem; rfl
  | cons t ts ih =>
    intro mem
    unfold run_init_ident_col at ih ⊢
    rw [List.foldl_cons, ih, hstep]

/-! ### Allocation check of `rocsolver_getf2_impl` -/

/-- C18: when the allocator leaves a null pointer for a request of zero bytes,
`rocsolver_getf2_impl` answers `rocblas_status_memory_error`, with the device
state untouched, for every combination of sizes and allocation outcomes in
which the scalars buffer is null or a buffer requested with a non-zero size
(`pivot_val` with `size_2`, `pivot_idx` with `size_3`, `work` with `size_4`)
came back null.  The test of the code pairs `size_2` with `pivot_idx` and
`size_3` with `pivot_val`; a null `pivot_val` with `size_3 = 0` is reported
through the null `pivot_idx` of the zero-byte request, and likewise with the
roles exchanged. -/
theorem getf2_impl_memory_error {σ : Type} (dev : Device σ) (host : Host)
    (handle : rocblas_handle) (m n : Int) (A : DevPtr) (lda : Int) (ipiv info : DevPtr)
    (pivot : Int) (st : σ) (hh : handle ≠ none)
    (harg : host.rocsolver_getf2_getrf_argCheck m n lda A ipiv info = rocblas_status_continue)
    (hzero : host.malloc_zero_null)
    (hfail : host.hipMalloc 0 (host.rocsolver_getf2_getMemorySize m 1).1 = none
      ∨ ((host.rocsolver_getf2_getMemorySize m 1).2.1 ≠ 0
          ∧ host.hipMalloc 1 (host.rocsolver_getf2_getMemorySize m 1).2.1 = none)
      ∨ ((host.rocsolver_getf2_getMemorySize m 1).2.2.1 ≠ 0
          ∧ host.hipMalloc 2 (host.rocsolver_getf2_getMemorySize m 1).2.2.1 = none)
      ∨ ((host.rocsolver_getf2_getMemorySize m 1).2.2.2 ≠ 0
          ∧ host.hipMalloc 3 (host.rocsolver_getf2_getMemorySize m 1).2.2.2 = none)) :
    rocsolver_getf2_impl dev host handle m n A lda ipiv info pivot st
      = (rocblas_status_memory_error, st) := by
  unfold rocsolver_getf2_impl
  rw [if_neg hh]
  simp only [harg, ne_eq, not_true_eq_false, if_false]
  rw [if_pos]
  rcases hfail with h | ⟨h2, h⟩ | ⟨h3, h⟩ | h
  · exact Or.inl h
  · by_cases h3 : (host.rocsolver_getf2_getMemorySize m 1).2.2.1 = 0
    · refine Or.inr (Or.inl ⟨h2, ?_⟩)
      rw [h3]
      exact hzero 2
    · exact Or.inr (Or.inr (Or.inl ⟨h3, h⟩))
  · by_cases h2 : (host.rocsolver_getf2_getMemorySize m 1).2.1 = 0
    · refine Or.inr (Or.inr (Or.inl ⟨h3, ?_⟩))
      rw [h2]
      exact hzero 1
    · exact Or.inr (Or.inl ⟨h2, h⟩)
  · exact Or.inr (Or.inr (Or.inr h))

/-- C18 (witness): `size_2 = 4`, `size_3 = 0` and a null `pivot_val`: the call
on a `3 x 3` matrix answers `memory_error` and issues no operation. -/
theorem getf2_impl_memory_error_witness :
    rocsolver_getf2_impl traceDevice host_pivot_val_null (some 0) 3 3 (some 1) 3 (some 2)
        (some 3) 1 []
      = (rocblas_status_memory_error, []) :=
  getf2_impl_memory_error traceDevice host_pivot_val_null (some 0) 3 3 (some 1) 3 (some 2)
    (some 3) 1 [] (by decide) (by decide) (by intro i; rfl)
    (Or.inr (Or.inl ⟨by decide, by decide⟩))

/-! ### The block-reflector factor buffer: size and use -/

/-- C15 (amended): for every `batch_count >= 0`, `size_5` of
`rocsolver_geqrf_getMemorySize` is `0` when `m <= GEQRF_GEQR2_SWITCHSIZE` or
`n <= GEQRF_GEQR2_SWITCHSIZE` (the unblocked path of the driver) and
`sizeof(T) * BLOCKSIZE * BLOCKSIZE * batch_count` otherwise; for
`batch_count >= 1`, `sizeof(T) >= 1` and `BLOCKSIZE >= 1` it is `0` exactly on
the unblocked path.  On the blocked path every block-reflector call of the
driver uses the factor buffer with `1 <= jb <= BLOCKSIZE` reflectors, leading
dimension `BLOCKSIZE` and stride `BLOCKSIZE * BLOCKSIZE`, which keeps every
element addressed inside `size_5` bytes and reaches the last one when
`jb = BLOCKSIZE`. -/
theorem geqrf_getMemorySize_size_5 (host : Host) (cfg : IdealSizes) (BATCHED COMPLEX : Bool)
    (m n shiftA lda strideA : Int) (ipiv : Loc) (strideP batch_count : Int)
    (hb : 0 ≤ batch_count)
    (hfit : host.sizeofT * cfg.GEQRF_GEQR2_BLOCKSIZE * cfg.GEQRF_GEQR2_BLOCKSIZE * batch_count
      < 18446744073709551616) :
    ((m ≤ cfg.GEQRF_GEQR2_SWITCHSIZE ∨ n ≤ cfg.GEQRF_GEQR2_SWITCHSIZE) →
      (rocsolver_geqrf_getMemorySize host cfg BATCHED m n batch_count).2.2.2.2 = 0)
    ∧ (¬ (m ≤ cfg.GEQRF_GEQR2_SWITCHSIZE ∨ n ≤ cfg.GEQRF_GEQR2_SWITCHSIZE) →
      ((rocsolver_geqrf_getMemorySize host cfg BATCHED m n batch_count).2.2.2.2 : Int)
        = host.sizeofT * cfg.GEQRF_GEQR2_BLOCKSIZE * cfg.GEQRF_GEQR2_BLOCKSIZE * batch_count)
    ∧ (1 ≤ batch_count → 1 ≤ host.sizeofT → 1 ≤ cfg.GEQRF_GEQR2_BLOCKSIZE →
      ((rocsolver_geqrf_getMemorySize host cfg BATCHED m n batch_count).2.2.2.2 = 0
        ↔ (m ≤ cfg.GEQRF_GEQR2_SWITCHSIZE ∨ n ≤ cfg.GEQRF_GEQR2_SWITCHSIZE)))
    ∧ (0 ≤ cfg.GEQRF_GEQR2_SWITCHSIZE → 1 ≤ cfg.GEQRF_GEQR2_BLOCKSIZE →
      ¬ (m ≤ cfg.GEQRF_GEQR2_SWITCHSIZE ∨ n ≤ cfg.GEQRF_GEQR2_SWITCHSIZE) →
      (∃ tr, rocsolver_geqrf_template traceDevice cfg COMPLEX m n shiftA lda strideA ipiv strideP
            batch_count [] = some (rocblas_status_success, tr)
          ∧ ∀ c ∈ tr, c.trfact_within cfg.GEQRF_GEQR2_BLOCKSIZE batch_count)
      ∧ (∀ jb : Int, 1 ≤ jb → jb ≤ cfg.GEQRF_GEQR2_BLOCKSIZE →
          (host.sizeofT : Int) * ((batch_count - 1)
              * (cfg.GEQRF_GEQR2_BLOCKSIZE * cfg.GEQRF_GEQR2_BLOCKSIZE)
              + (jb - 1) * cfg.GEQRF_GEQR2_BLOCKSIZE + jb)
            ≤ (rocsolver_geqrf_getMemorySize host cfg BATCHED m n batch_count).2.2.2.2)
      ∧ (host.sizeofT : Int) * ((batch_count - 1)
              * (cfg.GEQRF_GEQR2_BLOCKSIZE * cfg.GEQRF_GEQR2_BLOCKSIZE)
              + (cfg.GEQRF_GEQR2_BLOCKSIZE - 1) * cfg.GEQRF_GEQR2_BLOCKSIZE
              + cfg.GEQRF_GEQR2_BLOCKSIZE)
            = (rocsolver_geqrf_getMemorySize host cfg BATCHED m n batch_count).2.2.2.2) := by
  have hT0 : (0 : Int) ≤ host.sizeofT := Int.natCast_nonneg _
  have hsq0 : 0 ≤ cfg.GEQRF_GEQR2_BLOCKSIZE * cfg.GEQRF_GEQR2_BLOCKSIZE := mul_self_nonneg _
  have hprod0 : (0 : Int) ≤ (host.sizeofT : Int) * cfg.GEQRF_GEQR2_BLOCKSIZE
      * cfg.GEQRF_GEQR2_BLOCKSIZE * batch_count := by
    rw [mul_assoc (host.sizeofT : Int)]
    exact mul_nonneg (mul_nonneg hT0 hsq0) hb
  have hval := to_size_t_of_fitting _ hprod0 hfit
  have hsmall : (m ≤ cfg.GEQRF_GEQR2_SWITCHSIZE ∨ n ≤ cfg.GEQRF_GEQR2_SWITCHSIZE) →
      (rocsolver_geqrf_getMemorySize host cfg BATCHED m n batch_count).2.2.2.2 = 0 := by
    intro h
    unfold rocsolver_geqrf_getMemorySize
    simp only [if_pos h]
  have hbig : ¬ (m ≤ cfg.GEQRF_GEQR2_SWITCHSIZE ∨ n ≤ cfg.GEQRF_GEQR2_SWITCHSIZE) →
      ((rocsolver_geqrf_getMemorySize host cfg BATCHED m n batch_count).2.2.2.2 : Int)
        = host.sizeofT * cfg.GEQRF_GEQR2_BLOCKSIZE * cfg.GEQRF_GEQR2_BLOCKSIZE
          * batch_count := by
    intro h
    unfold rocsolver_geqrf_getMemorySize
    simp only [if_neg h]
    exact hval
  refine ⟨hsmall, hbig, ?_, ?_⟩
  · intro hb1 hT hBS
    refine ⟨?_, hsmall⟩
    intro h0
    by_contra hne
    have h5 := hbig hne
    rw [h0] at h5
    simp only [Nat.cast_zero] at h5
    have hT' : (1 : Int) ≤ host.sizeofT := by exact_mod_cast hT
    have hsq : 1 ≤ cfg.GEQRF_GEQR2_BLOCKSIZE * cfg.GEQRF_GEQR2_BLOCKSIZE :=
      one_le_mul_of_one_le_of_one_le hBS hBS
    have hTsq : 1 ≤ (host.sizeofT : Int) * cfg.GEQRF_GEQR2_BLOCKSIZE
        * cfg.GEQRF_GEQR2_BLOCKSIZE := by
      rw [mul_assoc]
      exact one_le_mul_of_one_le_of_one_le hT' hsq
    have hprod : 1 ≤ (host.sizeofT : Int) * cfg.GEQRF_GEQR2_BLOCKSIZE
        * cfg.GEQRF_GEQR2_BLOCKSIZE * batch_count := one_le_mul_of_one_le_of_one_le hTsq hb1
    omega
  · intro hSW hBS hblocked
    have hm : cfg.GEQRF_GEQR2_SWITCHSIZE < m := by omega
    have hn : cfg.GEQRF_GEQR2_SWITCHSIZE < n := by omega
    refine ⟨?_, ?_, ?_⟩
    · by_cases hb0 : batch_count = 0
      · refine ⟨[], ?_, ?_⟩
        · unfold rocsolver_geqrf_template
          rw [if_pos (Or.inr (Or.inr hb0))]
        · intro c hc
          cases hc
      · obtain ⟨k, hrun, hin, _⟩ := geqrf_template_blocked traceDevice cfg COMPLEX m n shiftA
          lda strideA ipiv strideP batch_count [] hSW hBS hm hn hb0
        refine ⟨_, hrun, ?_⟩
        intro c hc
        unfold geqrf_blocked_run at hc
        dsimp only at hc
        have hpanels : ∀ c, c ∈ ((List.range k).map
            fun i : Nat => (i : Int) * cfg.GEQRF_GEQR2_BLOCKSIZE).foldl
            (fun st j => geqrf_panel traceDevice cfg COMPLEX m n shiftA lda strideA ipiv strideP
              batch_count (min m n) cfg.GEQRF_GEQR2_BLOCKSIZE
              (cfg.GEQRF_GEQR2_BLOCKSIZE * cfg.GEQRF_GEQR2_BLOCKSIZE) j st) [] →
            c.trfact_within cfg.GEQRF_GEQR2_BLOCKSIZE batch_count := by
          intro c hc
          rcases foldl_trace_all
            (fun c => c.trfact_within cfg.GEQRF_GEQR2_BLOCKSIZE batch_count)
            (fun j tr => geqrf_panel traceDevice cfg COMPLEX m n shiftA lda strideA ipiv strideP
              batch_count (min m n) cfg.GEQRF_GEQR2_BLOCKSIZE
              (cfg.GEQRF_GEQR2_BLOCKSIZE * cfg.GEQRF_GEQR2_BLOCKSIZE) j tr) _
            (fun j hj tr c h => by
              obtain ⟨i, hi, rfl⟩ := List.mem_map.mp hj
              have := hin i (List.mem_range.mp hi)
              exact geqrf_panel_trace cfg COMPLEX m n shiftA lda strideA ipiv strideP
                batch_count (min m n) _ tr c (by omega) h hBS) [] c hc with h | h
          · cases h
          · exact h
        split_ifs at hc
        · rcases geqr2_template_trace COMPLEX _ _ _ _ _ _ _ _ _ c hc with h | h
          · exact hpanels c h
          · exact trfact_within_of_geqr2_op _ _ c h
        · exact hpanels c hc
    · intro jb hjb1 hjb2
      rw [hbig hblocked]
      have h1 : (jb - 1) * cfg.GEQRF_GEQR2_BLOCKSIZE + jb
          ≤ cfg.GEQRF_GEQR2_BLOCKSIZE * cfg.GEQRF_GEQR2_BLOCKSIZE := by nlinarith
      have h2 : (batch_count - 1) * (cfg.GEQRF_GEQR2_BLOCKSIZE * cfg.GEQRF_GEQR2_BLOCKSIZE)
          + (jb - 1) * cfg.GEQRF_GEQR2_BLOCKSIZE + jb
          ≤ cfg.GEQRF_GEQR2_BLOCKSIZE * cfg.GEQRF_GEQR2_BLOCKSIZE * batch_count := by
        nlinarith
      calc (host.sizeofT : Int) * ((batch_count - 1)
              * (cfg.GEQRF_GEQR2_BLOCKSIZE * cfg.GEQRF_GEQR2_BLOCKSIZE)
              + (jb - 1) * cfg.GEQRF_GEQR2_BLOCKSIZE + jb)
          ≤ (host.sizeofT : Int) * (cfg.GEQRF_GEQR2_BLOCKSIZE * cfg.GEQRF_GEQR2_BLOCKSIZE
              * batch_count) := Int.mul_le_mul_of_nonneg_left h2 hT0
        _ = host.sizeofT * cfg.GEQRF_GEQR2_BLOCKSIZE * cfg.GEQRF_GEQR2_BLOCKSIZE
              * batch_count := by ring
    · rw [hbig hblocked]
      ring

/-- C15 (witness): a batch of two `7 x 8` matrices with `sizeof(T) = 4`, switch
size `4` and block size `2`, and the same shape with an empty batch. -/
theorem geqrf_getMemorySize_size_5_witness :
    (((rocsolver_geqrf_getMemorySize host_ok cfg_small false 7 8 2).2.2.2.2 : Int)
        = host_ok.sizeofT * cfg_small.GEQRF_GEQR2_BLOCKSIZE * cfg_small.GEQRF_GEQR2_BLOCKSIZE * 2
      ∧ (∃ tr, rocsolver_geqrf_template traceDevice cfg_small false 7 8 0 7 56
            { buf := Buf.ipiv, off := 0 } 7 2 [] = some (rocblas_status_success, tr)
          ∧ ∀ c ∈ tr, c.trfact_within cfg_small.GEQRF_GEQR2_BLOCKSIZE 2))
    ∧ ((rocsolver_geqrf_getMemorySize host_ok cfg_small false 7 8 0).2.2.2.2 : Int)
        = host_ok.sizeofT * cfg_small.GEQRF_GEQR2_BLOCKSIZE * cfg_small.GEQRF_GEQR2_BLOCKSIZE * 0 :=
  ⟨⟨(geqrf_getMemorySize_size_5 host_ok cfg_small false false 7 8 0 7 56
        { buf := Buf.ipiv, off := 0 } 7 2 (by decide) (by decide)).2.1 (by decide),
    ((geqrf_getMemorySize_size_5 host_ok cfg_small false false 7 8 0 7 56
        { buf := Buf.ipiv, off := 0 } 7 2 (by decide) (by decide)).2.2.2 (by decide) (by decide)
        (by decide)).1⟩,
   (geqrf_getMemorySize_size_5 host_ok cfg_small false false 7 8 0 7 56
      { buf := Buf.ipiv, off := 0 } 7 0 (by decide) (by decide)).2.1 (by decide)⟩

/-! ### Element indices beyond `unsigned int` in `init_ident_col` -/

/-- C30 (counterexample): a `65537 x 65537` matrix with leading dimension
`65537` and no reflector (`0 <= k <= n <= m`).  The diagonal entry
`(65536, 65536)` sits at index `65536 + 65536*65537 = 2^32 + 131072`, which the
kernel forms in `unsigned int` as `131072`: after the launch the entry still
holds its old value and not `1`. -/
theorem init_ident_col_index_wraps :
    ((0 : Int) ≤ 0 ∧ (0 : Int) ≤ 65537 ∧ (65537 : Int) ≤ 65537 ∧ (65536 : Int) < 65537)
    ∧ org2r_init_ident 65537 65537 0 0 65537 1 mem_sample.mem Buf.A 0
        (0 + idx2D 65536 65536 65537)
      = mem_sample.mem Buf.A 0 (0 + idx2D 65536 65536 65537)
    ∧ org2r_init_ident 65537 65537 0 0 65537 1 mem_sample.mem Buf.A 0
        (0 + idx2D 65536 65536 65537) ≠ Scalar.one
    ∧ to_u32 (65536 + 65536 * 65537) = idx2D 65535 1 65537 := by
  have h : org2r_init_ident 65537 65537 0 0 65537 1 mem_sample.mem Buf.A 0
      (0 + idx2D 65536 65536 65537)
      = mem_sample.mem Buf.A 0 (0 + idx2D 65536 65536 65537) := by
    unfold org2r_init_ident hipLaunch_init_ident_col
    exact run_init_ident_col_beyond_u32 _ _ _ _ _ _ _ _ _ _ (by decide) _ _
  refine ⟨by decide, h, ?_, by decide⟩
  rw [h]
  decide

/-! ### Operations of the panels of the blocked LU driver -/

/-- Mapping the steps before concatenating their records. -/
theorem flatMap_map_steps {α β : Type} (f : Nat → Int) (g : Int → List α) (h : Nat → List β)
    (sel : List α → List β) (l : List Nat) (hsel : ∀ i ∈ l, sel (g (f i)) = h i) :
    (l.map f).flatMap (fun j => sel (g j)) = l.flatMap h := by
  induction l with
  | nil => rfl
  | cons a l ih =>
    rw [List.map_cons, List.flatMap_cons, List.flatMap_cons, hsel a (List.mem_cons_self a l),
      ih (fun i hi => hsel i (List.mem_cons_of_mem a hi))]

/-- A panel of the blocked LU driver with `dim <= m` issues the operations the
specification lists for the panel `[j, j + jb)` with
`jb = min(dim - j, SWITCHSIZE)`. -/
theorem getrf_panel_trace_spec (cfg : IdealSizes)
    (m n shiftA lda strideA shiftP strideP batch_count pivot : Int) (optim_mem : Bool)
    (dim j : Int) (hdim : dim ≤ m) :
    getrf_panel traceDevice cfg m n shiftA lda strideA shiftP strideP batch_count pivot
        optim_mem dim (Int.tdiv (batch_count - 1) cfg.BLOCKSIZE + 1) j []
      = getrf_panel_spec cfg m n shiftA lda strideA shiftP strideP batch_count pivot optim_mem
          j (min (dim - j) cfg.GETRF_GETF2_SWITCHSIZE) := by
  have hmin : min (m - j) (min (dim - j) cfg.GETRF_GETF2_SWITCHSIZE)
      = min (dim - j) cfg.GETRF_GETF2_SWITCHSIZE := by omega
  unfold getrf_panel getrf_panel_spec
  dsimp only [traceDevice]
  rw [hmin]
  split_ifs <;> rfl

/-- The pivot columns factored by a panel of the blocked LU driver. -/
theorem getrf_panel_spec_pivot_columns (cfg : IdealSizes)
    (m n shiftA lda strideA shiftP strideP batch_count pivot : Int) (optim_mem : Bool)
    (j jb : Int) :
    (getrf_panel_spec cfg m n shiftA lda strideA shiftP strideP batch_count pivot optim_mem
        j jb).flatMap (Call.getf2_pivot_columns shiftP)
      = col_range j (min (m - j) jb).toNat := by
  have hs : shiftP + j - shiftP = j := by ring
  unfold getrf_panel_spec
  split_ifs <;> simp [Call.getf2_pivot_columns, hs]

/-- C22: on the blocked path of `rocsolver_getrf_template`
(`m, n >= GETRF_GETF2_SWITCHSIZE >= 1`, non-empty batch) the loop terminates on
every device after `k` panels.  Panel `i` starts at `j = i*SWITCHSIZE < dim`
with `jb = min(dim - j, SWITCHSIZE) >= 1` columns, ends where the next panel
starts (`j + jb = min(dim, (i+1)*SWITCHSIZE)`), and has
`min(m - j, jb) = jb` pivots.  The operations recorded are the change of
pointer mode, the reset of `info`, for each panel in turn the operations that
the specification lists for `[j, j + jb)` (`getrf_panel_spec`: factorization of
`jb` columns, adjustment of `jb` pivots, triangular solve only with
`n - j - jb > 0` columns, matrix multiply only with `m - j - jb > 0` rows and
`n - j - jb > 0` columns), and the restore of the pointer mode.  The pivot
columns of the panel factorizations issued, call after call, are
`0, 1, ..., min m n - 1`, and every operation works on a non-empty block. -/
theorem getrf_blocked_panels {σ : Type} (dev : Device σ) (cfg : IdealSizes)
    (m n shiftA lda strideA shiftP strideP batch_count pivot : Int) (optim_mem : Bool)
    (st : σ) (hSW : 1 ≤ cfg.GETRF_GETF2_SWITCHSIZE)
    (hm : cfg.GETRF_GETF2_SWITCHSIZE ≤ m) (hn : cfg.GETRF_GETF2_SWITCHSIZE ≤ n)
    (hb : batch_count ≠ 0) :
    ∃ k : Nat,
      rocsolver_getrf_template dev cfg m n shiftA lda strideA shiftP strideP batch_count pivot
          optim_mem st
        = some (rocblas_status_success,
            dev.exec (Call.set_pointer_mode (dev.get_pointer_mode st))
              (getrf_blocked_run dev cfg m n shiftA lda strideA shiftP strideP batch_count
                pivot optim_mem k
                (dev.exec (Call.reset_info (Int.tdiv (batch_count - 1) cfg.BLOCKSIZE + 1)
                    cfg.BLOCKSIZE Buf.info batch_count 0)
                  (dev.exec (Call.set_pointer_mode rocblas_pointer_mode_host) st))))
      ∧ (∀ i : Nat, i < k →
          (i : Int) * cfg.GETRF_GETF2_SWITCHSIZE < min m n
          ∧ 1 ≤ min (min m n - (i : Int) * cfg.GETRF_GETF2_SWITCHSIZE)
                cfg.GETRF_GETF2_SWITCHSIZE
          ∧ min (m - (i : Int) * cfg.GETRF_GETF2_SWITCHSIZE)
              (min (min m n - (i : Int) * cfg.GETRF_GETF2_SWITCHSIZE)
                cfg.GETRF_GETF2_SWITCHSIZE)
            = min (min m n - (i : Int) * cfg.GETRF_GETF2_SWITCHSIZE)
                cfg.GETRF_GETF2_SWITCHSIZE
          ∧ (i : Int) * cfg.GETRF_GETF2_SWITCHSIZE
              + min (min m n - (i : Int) * cfg.GETRF_GETF2_SWITCHSIZE)
                  cfg.GETRF_GETF2_SWITCHSIZE
            = min (min m n) (((i + 1 : Nat) : Int) * cfg.GETRF_GETF2_SWITCHSIZE))
      ∧ min m n ≤ (k : Int) * cfg.GETRF_GETF2_SWITCHSIZE
      ∧ ∃ tr, rocsolver_getrf_template traceDevice cfg m n shiftA lda strideA shiftP strideP
            batch_count pivot optim_mem [] = some (rocblas_status_success, tr)
          ∧ tr = [Call.set_pointer_mode rocblas_pointer_mode_host,
                  Call.reset_info (Int.tdiv (batch_count - 1) cfg.BLOCKSIZE + 1) cfg.BLOCKSIZE
                    Buf.info batch_count 0]
                ++ (List.range k).flatMap
                    (fun i => getrf_panel_spec cfg m n shiftA lda strideA shiftP strideP
                      batch_count pivot optim_mem ((i : Int) * cfg.GETRF_GETF2_SWITCHSIZE)
                      (min (min m n - (i : Int) * cfg.GETRF_GETF2_SWITCHSIZE)
                        cfg.GETRF_GETF2_SWITCHSIZE))
                ++ [Call.set_pointer_mode rocblas_pointer_mode_host]
          ∧ tr.flatMap (Call.getf2_pivot_columns shiftP) = col_range 0 (min m n).toNat
          ∧ ∀ c ∈ tr, c.lu_block_nonempty := by
  obtain ⟨k, hrun, hin, hout⟩ := getrf_template_blocked dev cfg m n shiftA lda strideA shiftP
    strideP batch_count pivot optim_mem st hSW hm hn hb
  obtain ⟨k', hrun', hin', hout'⟩ := getrf_template_trace_eq cfg m n shiftA lda strideA shiftP
    strideP batch_count pivot optim_mem hSW hm hn hb
  have hnn : ∀ i : Nat, 0 ≤ (i : Int) * cfg.GETRF_GETF2_SWITCHSIZE := fun i =>
    Int.mul_nonneg (by omega) (by omega)
  have hdim : min m n ≤ m := min_le_left m n
  have hkk : k' = k := by
    rcases Nat.lt_trichotomy k' k with h | h | h
    · exfalso
      have h1 := hin k' h
      omega
    · exact h
    · exfalso
      have h1 := hin' k h
      omega
  subst hkk
  have hpanels : ((List.range k').map
        fun i : Nat => (i : Int) * cfg.GETRF_GETF2_SWITCHSIZE).flatMap
      (fun j => getrf_panel traceDevice cfg m n shiftA lda strideA shiftP strideP
        batch_count pivot optim_mem (min m n)
        (Int.tdiv (batch_count - 1) cfg.BLOCKSIZE + 1) j [])
      = (List.range k').flatMap
          (fun i => getrf_panel_spec cfg m n shiftA lda strideA shiftP strideP
            batch_count pivot optim_mem ((i : Int) * cfg.GETRF_GETF2_SWITCHSIZE)
            (min (min m n - (i : Int) * cfg.GETRF_GETF2_SWITCHSIZE)
              cfg.GETRF_GETF2_SWITCHSIZE)) :=
    flatMap_map_steps (fun i : Nat => (i : Int) * cfg.GETRF_GETF2_SWITCHSIZE)
      (fun j => getrf_panel traceDevice cfg m n shiftA lda strideA shiftP strideP
        batch_count pivot optim_mem (min m n)
        (Int.tdiv (batch_count - 1) cfg.BLOCKSIZE + 1) j []) _ id (List.range k')
      (fun i hi => getrf_panel_trace_spec cfg m n shiftA lda strideA shiftP strideP batch_count
        pivot optim_mem (min m n) _ hdim)
  refine ⟨k', hrun, ?_, hout, ?_⟩
  · intro i hi
    have h1 := hin i hi
    have h0 := hnn i
    have hnext : ((i + 1 : Nat) : Int) * cfg.GETRF_GETF2_SWITCHSIZE
        = (i : Int) * cfg.GETRF_GETF2_SWITCHSIZE + cfg.GETRF_GETF2_SWITCHSIZE := by
      push_cast; ring
    rw [hnext]
    refine ⟨h1, by omega, by omega, by omega⟩
  · refine ⟨_, hrun', ?_, ?_, ?_⟩
    · rw [hpanels]
    · rw [hpanels]
      simp only [List.flatMap_append, List.flatMap_cons, List.flatMap_nil,
        Call.getf2_pivot_columns, List.nil_append, List.append_nil]
      have hsteps : ((List.range k').flatMap
          (fun i => getrf_panel_spec cfg m n shiftA lda strideA shiftP strideP
            batch_count pivot optim_mem ((i : Int) * cfg.GETRF_GETF2_SWITCHSIZE)
            (min (min m n - (i : Int) * cfg.GETRF_GETF2_SWITCHSIZE)
              cfg.GETRF_GETF2_SWITCHSIZE))).flatMap (Call.getf2_pivot_columns shiftP)
          = (List.range k').flatMap
              (fun i => col_range ((i : Int) * cfg.GETRF_GETF2_SWITCHSIZE)
                (min (m - (i : Int) * cfg.GETRF_GETF2_SWITCHSIZE)
                  (min (min m n - (i : Int) * cfg.GETRF_GETF2_SWITCHSIZE)
                    cfg.GETRF_GETF2_SWITCHSIZE)).toNat) := by
        generalize List.range k' = l
        induction l with
        | nil => rfl
        | cons a l ih =>
          rw [List.flatMap_cons, List.flatMap_append, ih, List.flatMap_cons,
            getrf_panel_spec_pivot_columns]
      rw [hsteps, geqrf_panel_columns cfg.GETRF_GETF2_SWITCHSIZE m (min m n) hSW hdim k' hin]
      congr 1
      omega
    · intro c hc
      simp only [List.mem_append, List.mem_cons, List.mem_singleton, List.mem_flatMap,
        List.mem_map, List.mem_range, List.not_mem_nil, or_false] at hc
      rcases hc with ((rfl | rfl) | ⟨j, ⟨i, hi, rfl⟩, hcj⟩) | rfl
      · trivial
      · trivial
      · exact getrf_panel_nonempty cfg m n shiftA lda strideA shiftP strideP batch_count pivot
          optim_mem (min m n) _ _ hSW (hin' i hi) hdim c hcj
      · trivial

/-- C22 (witness): a `3 x 4` matrix with panels of two columns, on the
recording device: two panels, the first one with a triangular solve on two
columns and a multiply on the trailing `1 x 2` block, the second one with one
column and a solve only. -/
theorem getrf_blocked_panels_witness :
    ∃ k : Nat, ∃ tr, rocsolver_getrf_template traceDevice cfg_small 3 4 0 3 12 0 3 1 1 false []
          = some (rocblas_status_success, tr)
      ∧ tr = [Call.set_pointer_mode rocblas_pointer_mode_host,
              Call.reset_info (Int.tdiv (1 - 1) cfg_small.BLOCKSIZE + 1) cfg_small.BLOCKSIZE
                Buf.info 1 0]
            ++ (List.range k).flatMap
                (fun i => getrf_panel_spec cfg_small 3 4 0 3 12 0 3 1 1 false
                  ((i : Int) * cfg_small.GETRF_GETF2_SWITCHSIZE)
                  (min (min 3 4 - (i : Int) * cfg_small.GETRF_GETF2_SWITCHSIZE)
                    cfg_small.GETRF_GETF2_SWITCHSIZE))
            ++ [Call.set_pointer_mode rocblas_pointer_mode_host]
      ∧ tr.flatMap (Call.getf2_pivot_columns 0) = col_range 0 (min (3 : Int) 4).toNat
      ∧ ∀ c ∈ tr, c.lu_block_nonempty :=
  (getrf_blocked_panels traceDevice cfg_small 3 4 0 3 12 0 3 1 1 false [] (by decide)
    (by decide) (by decide) (by decide)).elim fun k h => ⟨k, h.2.2.2⟩

/-! ### Columns factored by the blocked QR driver -/

/-- A column step of the unblocked QR factorization calls the builder once, for
its column. -/
theorem geqr2_column_builders (COMPLEX : Bool) (m n shiftA lda strideA : Int) (ipiv : Loc)
    (strideP batch_count j : Int) :
    (geqr2_column traceDevice COMPLEX m n shiftA lda strideA ipiv strideP batch_count j
        []).filter Call.is_larfg
      = [geqr2_builder_call m shiftA lda strideA ipiv strideP batch_count j] := by
  rw [geqr2_column_trace_eq]
  unfold geqr2_builder_call
  split_ifs <;> simp [Call.is_larfg]

/-- The builder call for column `c` of the block that starts at `(j, j)` is the
builder call for column `j + c` of the whole matrix. -/
theorem geqr2_builder_call_block (m shiftA lda strideA : Int) (ipiv : Loc)
    (strideP batch_count j c : Int) :
    geqr2_builder_call (m - j) (shiftA + idx2D j j lda) lda strideA (ipiv.add j) strideP
        batch_count c
      = geqr2_builder_call m shiftA lda strideA ipiv strideP batch_count (j + c) := by
  have hmin : min (j + c + 1) (m - 1) = min (c + 1) (m - j - 1) + j := by omega
  unfold geqr2_builder_call idx2D Loc.add
  rw [hmin]
  congr 1
  · ring
  · ring
  · ring
  · simp only [Loc.mk.injEq, true_and]
    ring

/-- The builder calls of the unblocked QR factorization of the block that
starts at `(j, j)`, has `m - j` rows and `w` columns: the builder calls of the
columns `j, ..., j + min(m - j, w) - 1` of the whole matrix, in this order. -/
theorem geqr2_template_builders (COMPLEX : Bool) (m w shiftA lda strideA : Int) (ipiv : Loc)
    (strideP batch_count j : Int) (tr : List Call) (hb : batch_count ≠ 0) :
    ((rocsolver_geqr2_template traceDevice COMPLEX (m - j) w (shiftA + idx2D j j lda) lda
        strideA (ipiv.add j) strideP batch_count tr).2).filter Call.is_larfg
      = tr.filter Call.is_larfg
        ++ (col_range j (min (m - j) w).toNat).map
            (geqr2_builder_call m shiftA lda strideA ipiv strideP batch_count) := by
  by_cases hq : m - j = 0 ∨ w = 0 ∨ batch_count = 0
  · have hz : (min (m - j) w).toNat = 0 := by
      rcases hq with h | h | h
      · omega
      · omega
      · exact absurd h hb
    unfold rocsolver_geqr2_template
    rw [if_pos hq, hz]
    simp [col_range]
  · rw [geqr2_template_trace_eq COMPLEX _ _ _ _ _ _ _ _ tr hq, List.filter_append]
    congr 1
    unfold col_range
    generalize List.range (min (m - j) w).toNat = l
    induction l with
    | nil => rfl
    | cons a l ih =>
      rw [List.map_cons, List.flatMap_cons, List.filter_append, ih, geqr2_column_builders,
        geqr2_builder_call_block]
      simp

/-- The builder calls of a panel of the blocked QR driver: the builder calls of
the columns of its `geqr2` call. -/
theorem geqrf_panel_builders (cfg : IdealSizes) (COMPLEX : Bool)
    (m n shiftA lda strideA : Int) (ipiv : Loc) (strideP batch_count dim ldw strideW j : Int)
    (tr : List Call) (hb : batch_count ≠ 0) :
    (geqrf_panel traceDevice cfg COMPLEX m n shiftA lda strideA ipiv strideP batch_count dim
        ldw strideW j tr).filter Call.is_larfg
      = tr.filter Call.is_larfg
        ++ (col_range j (min (m - j) (min (dim - j) cfg.GEQRF_GEQR2_BLOCKSIZE)).toNat).map
            (geqr2_builder_call m shiftA lda strideA ipiv strideP batch_count) := by
  have hexec : ∀ (c : Call) (tr : List Call), traceDevice.exec c tr = tr ++ [c] :=
    fun _ _ => rfl
  unfold geqrf_panel
  dsimp only
  split_ifs
  · rw [hexec, hexec, List.filter_append, List.filter_append,
      geqr2_template_builders COMPLEX m _ shiftA lda strideA ipiv strideP batch_count j tr hb]
    simp [Call.is_larfg]
  · exact geqr2_template_builders COMPLEX m _ shiftA lda strideA ipiv strideP batch_count j tr hb

/-- The builder calls of a run of panels of the blocked QR driver. -/
theorem geqrf_panels_builders (cfg : IdealSizes) (COMPLEX : Bool)
    (m n shiftA lda strideA : Int) (ipiv : Loc) (strideP batch_count dim ldw strideW : Int)
    (hb : batch_count ≠ 0) (js : List Int) :
    ∀ tr : List Call,
      (js.foldl (fun st j => geqrf_panel traceDevice cfg COMPLEX m n shiftA lda strideA ipiv
          strideP batch_count dim ldw strideW j st) tr).filter Call.is_larfg
        = tr.filter Call.is_larfg
          ++ (js.flatMap fun j =>
                col_range j (min (m - j) (min (dim - j) cfg.GEQRF_GEQR2_BLOCKSIZE)).toNat).map
              (geqr2_builder_call m shiftA lda strideA ipiv strideP batch_count) := by
  induction js with
  | nil => intro tr; simp
  | cons j js ih =>
    intro tr
    rw [List.foldl_cons, ih, geqrf_panel_builders cfg COMPLEX m n shiftA lda strideA ipiv
      strideP batch_count dim ldw strideW j tr hb, List.flatMap_cons, List.map_append,
      List.append_assoc]

/-- Concatenating the column ranges of the steps `f 0, ..., f (k-1)`. -/
theorem flatMap_map_index (f : Nat → Int) (g : Int → List Int) (l : List Nat) :
    (l.map f).flatMap g = l.flatMap fun i => g (f i) := by
  induction l with
  | nil => rfl
  | cons a l ih => rw [List.map_cons, List.flatMap_cons, List.flatMap_cons, ih]

/-- The builder calls recorded on the blocked path of the QR driver after `k`
panels that start below `min m n`: one for each of the columns
`0, ..., min m n - 1`, in increasing order. -/
theorem geqrf_blocked_run_builders (cfg : IdealSizes) (COMPLEX : Bool)
    (m n shiftA lda strideA : Int) (ipiv : Loc) (strideP batch_count : Int) (k : Nat)
    (hBS : 1 ≤ cfg.GEQRF_GEQR2_BLOCKSIZE) (hb : batch_count ≠ 0)
    (hin : ∀ i : Nat, i < k → (i : Int) * cfg.GEQRF_GEQR2_BLOCKSIZE < min m n) :
    (geqrf_blocked_run traceDevice cfg COMPLEX m n shiftA lda strideA ipiv strideP batch_count
        k []).filter Call.is_larfg
      = (col_range 0 (min m n).toNat).map
          (geqr2_builder_call m shiftA lda strideA ipiv strideP batch_count) := by
  have hk0 : 0 ≤ (k : Int) * cfg.GEQRF_GEQR2_BLOCKSIZE :=
    Int.mul_nonneg (by omega) (by omega)
  have hcols := geqrf_panel_columns cfg.GEQRF_GEQR2_BLOCKSIZE m (min m n) hBS (min_le_left m n)
    k hin
  have hpan := geqrf_panels_builders cfg COMPLEX m n shiftA lda strideA ipiv strideP batch_count
    (min m n) cfg.GEQRF_GEQR2_BLOCKSIZE
    (cfg.GEQRF_GEQR2_BLOCKSIZE * cfg.GEQRF_GEQR2_BLOCKSIZE) hb
    ((List.range k).map fun i : Nat => (i : Int) * cfg.GEQRF_GEQR2_BLOCKSIZE) []
  rw [flatMap_map_index, hcols] at hpan
  simp only [List.filter_nil, List.nil_append] at hpan
  unfold geqrf_blocked_run
  dsimp only
  by_cases hlast : (k : Int) * cfg.GEQRF_GEQR2_BLOCKSIZE < min m n
  · rw [if_pos hlast, geqr2_template_builders COMPLEX m _ shiftA lda strideA ipiv strideP
      batch_count _ _ hb, hpan, ← List.map_append]
    have h1 : min (min m n) ((k : Int) * cfg.GEQRF_GEQR2_BLOCKSIZE)
        = (k : Int) * cfg.GEQRF_GEQR2_BLOCKSIZE := by omega
    rw [h1, col_range_append_zero _ hk0]
    congr 2
    omega
  · rw [if_neg hlast, hpan]
    congr 2
    omega

/-- C19: on the blocked path of `rocsolver_geqrf_template`
(`m, n > GEQRF_GEQR2_SWITCHSIZE >= 0`, `GEQRF_GEQR2_BLOCKSIZE >= 1`, non-empty
batch) the panel loop terminates on every device after some `k` panels.  Panel
`i` is the `geqr2` call on the `jb = min(dim - j, BLOCKSIZE) >= 1` columns from
`j = i*BLOCKSIZE`, followed, when `j + jb < n`, by the build and the
application of the block reflector; its builder calls are those of the columns
`j, ..., j + jb - 1`, a range that ends where the next one starts.  The last
`geqr2` call factors the columns `k*BLOCKSIZE, ..., dim - 1`.  The builder
calls recorded for the whole factorization are those of the columns
`0, 1, ..., min m n - 1`: every column is factored exactly once, in increasing
order. -/
theorem geqrf_blocked_columns {σ : Type} (dev : Device σ) (cfg : IdealSizes) (COMPLEX : Bool)
    (m n shiftA lda strideA : Int) (ipiv : Loc) (strideP batch_count : Int) (st : σ)
    (hSW : 0 ≤ cfg.GEQRF_GEQR2_SWITCHSIZE) (hBS : 1 ≤ cfg.GEQRF_GEQR2_BLOCKSIZE)
    (hm : cfg.GEQRF_GEQR2_SWITCHSIZE < m) (hn : cfg.GEQRF_GEQR2_SWITCHSIZE < n)
    (hb : batch_count ≠ 0) :
    ∃ k : Nat,
      rocsolver_geqrf_template dev cfg COMPLEX m n shiftA lda strideA ipiv strideP batch_count st
        = some (rocblas_status_success,
            geqrf_blocked_run dev cfg COMPLEX m n shiftA lda strideA ipiv strideP batch_count k
              st)
      ∧ (∀ i : Nat, i < k →
          1 ≤ min (min m n - (i : Int) * cfg.GEQRF_GEQR2_BLOCKSIZE) cfg.GEQRF_GEQR2_BLOCKSIZE
          ∧ (i : Int) * cfg.GEQRF_GEQR2_BLOCKSIZE
              + min (min m n - (i : Int) * cfg.GEQRF_GEQR2_BLOCKSIZE)
                  cfg.GEQRF_GEQR2_BLOCKSIZE
            = min (min m n) (((i + 1 : Nat) : Int) * cfg.GEQRF_GEQR2_BLOCKSIZE)
          ∧ (i + 1 < k →
              (i : Int) * cfg.GEQRF_GEQR2_BLOCKSIZE
                + min (min m n - (i : Int) * cfg.GEQRF_GEQR2_BLOCKSIZE)
                    cfg.GEQRF_GEQR2_BLOCKSIZE
              = ((i + 1 : Nat) : Int) * cfg.GEQRF_GEQR2_BLOCKSIZE)
          ∧ (∀ st1 : σ,
              geqrf_panel dev cfg COMPLEX m n shiftA lda strideA ipiv strideP batch_count
                  (min m n) cfg.GEQRF_GEQR2_BLOCKSIZE
                  (cfg.GEQRF_GEQR2_BLOCKSIZE * cfg.GEQRF_GEQR2_BLOCKSIZE)
                  ((i : Int) * cfg.GEQRF_GEQR2_BLOCKSIZE) st1
                = if (i : Int) * cfg.GEQRF_GEQR2_BLOCKSIZE
                      + min (min m n - (i : Int) * cfg.GEQRF_GEQR2_BLOCKSIZE)
                          cfg.GEQRF_GEQR2_BLOCKSIZE < n then
                    dev.exec (Call.larfb rocblas_side_left rocblas_operation_conjugate_transpose
                      (m - (i : Int) * cfg.GEQRF_GEQR2_BLOCKSIZE)
                      (n - (i : Int) * cfg.GEQRF_GEQR2_BLOCKSIZE
                        - min (min m n - (i : Int) * cfg.GEQRF_GEQR2_BLOCKSIZE)
                            cfg.GEQRF_GEQR2_BLOCKSIZE)
                      (min (min m n - (i : Int) * cfg.GEQRF_GEQR2_BLOCKSIZE)
                        cfg.GEQRF_GEQR2_BLOCKSIZE)
                      (shiftA + idx2D ((i : Int) * cfg.GEQRF_GEQR2_BLOCKSIZE)
                        ((i : Int) * cfg.GEQRF_GEQR2_BLOCKSIZE) lda) lda strideA 0
                      cfg.GEQRF_GEQR2_BLOCKSIZE
                      (cfg.GEQRF_GEQR2_BLOCKSIZE * cfg.GEQRF_GEQR2_BLOCKSIZE)
                      (shiftA + idx2D ((i : Int) * cfg.GEQRF_GEQR2_BLOCKSIZE)
                        ((i : Int) * cfg.GEQRF_GEQR2_BLOCKSIZE
                          + min (min m n - (i : Int) * cfg.GEQRF_GEQR2_BLOCKSIZE)
                              cfg.GEQRF_GEQR2_BLOCKSIZE) lda)
                      lda strideA batch_count)
                    (dev.exec (Call.larft (m - (i : Int) * cfg.GEQRF_GEQR2_BLOCKSIZE)
                        (min (min m n - (i : Int) * cfg.GEQRF_GEQR2_BLOCKSIZE)
                          cfg.GEQRF_GEQR2_BLOCKSIZE)
                        (shiftA + idx2D ((i : Int) * cfg.GEQRF_GEQR2_BLOCKSIZE)
                          ((i : Int) * cfg.GEQRF_GEQR2_BLOCKSIZE) lda) lda strideA
                        (ipiv.add ((i : Int) * cfg.GEQRF_GEQR2_BLOCKSIZE)) strideP
                        cfg.GEQRF_GEQR2_BLOCKSIZE
                        (cfg.GEQRF_GEQR2_BLOCKSIZE * cfg.GEQRF_GEQR2_BLOCKSIZE) batch_count)
                      (rocsolver_geqr2_template dev COMPLEX
                        (m - (i : Int) * cfg.GEQRF_GEQR2_BLOCKSIZE)
                        (min (min m n - (i : Int) * cfg.GEQRF_GEQR2_BLOCKSIZE)
                          cfg.GEQRF_GEQR2_BLOCKSIZE)
                        (shiftA + idx2D ((i : Int) * cfg.GEQRF_GEQR2_BLOCKSIZE)
                          ((i : Int) * cfg.GEQRF_GEQR2_BLOCKSIZE) lda) lda strideA
                        (ipiv.add ((i : Int) * cfg.GEQRF_GEQR2_BLOCKSIZE)) strideP batch_count
                        st1).2)
                  else
                    (rocsolver_geqr2_template dev COMPLEX
                      (m - (i : Int) * cfg.GEQRF_GEQR2_BLOCKSIZE)
                      (min (min m n - (i : Int) * cfg.GEQRF_GEQR2_BLOCKSIZE)
                        cfg.GEQRF_GEQR2_BLOCKSIZE)
                      (shiftA + idx2D ((i : Int) * cfg.GEQRF_GEQR2_BLOCKSIZE)
                        ((i : Int) * cfg.GEQRF_GEQR2_BLOCKSIZE) lda) lda strideA
                      (ipiv.add ((i : Int) * cfg.GEQRF_GEQR2_BLOCKSIZE)) strideP batch_count
                      st1).2)
          ∧ (geqrf_panel traceDevice cfg COMPLEX m n shiftA lda strideA ipiv strideP batch_count
                (min m n) cfg.GEQRF_GEQR2_BLOCKSIZE
                (cfg.GEQRF_GEQR2_BLOCKSIZE * cfg.GEQRF_GEQR2_BLOCKSIZE)
                ((i : Int) * cfg.GEQRF_GEQR2_BLOCKSIZE) []).filter Call.is_larfg
              = (col_range ((i : Int) * cfg.GEQRF_GEQR2_BLOCKSIZE)
                  (min (min m n - (i : Int) * cfg.GEQRF_GEQR2_BLOCKSIZE)
                    cfg.GEQRF_GEQR2_BLOCKSIZE).toNat).map
                  (geqr2_builder_call m shiftA lda strideA ipiv strideP batch_count))
      ∧ (((rocsolver_geqr2_template traceDevice COMPLEX
              (m - (k : Int) * cfg.GEQRF_GEQR2_BLOCKSIZE)
              (n - (k : Int) * cfg.GEQRF_GEQR2_BLOCKSIZE)
              (shiftA + idx2D ((k : Int) * cfg.GEQRF_GEQR2_BLOCKSIZE)
                ((k : Int) * cfg.GEQRF_GEQR2_BLOCKSIZE) lda) lda strideA
              (ipiv.add ((k : Int) * cfg.GEQRF_GEQR2_BLOCKSIZE)) strideP batch_count
              []).2).filter Call.is_larfg
          = (col_range ((k : Int) * cfg.GEQRF_GEQR2_BLOCKSIZE)
              (min m n - (k : Int) * cfg.GEQRF_GEQR2_BLOCKSIZE).toNat).map
              (geqr2_builder_call m shiftA lda strideA ipiv strideP batch_count))
      ∧ ∃ tr, rocsolver_geqrf_template traceDevice cfg COMPLEX m n shiftA lda strideA ipiv
            strideP batch_count [] = some (rocblas_status_success, tr)
          ∧ tr.filter Call.is_larfg
            = (col_range 0 (min m n).toNat).map
                (geqr2_builder_call m shiftA lda strideA ipiv strideP batch_count) := by
  obtain ⟨k, hrun, hin, hout⟩ := geqrf_template_blocked dev cfg COMPLEX m n shiftA lda strideA
    ipiv strideP batch_count st hSW hBS hm hn hb
  obtain ⟨k', hrun', hin', hout'⟩ := geqrf_template_blocked traceDevice cfg COMPLEX m n shiftA
    lda strideA ipiv strideP batch_count [] hSW hBS hm hn hb
  refine ⟨k, hrun, ?_, ?_, ?_⟩
  · intro i hi
    have h1 := hin i hi
    have hnext : ((i + 1 : Nat) : Int) * cfg.GEQRF_GEQR2_BLOCKSIZE
        = (i : Int) * cfg.GEQRF_GEQR2_BLOCKSIZE + cfg.GEQRF_GEQR2_BLOCKSIZE := by
      push_cast; ring
    refine ⟨by omega, by omega, ?_, ?_, ?_⟩
    · intro hi1
      have h2 := hin (i + 1) hi1
      omega
    · intro st1
      rfl
    · have h := geqrf_panel_builders cfg COMPLEX m n shiftA lda strideA ipiv strideP batch_count
        (min m n) cfg.GEQRF_GEQR2_BLOCKSIZE
        (cfg.GEQRF_GEQR2_BLOCKSIZE * cfg.GEQRF_GEQR2_BLOCKSIZE)
        ((i : Int) * cfg.GEQRF_GEQR2_BLOCKSIZE) [] hb
      rw [h, List.filter_nil, List.nil_append]
      congr 2
      omega
  · have h := geqr2_template_builders COMPLEX m (n - (k : Int) * cfg.GEQRF_GEQR2_BLOCKSIZE)
      shiftA lda strideA ipiv strideP batch_count ((k : Int) * cfg.GEQRF_GEQR2_BLOCKSIZE) [] hb
    rw [h, List.filter_nil, List.nil_append]
    congr 2
    omega
  · refine ⟨_, hrun', ?_⟩
    exact geqrf_blocked_run_builders cfg COMPLEX m n shiftA lda strideA ipiv strideP batch_count
      k' hBS hb (fun i hi => by have := hin' i hi; omega)

/-- C19 (witness): a `7 x 8` matrix with switch size `4` and block size `2`: the
builder is called for the columns `0, ..., 6`, once each, in this order. -/
theorem geqrf_blocked_columns_witness :
    ∃ tr, rocsolver_geqrf_template traceDevice cfg_small false 7 8 0 7 56
          { buf := Buf.ipiv, off := 0 } 7 1 [] = some (rocblas_status_success, tr)
      ∧ tr.filter Call.is_larfg
        = (col_range 0 (min (7 : Int) 8).toNat).map
            (geqr2_builder_call 7 0 7 56 { buf := Buf.ipiv, off := 0 } 7 1) :=
  (geqrf_blocked_columns traceDevice cfg_small false 7 8 0 7 56 { buf := Buf.ipiv, off := 0 } 7
    1 [] (by decide) (by decide) (by decide) (by decide) (by decide)).elim
    fun _ h => h.2.2.2

/-- C20: on the blocked path of `rocsolver_geqrf_template`, provided
`1 <= GEQRF_GEQR2_BLOCKSIZE <= GEQRF_GEQR2_SWITCHSIZE`, every panel factored
inside the loop is entered with more than `SWITCHSIZE` pivot columns left and
is the `geqr2` call on exactly `BLOCKSIZE` columns, followed by the build and
the application of the block reflector of `BLOCKSIZE` reflectors; its builder
calls are those of the `BLOCKSIZE` columns from `j = i*BLOCKSIZE`.  The final
unblocked `geqr2` call is always issued and its builder calls are those of the
remaining `r = min m n - k*BLOCKSIZE` pivot columns, with
`1 <= r <= SWITCHSIZE`. -/
theorem geqrf_blocked_panel_widths {σ : Type} (dev : Device σ) (cfg : IdealSizes)
    (COMPLEX : Bool) (m n shiftA lda strideA : Int) (ipiv : Loc) (strideP batch_count : Int)
    (st : σ)
    (hBS : 1 ≤ cfg.GEQRF_GEQR2_BLOCKSIZE)
    (hBSW : cfg.GEQRF_GEQR2_BLOCKSIZE ≤ cfg.GEQRF_GEQR2_SWITCHSIZE)
    (hm : cfg.GEQRF_GEQR2_SWITCHSIZE < m) (hn : cfg.GEQRF_GEQR2_SWITCHSIZE < n)
    (hb : batch_count ≠ 0) :
    ∃ k : Nat,
      rocsolver_geqrf_template dev cfg COMPLEX m n shiftA lda strideA ipiv strideP batch_count st
        = some (rocblas_status_success,
            geqrf_blocked_run dev cfg COMPLEX m n shiftA lda strideA ipiv strideP batch_count k
              st)
      ∧ (∀ i : Nat, i < k →
          cfg.GEQRF_GEQR2_SWITCHSIZE < min m n - (i : Int) * cfg.GEQRF_GEQR2_BLOCKSIZE
          ∧ (∀ st1 : σ,
              geqrf_panel dev cfg COMPLEX m n shiftA lda strideA ipiv strideP batch_count
                  (min m n) cfg.GEQRF_GEQR2_BLOCKSIZE
                  (cfg.GEQRF_GEQR2_BLOCKSIZE * cfg.GEQRF_GEQR2_BLOCKSIZE)
                  ((i : Int) * cfg.GEQRF_GEQR2_BLOCKSIZE) st1
                = dev.exec (Call.larfb rocblas_side_left rocblas_operation_conjugate_transpose
                    (m - (i : Int) * cfg.GEQRF_GEQR2_BLOCKSIZE)
                    (n - (i : Int) * cfg.GEQRF_GEQR2_BLOCKSIZE - cfg.GEQRF_GEQR2_BLOCKSIZE)
                    cfg.GEQRF_GEQR2_BLOCKSIZE
                    (shiftA + idx2D ((i : Int) * cfg.GEQRF_GEQR2_BLOCKSIZE)
                      ((i : Int) * cfg.GEQRF_GEQR2_BLOCKSIZE) lda) lda strideA 0
                    cfg.GEQRF_GEQR2_BLOCKSIZE
                    (cfg.GEQRF_GEQR2_BLOCKSIZE * cfg.GEQRF_GEQR2_BLOCKSIZE)
                    (shiftA + idx2D ((i : Int) * cfg.GEQRF_GEQR2_BLOCKSIZE)
                      ((i : Int) * cfg.GEQRF_GEQR2_BLOCKSIZE + cfg.GEQRF_GEQR2_BLOCKSIZE) lda)
                    lda strideA batch_count)
                  (dev.exec (Call.larft (m - (i : Int) * cfg.GEQRF_GEQR2_BLOCKSIZE)
                      cfg.GEQRF_GEQR2_BLOCKSIZE
                      (shiftA + idx2D ((i : Int) * cfg.GEQRF_GEQR2_BLOCKSIZE)
                        ((i : Int) * cfg.GEQRF_GEQR2_BLOCKSIZE) lda) lda strideA
                      (ipiv.add ((i : Int) * cfg.GEQRF_GEQR2_BLOCKSIZE)) strideP
                      cfg.GEQRF_GEQR2_BLOCKSIZE
                      (cfg.GEQRF_GEQR2_BLOCKSIZE * cfg.GEQRF_GEQR2_BLOCKSIZE) batch_count)
                    (rocsolver_geqr2_template dev COMPLEX
                      (m - (i : Int) * cfg.GEQRF_GEQR2_BLOCKSIZE) cfg.GEQRF_GEQR2_BLOCKSIZE
                      (shiftA + idx2D ((i : Int) * cfg.GEQRF_GEQR2_BLOCKSIZE)
                        ((i : Int) * cfg.GEQRF_GEQR2_BLOCKSIZE) lda) lda strideA
                      (ipiv.add ((i : Int) * cfg.GEQRF_GEQR2_BLOCKSIZE)) strideP batch_count
                      st1).2))
          ∧ (geqrf_panel traceDevice cfg COMPLEX m n shiftA lda strideA ipiv strideP batch_count
                (min m n) cfg.GEQRF_GEQR2_BLOCKSIZE
                (cfg.GEQRF_GEQR2_BLOCKSIZE * cfg.GEQRF_GEQR2_BLOCKSIZE)
                ((i : Int) * cfg.GEQRF_GEQR2_BLOCKSIZE) []).filter Call.is_larfg
              = (col_range ((i : Int) * cfg.GEQRF_GEQR2_BLOCKSIZE)
                  cfg.GEQRF_GEQR2_BLOCKSIZE.toNat).map
                  (geqr2_builder_call m shiftA lda strideA ipiv strideP batch_count))
      ∧ (k : Int) * cfg.GEQRF_GEQR2_BLOCKSIZE < min m n
      ∧ geqrf_blocked_run dev cfg COMPLEX m n shiftA lda strideA ipiv strideP batch_count k st
        = (rocsolver_geqr2_template dev COMPLEX (m - k * cfg.GEQRF_GEQR2_BLOCKSIZE)
            (n - k * cfg.GEQRF_GEQR2_BLOCKSIZE)
            (shiftA + idx2D (k * cfg.GEQRF_GEQR2_BLOCKSIZE) (k * cfg.GEQRF_GEQR2_BLOCKSIZE) lda)
            lda strideA (ipiv.add (k * cfg.GEQRF_GEQR2_BLOCKSIZE)) strideP batch_count
            (((List.range k).map fun i : Nat => (i : Int) * cfg.GEQRF_GEQR2_BLOCKSIZE).foldl
              (fun st j => geqrf_panel dev cfg COMPLEX m n shiftA lda strideA ipiv strideP
                batch_count (min m n) cfg.GEQRF_GEQR2_BLOCKSIZE
                (cfg.GEQRF_GEQR2_BLOCKSIZE * cfg.GEQRF_GEQR2_BLOCKSIZE) j st) st)).2
      ∧ ((rocsolver_geqr2_template traceDevice COMPLEX
              (m - (k : Int) * cfg.GEQRF_GEQR2_BLOCKSIZE)
              (n - (k : Int) * cfg.GEQRF_GEQR2_BLOCKSIZE)
              (shiftA + idx2D ((k : Int) * cfg.GEQRF_GEQR2_BLOCKSIZE)
                ((k : Int) * cfg.GEQRF_GEQR2_BLOCKSIZE) lda) lda strideA
              (ipiv.add ((k : Int) * cfg.GEQRF_GEQR2_BLOCKSIZE)) strideP batch_count
              []).2).filter Call.is_larfg
          = (col_range ((k : Int) * cfg.GEQRF_GEQR2_BLOCKSIZE)
              (min m n - (k : Int) * cfg.GEQRF_GEQR2_BLOCKSIZE).toNat).map
              (geqr2_builder_call m shiftA lda strideA ipiv strideP batch_count)
      ∧ 1 ≤ min m n - (k : Int) * cfg.GEQRF_GEQR2_BLOCKSIZE
      ∧ min m n - (k : Int) * cfg.GEQRF_GEQR2_BLOCKSIZE ≤ cfg.GEQRF_GEQR2_SWITCHSIZE := by
  obtain ⟨k, hrun, hin, hout⟩ := geqrf_template_blocked dev cfg COMPLEX m n shiftA lda strideA
    ipiv strideP batch_count st (by omega) hBS hm hn hb
  have hlast : (k : Int) * cfg.GEQRF_GEQR2_BLOCKSIZE < min m n := by
    rcases Nat.eq_zero_or_pos k with h0 | hpos
    · subst h0
      simp only [Nat.cast_zero, zero_mul, lt_min_iff]
      omega
    · have h1 := hin (k - 1) (by omega)
      have hc : ((k - 1 : Nat) : Int) = (k : Int) - 1 := by omega
      rw [hc] at h1
      have he : ((k : Int) - 1) * cfg.GEQRF_GEQR2_BLOCKSIZE
          = (k : Int) * cfg.GEQRF_GEQR2_BLOCKSIZE - cfg.GEQRF_GEQR2_BLOCKSIZE := by ring
      rw [he] at h1
      omega
  refine ⟨k, hrun, ?_, hlast, ?_, ?_, by omega, by omega⟩
  · intro i hi
    have h1 := hin i hi
    have hjb : min (min m n - (i : Int) * cfg.GEQRF_GEQR2_BLOCKSIZE)
        cfg.GEQRF_GEQR2_BLOCKSIZE = cfg.GEQRF_GEQR2_BLOCKSIZE := by omega
    refine ⟨by omega, ?_, ?_⟩
    · intro st1
      unfold geqrf_panel
      simp only [hjb]
      rw [if_pos (by omega)]
    · have h := geqrf_panel_builders cfg COMPLEX m n shiftA lda strideA ipiv strideP batch_count
        (min m n) cfg.GEQRF_GEQR2_BLOCKSIZE
        (cfg.GEQRF_GEQR2_BLOCKSIZE * cfg.GEQRF_GEQR2_BLOCKSIZE)
        ((i : Int) * cfg.GEQRF_GEQR2_BLOCKSIZE) [] hb
      rw [h, List.filter_nil, List.nil_append]
      congr 2
      omega
  · unfold geqrf_blocked_run
    dsimp only
    rw [if_pos hlast]
  · have h := geqr2_template_builders COMPLEX m (n - (k : Int) * cfg.GEQRF_GEQR2_BLOCKSIZE)
      shiftA lda strideA ipiv strideP batch_count ((k : Int) * cfg.GEQRF_GEQR2_BLOCKSIZE) [] hb
    rw [h, List.filter_nil, List.nil_append]
    congr 2
    omega

/-- C20 (witness): a `7 x 8` matrix with switch size `4` and block size `2`:
every panel of the loop calls the builder for two columns, and the last call
factors a remainder of one to four columns. -/
theorem geqrf_blocked_panel_widths_witness :
    ∃ k : Nat,
      (∀ i : Nat, i < k →
        (geqrf_panel traceDevice cfg_small false 7 8 0 7 56 { buf := Buf.ipiv, off := 0 } 7 1
            (min 7 8) cfg_small.GEQRF_GEQR2_BLOCKSIZE
            (cfg_small.GEQRF_GEQR2_BLOCKSIZE * cfg_small.GEQRF_GEQR2_BLOCKSIZE)
            ((i : Int) * cfg_small.GEQRF_GEQR2_BLOCKSIZE) []).filter Call.is_larfg
          = (col_range ((i : Int) * cfg_small.GEQRF_GEQR2_BLOCKSIZE)
              cfg_small.GEQRF_GEQR2_BLOCKSIZE.toNat).map
              (geqr2_builder_call 7 0 7 56 { buf := Buf.ipiv, off := 0 } 7 1))
      ∧ (k : Int) * cfg_small.GEQRF_GEQR2_BLOCKSIZE < min 7 8
      ∧ 1 ≤ min 7 8 - (k : Int) * cfg_small.GEQRF_GEQR2_BLOCKSIZE
      ∧ min 7 8 - (k : Int) * cfg_small.GEQRF_GEQR2_BLOCKSIZE
          ≤ cfg_small.GEQRF_GEQR2_SWITCHSIZE :=
  (geqrf_blocked_panel_widths traceDevice cfg_small false 7 8 0 7 56
    { buf := Buf.ipiv, off := 0 } 7 1 [] (by decide) (by decide) (by decide) (by decide)
    (by decide)).elim
    fun k h => ⟨k, fun i hi => (h.2.1 i hi).2.2, h.2.2.1, h.2.2.2.2.2.1, h.2.2.2.2.2.2⟩

/-! ### Matrix positions with offsets in `rocblas_int` -/

/-- Reducing an operand to 32 bits before a sum does not change the 32-bit
sum. -/
theorem wrap32_add_wrap32 (a b : Int) : wrap32 (a + wrap32 b) = wrap32 (a + b) := by
  unfold wrap32
  omega

/-- An offset expression `shiftA + idx2D(i, j, lda)` evaluated in `rocblas_int`,
every operation reduced to 32 bits, is the 32-bit reduction of its integer
value. -/
theorem offset32_eq (shiftA i j lda : Int) :
    add32 shiftA (idx2D32 i j lda) = wrap32 (shiftA + idx2D i j lda) := by
  unfold add32 idx2D32 add32 mul32 idx2D
  rw [wrap32_add_wrap32, add_comm (wrap32 (j * lda)) i, ← add_assoc, wrap32_add_wrap32,
    add_assoc, add_comm i]

/-- The offset of an element of the `m x n` matrix is its own 32-bit value when
the whole matrix is addressable in `rocblas_int`. -/
theorem offset_fits (shiftA lda m n : Int) (hlda : m ≤ lda) (hs : 0 ≤ shiftA)
    (hfit : shiftA + (n - 1) * lda + m ≤ 2147483648) (r c : Int)
    (hr0 : 0 ≤ r) (hr : r < m) (hc0 : 0 ≤ c) (hc : c < n) :
    wrap32 (shiftA + idx2D r c lda) = shiftA + idx2D r c lda := by
  have hb := in_matrix_offset shiftA lda m n (shiftA + idx2D r c lda) hlda
    ⟨r, c, hr0, hr, hc0, hc, rfl⟩
  apply wrap32_of_fitting
  · omega
  · unfold INT_MAX
    omega

/-- The record kept behind `rocblas_int` offsets. -/
theorem int32Device_trace (l : List Call) :
    ∀ tr : List Call,
      l.foldl (fun s c => (int32Device traceDevice).exec c s) tr
        = tr ++ l.map Call.int32_offsets := by
  induction l with
  | nil => intro tr; simp
  | cons c l ih =>
    intro tr
    rw [List.foldl_cons, ih]
    simp [int32Device, traceDevice]

/-- A record whose operations all have offsets in the 32-bit range is kept
unchanged behind `rocblas_int` offsets. -/
theorem map_int32_offsets_of_fitting (l : List Call) (h : ∀ c ∈ l, c.int32_offsets = c) :
    l.map Call.int32_offsets = l := by
  induction l with
  | nil => rfl
  | cons c l ih =>
    rw [List.map_cons, h c (List.mem_cons_self c l),
      ih (fun c hc => h c (List.mem_cons_of_mem _ hc))]

/-- Every operation of a column step of the unblocked QR factorization has its
offsets in the 32-bit range when the matrix is addressable in `rocblas_int`. -/
theorem geqr2_column_fits (COMPLEX : Bool) (m n shiftA lda strideA : Int) (ipiv : Loc)
    (strideP batch_count j : Int) (hlda : m ≤ lda) (hs : 0 ≤ shiftA)
    (hfit : shiftA + (n - 1) * lda + m ≤ 2147483648)
    (hj0 : 0 ≤ j) (hjm : j < m) (hjn : j < n) :
    ∀ c ∈ geqr2_column traceDevice COMPLEX m n shiftA lda strideA ipiv strideP batch_count j [],
      c.int32_offsets = c := by
  have hA := offset_fits shiftA lda m n hlda hs hfit j j hj0 hjm hj0 hjn
  have hX := offset_fits shiftA lda m n hlda hs hfit (min (j + 1) (m - 1)) j (by omega)
    (by omega) hj0 hjn
  have hj : wrap32 j = j := wrap32_of_fitting j (by omega) (by
    have := in_matrix_offset shiftA lda m n (shiftA + idx2D j j lda) hlda
      ⟨j, j, hj0, hjm, hj0, hjn, rfl⟩
    unfold idx2D at this
    have h1 : 0 ≤ j * lda := Int.mul_nonneg hj0 (by omega)
    unfold INT_MAX
    omega)
  rw [geqr2_column_trace_eq]
  by_cases h2 : j < n - 1
  · have hC := offset_fits shiftA lda m n hlda hs hfit j (j + 1) hj0 hjm (by omega) (by omega)
    cases COMPLEX <;>
      simp only [h2, if_true, if_false, Bool.false_eq_true, List.nil_append, List.append_nil,
        List.cons_append, List.mem_cons, List.mem_singleton, List.not_mem_nil, or_false,
        forall_eq_or_imp, forall_eq, Call.int32_offsets, hA, hX, hC, hj, and_self]
  · cases COMPLEX <;>
      simp only [h2, if_true, if_false, Bool.false_eq_true, List.nil_append, List.append_nil,
        List.cons_append, List.mem_cons, List.mem_singleton, List.not_mem_nil, or_false,
        forall_eq_or_imp, forall_eq, Call.int32_offsets, hA, hX, hj, and_self]

/-- A column index of an addressable matrix is its own 32-bit value. -/
theorem index_fits (shiftA lda m n j : Int) (hlda : m ≤ lda) (hs : 0 ≤ shiftA)
    (hfit : shiftA + (n - 1) * lda + m ≤ 2147483648)
    (hj0 : 0 ≤ j) (hjm : j < m) (hjn : j < n) : wrap32 j = j := by
  have hb := in_matrix_offset shiftA lda m n (shiftA + idx2D j j lda) hlda
    ⟨j, j, hj0, hjm, hj0, hjn, rfl⟩
  unfold idx2D at hb
  have h1 : 0 ≤ j * lda := Int.mul_nonneg hj0 (by omega)
  apply wrap32_of_fitting
  · omega
  · unfold INT_MAX
    omega

/-- Every operation of a step of the upper-bidiagonal loop has its offsets in
the 32-bit range when the matrix is addressable in `rocblas_int`. -/
theorem gebd2_upper_step_fits (COMPLEX : Bool)
    (m n shiftA lda strideA strideD strideE : Int) (tauq : Loc) (strideQ : Int) (taup : Loc)
    (strideP batch_count j : Int) (hlda : m ≤ lda) (hs : 0 ≤ shiftA)
    (hfit : shiftA + (n - 1) * lda + m ≤ 2147483648) (hmn : n ≤ m)
    (hj0 : 0 ≤ j) (hjn : j < n) :
    ∀ c ∈ gebd2_upper_step traceDevice COMPLEX m n shiftA lda strideA strideD strideE tauq
        strideQ taup strideP batch_count j [],
      c.int32_offsets = c := by
  have hA := offset_fits shiftA lda m n hlda hs hfit j j hj0 (by omega) hj0 hjn
  have hX := offset_fits shiftA lda m n hlda hs hfit (min (j + 1) (m - 1)) j (by omega)
    (by omega) hj0 hjn
  have hj := index_fits shiftA lda m n j hlda hs hfit hj0 (by omega) hjn
  rw [gebd2_upper_step_trace_eq]
  by_cases h2 : j < n - 1
  · have hC := offset_fits shiftA lda m n hlda hs hfit j (j + 1) hj0 (by omega) (by omega)
      (by omega)
    have hY := offset_fits shiftA lda m n hlda hs hfit j (min (j + 2) (n - 1)) hj0 (by omega)
      (by omega) (by omega)
    have hD := offset_fits shiftA lda m n hlda hs hfit (j + 1) (j + 1) (by omega) (by omega)
      (by omega) (by omega)
    cases COMPLEX <;>
      simp only [h2, if_true, if_false, Bool.false_eq_true, List.nil_append, List.append_nil,
        List.cons_append, List.mem_cons, List.mem_singleton, List.not_mem_nil, or_false,
        forall_eq_or_imp, forall_eq, Call.int32_offsets, hA, hX, hC, hY, hD, hj, and_self]
  · cases COMPLEX <;>
      simp only [h2, if_true, if_false, Bool.false_eq_true, List.nil_append, List.append_nil,
        List.cons_append, List.mem_cons, List.mem_singleton, List.not_mem_nil, or_false,
        forall_eq_or_imp, forall_eq, Call.int32_offsets, hA, hX, hj, and_self]

/-- Every operation of a step of the lower-bidiagonal loop has its offsets in
the 32-bit range when the matrix is addressable in `rocblas_int`. -/
theorem gebd2_lower_step_fits (COMPLEX : Bool)
    (m n shiftA lda strideA strideD strideE : Int) (tauq : Loc) (strideQ : Int) (taup : Loc)
    (strideP batch_count j : Int) (hlda : m ≤ lda) (hs : 0 ≤ shiftA)
    (hfit : shiftA + (n - 1) * lda + m ≤ 2147483648) (hmn : m < n)
    (hj0 : 0 ≤ j) (hjm : j < m) :
    ∀ c ∈ gebd2_lower_step traceDevice COMPLEX m n shiftA lda strideA strideD strideE tauq
        strideQ taup strideP batch_count j [],
      c.int32_offsets = c := by
  have hA := offset_fits shiftA lda m n hlda hs hfit j j hj0 hjm hj0 (by omega)
  have hX := offset_fits shiftA lda m n hlda hs hfit j (min (j + 1) (n - 1)) hj0 hjm (by omega)
    (by omega)
  have hj := index_fits shiftA lda m n j hlda hs hfit hj0 hjm (by omega)
  rw [gebd2_lower_step_trace_eq]
  by_cases h2 : j < m - 1
  · have hC := offset_fits shiftA lda m n hlda hs hfit (j + 1) j (by omega) (by omega) hj0
      (by omega)
    have hY := offset_fits shiftA lda m n hlda hs hfit (min (j + 2) (m - 1)) j (by omega)
      (by omega) hj0 (by omega)
    have hD := offset_fits shiftA lda m n hlda hs hfit (j + 1) (j + 1) (by omega) (by omega)
      (by omega) (by omega)
    cases COMPLEX <;>
      simp only [h2, if_true, if_false, Bool.false_eq_true, List.nil_append, List.append_nil,
        List.cons_append, List.mem_cons, List.mem_singleton, List.not_mem_nil, or_false,
        forall_eq_or_imp, forall_eq, Call.int32_offsets, hA, hX, hC, hY, hD, hj, and_self]
  · cases COMPLEX <;>
      simp only [h2, if_true, if_false, Bool.false_eq_true, List.nil_append, List.append_nil,
        List.cons_append, List.mem_cons, List.mem_singleton, List.not_mem_nil, or_false,
        forall_eq_or_imp, forall_eq, Call.int32_offsets, hA, hX, hj, and_self]

/-- Behind `rocblas_int` offsets the unblocked QR factorization records its
operations with their offsets reduced to 32 bits. -/
theorem geqr2_template_int32_trace (COMPLEX : Bool) (m n shiftA lda strideA : Int) (ipiv : Loc)
    (strideP batch_count : Int) :
    (rocsolver_geqr2_template (int32Device traceDevice) COMPLEX m n shiftA lda strideA ipiv
        strideP batch_count []).2
      = (rocsolver_geqr2_template traceDevice COMPLEX m n shiftA lda strideA ipiv strideP
          batch_count []).2.map Call.int32_offsets := by
  by_cases hq : m = 0 ∨ n = 0 ∨ batch_count = 0
  · unfold rocsolver_geqr2_template
    rw [if_pos hq, if_pos hq]
    rfl
  · rw [geqr2_template_replay (int32Device traceDevice) COMPLEX m n shiftA lda strideA ipiv
      strideP batch_count [] hq, int32Device_trace,
      geqr2_template_trace_eq COMPLEX m n shiftA lda strideA ipiv strideP batch_count [] hq,
      List.nil_append, List.nil_append]

/-- Behind `rocblas_int` offsets the bidiagonal reduction records its
operations with their offsets reduced to 32 bits. -/
theorem gebd2_template_int32_trace (COMPLEX : Bool)
    (m n shiftA lda strideA strideD strideE : Int) (tauq : Loc) (strideQ : Int) (taup : Loc)
    (strideP batch_count : Int) :
    (rocsolver_gebd2_template (int32Device traceDevice) COMPLEX m n shiftA lda strideA strideD
        strideE tauq strideQ taup strideP batch_count []).2
      = (rocsolver_gebd2_template traceDevice COMPLEX m n shiftA lda strideA strideD strideE tauq
          strideQ taup strideP batch_count []).2.map Call.int32_offsets := by
  by_cases hq : m = 0 ∨ n = 0 ∨ batch_count = 0
  · unfold rocsolver_gebd2_template
    rw [if_pos hq, if_pos hq]
    rfl
  · rw [gebd2_template_replay (int32Device traceDevice) COMPLEX m n shiftA lda strideA strideD
      strideE tauq strideQ taup strideP batch_count [] hq, int32Device_trace,
      gebd2_template_trace_eq COMPLEX m n shiftA lda strideA strideD strideE tauq strideQ taup
        strideP batch_count hq, List.nil_append]

/-- When the matrix is addressable in `rocblas_int` (`shiftA >= 0` and
`shiftA + (n-1)*lda + m <= 2^31`), the unblocked QR factorization records the
same operations behind `rocblas_int` offsets as with exact offsets. -/
theorem geqr2_template_int32_fits (COMPLEX : Bool) (m n shiftA lda strideA : Int) (ipiv : Loc)
    (strideP batch_count : Int) (hlda : m ≤ lda) (hs : 0 ≤ shiftA)
    (hfit : shiftA + (n - 1) * lda + m ≤ 2147483648) :
    (rocsolver_geqr2_template (int32Device traceDevice) COMPLEX m n shiftA lda strideA ipiv
        strideP batch_count []).2
      = (rocsolver_geqr2_template traceDevice COMPLEX m n shiftA lda strideA ipiv strideP
          batch_count []).2 := by
  rw [geqr2_template_int32_trace]
  apply map_int32_offsets_of_fitting
  intro c hc
  by_cases hq : m = 0 ∨ n = 0 ∨ batch_count = 0
  · unfold rocsolver_geqr2_template at hc
    rw [if_pos hq] at hc
    cases hc
  · rw [geqr2_template_trace_eq COMPLEX m n shiftA lda strideA ipiv strideP batch_count [] hq,
      List.nil_append] at hc
    obtain ⟨j, hj, hcj⟩ := List.mem_flatMap.mp hc
    obtain ⟨i, hi, rfl⟩ := List.mem_map.mp hj
    have hi' := List.mem_range.mp hi
    exact geqr2_column_fits COMPLEX m n shiftA lda strideA ipiv strideP batch_count i hlda hs
      hfit (by omega) (by omega) (by omega) c hcj

/-- When the matrix is addressable in `rocblas_int`, the bidiagonal reduction
records the same operations behind `rocblas_int` offsets as with exact
offsets. -/
theorem gebd2_template_int32_fits (COMPLEX : Bool)
    (m n shiftA lda strideA strideD strideE : Int) (tauq : Loc) (strideQ : Int) (taup : Loc)
    (strideP batch_count : Int) (hm : 1 ≤ m) (hn : 1 ≤ n) (hlda : m ≤ lda) (hs : 0 ≤ shiftA)
    (hfit : shiftA + (n - 1) * lda + m ≤ 2147483648) :
    (rocsolver_gebd2_template (int32Device traceDevice) COMPLEX m n shiftA lda strideA strideD
        strideE tauq strideQ taup strideP batch_count []).2
      = (rocsolver_gebd2_template traceDevice COMPLEX m n shiftA lda strideA strideD strideE tauq
          strideQ taup strideP batch_count []).2 := by
  rw [gebd2_template_int32_trace]
  apply map_int32_offsets_of_fitting
  intro c hc
  by_cases hq : m = 0 ∨ n = 0 ∨ batch_count = 0
  · unfold rocsolver_gebd2_template at hc
    rw [if_pos hq] at hc
    cases hc
  · rw [gebd2_template_trace_eq COMPLEX m n shiftA lda strideA strideD strideE tauq strideQ taup
      strideP batch_count hq] at hc
    by_cases hmn : m ≥ n
    · rw [if_pos hmn] at hc
      obtain ⟨j, hj, hcj⟩ := List.mem_flatMap.mp hc
      obtain ⟨i, hi, rfl⟩ := List.mem_map.mp hj
      have hi' := List.mem_range.mp hi
      exact gebd2_upper_step_fits COMPLEX m n shiftA lda strideA strideD strideE tauq strideQ
        taup strideP batch_count i hlda hs hfit hmn (by omega) (by omega) c hcj
    · rw [if_neg hmn] at hc
      obtain ⟨j, hj, hcj⟩ := List.mem_flatMap.mp hc
      obtain ⟨i, hi, rfl⟩ := List.mem_map.mp hj
      have hi' := List.mem_range.mp hi
      exact gebd2_lower_step_fits COMPLEX m n shiftA lda strideA strideD strideE tauq strideQ
        taup strideP batch_count i hlda hs hfit (by omega) (by omega) (by omega) c hcj

/-- With exact offsets, for `m >= 1`, `n >= 1`, `lda >= m`, every operation that
`rocsolver_geqr2_template` records hands the reflector builder and applier
positions of the `m x n` matrix only, at offsets below `(n-1)*lda + m` from
`shiftA`; for a non-empty batch the operations are, for every column
`j < min m n`, the builder with order `m - j`, alpha at `(j, j)` and vector
start `(min(j+1, m-1), j)`, and, only when `j < n - 1`, the applier on the
`m - j` by `n - j - 1` block from `(j, j+1)`. -/
theorem geqr2_exact_positions (COMPLEX : Bool) (m n shiftA lda strideA : Int) (ipiv : Loc)
    (strideP batch_count : Int) (hm : 1 ≤ m) (hn : 1 ≤ n) (hlda : m ≤ lda) :
    (∀ c ∈ (rocsolver_geqr2_template traceDevice COMPLEX m n shiftA lda strideA ipiv strideP
        batch_count []).2, c.positions_within shiftA lda m n)
    ∧ (∀ off : Int, in_matrix shiftA lda m n off →
        shiftA ≤ off ∧ off - shiftA < (n - 1) * lda + m)
    ∧ (batch_count ≠ 0 → ∀ j : Int, 0 ≤ j → j < min m n →
        Call.larfg (m - j) (shiftA + idx2D j j lda)
            (shiftA + idx2D (min (j + 1) (m - 1)) j lda) 1 strideA (ipiv.add j) strideP
            batch_count
          ∈ (rocsolver_geqr2_template traceDevice COMPLEX m n shiftA lda strideA ipiv strideP
              batch_count []).2
        ∧ (Call.larf rocblas_side_left (m - j) (n - j - 1) (shiftA + idx2D j j lda) 1 strideA
              (ipiv.add j) strideP (shiftA + idx2D j (j + 1) lda) lda strideA batch_count
            ∈ (rocsolver_geqr2_template traceDevice COMPLEX m n shiftA lda strideA ipiv
                strideP batch_count []).2 ↔ j < n - 1)) := by
  refine ⟨?_, fun off h => in_matrix_offset shiftA lda m n off hlda h, ?_⟩
  · intro c hc
    by_cases hq : m = 0 ∨ n = 0 ∨ batch_count = 0
    · unfold rocsolver_geqr2_template at hc
      rw [if_pos hq] at hc
      cases hc
    · rw [geqr2_template_trace_eq COMPLEX m n shiftA lda strideA ipiv strideP batch_count [] hq,
        List.nil_append] at hc
      obtain ⟨j, hj, hcj⟩ := List.mem_flatMap.mp hc
      obtain ⟨i, hi, rfl⟩ := List.mem_map.mp hj
      have hi' := List.mem_range.mp hi
      exact geqr2_column_positions COMPLEX m n shiftA lda strideA ipiv strideP batch_count i
        (by omega) (by omega) (by omega) c hcj
  · intro hb j hj0 hj
    have hq : ¬ (m = 0 ∨ n = 0 ∨ batch_count = 0) := by omega
    rw [geqr2_template_trace_eq COMPLEX m n shiftA lda strideA ipiv strideP batch_count [] hq,
      List.nil_append]
    have hjmem := mem_cast_range j (min m n).toNat hj0 (by omega)
    refine ⟨List.mem_flatMap.mpr ⟨j, hjmem, ?_⟩, ⟨?_, ?_⟩⟩
    · rw [geqr2_column_trace_eq]
      simp
    · intro h
      obtain ⟨j1, _, hc⟩ := List.mem_flatMap.mp h
      rw [geqr2_column_trace_eq] at hc
      simp only [List.mem_append, List.mem_cons, List.mem_singleton, List.not_mem_nil,
        or_false, List.mem_ite_nil_right, reduceCtorEq, false_or, and_false, or_self,
        Call.larf.injEq] at hc
      obtain ⟨h1, h2⟩ := hc
      omega
    · intro h
      refine List.mem_flatMap.mpr ⟨j, hjmem, ?_⟩
      rw [geqr2_column_trace_eq]
      simp [h]

/-- With exact offsets, for `m >= 1`, `n >= 1`, `lda >= m`, every operation that
`rocsolver_gebd2_template` records, in the upper (`m >= n`) and in the lower
(`m < n`) branch, hands the reflector builder and applier positions of the
`m x n` matrix only; for a non-empty batch the operations include, for every
step `j < min m n`, the builder and applier calls of the step with the starts
`min(j+1, m-1)`, `min(j+2, n-1)`, `min(j+1, n-1)`, `min(j+2, m-1)`. -/
theorem gebd2_exact_positions (COMPLEX : Bool)
    (m n shiftA lda strideA strideD strideE : Int) (tauq : Loc) (strideQ : Int) (taup : Loc)
    (strideP batch_count : Int) (hm : 1 ≤ m) (hn : 1 ≤ n) (hlda : m ≤ lda) :
    (∀ c ∈ (rocsolver_gebd2_template traceDevice COMPLEX m n shiftA lda strideA strideD strideE
        tauq strideQ taup strideP batch_count []).2, c.positions_within shiftA lda m n)
    ∧ (∀ off : Int, in_matrix shiftA lda m n off →
        shiftA ≤ off ∧ off - shiftA < (n - 1) * lda + m)
    ∧ (batch_count ≠ 0 → n ≤ m → ∀ j : Int, 0 ≤ j → j < n →
        Call.larfg (m - j) (shiftA + idx2D j j lda)
            (shiftA + idx2D (min (j + 1) (m - 1)) j lda) 1 strideA (tauq.add j) strideQ
            batch_count
          ∈ (rocsolver_gebd2_template traceDevice COMPLEX m n shiftA lda strideA strideD
              strideE tauq strideQ taup strideP batch_count []).2
        ∧ (j < n - 1 →
            Call.larf rocblas_side_left (m - j) (n - j - 1) (shiftA + idx2D j j lda) 1 strideA
                (tauq.add j) strideQ (shiftA + idx2D j (j + 1) lda) lda strideA batch_count
              ∈ (rocsolver_gebd2_template traceDevice COMPLEX m n shiftA lda strideA strideD
                  strideE tauq strideQ taup strideP batch_count []).2
            ∧ Call.larfg (n - j - 1) (shiftA + idx2D j (j + 1) lda)
                (shiftA + idx2D j (min (j + 2) (n - 1)) lda) lda strideA (taup.add j) strideP
                batch_count
              ∈ (rocsolver_gebd2_template traceDevice COMPLEX m n shiftA lda strideA strideD
                  strideE tauq strideQ taup strideP batch_count []).2
            ∧ Call.larf rocblas_side_right (m - j - 1) (n - j - 1)
                (shiftA + idx2D j (j + 1) lda) lda strideA (taup.add j) strideP
                (shiftA + idx2D (j + 1) (j + 1) lda) lda strideA batch_count
              ∈ (rocsolver_gebd2_template traceDevice COMPLEX m n shiftA lda strideA strideD
                  strideE tauq strideQ taup strideP batch_count []).2))
    ∧ (batch_count ≠ 0 → m < n → ∀ j : Int, 0 ≤ j → j < m →
        Call.larfg (n - j) (shiftA + idx2D j j lda)
            (shiftA + idx2D j (min (j + 1) (n - 1)) lda) lda strideA (taup.add j) strideP
            batch_count
          ∈ (rocsolver_gebd2_template traceDevice COMPLEX m n shiftA lda strideA strideD
              strideE tauq strideQ taup strideP batch_count []).2
        ∧ (j < m - 1 →
            Call.larf rocblas_side_right (m - j - 1) (n - j) (shiftA + idx2D j j lda) lda
                strideA (taup.add j) strideP (shiftA + idx2D (j + 1) j lda) lda strideA
                batch_count
              ∈ (rocsolver_gebd2_template traceDevice COMPLEX m n shiftA lda strideA strideD
                  strideE tauq strideQ taup strideP batch_count []).2
            ∧ Call.larfg (m - j - 1) (shiftA + idx2D (j + 1) j lda)
                (shiftA + idx2D (min (j + 2) (m - 1)) j lda) 1 strideA (tauq.add j) strideQ
                batch_count
              ∈ (rocsolver_gebd2_template traceDevice COMPLEX m n shiftA lda strideA strideD
                  strideE tauq strideQ taup strideP batch_count []).2
            ∧ Call.larf rocblas_side_left (m - j - 1) (n - j - 1)
                (shiftA + idx2D (j + 1) j lda) 1 strideA (tauq.add j) strideQ
                (shiftA + idx2D (j + 1) (j + 1) lda) lda strideA batch_count
              ∈ (rocsolver_gebd2_template traceDevice COMPLEX m n shiftA lda strideA strideD
                  strideE tauq strideQ taup strideP batch_count []).2)) := by
  refine ⟨?_, fun off h => in_matrix_offset shiftA lda m n off hlda h, ?_, ?_⟩
  · intro c hc
    by_cases hq : m = 0 ∨ n = 0 ∨ batch_count = 0
    · unfold rocsolver_gebd2_template at hc
      rw [if_pos hq] at hc
      cases hc
    · rw [gebd2_template_trace_eq COMPLEX m n shiftA lda strideA strideD strideE tauq strideQ
        taup strideP batch_count hq] at hc
      by_cases hmn : m ≥ n
      · rw [if_pos hmn] at hc
        obtain ⟨j, hj, hcj⟩ := List.mem_flatMap.mp hc
        obtain ⟨i, hi, rfl⟩ := List.mem_map.mp hj
        have hi' := List.mem_range.mp hi
        exact gebd2_upper_step_positions COMPLEX m n shiftA lda strideA strideD strideE tauq
          strideQ taup strideP batch_count i hmn (by omega) (by omega) c hcj
      · rw [if_neg hmn] at hc
        obtain ⟨j, hj, hcj⟩ := List.mem_flatMap.mp hc
        obtain ⟨i, hi, rfl⟩ := List.mem_map.mp hj
        have hi' := List.mem_range.mp hi
        exact gebd2_lower_step_positions COMPLEX m n shiftA lda strideA strideD strideE tauq
          strideQ taup strideP batch_count i (by omega) (by omega) (by omega) c hcj
  · intro hb hmn j hj0 hj
    have hq : ¬ (m = 0 ∨ n = 0 ∨ batch_count = 0) := by omega
    rw [gebd2_template_trace_eq COMPLEX m n shiftA lda strideA strideD strideE tauq strideQ
      taup strideP batch_count hq, if_pos hmn]
    have hjmem := mem_cast_range j n.toNat hj0 (by omega)
    refine ⟨List.mem_flatMap.mpr ⟨j, hjmem, ?_⟩, fun h =>
      ⟨List.mem_flatMap.mpr ⟨j, hjmem, ?_⟩, List.mem_flatMap.mpr ⟨j, hjmem, ?_⟩,
        List.mem_flatMap.mpr ⟨j, hjmem, ?_⟩⟩⟩ <;>
      rw [gebd2_upper_step_trace_eq] <;> simp [*]
  · intro hb hmn j hj0 hj
    have hq : ¬ (m = 0 ∨ n = 0 ∨ batch_count = 0) := by omega
    have hmn' : ¬ m ≥ n := by omega
    rw [gebd2_template_trace_eq COMPLEX m n shiftA lda strideA strideD strideE tauq strideQ
      taup strideP batch_count hq, if_neg hmn']
    have hjmem := mem_cast_range j m.toNat hj0 (by omega)
    refine ⟨List.mem_flatMap.mpr ⟨j, hjmem, ?_⟩, fun h =>
      ⟨List.mem_flatMap.mpr ⟨j, hjmem, ?_⟩, List.mem_flatMap.mpr ⟨j, hjmem, ?_⟩,
        List.mem_flatMap.mpr ⟨j, hjmem, ?_⟩⟩⟩ <;>
      rw [gebd2_lower_step_trace_eq] <;> simp [*]

/-- C25 (amended): for `m >= 1`, `n >= 1`, `lda >= m` and a matrix that is
addressable in `rocblas_int` (`shiftA >= 0` and
`shiftA + (n-1)*lda + m <= 2^31`), every operation that
`rocsolver_geqr2_template` issues with its offsets evaluated in 32 bits hands
the reflector builder and applier positions of the `m x n` matrix only: the
alpha position, the vector start and the `order - 1` entries of the vector, the
reflector and the target block are elements `(r, c)` with `0 <= r < m` and
`0 <= c < n`, at an offset below `(n-1)*lda + m` from `shiftA` that the 32-bit
evaluation leaves as it is.  For a non-empty batch the operations are, for
every column `j < min m n`, the builder with order `m - j`, alpha at `(j, j)`
and vector start `(min(j+1, m-1), j)`, and, only when `j < n - 1`, the applier
on the `m - j` by `n - j - 1` block from `(j, j+1)`. -/
theorem geqr2_positions_within (COMPLEX : Bool) (m n shiftA lda strideA : Int) (ipiv : Loc)
    (strideP batch_count : Int) (hm : 1 ≤ m) (hn : 1 ≤ n) (hlda : m ≤ lda)
    (hs : 0 ≤ shiftA) (hfit : shiftA + (n - 1) * lda + m ≤ 2147483648) :
    (∀ c ∈ (rocsolver_geqr2_template (int32Device traceDevice) COMPLEX m n shiftA lda strideA ipiv strideP
        batch_count []).2, c.positions_within shiftA lda m n)
    ∧ (∀ off : Int, in_matrix shiftA lda m n off →
        shiftA ≤ off ∧ off - shiftA < (n - 1) * lda + m ∧ wrap32 off = off)
    ∧ (batch_count ≠ 0 → ∀ j : Int, 0 ≤ j → j < min m n →
        Call.larfg (m - j) (shiftA + idx2D j j lda)
            (shiftA + idx2D (min (j + 1) (m - 1)) j lda) 1 strideA (ipiv.add j) strideP
            batch_count
          ∈ (rocsolver_geqr2_template (int32Device traceDevice) COMPLEX m n shiftA lda strideA ipiv strideP
              batch_count []).2
        ∧ (Call.larf rocblas_side_left (m - j) (n - j - 1) (shiftA + idx2D j j lda) 1 strideA
              (ipiv.add j) strideP (shiftA + idx2D j (j + 1) lda) lda strideA batch_count
            ∈ (rocsolver_geqr2_template (int32Device traceDevice) COMPLEX m n shiftA lda strideA ipiv
                strideP batch_count []).2 ↔ j < n - 1)) := by
  have h := geqr2_exact_positions COMPLEX m n shiftA lda strideA ipiv strideP batch_count hm hn
    hlda
  rw [geqr2_template_int32_fits COMPLEX m n shiftA lda strideA ipiv strideP batch_count hlda hs
    hfit]
  refine ⟨h.1, fun off hin => ⟨(h.2.1 off hin).1, (h.2.1 off hin).2, ?_⟩, h.2.2⟩
  have hb := h.2.1 off hin
  apply wrap32_of_fitting
  · omega
  · unfold INT_MAX
    omega

/-- C25 (counterexample): a `3 x 3` matrix with leading dimension `2^30`
(`m >= 1`, `n >= 1`, `lda >= m`, column `j = 1 < n - 1`).  The target block of
the applier of column `1` starts at `(1, 2)`, whose offset `2*2^30 + 1` is
`-2147483647` in `rocblas_int`: the applier is handed an offset below `shiftA`,
which is no position of the matrix. -/
theorem geqr2_offset_wraps :
    ((1 : Int) ≤ 3 ∧ (1 : Int) ≤ 3 ∧ (3 : Int) ≤ 1073741824 ∧ (1 : Int) < min 3 3
      ∧ (1 : Int) < 3 - 1)
    ∧ Call.larf rocblas_side_left (3 - 1) (3 - 1 - 1) 1073741825 1 9
          (Loc.add { buf := Buf.ipiv, off := 0 } 1) 3 (-2147483647) 1073741824 9 1
        ∈ (rocsolver_geqr2_template (int32Device traceDevice) false 3 3 0 1073741824 9
            { buf := Buf.ipiv, off := 0 } 3 1 []).2
    ∧ add32 0 (idx2D32 1 (1 + 1) 1073741824) = -2147483647
    ∧ ¬ in_matrix 0 1073741824 3 3 (-2147483647)
    ∧ ¬ (Call.larf rocblas_side_left (3 - 1) (3 - 1 - 1) 1073741825 1 9
          (Loc.add { buf := Buf.ipiv, off := 0 } 1) 3 (-2147483647) 1073741824 9
          1).positions_within 0 1073741824 3 3 := by
  have hout : ¬ in_matrix 0 1073741824 3 3 (-2147483647) := by
    intro h
    have hb := in_matrix_offset 0 1073741824 3 3 (-2147483647) (by decide) h
    omega
  refine ⟨by decide, by decide, by decide, hout, ?_⟩
  intro h
  exact hout h.2.1

/-- C25 (witness): a `3 x 2` matrix with leading dimension `4`. -/
theorem geqr2_positions_within_witness :
    ((1 : Int) ≤ 3 ∧ (1 : Int) ≤ 2 ∧ (3 : Int) ≤ 4 ∧ (0 : Int) ≤ 0
        ∧ (0 : Int) + (2 - 1) * 4 + 3 ≤ 2147483648)
      ∧ ∀ c ∈ (rocsolver_geqr2_template (int32Device traceDevice) false 3 2 0 4 8
          { buf := Buf.ipiv, off := 0 } 2 1 []).2, c.positions_within 0 4 3 2 :=
  ⟨by decide,
    (geqr2_positions_within false 3 2 0 4 8 { buf := Buf.ipiv, off := 0 } 2 1 (by decide)
      (by decide) (by decide) (by decide) (by decide)).1⟩

/-- C26 (amended): for `m >= 1`, `n >= 1`, `lda >= m` and a matrix that is
addressable in `rocblas_int` (`shiftA >= 0` and
`shiftA + (n-1)*lda + m <= 2^31`), every operation that
`rocsolver_gebd2_template` issues with its offsets evaluated in 32 bits, in the
upper (`m >= n`) and in the lower (`m < n`) branch, hands the reflector
builder and applier positions of the `m x n` matrix only: each alpha position,
each clamped vector start with the `order - 1` entries of its vector, each
reflector and each target block with its row and column counts are elements
`(r, c)` with `0 <= r < m` and `0 <= c < n`, at offsets that the 32-bit
evaluation leaves as they are.  For a non-empty batch the operations include,
for every step `j < min m n`, the two builder calls and the two applier calls
of the step (the second builder and both appliers only when
`j < min m n - 1`), with the starts `min(j+1, m-1)`, `min(j+2, n-1)`,
`min(j+1, n-1)`, `min(j+2, m-1)`. -/
theorem gebd2_positions_within (COMPLEX : Bool)
    (m n shiftA lda strideA strideD strideE : Int) (tauq : Loc) (strideQ : Int) (taup : Loc)
    (strideP batch_count : Int) (hm : 1 ≤ m) (hn : 1 ≤ n) (hlda : m ≤ lda)
    (hs : 0 ≤ shiftA) (hfit : shiftA + (n - 1) * lda + m ≤ 2147483648) :
    (∀ c ∈ (rocsolver_gebd2_template (int32Device traceDevice) COMPLEX m n shiftA lda strideA strideD strideE
        tauq strideQ taup strideP batch_count []).2, c.positions_within shiftA lda m n)
    ∧ (∀ off : Int, in_matrix shiftA lda m n off →
        shiftA ≤ off ∧ off - shiftA < (n - 1) * lda + m ∧ wrap32 off = off)
    ∧ (batch_count ≠ 0 → n ≤ m → ∀ j : Int, 0 ≤ j → j < n →
        Call.larfg (m - j) (shiftA + idx2D j j lda)
            (shiftA + idx2D (min (j + 1) (m - 1)) j lda) 1 strideA (tauq.add j) strideQ
            batch_count
          ∈ (rocsolver_gebd2_template (int32Device traceDevice) COMPLEX m n shiftA lda strideA strideD
              strideE tauq strideQ taup strideP batch_count []).2
        ∧ (j < n - 1 →
            Call.larf rocblas_side_left (m - j) (n - j - 1) (shiftA + idx2D j j lda) 1 strideA
                (tauq.add j) strideQ (shiftA + idx2D j (j + 1) lda) lda strideA batch_count
              ∈ (rocsolver_gebd2_template (int32Device traceDevice) COMPLEX m n shiftA lda strideA strideD
                  strideE tauq strideQ taup strideP batch_count []).2
            ∧ Call.larfg (n - j - 1) (shiftA + idx2D j (j + 1) lda)
                (shiftA + idx2D j (min (j + 2) (n - 1)) lda) lda strideA (taup.add j) strideP
                batch_count
              ∈ (rocsolver_gebd2_template (int32Device traceDevice) COMPLEX m n shiftA lda strideA strideD
                  strideE tauq strideQ taup strideP batch_count []).2
            ∧ Call.larf rocblas_side_right (m - j - 1) (n - j - 1)
                (shiftA + idx2D j (j + 1) lda) lda strideA (taup.add j) strideP
                (shiftA + idx2D (j + 1) (j + 1) lda) lda strideA batch_count
              ∈ (rocsolver_gebd2_template (int32Device traceDevice) COMPLEX m n shiftA lda strideA strideD
                  strideE tauq strideQ taup strideP batch_count []).2))
    ∧ (batch_count ≠ 0 → m < n → ∀ j : Int, 0 ≤ j → j < m →
        Call.larfg (n - j) (shiftA + idx2D j j lda)
            (shiftA + idx2D j (min (j + 1) (n - 1)) lda) lda strideA (taup.add j) strideP
            batch_count
          ∈ (rocsolver_gebd2_template (int32Device traceDevice) COMPLEX m n shiftA lda strideA strideD
              strideE tauq strideQ taup strideP batch_count []).2
        ∧ (j < m - 1 →
            Call.larf rocblas_side_right (m - j - 1) (n - j) (shiftA + idx2D j j lda) lda
                strideA (taup.add j) strideP (shiftA + idx2D (j + 1) j lda) lda strideA
                batch_count
              ∈ (rocsolver_gebd2_template (int32Device traceDevice) COMPLEX m n shiftA lda strideA strideD
                  strideE tauq strideQ taup strideP batch_count []).2
            ∧ Call.larfg (m - j - 1) (shiftA + idx2D (j + 1) j lda)
                (shiftA + idx2D (min (j + 2) (m - 1)) j lda) 1 strideA (tauq.add j) strideQ
                batch_count
              ∈ (rocsolver_gebd2_template (int32Device traceDevice) COMPLEX m n shiftA lda strideA strideD
                  strideE tauq strideQ taup strideP batch_count []).2
            ∧ Call.larf rocblas_side_left (m - j - 1) (n - j - 1)
                (shiftA + idx2D (j + 1) j lda) 1 strideA (tauq.add j) strideQ
                (shiftA + idx2D (j + 1) (j + 1) lda) lda strideA batch_count
              ∈ (rocsolver_gebd2_template (int32Device traceDevice) COMPLEX m n shiftA lda strideA strideD
                  strideE tauq strideQ taup strideP batch_count []).2)) := by
  have h := gebd2_exact_positions COMPLEX m n shiftA lda strideA strideD strideE tauq strideQ
    taup strideP batch_count hm hn hlda
  rw [gebd2_template_int32_fits COMPLEX m n shiftA lda strideA strideD strideE tauq strideQ
    taup strideP batch_count hm hn hlda hs hfit]
  refine ⟨h.1, fun off hin => ⟨(h.2.1 off hin).1, (h.2.1 off hin).2, ?_⟩, h.2.2⟩
  have hb := h.2.1 off hin
  apply wrap32_of_fitting
  · omega
  · unfold INT_MAX
    omega

/-- C26 (counterexample): a `3 x 3` matrix with leading dimension `2^30`
(`m >= 1`, `n >= 1`, `lda >= m`, upper branch, step `j = 1 < min m n - 1`).
The target block of the first applier of step `1` starts at `(1, 2)`, whose
offset `2*2^30 + 1` is `-2147483647` in `rocblas_int`: the applier is handed an
offset below `shiftA`, which is no position of the matrix. -/
theorem gebd2_offset_wraps :
    ((1 : Int) ≤ 3 ∧ (1 : Int) ≤ 3 ∧ (3 : Int) ≤ 1073741824 ∧ (1 : Int) < min 3 3 - 1)
    ∧ Call.larf rocblas_side_left (3 - 1) (3 - 1 - 1) 1073741825 1 9
          (Loc.add { buf := Buf.tauq, off := 0 } 1) 3 (-2147483647) 1073741824 9 1
        ∈ (rocsolver_gebd2_template (int32Device traceDevice) false 3 3 0 1073741824 9 3 2
            { buf := Buf.tauq, off := 0 } 3 { buf := Buf.taup, off := 0 } 2 1 []).2
    ∧ add32 0 (idx2D32 1 (1 + 1) 1073741824) = -2147483647
    ∧ ¬ in_matrix 0 1073741824 3 3 (-2147483647)
    ∧ ¬ (Call.larf rocblas_side_left (3 - 1) (3 - 1 - 1) 1073741825 1 9
          (Loc.add { buf := Buf.tauq, off := 0 } 1) 3 (-2147483647) 1073741824 9
          1).positions_within 0 1073741824 3 3 := by
  have hout : ¬ in_matrix 0 1073741824 3 3 (-2147483647) := by
    intro h
    have hb := in_matrix_offset 0 1073741824 3 3 (-2147483647) (by decide) h
    omega
  refine ⟨by decide, by decide, by decide, hout, ?_⟩
  intro h
  exact hout h.2.1

/-- C26 (witness): a `3 x 2` matrix with leading dimension `4`. -/
theorem gebd2_positions_within_witness :
    ((1 : Int) ≤ 3 ∧ (1 : Int) ≤ 2 ∧ (3 : Int) ≤ 4 ∧ (0 : Int) ≤ 0
        ∧ (0 : Int) + (2 - 1) * 4 + 3 ≤ 2147483648)
      ∧ ∀ c ∈ (rocsolver_gebd2_template (int32Device traceDevice) false 3 2 0 4 8 2 1
          { buf := Buf.tauq, off := 0 } 2 { buf := Buf.taup, off := 0 } 2 1 []).2,
        c.positions_within 0 4 3 2 :=
  ⟨by decide,
    (gebd2_positions_within false 3 2 0 4 8 2 1 { buf := Buf.tauq, off := 0 } 2
      { buf := Buf.taup, off := 0 } 2 1 (by decide) (by decide) (by decide) (by decide)
      (by decide)).1⟩

/-- The record of a column step of the unblocked QR factorization behind
`rocblas_int` offsets: the operations of `geqr2_column` with every offset
`shiftA + idx2D(i, j, lda)` evaluated in 32-bit arithmetic. -/
theorem geqr2_column_int32_record (COMPLEX : Bool) (m n shiftA lda strideA : Int) (ipiv : Loc)
    (strideP batch_count j : Int) :
    geqr2_column (int32Device traceDevice) COMPLEX m n shiftA lda strideA ipiv strideP
        batch_count j []
      = [Call.larfg (m - j) (add32 shiftA (idx2D32 j j lda))
            (add32 shiftA (idx2D32 (min (j + 1) (m - 1)) j lda)) 1 strideA (ipiv.add j) strideP
            batch_count,
          Call.set_diag batch_count Buf.diag 0 1 (add32 shiftA (idx2D32 j j lda)) lda strideA 1
            true]
        ++ (if COMPLEX then [Call.lacgv 1 ipiv (wrap32 j) 1 strideP batch_count] else [])
        ++ (if j < n - 1 then
              [Call.larf rocblas_side_left (m - j) (n - j - 1) (add32 shiftA (idx2D32 j j lda)) 1
                strideA (ipiv.add j) strideP (add32 shiftA (idx2D32 j (j + 1) lda)) lda strideA
                batch_count]
            else [])
        ++ [Call.restore_diag batch_count Buf.diag 0 1 (add32 shiftA (idx2D32 j j lda)) lda
              strideA 1]
        ++ (if COMPLEX then [Call.lacgv 1 ipiv (wrap32 j) 1 strideP batch_count] else []) := by
  rw [geqr2_column_replay (int32Device traceDevice), int32Device_trace, geqr2_column_trace_eq,
    List.nil_append]
  simp only [offset32_eq]
  by_cases h2 : j < n - 1 <;> cases COMPLEX <;>
    simp only [h2, if_true, if_false, Bool.false_eq_true, List.nil_append, List.append_nil,
      List.cons_append, List.map_cons, List.map_nil, Call.int32_offsets]

/-- The record of a step of the upper-bidiagonal loop behind `rocblas_int`
offsets: the operations of `gebd2_upper_step` with every offset
`shiftA + idx2D(i, j, lda)` evaluated in 32-bit arithmetic. -/
theorem gebd2_upper_step_int32_record (COMPLEX : Bool)
    (m n shiftA lda strideA strideD strideE : Int) (tauq : Loc) (strideQ : Int) (taup : Loc)
    (strideP batch_count j : Int) :
    gebd2_upper_step (int32Device traceDevice) COMPLEX m n shiftA lda strideA strideD strideE tauq strideQ
        taup strideP batch_count j []
      = [Call.larfg (m - j) (add32 shiftA (idx2D32 j j lda))
            (add32 shiftA (idx2D32 (min (j + 1) (m - 1)) j lda)) 1 strideA (tauq.add j) strideQ
            batch_count,
          Call.set_diag batch_count Buf.D j strideD (add32 shiftA (idx2D32 j j lda)) lda strideA 1 true]
        ++ (if j < n - 1 then
              (if COMPLEX then [Call.lacgv 1 tauq (wrap32 j) 1 strideQ batch_count] else [])
              ++ [Call.larf rocblas_side_left (m - j) (n - j - 1) (add32 shiftA (idx2D32 j j lda)) 1
                    strideA (tauq.add j) strideQ (add32 shiftA (idx2D32 j (j + 1) lda)) lda strideA
                    batch_count]
              ++ (if COMPLEX then [Call.lacgv 1 tauq (wrap32 j) 1 strideQ batch_count] else [])
            else [])
        ++ [Call.restore_diag batch_count Buf.D j strideD (add32 shiftA (idx2D32 j j lda)) lda strideA 1]
        ++ (if j < n - 1 then
              (if COMPLEX then
                  [Call.lacgv (n - j - 1) A_ptr (add32 shiftA (idx2D32 j (j + 1) lda)) lda strideA
                    batch_count]
                else [])
              ++ [Call.larfg (n - j - 1) (add32 shiftA (idx2D32 j (j + 1) lda))
                    (add32 shiftA (idx2D32 j (min (j + 2) (n - 1)) lda)) lda strideA (taup.add j)
                    strideP batch_count,
                  Call.set_diag batch_count Buf.E j strideE (add32 shiftA (idx2D32 j (j + 1) lda)) lda
                    strideA 1 true,
                  Call.larf rocblas_side_right (m - j - 1) (n - j - 1)
                    (add32 shiftA (idx2D32 j (j + 1) lda)) lda strideA (taup.add j) strideP
                    (add32 shiftA (idx2D32 (j + 1) (j + 1) lda)) lda strideA batch_count]
              ++ (if COMPLEX then
                    [Call.lacgv (n - j - 1) A_ptr (add32 shiftA (idx2D32 j (j + 1) lda)) lda strideA
                      batch_count]
                  else [])
              ++ [Call.restore_diag batch_count Buf.E j strideE (add32 shiftA (idx2D32 j (j + 1) lda))
                    lda strideA 1]
            else [Call.reset_batch_info batch_count (taup.add j) strideP 1 0]) := by
  rw [gebd2_upper_step_replay (int32Device traceDevice), int32Device_trace,
    gebd2_upper_step_trace_eq, List.nil_append]
  simp only [offset32_eq]
  by_cases h2 : j < n - 1 <;> cases COMPLEX <;>
    simp only [h2, if_true, if_false, Bool.false_eq_true, List.nil_append, List.append_nil,
      List.cons_append, List.map_cons, List.map_nil, Call.int32_offsets]

/-- The record of a step of the lower-bidiagonal loop behind `rocblas_int`
offsets: the operations of `gebd2_lower_step` with every offset
`shiftA + idx2D(i, j, lda)` evaluated in 32-bit arithmetic. -/
theorem gebd2_lower_step_int32_record (COMPLEX : Bool)
    (m n shiftA lda strideA strideD strideE : Int) (tauq : Loc) (strideQ : Int) (taup : Loc)
    (strideP batch_count j : Int) :
    gebd2_lower_step (int32Device traceDevice) COMPLEX m n shiftA lda strideA strideD strideE tauq strideQ
        taup strideP batch_count j []
      = (if COMPLEX then
            [Call.lacgv (n - j) A_ptr (add32 shiftA (idx2D32 j j lda)) lda strideA batch_count]
          else [])
        ++ [Call.larfg (n - j) (add32 shiftA (idx2D32 j j lda))
              (add32 shiftA (idx2D32 j (min (j + 1) (n - 1)) lda)) lda strideA (taup.add j) strideP
              batch_count,
            Call.set_diag batch_count Buf.D j strideD (add32 shiftA (idx2D32 j j lda)) lda strideA 1
              true]
        ++ (if j < m - 1 then
              [Call.larf rocblas_side_right (m - j - 1) (n - j) (add32 shiftA (idx2D32 j j lda)) lda
                strideA (taup.add j) strideP (add32 shiftA (idx2D32 (j + 1) j lda)) lda strideA
                batch_count]
            else [])
        ++ (if COMPLEX then
              [Call.lacgv (n - j) A_ptr (add32 shiftA (idx2D32 j j lda)) lda strideA batch_count]
            else [])
        ++ [Call.restore_diag batch_count Buf.D j strideD (add32 shiftA (idx2D32 j j lda)) lda strideA 1]
        ++ (if j < m - 1 then
              [Call.larfg (m - j - 1) (add32 shiftA (idx2D32 (j + 1) j lda))
                  (add32 shiftA (idx2D32 (min (j + 2) (m - 1)) j lda)) 1 strideA (tauq.add j) strideQ
                  batch_count,
                Call.set_diag batch_count Buf.E j strideE (add32 shiftA (idx2D32 (j + 1) j lda)) lda
                  strideA 1 true]
              ++ (if COMPLEX then [Call.lacgv 1 tauq (wrap32 j) 1 strideQ batch_count] else [])
              ++ [Call.larf rocblas_side_left (m - j - 1) (n - j - 1)
                    (add32 shiftA (idx2D32 (j + 1) j lda)) 1 strideA (tauq.add j) strideQ
                    (add32 shiftA (idx2D32 (j + 1) (j + 1) lda)) lda strideA batch_count]
              ++ (if COMPLEX then [Call.lacgv 1 tauq (wrap32 j) 1 strideQ batch_count] else [])
              ++ [Call.restore_diag batch_count Buf.E j strideE (add32 shiftA (idx2D32 (j + 1) j lda))
                    lda strideA 1]
            else [Call.reset_batch_info batch_count (tauq.add j) strideQ 1 0]) := by
  rw [gebd2_lower_step_replay (int32Device traceDevice), int32Device_trace,
    gebd2_lower_step_trace_eq, List.nil_append]
  simp only [offset32_eq]
  by_cases h2 : j < m - 1 <;> cases COMPLEX <;>
    simp only [h2, if_true, if_false, Bool.false_eq_true, List.nil_append, List.append_nil,
      List.cons_append, List.map_cons, List.map_nil, Call.int32_offsets]

end RocSolver
